import Mathlib

set_option linter.unusedVariables false
set_option linter.unusedTactic false
set_option linter.unreachableTactic false

/-!
# perft_gpu: bitboard move generator, make-move and perft

A shallow embedding of `src/MoveGeneratorBitboard.h` and `src/perft_bb.h`.

* A `uint64` bitboard is a `Nat` below `2 ^ 64`; every left shift, negation and
  complement of the source is truncated to 64 bits explicitly.
* Square `i` (0 = A1, 7 = H1, 56 = A8, 63 = H8) is bit `i`.
* The embedding follows the table-free configuration of the source
  (`USE_SLIDING_LUT`, `USE_KING_LUT`, `USE_KNIGHT_LUT`, `USE_IN_BETWEEN_LUT`
  all different from 1): sliding attacks are the Kogge-Stone routines and the
  king, knight, in-between and line sets are computed, which is also what
  `init` stores in the look-up tables.
* The two switches that change what the routines produce are kept as
  parameters in `Switches`.
-/

namespace PerftGpu

/-! ## Bitboard constants (`MoveGeneratorBitboard.h`, lines 14-61) -/

def ALLSET : Nat := 0xFFFFFFFFFFFFFFFF
def EMPTY : Nat := 0

def RANKS2TO7 : Nat := 0x00FFFFFFFFFFFF00
def RANK1 : Nat := 0x00000000000000FF
def RANK2 : Nat := 0x000000000000FF00
def RANK3 : Nat := 0x0000000000FF0000
def RANK4 : Nat := 0x00000000FF000000
def RANK5 : Nat := 0x000000FF00000000
def RANK6 : Nat := 0x0000FF0000000000
def RANK7 : Nat := 0x00FF000000000000
def RANK8 : Nat := 0xFF00000000000000

def FILEA : Nat := 0x0101010101010101
def FILEH : Nat := 0x8080808080808080

def DIAGONAL_A1H8 : Nat := 0x8040201008040201
def DIAGONAL_A8H1 : Nat := 0x0102040810204080

def F1G1 : Nat := 0x60
def C1D1 : Nat := 0x0C
def B1D1 : Nat := 0x0E
def F8G8 : Nat := 0x6000000000000000
def C8D8 : Nat := 0x0C00000000000000
def B8D8 : Nat := 0x0E00000000000000

def WHITE_KING_SIDE_ROOK : Nat := 0x0000000000000080
def WHITE_QUEEN_SIDE_ROOK : Nat := 0x0000000000000001
def BLACK_KING_SIDE_ROOK : Nat := 0x8000000000000000
def BLACK_QUEEN_SIDE_ROOK : Nat := 0x0100000000000000

/-- Truncation of an unbounded natural to a `uint64`. -/
def u64 (x : Nat) : Nat := x % 2 ^ 64

/-- The C expression `~x` on a `uint64`. -/
def bnot (x : Nat) : Nat := ALLSET ^^^ (x % 2 ^ 64)

/-- The C expression `x << n` on a `uint64`. -/
def shl (x n : Nat) : Nat := (x <<< n) % 2 ^ 64

/-- The C expression `-x` on a `uint64`. -/
def neg64 (x : Nat) : Nat := (2 ^ 64 - x % 2 ^ 64) % 2 ^ 64

/-- Conversion of a C `int` value to `uint64` (two's complement). -/
def ofInt (z : Int) : Nat := (z % (2 ^ 64 : Int)).toNat

/-- Modelled from the spec: `BIT(i)` of the absent `chess.h`, the one-square
bitboard `1ULL << i` of square `i`. -/
def BIT (i : Nat) : Nat := shl 1 i

/-! Modelled from the spec: the square numbering of the absent `chess.h`
(A1 = 0, B1 = 1, ..., H8 = 63), fixed in the source by the rook masks
`WHITE_KING_SIDE_ROOK >> H1` and `BLACK_KING_SIDE_ROOK >> H8`. -/

def A1 : Nat := 0
def C1 : Nat := 2
def D1 : Nat := 3
def E1 : Nat := 4
def F1 : Nat := 5
def G1 : Nat := 6
def H1 : Nat := 7
def A8 : Nat := 56
def C8 : Nat := 58
def D8 : Nat := 59
def E8 : Nat := 60
def F8 : Nat := 61
def G8 : Nat := 62
def H8 : Nat := 63

/-! ## Population count and bit scan (lines 63-139) -/

/-- Number of set bits among the lowest `n` bits of `x`. -/
def popCountAux : Nat → Nat → Nat
  | 0, _ => 0
  | n + 1, x => x % 2 + popCountAux n (x / 2)

/-- The hardware population count `__popcll` of a `uint64`. -/
def popCount (x : Nat) : Nat := popCountAux 64 x

/-- Number of zero bits below the lowest set bit of `x`, looking at no more
than `n` bits. -/
def bitScanAux : Nat → Nat → Nat
  | 0, _ => 0
  | n + 1, x => if x % 2 = 1 then 0 else bitScanAux n (x / 2) + 1

/-- Index of the lowest set bit, `__ffsll(x) - 1` narrowed to `uint8`:
255 when no bit is set. -/
def bitScan (x : Nat) : Nat :=
  if x % 2 ^ 64 = 0 then 255 else bitScanAux 64 x

/-! ## One-step shifts (lines 452-492) -/

def northOne (x : Nat) : Nat := shl x 8
def southOne (x : Nat) : Nat := x >>> 8
def eastOne (x : Nat) : Nat := shl x 1 &&& bnot FILEA
def westOne (x : Nat) : Nat := (x >>> 1) &&& bnot FILEH
def northEastOne (x : Nat) : Nat := shl x 9 &&& bnot FILEA
def northWestOne (x : Nat) : Nat := shl x 7 &&& bnot FILEH
def southEastOne (x : Nat) : Nat := (x >>> 7) &&& bnot FILEA
def southWestOne (x : Nat) : Nat := (x >>> 9) &&& bnot FILEH

/-! ## Kogge-Stone attacks (lines 609-728) -/

def northAttacks (gen pro : Nat) : Nat :=
  let gen := gen ||| (shl gen 8 &&& pro)
  let pro := pro &&& shl pro 8
  let gen := gen ||| (shl gen 16 &&& pro)
  let pro := pro &&& shl pro 16
  let gen := gen ||| (shl gen 32 &&& pro)
  shl gen 8

def southAttacks (gen pro : Nat) : Nat :=
  let gen := gen ||| ((gen >>> 8) &&& pro)
  let pro := pro &&& (pro >>> 8)
  let gen := gen ||| ((gen >>> 16) &&& pro)
  let pro := pro &&& (pro >>> 16)
  let gen := gen ||| ((gen >>> 32) &&& pro)
  gen >>> 8

def eastAttacks (gen pro : Nat) : Nat :=
  let pro := pro &&& bnot FILEA
  let gen := gen ||| (shl gen 1 &&& pro)
  let pro := pro &&& shl pro 1
  let gen := gen ||| (shl gen 2 &&& pro)
  let pro := pro &&& shl pro 2
  let gen := gen ||| (shl gen 3 &&& pro)
  shl gen 1 &&& bnot FILEA

def westAttacks (gen pro : Nat) : Nat :=
  let pro := pro &&& bnot FILEH
  let gen := gen ||| ((gen >>> 1) &&& pro)
  let pro := pro &&& (pro >>> 1)
  let gen := gen ||| ((gen >>> 2) &&& pro)
  let pro := pro &&& (pro >>> 2)
  let gen := gen ||| ((gen >>> 3) &&& pro)
  (gen >>> 1) &&& bnot FILEH

def northEastAttacks (gen pro : Nat) : Nat :=
  let pro := pro &&& bnot FILEA
  let gen := gen ||| (shl gen 9 &&& pro)
  let pro := pro &&& shl pro 9
  let gen := gen ||| (shl gen 18 &&& pro)
  let pro := pro &&& shl pro 18
  let gen := gen ||| (shl gen 36 &&& pro)
  shl gen 9 &&& bnot FILEA

def northWestAttacks (gen pro : Nat) : Nat :=
  let pro := pro &&& bnot FILEH
  let gen := gen ||| (shl gen 7 &&& pro)
  let pro := pro &&& shl pro 7
  let gen := gen ||| (shl gen 14 &&& pro)
  let pro := pro &&& shl pro 14
  let gen := gen ||| (shl gen 28 &&& pro)
  shl gen 7 &&& bnot FILEH

def southEastAttacks (gen pro : Nat) : Nat :=
  let pro := pro &&& bnot FILEA
  let gen := gen ||| ((gen >>> 7) &&& pro)
  let pro := pro &&& (pro >>> 7)
  let gen := gen ||| ((gen >>> 14) &&& pro)
  let pro := pro &&& (pro >>> 14)
  let gen := gen ||| ((gen >>> 28) &&& pro)
  (gen >>> 7) &&& bnot FILEA

def southWestAttacks (gen pro : Nat) : Nat :=
  let pro := pro &&& bnot FILEH
  let gen := gen ||| ((gen >>> 9) &&& pro)
  let pro := pro &&& (pro >>> 9)
  let gen := gen ||| ((gen >>> 18) &&& pro)
  let pro := pro &&& (pro >>> 18)
  let gen := gen ||| ((gen >>> 36) &&& pro)
  (gen >>> 9) &&& bnot FILEH

def bishopAttacksKoggeStone (bishops pro : Nat) : Nat :=
  northEastAttacks bishops pro ||| northWestAttacks bishops pro |||
  southEastAttacks bishops pro ||| southWestAttacks bishops pro

def rookAttacksKoggeStone (rooks pro : Nat) : Nat :=
  northAttacks rooks pro ||| southAttacks rooks pro |||
  eastAttacks rooks pro ||| westAttacks rooks pro

/-- The sliding-attack macros of lines 833-837 (`USE_SLIDING_LUT` off). -/
def bishopAttacks (bishop pro : Nat) : Nat := bishopAttacksKoggeStone bishop pro
def rookAttacks (rook pro : Nat) : Nat := rookAttacksKoggeStone rook pro
def multiBishopAttacks (bishops pro : Nat) : Nat := bishopAttacksKoggeStone bishops pro
def multiRookAttacks (rooks pro : Nat) : Nat := rookAttacksKoggeStone rooks pro

/-! ## King and knight patterns, lowest bit (lines 862-899) -/

def kingAttacks (kingSet : Nat) : Nat :=
  let attacks := eastOne kingSet ||| westOne kingSet
  let kingSet := kingSet ||| attacks
  attacks ||| northOne kingSet ||| southOne kingSet

def knightAttacks (knights : Nat) : Nat :=
  let l1 := (knights >>> 1) &&& 0x7f7f7f7f7f7f7f7f
  let l2 := (knights >>> 2) &&& 0x3f3f3f3f3f3f3f3f
  let r1 := shl knights 1 &&& 0xfefefefefefefefe
  let r2 := shl knights 2 &&& 0xfcfcfcfcfcfcfcfc
  let h1 := l1 ||| r1
  let h2 := l2 ||| r2
  shl h1 16 ||| (h1 >>> 16) ||| shl h2 8 ||| (h2 >>> 8)

def getOne (x : Nat) : Nat := x &&& neg64 x

def isMultiple (x : Nat) : Bool := (x ^^^ getOne x) != 0

def isSingular (x : Nat) : Bool := !isMultiple x

/-! ## Squares between two squares and the line through them (lines 905-961) -/

def squaresInBetween (sq1 sq2 : Nat) : Nat :=
  let m1 : Nat := 0xFFFFFFFFFFFFFFFF
  let a2a7 : Nat := 0x0001010101010100
  let b2g7 : Nat := 0x0040201008040200
  let h1b7 : Nat := 0x0002040810204080
  let btwn := shl m1 sq1 ^^^ shl m1 sq2
  let file := ofInt (((sq2 &&& 7 : Nat) : Int) - ((sq1 &&& 7 : Nat) : Int))
  let rank := ofInt ((((sq2 ||| 7 : Nat) : Int) - (sq1 : Int)) / 8)
  let line := u64 ((file &&& 7) + 2 ^ 64 - 1) &&& a2a7
  let line := u64 (line + 2 * (u64 ((rank &&& 7) + 2 ^ 64 - 1) >>> 58))
  let line := u64 (line + (u64 ((u64 (rank + 2 ^ 64 - file) &&& 15) + 2 ^ 64 - 1) &&& b2g7))
  let line := u64 (line + (u64 ((u64 (rank + file) &&& 15) + 2 ^ 64 - 1) &&& h1b7))
  let line := u64 (line * (btwn &&& neg64 btwn))
  line &&& btwn

def squaresInLine (sq1 sq2 : Nat) : Nat :=
  let fileDiff : Int := ((sq2 &&& 7 : Nat) : Int) - ((sq1 &&& 7 : Nat) : Int)
  let rankDiff : Int := (((sq2 ||| 7 : Nat) : Int) - (sq1 : Int)) / 8
  let file := sq1 &&& 7
  let rank := sq1 >>> 3
  if fileDiff = 0 then shl FILEA file
  else if rankDiff = 0 then shl RANK1 (rank * 8)
  else if fileDiff - rankDiff = 0 then
    if file ≤ rank then shl DIAGONAL_A1H8 ((rank - file) * 8)
    else DIAGONAL_A1H8 >>> ((file - rank) * 8)
  else if fileDiff + rankDiff = 0 then
    if 7 ≤ rank + file then shl DIAGONAL_A8H1 ((rank + file - 7) * 8)
    else DIAGONAL_A8H1 >>> ((7 - (rank + file)) * 8)
  else 0

def sqsInBetween (sq1 sq2 : Nat) : Nat := squaresInBetween sq1 sq2
def sqsInLine (sq1 sq2 : Nat) : Nat := squaresInLine sq1 sq2

/-! ## Positions and moves -/

/-- Modelled from the spec: `WHITE` and `BLACK` of the absent `chess.h`. The
side to move is a one-bit field; `RANK3 << (chance * 24)` in the source fixes
`BLACK` as 1. -/
abbrev WHITE : Bool := false
abbrev BLACK : Bool := true

/-- Modelled from the spec: the castling-right bits of the absent `chess.h`;
`updateCastleFlag` fixes them as `BLACK_KING_SIDE_ROOK >> H8 = 1` and
`BLACK_QUEEN_SIDE_ROOK >> (A8 - 1) = 2`. -/
def CASTLE_FLAG_KING_SIDE : Nat := 1
def CASTLE_FLAG_QUEEN_SIDE : Nat := 2

/-- Modelled from the spec: `HexaBitBoardPosition` of the absent `chess.h`:
six 64-bit piece sets and the scalar game state (side to move, castling
rights per colour, en-passant file + 1, half-move counter). In the source the
game state lives in the rank-1 and rank-8 bits of `pawns`; here it is kept in
fields of its own, and only the rank-2-to-7 bits of `pawns` are read. -/
structure HexaBitBoardPosition where
  whitePieces : Nat
  pawns : Nat
  knights : Nat
  bishopQueens : Nat
  rookQueens : Nat
  kings : Nat
  chance : Bool
  whiteCastle : Nat
  blackCastle : Nat
  enPassent : Nat
  halfMoveCounter : Nat
  deriving DecidableEq, Repr

/-- Modelled from the spec: the move-flag nibble of the absent `chess.h`
(quiet, double pawn push, the two castles, capture, en-passant capture, four
promotions, optionally combined with capture). -/
def CM_FLAG_QUIET_MOVE : Nat := 0
def CM_FLAG_DOUBLE_PAWN_PUSH : Nat := 1
def CM_FLAG_KING_CASTLE : Nat := 2
def CM_FLAG_QUEEN_CASTLE : Nat := 3
def CM_FLAG_CAPTURE : Nat := 4
def CM_FLAG_EP_CAPTURE : Nat := 5
def CM_FLAG_KNIGHT_PROMOTION : Nat := 8
def CM_FLAG_BISHOP_PROMOTION : Nat := 9
def CM_FLAG_ROOK_PROMOTION : Nat := 10
def CM_FLAG_QUEEN_PROMOTION : Nat := 11
def CM_FLAG_KNIGHT_PROMO_CAP : Nat := 12
def CM_FLAG_BISHOP_PROMO_CAP : Nat := 13
def CM_FLAG_ROOK_PROMO_CAP : Nat := 14
def CM_FLAG_QUEEN_PROMO_CAP : Nat := 15

/-- Modelled from the spec: `CMove` of the absent `chess.h`, a compact record
of source square, destination square and flag nibble. -/
structure CMove where
  src : Nat
  dst : Nat
  flags : Nat
  deriving DecidableEq, Repr

def CMove.getFrom (m : CMove) : Nat := m.src
def CMove.getTo (m : CMove) : Nat := m.dst
def CMove.getFlags (m : CMove) : Nat := m.flags

/-- Modelled from the spec: the piece codes of the absent `chess.h`; the
Zobrist index of a piece is its code minus one. -/
def PAWN : Nat := 1
def KNIGHT : Nat := 2
def BISHOP : Nat := 3
def ROOK : Nat := 4
def QUEEN : Nat := 5
def KING : Nat := 6
def ZOB_INDEX_PAWN : Nat := PAWN - 1
def ZOB_INDEX_KNIGHT : Nat := KNIGHT - 1
def ZOB_INDEX_BISHOP : Nat := BISHOP - 1
def ZOB_INDEX_ROOK : Nat := ROOK - 1
def ZOB_INDEX_QUEEN : Nat := QUEEN - 1
def ZOB_INDEX_KING : Nat := KING - 1

/-- Modelled from the spec: `ZobristRandoms` of the absent `chess.h`,
pseudo-random constants keyed by (colour, piece, square), by castling right,
by en-passant file and by side to move. -/
structure ZobristRandoms where
  pieces : Bool → Nat → Nat → Nat
  castlingRights : Bool → Nat → Nat
  enPassentTarget : Nat → Nat
  chance : Nat
  depth : Nat

/-- Preprocessor switches of the absent build configuration that change the
result of the routines below. -/
structure Switches where
  /-- `__CUDA_ARCH__` defined: `generateMoves` leaves the capture flag 0. -/
  cudaArch : Bool
  /-- `EXACT_EN_PASSENT_FLAGGING == 1`. -/
  exactEnPassentFlagging : Bool
  deriving DecidableEq, Repr

/-- The loop `while (x) { b = getOne(x); body(b); x ^= b; }` run for at most
`fuel` rounds. -/
def bitLoop {σ : Type} : Nat → Nat → (Nat → σ → σ) → σ → σ
  | 0, _, _, s => s
  | fuel + 1, x, body, s =>
    if x = 0 then s else bitLoop fuel (x ^^^ getOne x) body (body (getOne x) s)

/-- A `while` loop over the set bits of a `uint64`: 64 rounds always suffice. -/
def forBits {σ : Type} (x : Nat) (body : Nat → σ → σ) (s : σ) : σ :=
  bitLoop 64 x body s

/-! ## Pins and attacked squares (lines 1213-1298) -/

def sqBishopAttacks (sq : Nat) : Nat :=
  let x := BIT sq
  northEastAttacks x ALLSET ||| northWestAttacks x ALLSET |||
  southEastAttacks x ALLSET ||| southWestAttacks x ALLSET

def sqRookAttacks (sq : Nat) : Nat :=
  let x := BIT sq
  northAttacks x ALLSET ||| southAttacks x ALLSET |||
  eastAttacks x ALLSET ||| westAttacks x ALLSET

def findPinnedPieces (myKing myPieces enemyBishops enemyRooks allPieces kingIndex : Nat) :
    Nat :=
  let b := sqBishopAttacks kingIndex &&& enemyBishops
  let r := sqRookAttacks kingIndex &&& enemyRooks
  let attackers := b ||| r
  forBits attackers (fun attacker pinned =>
    let attackerIndex := bitScan attacker
    let squaresInBetween := sqsInBetween attackerIndex kingIndex
    let piecesInBetween := squaresInBetween &&& allPieces
    if isSingular piecesInBetween then pinned ||| piecesInBetween else pinned) EMPTY

def findAttackedSquares (emptySquares enemyBishops enemyRooks enemyPawns enemyKnights
    enemyKing myKing : Nat) (enemyColor : Bool) : Nat :=
  let attacked : Nat := 0
  let attacked :=
    if enemyColor = WHITE then
      (attacked ||| northEastOne enemyPawns) ||| northWestOne enemyPawns
    else
      (attacked ||| southEastOne enemyPawns) ||| southWestOne enemyPawns
  let attacked := attacked ||| knightAttacks enemyKnights
  let attacked := attacked ||| multiBishopAttacks enemyBishops (emptySquares ||| myKing)
  let attacked := attacked ||| multiRookAttacks enemyRooks (emptySquares ||| myKing)
  let attacked := attacked ||| kingAttacks enemyKing
  attacked

/-! ## Compact move lists (lines 1712-1738) -/

def addCompactMove (genMoves : List CMove) (src dst flags : Nat) : List CMove :=
  genMoves ++ [CMove.mk src dst flags]

def addCompactPawnMoves (genMoves : List CMove) (src dst flags : Nat) : List CMove :=
  let dstIndex := bitScan dst
  if dst &&& (RANK1 ||| RANK8) ≠ 0 then
    let genMoves := addCompactMove genMoves src dstIndex (flags ||| CM_FLAG_KNIGHT_PROMOTION)
    let genMoves := addCompactMove genMoves src dstIndex (flags ||| CM_FLAG_BISHOP_PROMOTION)
    let genMoves := addCompactMove genMoves src dstIndex (flags ||| CM_FLAG_QUEEN_PROMOTION)
    addCompactMove genMoves src dstIndex (flags ||| CM_FLAG_ROOK_PROMOTION)
  else
    addCompactMove genMoves src dstIndex flags

/-- The en-passant destination square computed from the en-passant field
(lines 2661-2672 and their copies). -/
def enPassentTargetOf (enPassent : Nat) (chance : Bool) : Nat :=
  if enPassent ≠ 0 then
    if chance = BLACK then shl (BIT (enPassent - 1)) (8 * 2)
    else shl (BIT (enPassent - 1)) (8 * 5)
  else 0

/-! ## generateMoves (lines 2269-2823) -/

def generateMovesOutOfCheck (pos : HexaBitBoardPosition) (genMoves : List CMove)
    (allPawns allPieces myPieces enemyPieces pinned threatened kingIndex : Nat)
    (chance : Bool) : List CMove :=
  let king := pos.kings &&& myPieces
  let attackers : Nat := 0
  let enemyPawns := allPawns &&& enemyPieces
  let attackers := attackers |||
    ((if chance = WHITE then northEastOne king ||| northWestOne king
      else southEastOne king ||| southWestOne king) &&& enemyPawns)
  let enemyKnights := pos.knights &&& enemyPieces
  let attackers := attackers ||| (knightAttacks king &&& enemyKnights)
  let enemyBishops := pos.bishopQueens &&& enemyPieces
  let attackers := attackers ||| (bishopAttacks king (bnot allPieces) &&& enemyBishops)
  let enemyRooks := pos.rookQueens &&& enemyPieces
  let attackers := attackers ||| (rookAttacks king (bnot allPieces) &&& enemyRooks)
  let kingMoves := kingAttacks king
  let kingMoves := kingMoves &&& bnot (threatened ||| myPieces)
  let genMoves := forBits kingMoves (fun dst ms =>
    addCompactMove ms kingIndex (bitScan dst) 0) genMoves
  if isSingular attackers then
    let safeSquares := attackers ||| sqsInBetween kingIndex (bitScan attackers)
    let myPieces := myPieces &&& bnot pinned
    let myPawns := allPawns &&& myPieces
    let checkingRankDoublePush := shl RANK3 (chance.toNat * 24)
    let enPassentTarget := enPassentTargetOf pos.enPassent chance
    let enPassentCapturedPiece :=
      if chance = WHITE then southOne enPassentTarget else northOne enPassentTarget
    let enPassentTarget := if enPassentCapturedPiece ≠ attackers then 0 else enPassentTarget
    let genMoves := forBits myPawns (fun pawn ms =>
      let dst := (if chance = WHITE then northOne pawn else southOne pawn) &&& bnot allPieces
      let ms :=
        if dst ≠ 0 then
          if dst &&& safeSquares ≠ 0 then
            addCompactPawnMoves ms (bitScan pawn) dst 0
          else
            let dst := (if chance = WHITE then northOne (dst &&& checkingRankDoublePush)
              else southOne (dst &&& checkingRankDoublePush)) &&& safeSquares &&& bnot allPieces
            if dst ≠ 0 then
              addCompactMove ms (bitScan pawn) (bitScan dst) CM_FLAG_DOUBLE_PAWN_PUSH
            else ms
        else ms
      let westCapture := if chance = WHITE then northWestOne pawn else southWestOne pawn
      let eastCapture := if chance = WHITE then northEastOne pawn else southEastOne pawn
      let dst := (westCapture ||| eastCapture) &&& enemyPieces &&& safeSquares
      let ms :=
        if dst ≠ 0 then addCompactPawnMoves ms (bitScan pawn) dst CM_FLAG_CAPTURE else ms
      let dst := (westCapture ||| eastCapture) &&& enPassentTarget
      if dst ≠ 0 then addCompactMove ms (bitScan pawn) (bitScan dst) CM_FLAG_EP_CAPTURE
      else ms) genMoves
    let myKnights := pos.knights &&& myPieces
    let genMoves := forBits myKnights (fun knight ms =>
      let knightMoves := knightAttacks knight &&& safeSquares
      forBits knightMoves (fun dst ms =>
        addCompactMove ms (bitScan knight) (bitScan dst) 0) ms) genMoves
    let bishops := pos.bishopQueens &&& myPieces
    let genMoves := forBits bishops (fun bishop ms =>
      let bishopMoves := bishopAttacks bishop (bnot allPieces) &&& safeSquares
      forBits bishopMoves (fun dst ms =>
        addCompactMove ms (bitScan bishop) (bitScan dst) 0) ms) genMoves
    let rooks := pos.rookQueens &&& myPieces
    let genMoves := forBits rooks (fun rook ms =>
      let rookMoves := rookAttacks rook (bnot allPieces) &&& safeSquares
      forBits rookMoves (fun dst ms =>
        addCompactMove ms (bitScan rook) (bitScan dst) 0) ms) genMoves
    genMoves
  else
    genMoves

/-- The capture flag of lines 2525-2529 and their copies. -/
def captureFlagOf (sw : Switches) (dst enemyPieces : Nat) : Nat :=
  if sw.cudaArch then 0 else if dst &&& enemyPieces ≠ 0 then CM_FLAG_CAPTURE else 0

/-- King moves of `generateMoves` (lines 2562-2571). -/
def genKingMoves (sw : Switches) (myKing kingIndex threatened myPieces enemyPieces : Nat)
    (genMoves : List CMove) : List CMove :=
  let kingMoves := kingAttacks myKing
  let kingMoves := kingMoves &&& bnot (threatened ||| myPieces)
  forBits kingMoves (fun dst ms =>
    addCompactMove ms kingIndex (bitScan dst) (captureFlagOf sw dst enemyPieces)) genMoves

/-- Knight moves of `generateMoves`: pinned knights never move. -/
def genKnightMoves (sw : Switches) (knights myPieces enemyPieces pinned : Nat)
    (genMoves : List CMove) : List CMove :=
  let myKnights := (knights &&& myPieces) &&& bnot pinned
  forBits myKnights (fun knight ms =>
    let knightMoves := knightAttacks knight &&& bnot myPieces
    forBits knightMoves (fun dst ms =>
      addCompactMove ms (bitScan knight) (bitScan dst) (captureFlagOf sw dst enemyPieces))
      ms) genMoves

/-- Moves of the pinned bishops and queens of `generateMoves`, along the pin line. -/
def genPinnedBishopMoves (sw : Switches) (myBishops allPieces myPieces enemyPieces pinned
    kingIndex : Nat) (genMoves : List CMove) : List CMove :=
  let bishops := myBishops &&& pinned
  forBits bishops (fun bishop ms =>
    let bishopMoves := bishopAttacks bishop (bnot allPieces) &&& bnot myPieces
    let bishopMoves := bishopMoves &&& sqsInLine (bitScan bishop) kingIndex
    forBits bishopMoves (fun dst ms =>
      addCompactMove ms (bitScan bishop) (bitScan dst) (captureFlagOf sw dst enemyPieces))
      ms) genMoves

/-- Moves of the bishops and queens of `generateMoves` that are not pinned. -/
def genBishopMoves (sw : Switches) (myBishops allPieces myPieces enemyPieces pinned : Nat)
    (genMoves : List CMove) : List CMove :=
  let bishops := myBishops &&& bnot pinned
  forBits bishops (fun bishop ms =>
    let bishopMoves := bishopAttacks bishop (bnot allPieces) &&& bnot myPieces
    forBits bishopMoves (fun dst ms =>
      addCompactMove ms (bitScan bishop) (bitScan dst) (captureFlagOf sw dst enemyPieces))
      ms) genMoves

/-- Moves of the pinned rooks and queens of `generateMoves`, along the pin line. -/
def genPinnedRookMoves (sw : Switches) (myRooks allPieces myPieces enemyPieces pinned
    kingIndex : Nat) (genMoves : List CMove) : List CMove :=
  let rooks := myRooks &&& pinned
  forBits rooks (fun rook ms =>
    let rookMoves := rookAttacks rook (bnot allPieces) &&& bnot myPieces
    let rookMoves := rookMoves &&& sqsInLine (bitScan rook) kingIndex
    forBits rookMoves (fun dst ms =>
      addCompactMove ms (bitScan rook) (bitScan dst) (captureFlagOf sw dst enemyPieces))
      ms) genMoves

/-- Moves of the rooks and queens of `generateMoves` that are not pinned. -/
def genRookMoves (sw : Switches) (myRooks allPieces myPieces enemyPieces pinned : Nat)
    (genMoves : List CMove) : List CMove :=
  let rooks := myRooks &&& bnot pinned
  forBits rooks (fun rook ms =>
    let rookMoves := rookAttacks rook (bnot allPieces) &&& bnot myPieces
    forBits rookMoves (fun dst ms =>
      addCompactMove ms (bitScan rook) (bitScan dst) (captureFlagOf sw dst enemyPieces))
      ms) genMoves

/-- The pawn captured en passant and the pawns that may capture it
(lines 2674-2678). -/
def enPassentCapturedPieceOf (enPassentTarget : Nat) (chance : Bool) : Nat :=
  if chance = WHITE then southOne enPassentTarget else northOne enPassentTarget

def epCapturersOf (enPassentTarget myPawns : Nat) (chance : Bool) : Nat :=
  (eastOne (enPassentCapturedPieceOf enPassentTarget chance) |||
    westOne (enPassentCapturedPieceOf enPassentTarget chance)) &&& myPawns

/-- En-passant captures of `generateMoves` (lines 2660-2709). -/
def genEnPassentMoves (enPassentTarget myPawns allPieces enemyRooks myKing pinned
    kingIndex : Nat) (chance : Bool) (genMoves : List CMove) : List CMove :=
  if enPassentTarget ≠ 0 then
    let enPassentCapturedPiece := enPassentCapturedPieceOf enPassentTarget chance
    let epSources := epCapturersOf enPassentTarget myPawns chance
    forBits epSources (fun pawn ms =>
      if pawn &&& pinned ≠ 0 then
        let line := sqsInLine (bitScan pawn) kingIndex
        if enPassentTarget &&& line ≠ 0 then
          addCompactMove ms (bitScan pawn) (bitScan enPassentTarget) CM_FLAG_EP_CAPTURE
        else ms
      else
        let propogator := bnot allPieces ||| enPassentCapturedPiece ||| pawn
        let causesCheck :=
          (eastAttacks enemyRooks propogator ||| westAttacks enemyRooks propogator) &&&
            myKing
        if causesCheck = 0 then
          addCompactMove ms (bitScan pawn) (bitScan enPassentTarget) CM_FLAG_EP_CAPTURE
        else ms) genMoves
  else genMoves

/-- Moves of the pinned pawns of `generateMoves`, along the pin line. -/
def genPinnedPawnMoves (myPawns allPieces enemyPieces pinned kingIndex : Nat) (chance : Bool)
    (genMoves : List CMove) : List CMove :=
  let checkingRankDoublePush := shl RANK3 (chance.toNat * 24)
  let pinnedPawns := myPawns &&& pinned
  forBits pinnedPawns (fun pawn ms =>
    let pawnIndex := bitScan pawn
    let line := sqsInLine pawnIndex kingIndex
    let dst := (if chance = WHITE then northOne pawn else southOne pawn) &&& line &&&
      bnot allPieces
    let ms :=
      if dst ≠ 0 then
        let ms := addCompactMove ms pawnIndex (bitScan dst) 0
        let dst := (if chance = WHITE then northOne (dst &&& checkingRankDoublePush)
          else southOne (dst &&& checkingRankDoublePush)) &&& bnot allPieces
        if dst ≠ 0 then addCompactMove ms pawnIndex (bitScan dst) CM_FLAG_DOUBLE_PAWN_PUSH
        else ms
      else ms
    let dst := (if chance = WHITE then northWestOne pawn else southWestOne pawn) &&& line
    let dst := dst ||| ((if chance = WHITE then northEastOne pawn else southEastOne pawn) &&&
      line)
    if dst &&& enemyPieces ≠ 0 then addCompactPawnMoves ms pawnIndex dst CM_FLAG_CAPTURE
    else ms) genMoves

/-- Moves of the pawns of `generateMoves` that are not pinned. -/
def genPawnMoves (myPawns allPieces enemyPieces pinned : Nat) (chance : Bool)
    (genMoves : List CMove) : List CMove :=
  let checkingRankDoublePush := shl RANK3 (chance.toNat * 24)
  let myPawns := myPawns &&& bnot pinned
  forBits myPawns (fun pawn ms =>
    let dst := (if chance = WHITE then northOne pawn else southOne pawn) &&& bnot allPieces
    let ms :=
      if dst ≠ 0 then
        let ms := addCompactPawnMoves ms (bitScan pawn) dst 0
        let dst := (if chance = WHITE then northOne (dst &&& checkingRankDoublePush)
          else southOne (dst &&& checkingRankDoublePush)) &&& bnot allPieces
        if dst ≠ 0 then addCompactPawnMoves ms (bitScan pawn) dst CM_FLAG_DOUBLE_PAWN_PUSH
        else ms
      else ms
    let westCapture := if chance = WHITE then northWestOne pawn else southWestOne pawn
    let dst := westCapture &&& enemyPieces
    let ms := if dst ≠ 0 then addCompactPawnMoves ms (bitScan pawn) dst CM_FLAG_CAPTURE else ms
    let eastCapture := if chance = WHITE then northEastOne pawn else southEastOne pawn
    let dst := eastCapture &&& enemyPieces
    if dst ≠ 0 then addCompactPawnMoves ms (bitScan pawn) dst CM_FLAG_CAPTURE else ms) genMoves

/-- Castling moves of `generateMoves`. -/
def genCastleMoves (pos : HexaBitBoardPosition) (allPieces threatened : Nat) (chance : Bool)
    (genMoves : List CMove) : List CMove :=
  if chance = WHITE then
    let genMoves :=
      if pos.whiteCastle &&& CASTLE_FLAG_KING_SIDE ≠ 0 ∧ F1G1 &&& allPieces = 0 ∧
          F1G1 &&& threatened = 0 then
        addCompactMove genMoves E1 G1 CM_FLAG_KING_CASTLE
      else genMoves
    if pos.whiteCastle &&& CASTLE_FLAG_QUEEN_SIDE ≠ 0 ∧ B1D1 &&& allPieces = 0 ∧
        C1D1 &&& threatened = 0 then
      addCompactMove genMoves E1 C1 CM_FLAG_QUEEN_CASTLE
    else genMoves
  else
    let genMoves :=
      if pos.blackCastle &&& CASTLE_FLAG_KING_SIDE ≠ 0 ∧ F8G8 &&& allPieces = 0 ∧
          F8G8 &&& threatened = 0 then
        addCompactMove genMoves E8 G8 CM_FLAG_KING_CASTLE
      else genMoves
    if pos.blackCastle &&& CASTLE_FLAG_QUEEN_SIDE ≠ 0 ∧ B8D8 &&& allPieces = 0 ∧
        C8D8 &&& threatened = 0 then
      addCompactMove genMoves E8 C8 CM_FLAG_QUEEN_CASTLE
    else genMoves

/-- The local bitboards that `generateMoves` derives from the position
(lines 2272-2300). -/
def gmAllPawns (pos : HexaBitBoardPosition) : Nat := pos.pawns &&& RANKS2TO7

def gmAllPieces (pos : HexaBitBoardPosition) : Nat :=
  pos.kings ||| gmAllPawns pos ||| pos.knights ||| pos.bishopQueens ||| pos.rookQueens

def gmMyPieces (pos : HexaBitBoardPosition) (chance : Bool) : Nat :=
  if chance = WHITE then pos.whitePieces else gmAllPieces pos &&& bnot pos.whitePieces

def gmEnemyPieces (pos : HexaBitBoardPosition) (chance : Bool) : Nat :=
  if chance = WHITE then gmAllPieces pos &&& bnot pos.whitePieces else pos.whitePieces

def gmKingIndex (pos : HexaBitBoardPosition) (chance : Bool) : Nat :=
  bitScan (pos.kings &&& gmMyPieces pos chance)

def gmPinned (pos : HexaBitBoardPosition) (chance : Bool) : Nat :=
  findPinnedPieces (pos.kings &&& gmMyPieces pos chance) (gmMyPieces pos chance)
    (pos.bishopQueens &&& gmEnemyPieces pos chance) (pos.rookQueens &&& gmEnemyPieces pos chance)
    (gmAllPieces pos) (gmKingIndex pos chance)

def gmThreatened (pos : HexaBitBoardPosition) (chance : Bool) : Nat :=
  findAttackedSquares (bnot (gmAllPieces pos)) (pos.bishopQueens &&& gmEnemyPieces pos chance)
    (pos.rookQueens &&& gmEnemyPieces pos chance) (gmAllPawns pos &&& gmEnemyPieces pos chance)
    (pos.knights &&& gmEnemyPieces pos chance) (pos.kings &&& gmEnemyPieces pos chance)
    (pos.kings &&& gmMyPieces pos chance) (!chance)

def generateMoves (sw : Switches) (pos : HexaBitBoardPosition) (chance : Bool) :
    List CMove :=
  let genMoves : List CMove := []
  let allPawns := gmAllPawns pos
  let allPieces := gmAllPieces pos
  let myPieces := gmMyPieces pos chance
  let enemyPieces := gmEnemyPieces pos chance
  let enemyRooks := pos.rookQueens &&& enemyPieces
  let myKing := pos.kings &&& myPieces
  let kingIndex := gmKingIndex pos chance
  let pinned := gmPinned pos chance
  let threatened := gmThreatened pos chance
  if threatened &&& (pos.kings &&& myPieces) ≠ 0 then
    generateMovesOutOfCheck pos genMoves allPawns allPieces myPieces enemyPieces pinned
      threatened kingIndex chance
  else
  let genMoves := genKingMoves sw myKing kingIndex threatened myPieces enemyPieces genMoves
  let genMoves := genKnightMoves sw pos.knights myPieces enemyPieces pinned genMoves
  let myBishops := pos.bishopQueens &&& myPieces
  let genMoves := genPinnedBishopMoves sw myBishops allPieces myPieces enemyPieces pinned
    kingIndex genMoves
  let genMoves := genBishopMoves sw myBishops allPieces myPieces enemyPieces pinned genMoves
  let myRooks := pos.rookQueens &&& myPieces
  let genMoves := genPinnedRookMoves sw myRooks allPieces myPieces enemyPieces pinned
    kingIndex genMoves
  let genMoves := genRookMoves sw myRooks allPieces myPieces enemyPieces pinned genMoves
  let myPawns := allPawns &&& myPieces
  let enPassentTarget := enPassentTargetOf pos.enPassent chance
  let genMoves := genEnPassentMoves enPassentTarget myPawns allPieces enemyRooks myKing pinned
    kingIndex chance genMoves
  let genMoves := genPinnedPawnMoves myPawns allPieces enemyPieces pinned kingIndex chance
    genMoves
  let genMoves := genPawnMoves myPawns allPieces enemyPieces pinned chance genMoves
  genCastleMoves pos allPieces threatened chance genMoves

/-! ## countMoves (lines 2828-3295) -/

def countMovesOutOfCheck (pos : HexaBitBoardPosition)
    (allPawns allPieces myPieces enemyPieces pinned threatened kingIndex : Nat)
    (chance : Bool) : Nat :=
  let nMoves : Nat := 0
  let king := pos.kings &&& myPieces
  let attackers : Nat := 0
  let enemyPawns := allPawns &&& enemyPieces
  let attackers := attackers |||
    ((if chance = WHITE then northEastOne king ||| northWestOne king
      else southEastOne king ||| southWestOne king) &&& enemyPawns)
  let enemyKnights := pos.knights &&& enemyPieces
  let attackers := attackers ||| (knightAttacks king &&& enemyKnights)
  let enemyBishops := pos.bishopQueens &&& enemyPieces
  let attackers := attackers ||| (bishopAttacks king (bnot allPieces) &&& enemyBishops)
  let enemyRooks := pos.rookQueens &&& enemyPieces
  let attackers := attackers ||| (rookAttacks king (bnot allPieces) &&& enemyRooks)
  let kingMoves := kingAttacks king
  let kingMoves := kingMoves &&& bnot (threatened ||| myPieces)
  let nMoves := nMoves + popCount kingMoves
  if isSingular attackers then
    let safeSquares := attackers ||| sqsInBetween kingIndex (bitScan attackers)
    let myPieces := myPieces &&& bnot pinned
    let myPawns := allPawns &&& myPieces
    let checkingRankDoublePush := shl RANK3 (chance.toNat * 24)
    let enPassentTarget := enPassentTargetOf pos.enPassent chance
    let enPassentCapturedPiece :=
      if chance = WHITE then southOne enPassentTarget else northOne enPassentTarget
    let enPassentTarget := if enPassentCapturedPiece ≠ attackers then 0 else enPassentTarget
    let nMoves := forBits myPawns (fun pawn n =>
      let dst := (if chance = WHITE then northOne pawn else southOne pawn) &&& bnot allPieces
      let n :=
        if dst ≠ 0 then
          if dst &&& safeSquares ≠ 0 then
            if dst &&& (RANK1 ||| RANK8) ≠ 0 then n + 4 else n + 1
          else
            let dst := (if chance = WHITE then northOne (dst &&& checkingRankDoublePush)
              else southOne (dst &&& checkingRankDoublePush)) &&& safeSquares &&& bnot allPieces
            if dst ≠ 0 then n + 1 else n
        else n
      let westCapture := if chance = WHITE then northWestOne pawn else southWestOne pawn
      let eastCapture := if chance = WHITE then northEastOne pawn else southEastOne pawn
      let dst := (westCapture ||| eastCapture) &&& enemyPieces &&& safeSquares
      let n :=
        if dst ≠ 0 then
          if dst &&& (RANK1 ||| RANK8) ≠ 0 then n + 4 else n + 1
        else n
      let dst := (westCapture ||| eastCapture) &&& enPassentTarget
      if dst ≠ 0 then n + 1 else n) nMoves
    let myKnights := pos.knights &&& myPieces
    let nMoves := forBits myKnights (fun knight n =>
      let knightMoves := knightAttacks knight &&& safeSquares
      n + popCount knightMoves) nMoves
    let bishops := pos.bishopQueens &&& myPieces
    let nMoves := forBits bishops (fun bishop n =>
      let bishopMoves := bishopAttacks bishop (bnot allPieces) &&& safeSquares
      n + popCount bishopMoves) nMoves
    let rooks := pos.rookQueens &&& myPieces
    let nMoves := forBits rooks (fun rook n =>
      let rookMoves := rookAttacks rook (bnot allPieces) &&& safeSquares
      n + popCount rookMoves) nMoves
    nMoves
  else
    nMoves

def countMoves (pos : HexaBitBoardPosition) (chance : Bool) : Nat :=
  let nMoves : Nat := 0
  let allPawns := pos.pawns &&& RANKS2TO7
  let allPieces := pos.kings ||| allPawns ||| pos.knights ||| pos.bishopQueens |||
    pos.rookQueens
  let blackPieces := allPieces &&& bnot pos.whitePieces
  let myPieces := if chance = WHITE then pos.whitePieces else blackPieces
  let enemyPieces := if chance = WHITE then blackPieces else pos.whitePieces
  let enemyBishops := pos.bishopQueens &&& enemyPieces
  let enemyRooks := pos.rookQueens &&& enemyPieces
  let myKing := pos.kings &&& myPieces
  let kingIndex := bitScan myKing
  let pinned := findPinnedPieces (pos.kings &&& myPieces) myPieces enemyBishops enemyRooks
    allPieces kingIndex
  let threatened := findAttackedSquares (bnot allPieces) enemyBishops enemyRooks
    (allPawns &&& enemyPieces) (pos.knights &&& enemyPieces) (pos.kings &&& enemyPieces)
    myKing (!chance)
  if threatened &&& (pos.kings &&& myPieces) ≠ 0 then
    countMovesOutOfCheck pos allPawns allPieces myPieces enemyPieces pinned threatened
      kingIndex chance
  else
  let myPawns := allPawns &&& myPieces
  let enPassentTarget := enPassentTargetOf pos.enPassent chance
  let nMoves :=
    if enPassentTarget ≠ 0 then
      let enPassentCapturedPiece :=
        if chance = WHITE then southOne enPassentTarget else northOne enPassentTarget
      let epSources :=
        (eastOne enPassentCapturedPiece ||| westOne enPassentCapturedPiece) &&& myPawns
      forBits epSources (fun pawn n =>
        if pawn &&& pinned ≠ 0 then
          let line := sqsInLine (bitScan pawn) kingIndex
          if enPassentTarget &&& line ≠ 0 then n + 1 else n
        else
          let propogator := bnot allPieces ||| enPassentCapturedPiece ||| pawn
          let causesCheck :=
            (eastAttacks enemyRooks propogator ||| westAttacks enemyRooks propogator) &&&
              (pos.kings &&& myPieces)
          if causesCheck = 0 then n + 1 else n) nMoves
    else nMoves
  let checkingRankDoublePush := shl RANK3 (chance.toNat * 24)
  let pinnedPawns := myPawns &&& pinned
  let nMoves := forBits pinnedPawns (fun pawn n =>
    let pawnIndex := bitScan pawn
    let line := sqsInLine pawnIndex kingIndex
    let dst := (if chance = WHITE then northOne pawn else southOne pawn) &&& line &&&
      bnot allPieces
    let n :=
      if dst ≠ 0 then
        let n := n + 1
        let dst := (if chance = WHITE then northOne (dst &&& checkingRankDoublePush)
          else southOne (dst &&& checkingRankDoublePush)) &&& bnot allPieces
        if dst ≠ 0 then n + 1 else n
      else n
    let dst := (if chance = WHITE then northWestOne pawn else southWestOne pawn) &&& line
    let dst := dst ||| ((if chance = WHITE then northEastOne pawn else southEastOne pawn) &&&
      line)
    if dst &&& enemyPieces ≠ 0 then
      if dst &&& (RANK1 ||| RANK8) ≠ 0 then n + 4 else n + 1
    else n) nMoves
  let myPawns := myPawns &&& bnot pinned
  let dsts := (if chance = WHITE then northOne myPawns else southOne myPawns) &&&
    bnot allPieces
  let nMoves := nMoves + popCount dsts
  let promotions := dsts &&& (RANK1 ||| RANK8)
  let nMoves := nMoves + 3 * popCount promotions
  let dsts := (if chance = WHITE then northOne (dsts &&& checkingRankDoublePush)
    else southOne (dsts &&& checkingRankDoublePush)) &&& bnot allPieces
  let nMoves := nMoves + popCount dsts
  let dsts := (if chance = WHITE then northWestOne myPawns else southWestOne myPawns) &&&
    enemyPieces
  let nMoves := nMoves + popCount dsts
  let promotions := dsts &&& (RANK1 ||| RANK8)
  let nMoves := nMoves + 3 * popCount promotions
  let dsts := (if chance = WHITE then northEastOne myPawns else southEastOne myPawns) &&&
    enemyPieces
  let nMoves := nMoves + popCount dsts
  let promotions := dsts &&& (RANK1 ||| RANK8)
  let nMoves := nMoves + 3 * popCount promotions
  let nMoves :=
    if chance = WHITE then
      let nMoves :=
        if pos.whiteCastle &&& CASTLE_FLAG_KING_SIDE ≠ 0 ∧ F1G1 &&& allPieces = 0 ∧
            F1G1 &&& threatened = 0 then nMoves + 1
        else nMoves
      if pos.whiteCastle &&& CASTLE_FLAG_QUEEN_SIDE ≠ 0 ∧ B1D1 &&& allPieces = 0 ∧
          C1D1 &&& threatened = 0 then nMoves + 1
      else nMoves
    else
      let nMoves :=
        if pos.blackCastle &&& CASTLE_FLAG_KING_SIDE ≠ 0 ∧ F8G8 &&& allPieces = 0 ∧
            F8G8 &&& threatened = 0 then nMoves + 1
        else nMoves
      if pos.blackCastle &&& CASTLE_FLAG_QUEEN_SIDE ≠ 0 ∧ B8D8 &&& allPieces = 0 ∧
          C8D8 &&& threatened = 0 then nMoves + 1
      else nMoves
  let kingMoves := kingAttacks myKing
  let kingMoves := kingMoves &&& bnot (threatened ||| myPieces)
  let nMoves := nMoves + popCount kingMoves
  let myKnights := (pos.knights &&& myPieces) &&& bnot pinned
  let nMoves := forBits myKnights (fun knight n =>
    let knightMoves := knightAttacks knight &&& bnot myPieces
    n + popCount knightMoves) nMoves
  let myBishops := pos.bishopQueens &&& myPieces
  let bishops := myBishops &&& pinned
  let nMoves := forBits bishops (fun bishop n =>
    let bishopMoves := bishopAttacks bishop (bnot allPieces) &&& bnot myPieces
    let bishopMoves := bishopMoves &&& sqsInLine (bitScan bishop) kingIndex
    n + popCount bishopMoves) nMoves
  let bishops := myBishops &&& bnot pinned
  let nMoves := forBits bishops (fun bishop n =>
    let bishopMoves := bishopAttacks bishop (bnot allPieces) &&& bnot myPieces
    n + popCount bishopMoves) nMoves
  let myRooks := pos.rookQueens &&& myPieces
  let rooks := myRooks &&& pinned
  let nMoves := forBits rooks (fun rook n =>
    let rookMoves := rookAttacks rook (bnot allPieces) &&& bnot myPieces
    let rookMoves := rookMoves &&& sqsInLine (bitScan rook) kingIndex
    n + popCount rookMoves) nMoves
  let rooks := myRooks &&& bnot pinned
  let nMoves := forBits rooks (fun rook n =>
    let rookMoves := rookAttacks rook (bnot allPieces) &&& bnot myPieces
    n + popCount rookMoves) nMoves
  nMoves

/-! ## Successor boards (lines 1302-1709) -/

def addMove (newPositions : List HexaBitBoardPosition) (newBoard : HexaBitBoardPosition) :
    List HexaBitBoardPosition :=
  newPositions ++ [newBoard]

/-- The update `flag &= ~bit` on a two-bit castling field. -/
def clearCastleBit (flag bit : Nat) : Nat := flag &&& (3 ^^^ bit)

def updateCastleFlag (pos : HexaBitBoardPosition) (dst : Nat) (chance : Bool) :
    HexaBitBoardPosition :=
  if chance = WHITE then
    if dst &&& BLACK_KING_SIDE_ROOK ≠ 0 then
      { pos with blackCastle := clearCastleBit pos.blackCastle CASTLE_FLAG_KING_SIDE }
    else if dst &&& BLACK_QUEEN_SIDE_ROOK ≠ 0 then
      { pos with blackCastle := clearCastleBit pos.blackCastle CASTLE_FLAG_QUEEN_SIDE }
    else pos
  else
    if dst &&& WHITE_KING_SIDE_ROOK ≠ 0 then
      { pos with whiteCastle := clearCastleBit pos.whiteCastle CASTLE_FLAG_KING_SIDE }
    else if dst &&& WHITE_QUEEN_SIDE_ROOK ≠ 0 then
      { pos with whiteCastle := clearCastleBit pos.whiteCastle CASTLE_FLAG_QUEEN_SIDE }
    else pos

def addSlidingMove (newPositions : List HexaBitBoardPosition) (pos : HexaBitBoardPosition)
    (src dst : Nat) (chance : Bool) : List HexaBitBoardPosition :=
  let bishopQueens := pos.bishopQueens &&& bnot dst
  let rookQueens := pos.rookQueens &&& bnot dst
  let kings := pos.kings &&& bnot dst
  let knights := pos.knights &&& bnot dst
  let pawns := pos.pawns &&& bnot (dst &&& RANKS2TO7)
  let isBishop := bishopQueens &&& src
  let isRook := rookQueens &&& src
  let bishopQueens := bishopQueens ^^^ isBishop
  let rookQueens := rookQueens ^^^ isRook
  let bishopQueens := bishopQueens ||| (if isBishop ≠ 0 then dst else 0)
  let rookQueens := rookQueens ||| (if isRook ≠ 0 then dst else 0)
  let whitePieces :=
    if chance = WHITE then (pos.whitePieces ^^^ src) ||| dst
    else pos.whitePieces &&& bnot dst
  let newBoard : HexaBitBoardPosition :=
    { pos with bishopQueens := bishopQueens, rookQueens := rookQueens, kings := kings,
               knights := knights, pawns := pawns, whitePieces := whitePieces,
               chance := !chance, enPassent := 0 }
  let newBoard := updateCastleFlag newBoard dst chance
  let newBoard := updateCastleFlag newBoard src (!chance)
  addMove newPositions newBoard

def addKnightMove (newPositions : List HexaBitBoardPosition) (pos : HexaBitBoardPosition)
    (src dst : Nat) (chance : Bool) : List HexaBitBoardPosition :=
  let bishopQueens := pos.bishopQueens &&& bnot dst
  let rookQueens := pos.rookQueens &&& bnot dst
  let kings := pos.kings &&& bnot dst
  let pawns := pos.pawns &&& bnot (dst &&& RANKS2TO7)
  let knights := (pos.knights ^^^ src) ||| dst
  let whitePieces :=
    if chance = WHITE then (pos.whitePieces ^^^ src) ||| dst
    else pos.whitePieces &&& bnot dst
  let newBoard : HexaBitBoardPosition :=
    { pos with bishopQueens := bishopQueens, rookQueens := rookQueens, kings := kings,
               knights := knights, pawns := pawns, whitePieces := whitePieces,
               chance := !chance, enPassent := 0 }
  let newBoard := updateCastleFlag newBoard dst chance
  addMove newPositions newBoard

def addKingMove (newPositions : List HexaBitBoardPosition) (pos : HexaBitBoardPosition)
    (src dst : Nat) (chance : Bool) : List HexaBitBoardPosition :=
  let bishopQueens := pos.bishopQueens &&& bnot dst
  let rookQueens := pos.rookQueens &&& bnot dst
  let knights := pos.knights &&& bnot dst
  let pawns := pos.pawns &&& bnot (dst &&& RANKS2TO7)
  let kings := (pos.kings ^^^ src) ||| dst
  let newBoard : HexaBitBoardPosition :=
    { pos with bishopQueens := bishopQueens, rookQueens := rookQueens, kings := kings,
               knights := knights, pawns := pawns }
  let newBoard : HexaBitBoardPosition :=
    if chance = WHITE then
      { newBoard with whitePieces := (pos.whitePieces ^^^ src) ||| dst, whiteCastle := 0 }
    else
      { newBoard with whitePieces := pos.whitePieces &&& bnot dst, blackCastle := 0 }
  let newBoard := { newBoard with chance := !chance, enPassent := 0 }
  let newBoard := updateCastleFlag newBoard dst chance
  addMove newPositions newBoard

def addCastleMove (newPositions : List HexaBitBoardPosition) (pos : HexaBitBoardPosition)
    (kingFrom kingTo rookFrom rookTo : Nat) (chance : Bool) : List HexaBitBoardPosition :=
  let newBoard : HexaBitBoardPosition :=
    { pos with bishopQueens := pos.bishopQueens, pawns := pos.pawns, knights := pos.knights,
               kings := (pos.kings ^^^ kingFrom) ||| kingTo,
               rookQueens := (pos.rookQueens ^^^ rookFrom) ||| rookTo,
               chance := !chance, enPassent := 0, halfMoveCounter := 0 }
  let newBoard : HexaBitBoardPosition :=
    if chance = WHITE then
      { newBoard with
          whitePieces := (pos.whitePieces ^^^ (kingFrom ||| rookFrom)) ||| (kingTo ||| rookTo),
          whiteCastle := 0 }
    else
      { newBoard with blackCastle := 0, whitePieces := pos.whitePieces }
  addMove newPositions newBoard

def addSinglePawnMove (newPositions : List HexaBitBoardPosition)
    (pos : HexaBitBoardPosition) (src dst : Nat) (chance : Bool) (doublePush : Bool)
    (pawnIndex : Nat) : List HexaBitBoardPosition :=
  let bishopQueens := pos.bishopQueens &&& bnot dst
  let rookQueens := pos.rookQueens &&& bnot dst
  let knights := pos.knights &&& bnot dst
  let kings := pos.kings
  let pawns := (pos.pawns ^^^ src) ||| dst
  let whitePieces :=
    if chance = WHITE then (pos.whitePieces ^^^ src) ||| dst
    else pos.whitePieces &&& bnot dst
  let newBoard : HexaBitBoardPosition :=
    { pos with bishopQueens := bishopQueens, rookQueens := rookQueens, kings := kings,
               knights := knights, pawns := pawns, whitePieces := whitePieces,
               chance := !chance,
               enPassent := if doublePush then (pawnIndex &&& 7) + 1 else 0,
               halfMoveCounter := 0 }
  addMove newPositions newBoard

def addEnPassentMove (newPositions : List HexaBitBoardPosition)
    (pos : HexaBitBoardPosition) (src dst : Nat) (chance : Bool) :
    List HexaBitBoardPosition :=
  let capturedPiece := if chance = WHITE then southOne dst else northOne dst
  let pawns := (pos.pawns ^^^ (capturedPiece ||| src)) ||| dst
  let whitePieces :=
    if chance = WHITE then (pos.whitePieces ^^^ src) ||| dst
    else pos.whitePieces ^^^ capturedPiece
  let newBoard : HexaBitBoardPosition :=
    { pos with bishopQueens := pos.bishopQueens, rookQueens := pos.rookQueens,
               knights := pos.knights, kings := pos.kings, pawns := pawns,
               whitePieces := whitePieces, chance := !chance, halfMoveCounter := 0,
               enPassent := 0 }
  addMove newPositions newBoard

def addPawnMoves (newPositions : List HexaBitBoardPosition) (pos : HexaBitBoardPosition)
    (src dst : Nat) (chance : Bool) : List HexaBitBoardPosition :=
  if dst &&& (RANK1 ||| RANK8) ≠ 0 then
    let whitePieces :=
      if chance = WHITE then (pos.whitePieces ^^^ src) ||| dst
      else pos.whitePieces &&& bnot dst
    let newBoard : HexaBitBoardPosition :=
      { pos with kings := pos.kings, whitePieces := whitePieces, pawns := pos.pawns ^^^ src,
                 chance := !chance, enPassent := 0, halfMoveCounter := 0 }
    let newBoard := updateCastleFlag newBoard dst chance
    -- 1. promotion to knight
    let newBoard := { newBoard with knights := pos.knights ||| dst,
                                    bishopQueens := pos.bishopQueens &&& bnot dst,
                                    rookQueens := pos.rookQueens &&& bnot dst }
    let newPositions := addMove newPositions newBoard
    -- 2. promotion to bishop
    let newBoard := { newBoard with knights := pos.knights &&& bnot dst,
                                    bishopQueens := pos.bishopQueens ||| dst,
                                    rookQueens := pos.rookQueens &&& bnot dst }
    let newPositions := addMove newPositions newBoard
    -- 3. promotion to queen
    let newBoard := { newBoard with rookQueens := pos.rookQueens ||| dst }
    let newPositions := addMove newPositions newBoard
    -- 4. promotion to rook
    let newBoard := { newBoard with bishopQueens := pos.bishopQueens &&& bnot dst }
    addMove newPositions newBoard
  else
    addSinglePawnMove newPositions pos src dst chance false 0

/-! ## generateBoards (lines 1744-2261) -/

def generateBoardsOutOfCheck (pos : HexaBitBoardPosition)
    (newPositions : List HexaBitBoardPosition)
    (allPawns allPieces myPieces enemyPieces pinned threatened kingIndex : Nat)
    (chance : Bool) : List HexaBitBoardPosition :=
  let king := pos.kings &&& myPieces
  let attackers : Nat := 0
  let enemyPawns := allPawns &&& enemyPieces
  let attackers := attackers |||
    ((if chance = WHITE then northEastOne king ||| northWestOne king
      else southEastOne king ||| southWestOne king) &&& enemyPawns)
  let enemyKnights := pos.knights &&& enemyPieces
  let attackers := attackers ||| (knightAttacks king &&& enemyKnights)
  let enemyBishops := pos.bishopQueens &&& enemyPieces
  let attackers := attackers ||| (bishopAttacks king (bnot allPieces) &&& enemyBishops)
  let enemyRooks := pos.rookQueens &&& enemyPieces
  let attackers := attackers ||| (rookAttacks king (bnot allPieces) &&& enemyRooks)
  let kingMoves := kingAttacks king
  let kingMoves := kingMoves &&& bnot (threatened ||| myPieces)
  let newPositions := forBits kingMoves (fun dst ps =>
    addKingMove ps pos king dst chance) newPositions
  if isSingular attackers then
    let safeSquares := attackers ||| sqsInBetween kingIndex (bitScan attackers)
    let myPieces := myPieces &&& bnot pinned
    let myPawns := allPawns &&& myPieces
    let checkingRankDoublePush := shl RANK3 (chance.toNat * 24)
    let enPassentTarget := enPassentTargetOf pos.enPassent chance
    let enPassentCapturedPiece :=
      if chance = WHITE then southOne enPassentTarget else northOne enPassentTarget
    let enPassentTarget := if enPassentCapturedPiece ≠ attackers then 0 else enPassentTarget
    let newPositions := forBits myPawns (fun pawn ps =>
      let dst := (if chance = WHITE then northOne pawn else southOne pawn) &&& bnot allPieces
      let ps :=
        if dst ≠ 0 then
          if dst &&& safeSquares ≠ 0 then
            addPawnMoves ps pos pawn dst chance
          else
            let dst := (if chance = WHITE then northOne (dst &&& checkingRankDoublePush)
              else southOne (dst &&& checkingRankDoublePush)) &&& safeSquares &&& bnot allPieces
            if dst ≠ 0 then
              addSinglePawnMove ps pos pawn dst chance true (bitScan pawn)
            else ps
        else ps
      let westCapture := if chance = WHITE then northWestOne pawn else southWestOne pawn
      let eastCapture := if chance = WHITE then northEastOne pawn else southEastOne pawn
      let dst := (westCapture ||| eastCapture) &&& enemyPieces &&& safeSquares
      let ps := if dst ≠ 0 then addPawnMoves ps pos pawn dst chance else ps
      let dst := (westCapture ||| eastCapture) &&& enPassentTarget
      if dst ≠ 0 then addEnPassentMove ps pos pawn dst chance else ps) newPositions
    let myKnights := pos.knights &&& myPieces
    let newPositions := forBits myKnights (fun knight ps =>
      let knightMoves := knightAttacks knight &&& safeSquares
      forBits knightMoves (fun dst ps => addKnightMove ps pos knight dst chance) ps)
      newPositions
    let bishops := pos.bishopQueens &&& myPieces
    let newPositions := forBits bishops (fun bishop ps =>
      let bishopMoves := bishopAttacks bishop (bnot allPieces) &&& safeSquares
      forBits bishopMoves (fun dst ps => addSlidingMove ps pos bishop dst chance) ps)
      newPositions
    let rooks := pos.rookQueens &&& myPieces
    let newPositions := forBits rooks (fun rook ps =>
      let rookMoves := rookAttacks rook (bnot allPieces) &&& safeSquares
      forBits rookMoves (fun dst ps => addSlidingMove ps pos rook dst chance) ps)
      newPositions
    newPositions
  else
    newPositions

def generateBoards (pos : HexaBitBoardPosition) (chance : Bool) :
    List HexaBitBoardPosition :=
  let newPositions : List HexaBitBoardPosition := []
  let allPawns := pos.pawns &&& RANKS2TO7
  let allPieces := pos.kings ||| allPawns ||| pos.knights ||| pos.bishopQueens |||
    pos.rookQueens
  let blackPieces := allPieces &&& bnot pos.whitePieces
  let myPieces := if chance = WHITE then pos.whitePieces else blackPieces
  let enemyPieces := if chance = WHITE then blackPieces else pos.whitePieces
  let enemyBishops := pos.bishopQueens &&& enemyPieces
  let enemyRooks := pos.rookQueens &&& enemyPieces
  let myKing := pos.kings &&& myPieces
  let kingIndex := bitScan myKing
  let pinned := findPinnedPieces (pos.kings &&& myPieces) myPieces enemyBishops enemyRooks
    allPieces kingIndex
  let threatened := findAttackedSquares (bnot allPieces) enemyBishops enemyRooks
    (allPawns &&& enemyPieces) (pos.knights &&& enemyPieces) (pos.kings &&& enemyPieces)
    myKing (!chance)
  if threatened &&& (pos.kings &&& myPieces) ≠ 0 then
    generateBoardsOutOfCheck pos newPositions allPawns allPieces myPieces enemyPieces pinned
      threatened kingIndex chance
  else
  let myPawns := allPawns &&& myPieces
  let enPassentTarget := enPassentTargetOf pos.enPassent chance
  let newPositions :=
    if enPassentTarget ≠ 0 then
      let enPassentCapturedPiece :=
        if chance = WHITE then southOne enPassentTarget else northOne enPassentTarget
      let epSources :=
        (eastOne enPassentCapturedPiece ||| westOne enPassentCapturedPiece) &&& myPawns
      forBits epSources (fun pawn ps =>
        if pawn &&& pinned ≠ 0 then
          let line := sqsInLine (bitScan pawn) kingIndex
          if enPassentTarget &&& line ≠ 0 then
            addEnPassentMove ps pos pawn enPassentTarget chance
          else ps
        else
          let propogator := bnot allPieces ||| enPassentCapturedPiece ||| pawn
          let causesCheck :=
            (eastAttacks enemyRooks propogator ||| westAttacks enemyRooks propogator) &&&
              (pos.kings &&& myPieces)
          if causesCheck = 0 then
            addEnPassentMove ps pos pawn enPassentTarget chance
          else ps) newPositions
    else newPositions
  let checkingRankDoublePush := shl RANK3 (chance.toNat * 24)
  let pinnedPawns := myPawns &&& pinned
  let newPositions := forBits pinnedPawns (fun pawn ps =>
    let pawnIndex := bitScan pawn
    let line := sqsInLine pawnIndex kingIndex
    let dst := (if chance = WHITE then northOne pawn else southOne pawn) &&& line &&&
      bnot allPieces
    let ps :=
      if dst ≠ 0 then
        let ps := addSinglePawnMove ps pos pawn dst chance false pawnIndex
        let dst := (if chance = WHITE then northOne (dst &&& checkingRankDoublePush)
          else southOne (dst &&& checkingRankDoublePush)) &&& bnot allPieces
        if dst ≠ 0 then addSinglePawnMove ps pos pawn dst chance true pawnIndex
        else ps
      else ps
    let dst := (if chance = WHITE then northWestOne pawn else southWestOne pawn) &&& line
    let dst := dst ||| ((if chance = WHITE then northEastOne pawn else southEastOne pawn) &&&
      line)
    if dst &&& enemyPieces ≠ 0 then addPawnMoves ps pos pawn dst chance
    else ps) newPositions
  let myPawns := myPawns &&& bnot pinned
  let newPositions := forBits myPawns (fun pawn ps =>
    let dst := (if chance = WHITE then northOne pawn else southOne pawn) &&& bnot allPieces
    let ps :=
      if dst ≠ 0 then
        let ps := addPawnMoves ps pos pawn dst chance
        let dst := (if chance = WHITE then northOne (dst &&& checkingRankDoublePush)
          else southOne (dst &&& checkingRankDoublePush)) &&& bnot allPieces
        if dst ≠ 0 then addSinglePawnMove ps pos pawn dst chance true (bitScan pawn)
        else ps
      else ps
    let westCapture := if chance = WHITE then northWestOne pawn else southWestOne pawn
    let dst := westCapture &&& enemyPieces
    let ps := if dst ≠ 0 then addPawnMoves ps pos pawn dst chance else ps
    let eastCapture := if chance = WHITE then northEastOne pawn else southEastOne pawn
    let dst := eastCapture &&& enemyPieces
    if dst ≠ 0 then addPawnMoves ps pos pawn dst chance else ps) newPositions
  let newPositions :=
    if chance = WHITE then
      let newPositions :=
        if pos.whiteCastle &&& CASTLE_FLAG_KING_SIDE ≠ 0 ∧ F1G1 &&& allPieces = 0 ∧
            F1G1 &&& threatened = 0 then
          addCastleMove newPositions pos (BIT E1) (BIT G1) (BIT H1) (BIT F1) chance
        else newPositions
      if pos.whiteCastle &&& CASTLE_FLAG_QUEEN_SIDE ≠ 0 ∧ B1D1 &&& allPieces = 0 ∧
          C1D1 &&& threatened = 0 then
        addCastleMove newPositions pos (BIT E1) (BIT C1) (BIT A1) (BIT D1) chance
      else newPositions
    else
      let newPositions :=
        if pos.blackCastle &&& CASTLE_FLAG_KING_SIDE ≠ 0 ∧ F8G8 &&& allPieces = 0 ∧
            F8G8 &&& threatened = 0 then
          addCastleMove newPositions pos (BIT E8) (BIT G8) (BIT H8) (BIT F8) chance
        else newPositions
      if pos.blackCastle &&& CASTLE_FLAG_QUEEN_SIDE ≠ 0 ∧ B8D8 &&& allPieces = 0 ∧
          C8D8 &&& threatened = 0 then
        addCastleMove newPositions pos (BIT E8) (BIT C8) (BIT A8) (BIT D8) chance
      else newPositions
  let kingMoves := kingAttacks myKing
  let kingMoves := kingMoves &&& bnot (threatened ||| myPieces)
  let newPositions := forBits kingMoves (fun dst ps =>
    addKingMove ps pos myKing dst chance) newPositions
  let myKnights := (pos.knights &&& myPieces) &&& bnot pinned
  let newPositions := forBits myKnights (fun knight ps =>
    let knightMoves := knightAttacks knight &&& bnot myPieces
    forBits knightMoves (fun dst ps => addKnightMove ps pos knight dst chance) ps)
    newPositions
  let myBishops := pos.bishopQueens &&& myPieces
  let bishops := myBishops &&& pinned
  let newPositions := forBits bishops (fun bishop ps =>
    let bishopMoves := bishopAttacks bishop (bnot allPieces) &&& bnot myPieces
    let bishopMoves := bishopMoves &&& sqsInLine (bitScan bishop) kingIndex
    forBits bishopMoves (fun dst ps => addSlidingMove ps pos bishop dst chance) ps)
    newPositions
  let bishops := myBishops &&& bnot pinned
  let newPositions := forBits bishops (fun bishop ps =>
    let bishopMoves := bishopAttacks bishop (bnot allPieces) &&& bnot myPieces
    forBits bishopMoves (fun dst ps => addSlidingMove ps pos bishop dst chance) ps)
    newPositions
  let myRooks := pos.rookQueens &&& myPieces
  let rooks := myRooks &&& pinned
  let newPositions := forBits rooks (fun rook ps =>
    let rookMoves := rookAttacks rook (bnot allPieces) &&& bnot myPieces
    let rookMoves := rookMoves &&& sqsInLine (bitScan rook) kingIndex
    forBits rookMoves (fun dst ps => addSlidingMove ps pos rook dst chance) ps)
    newPositions
  let rooks := myRooks &&& bnot pinned
  let newPositions := forBits rooks (fun rook ps =>
    let rookMoves := rookAttacks rook (bnot allPieces) &&& bnot myPieces
    forBits rookMoves (fun dst ps => addSlidingMove ps pos rook dst chance) ps)
    newPositions
  newPositions

/-! ## Serial perft (`perft_bb.h`, lines 35-101) -/

/-- `perft_bb` run with a bound `fuel` on the recursion depth; `none` when the
bound is reached. The depth is a `uint32` and the count a `uint64`. -/
def perft_bb : Nat → HexaBitBoardPosition → Nat → Option Nat
  | 0, _, _ => none
  | fuel + 1, pos, depth =>
    if depth = 1 then
      some (countMoves pos pos.chance)
    else
      let newPositions := generateBoards pos pos.chance
      newPositions.foldl (fun count child =>
        match count, perft_bb fuel child ((depth + 2 ^ 32 - 1) % 2 ^ 32) with
        | some c, some childPerft => some ((c + childPerft) % 2 ^ 64)
        | _, _ => none) (some 0)

/-! ## makeMove with incremental hash (lines 3312-3570) -/

/-- The piece found on a one-square set `sq` by the membership tests of lines
3323-3334; `dflt` is the value of the last `else`. -/
def pieceOn (pos : HexaBitBoardPosition) (sq : Nat) (dflt : Nat) : Nat :=
  let queens := pos.bishopQueens &&& pos.rookQueens
  if pos.kings &&& sq ≠ 0 then KING
  else if pos.knights &&& sq ≠ 0 then KNIGHT
  else if (pos.pawns &&& RANKS2TO7) &&& sq ≠ 0 then PAWN
  else if queens &&& sq ≠ 0 then QUEEN
  else if pos.bishopQueens &&& sq ≠ 0 then BISHOP
  else dflt

/-- The piece after the promotion substitution of lines 3343-3350. -/
def promotedPiece (flags piece : Nat) : Nat :=
  if flags = CM_FLAG_KNIGHT_PROMOTION ∨ flags = CM_FLAG_KNIGHT_PROMO_CAP then KNIGHT
  else if flags = CM_FLAG_BISHOP_PROMOTION ∨ flags = CM_FLAG_BISHOP_PROMO_CAP then BISHOP
  else if flags = CM_FLAG_ROOK_PROMOTION ∨ flags = CM_FLAG_ROOK_PROMO_CAP then ROOK
  else if flags = CM_FLAG_QUEEN_PROMOTION ∨ flags = CM_FLAG_QUEEN_PROMO_CAP then QUEEN
  else piece

/-- The castling-right and en-passant terms of the hash (lines 3385-3400 and
3553-3568). -/
def stateKey (zob : ZobristRandoms) (pos : HexaBitBoardPosition) (hash : Nat) : Nat :=
  let hash := if pos.whiteCastle &&& CASTLE_FLAG_KING_SIDE ≠ 0 then
    hash ^^^ zob.castlingRights WHITE 0 else hash
  let hash := if pos.whiteCastle &&& CASTLE_FLAG_QUEEN_SIDE ≠ 0 then
    hash ^^^ zob.castlingRights WHITE 1 else hash
  let hash := if pos.blackCastle &&& CASTLE_FLAG_KING_SIDE ≠ 0 then
    hash ^^^ zob.castlingRights BLACK 0 else hash
  let hash := if pos.blackCastle &&& CASTLE_FLAG_QUEEN_SIDE ≠ 0 then
    hash ^^^ zob.castlingRights BLACK 1 else hash
  if pos.enPassent ≠ 0 then hash ^^^ zob.enPassentTarget (pos.enPassent - 1) else hash

/-! The position updates of `makeMove`, cut at the comments of the source. -/

/-- Lines 3403-3415: remove source and destination from all bitboards. -/
def mmClear (pos : HexaBitBoardPosition) (src dst : Nat) : HexaBitBoardPosition :=
  let pos := { pos with bishopQueens := pos.bishopQueens &&& bnot src,
                        rookQueens := pos.rookQueens &&& bnot src,
                        kings := pos.kings &&& bnot src,
                        knights := pos.knights &&& bnot src,
                        pawns := pos.pawns &&& bnot (src &&& RANKS2TO7) }
  { pos with bishopQueens := pos.bishopQueens &&& bnot dst,
             rookQueens := pos.rookQueens &&& bnot dst,
             kings := pos.kings &&& bnot dst,
             knights := pos.knights &&& bnot dst,
             pawns := pos.pawns &&& bnot (dst &&& RANKS2TO7) }

/-- Lines 3417-3438: put the piece that moved in the required bitboards. -/
def mmPut (pos : HexaBitBoardPosition) (piece dst : Nat) (chance : Bool) :
    HexaBitBoardPosition :=
  let pos :=
    if piece = KING then
      let pos := { pos with kings := pos.kings ||| dst }
      if chance = WHITE then { pos with whiteCastle := 0 } else { pos with blackCastle := 0 }
    else pos
  let pos := if piece = KNIGHT then { pos with knights := pos.knights ||| dst } else pos
  let pos := if piece = PAWN then { pos with pawns := pos.pawns ||| dst } else pos
  let pos := if piece = BISHOP ∨ piece = QUEEN then
    { pos with bishopQueens := pos.bishopQueens ||| dst } else pos
  if piece = ROOK ∨ piece = QUEEN then
    { pos with rookQueens := pos.rookQueens ||| dst } else pos

/-- Lines 3441-3448: the colour mask. -/
def mmColor (pos : HexaBitBoardPosition) (src dst : Nat) (chance : Bool) :
    HexaBitBoardPosition :=
  if chance = WHITE then { pos with whitePieces := (pos.whitePieces ^^^ src) ||| dst }
  else { pos with whitePieces := pos.whitePieces &&& bnot dst }

/-- Lines 3450-3464: removal of the pawn captured en passant. -/
def mmEnPassent (pos : HexaBitBoardPosition) (flags dst : Nat) (chance : Bool) :
    HexaBitBoardPosition :=
  let enPassentCapturedPiece := if chance = WHITE then southOne dst else northOne dst
  if flags = CM_FLAG_EP_CAPTURE then
    let pos := { pos with pawns := pos.pawns &&& bnot (enPassentCapturedPiece &&& RANKS2TO7) }
    if chance = BLACK then
      { pos with whitePieces := pos.whitePieces &&& bnot enPassentCapturedPiece }
    else pos
  else pos

/-- Lines 3466-3514: the rook of a castling move. -/
def mmCastle (pos : HexaBitBoardPosition) (flags : Nat) (chance : Bool) :
    HexaBitBoardPosition :=
  if chance = WHITE then
    if flags = CM_FLAG_KING_CASTLE then
      { pos with rookQueens := (pos.rookQueens ^^^ BIT H1) ||| BIT F1,
                 whitePieces := (pos.whitePieces ^^^ BIT H1) ||| BIT F1 }
    else if flags = CM_FLAG_QUEEN_CASTLE then
      { pos with rookQueens := (pos.rookQueens ^^^ BIT A1) ||| BIT D1,
                 whitePieces := (pos.whitePieces ^^^ BIT A1) ||| BIT D1 }
    else pos
  else
    if flags = CM_FLAG_KING_CASTLE then
      { pos with rookQueens := (pos.rookQueens ^^^ BIT H8) ||| BIT F8 }
    else if flags = CM_FLAG_QUEEN_CASTLE then
      { pos with rookQueens := (pos.rookQueens ^^^ BIT A8) ||| BIT D8 }
    else pos

/-- Lines 3517-3526: side to move, en-passant reset and castling rights. -/
def mmRights (pos : HexaBitBoardPosition) (piece src dst : Nat) (chance : Bool) :
    HexaBitBoardPosition :=
  let pos := { pos with chance := !chance, enPassent := 0 }
  let pos := updateCastleFlag pos dst chance
  if piece = ROOK then updateCastleFlag pos src (!chance) else pos

/-- The set `epSources` of lines 3532-3540, computed on the position `pos`. -/
def epSourcesOf (pos : HexaBitBoardPosition) (dst : Nat) (chance : Bool) : Nat :=
  let allPawns := pos.pawns &&& RANKS2TO7
  let allPieces := pos.kings ||| allPawns ||| pos.knights ||| pos.bishopQueens |||
    pos.rookQueens
  let blackPieces := allPieces &&& bnot pos.whitePieces
  let enemyPieces := if chance = WHITE then blackPieces else pos.whitePieces
  let enemyPawns := allPawns &&& enemyPieces
  (eastOne dst ||| westOne dst) &&& enemyPawns

/-- Lines 3528-3547: the en-passant field after a double pawn push. -/
def mmDoublePush (sw : Switches) (pos : HexaBitBoardPosition) (move : CMove) (dst : Nat)
    (chance : Bool) : HexaBitBoardPosition :=
  if move.getFlags = CM_FLAG_DOUBLE_PAWN_PUSH then
    if sw.exactEnPassentFlagging then
      if epSourcesOf pos dst chance ≠ 0 then
        { pos with enPassent := (move.getFrom &&& 7) + 1 } else pos
    else
      { pos with enPassent := (move.getFrom &&& 7) + 1 }
  else pos

/-- The function `makeMove` over a 64-bit hash. The position and the hash are
threaded as two values, each updated in the order of the source. -/
def makeMove (sw : Switches) (zob : ZobristRandoms) (pos : HexaBitBoardPosition)
    (hash : Nat) (move : CMove) (chance : Bool) (updateHash : Bool) :
    HexaBitBoardPosition × Nat :=
  let src := BIT move.getFrom
  let dst := BIT move.getTo
  let queens := pos.bishopQueens &&& pos.rookQueens
  let piece := pieceOn pos src ROOK
  let hash := if updateHash then hash ^^^ zob.pieces chance (piece - 1) move.getFrom else hash
  let piece := promotedPiece move.getFlags piece
  let hash :=
    if updateHash then
      let dstPiece :=
        if pos.kings &&& dst ≠ 0 then KING
        else if pos.knights &&& dst ≠ 0 then KNIGHT
        else if (pos.pawns &&& RANKS2TO7) &&& dst ≠ 0 then PAWN
        else if queens &&& dst ≠ 0 then QUEEN
        else if pos.bishopQueens &&& dst ≠ 0 then BISHOP
        else if pos.rookQueens &&& dst ≠ 0 then ROOK
        else 0
      let hash := if dstPiece ≠ 0 then
        hash ^^^ zob.pieces (!chance) (dstPiece - 1) move.getTo else hash
      let hash := hash ^^^ zob.pieces chance (piece - 1) move.getTo
      let hash := hash ^^^ zob.chance
      stateKey zob pos hash
    else hash
  let pos := mmClear pos src dst
  let pos := mmPut pos piece dst chance
  let pos := mmColor pos src dst chance
  let enPassentCapturedPiece := if chance = WHITE then southOne dst else northOne dst
  let hash :=
    if move.getFlags = CM_FLAG_EP_CAPTURE ∧ updateHash = true then
      hash ^^^ zob.pieces (!chance) ZOB_INDEX_PAWN (bitScan enPassentCapturedPiece)
    else hash
  let pos := mmEnPassent pos move.getFlags dst chance
  let hash :=
    if updateHash then
      if chance = WHITE then
        if move.getFlags = CM_FLAG_KING_CASTLE then
          (hash ^^^ zob.pieces chance ZOB_INDEX_ROOK H1) ^^^ zob.pieces chance ZOB_INDEX_ROOK F1
        else if move.getFlags = CM_FLAG_QUEEN_CASTLE then
          (hash ^^^ zob.pieces chance ZOB_INDEX_ROOK A1) ^^^ zob.pieces chance ZOB_INDEX_ROOK D1
        else hash
      else
        if move.getFlags = CM_FLAG_KING_CASTLE then
          (hash ^^^ zob.pieces chance ZOB_INDEX_ROOK H8) ^^^ zob.pieces chance ZOB_INDEX_ROOK F8
        else if move.getFlags = CM_FLAG_QUEEN_CASTLE then
          (hash ^^^ zob.pieces chance ZOB_INDEX_ROOK A8) ^^^ zob.pieces chance ZOB_INDEX_ROOK D8
        else hash
    else hash
  let pos := mmCastle pos move.getFlags chance
  let pos := mmRights pos piece src dst chance
  let pos := mmDoublePush sw pos move dst chance
  let hash := if updateHash then stateKey zob pos hash else hash
  (pos, hash)

/-! ## Zobrist key from scratch (lines 3844-3910) -/

/-- Indices of the set bits of a bitboard, lowest first. -/
def bitIdx (x : Nat) : List Nat := (List.range 64).filter (fun i => x.testBit i)

/-- Modelled from the spec: the standard chess starting position, white to
move, all four castling rights, no en-passant square (the board loader is not
part of the source). -/
def startingPosition : HexaBitBoardPosition :=
  { whitePieces := 0x000000000000FFFF
    pawns := 0x00FF00000000FF00
    knights := 0x4200000000000042
    bishopQueens := 0x2C0000000000002C
    rookQueens := 0x8900000000000089
    kings := 0x1000000000000010
    chance := WHITE
    whiteCastle := 3
    blackCastle := 3
    enPassent := 0
    halfMoveCounter := 0 }

/-- The accumulation step of the child loop of `perft_bb`. -/
def perftStep (count child : Option Nat) : Option Nat :=
  match count, child with
  | some c, some childPerft => some ((c + childPerft) % 2 ^ 64)
  | _, _ => none

/-- The piece sets that contain square `i`, in the order kings, knights, pawns
(ranks 2 to 7), bishopQueens, rookQueens. -/
def setsAt (p : HexaBitBoardPosition) (i : Nat) : List Bool :=
  [p.kings.testBit i, p.knights.testBit i, (p.pawns &&& RANKS2TO7).testBit i,
   p.bishopQueens.testBit i, p.rookQueens.testBit i]

/-- The position `makeMove` returns, as the composition of its stages. -/
def makeMoveBoard (sw : Switches) (pos : HexaBitBoardPosition) (move : CMove)
    (chance : Bool) : HexaBitBoardPosition :=
  let src := BIT move.getFrom
  let dst := BIT move.getTo
  let piece := promotedPiece move.getFlags (pieceOn pos src ROOK)
  mmDoublePush sw
    (mmRights
      (mmCastle
        (mmEnPassent (mmColor (mmPut (mmClear pos src dst) piece dst chance) src dst chance)
          move.getFlags dst chance)
        move.getFlags chance)
      piece src dst chance)
    move dst chance

/-! ## Transposition-table entries (`perft_bb.h`) -/

/-- Modelled from the spec: `HashKey128b` of the absent `chess.h`, a pair of
64-bit words; the constructor takes the low part first. -/
structure HashKey128b where
  lowPart : Nat
  highPart : Nat
  deriving DecidableEq, Repr

/-- Modelled from the spec: `HashEntryPerft128b` of the absent `chess.h`, a
slot of the deep table: the key, XOR-ed with the count, the count and the
depth. -/
structure HashEntryPerft128b where
  hashKey : HashKey128b
  perftVal : Nat
  depth : Nat
  deriving DecidableEq, Repr

/-- The probe of `makemove_and_count_moves_single_level_hash128b_deep` (lines
758-775): the cached count on a hit, `none` on a miss. -/
def deepProbe (hashTable : Nat → HashEntryPerft128b) (hashBits indexBits : Nat)
    (hash : HashKey128b) (depth : Int) : Option Nat :=
  let entry := hashTable (hash.lowPart &&& indexBits)
  let entry := { entry with
    hashKey := { entry.hashKey with highPart := entry.hashKey.highPart ^^^ entry.perftVal } }
  let entry := { entry with
    hashKey := { entry.hashKey with lowPart := entry.hashKey.lowPart ^^^ entry.perftVal } }
  if entry.hashKey.highPart = hash.highPart ∧
      entry.hashKey.lowPart &&& hashBits = hash.lowPart &&& hashBits ∧
      (entry.depth : Int) = depth then
    some entry.perftVal
  else none

/-- The probe of `perft_bb_gpu_launcher_hash` (lines 1626-1639) for a child of
a position searched to `depth`. -/
def launcherProbe (hashTable : Nat → HashEntryPerft128b) (hashBits indexBits : Nat)
    (newHash : HashKey128b) (depth : Int) : Option Nat :=
  let entry := hashTable (newHash.lowPart &&& indexBits)
  let entry := { entry with
    hashKey := { entry.hashKey with highPart := entry.hashKey.highPart ^^^ entry.perftVal } }
  let entry := { entry with
    hashKey := { entry.hashKey with lowPart := entry.hashKey.lowPart ^^^ entry.perftVal } }
  if entry.hashKey.highPart = newHash.highPart ∧
      entry.hashKey.lowPart &&& hashBits = newHash.lowPart &&& hashBits ∧
      (entry.depth : Int) = depth - 1 then
    some entry.perftVal
  else none

/-- The store of `calcPerftNFromPerftNminus1_hash128b` (lines 888-892); the
count is a `uint32`. -/
def shallowStore (hashTable : Nat → HashKey128b) (hashBits indexBits : Nat)
    (hash : HashKey128b) (perftNminus1 : Nat) : Nat → HashKey128b :=
  let hashEntry : HashKey128b :=
    HashKey128b.mk ((hash.lowPart &&& hashBits) ||| perftNminus1) hash.highPart
  let hashEntry := { hashEntry with highPart := hashEntry.highPart ^^^ hashEntry.lowPart }
  Function.update hashTable (hash.lowPart &&& indexBits) hashEntry

/-- The probe of `makemove_and_count_moves_single_level_hash128b` (lines
692-697): the cached count, narrowed to `uint32`, on a hit. -/
def shallowProbe (hashTable : Nat → HashKey128b) (hashBits indexBits : Nat)
    (hash : HashKey128b) : Option Nat :=
  let entry := hashTable (hash.lowPart &&& indexBits)
  let entry := { entry with highPart := entry.highPart ^^^ entry.lowPart }
  if entry.highPart = hash.highPart ∧
      entry.lowPart &&& hashBits = hash.lowPart &&& hashBits then
    some ((entry.lowPart &&& indexBits) % 2 ^ 32)
  else none

/-- A deep table whose every slot caches the count 20 at depth 3 for the hash
with low part 5 and high part 9. -/
def sampleDeepTable : Nat → HashEntryPerft128b :=
  fun _ => HashEntryPerft128b.mk (HashKey128b.mk (5 ^^^ 20) (9 ^^^ 20)) 20 3

/-- A Zobrist table of zeros, for evaluating `makeMove` on concrete inputs. -/
def zeroZobrist : ZobristRandoms :=
  { pieces := fun _ _ _ => 0
    castlingRights := fun _ _ => 0
    enPassentTarget := fun _ => 0
    chance := 0
    depth := 0 }

/-! ## Kogge-Stone fills (`MoveGeneratorBitboard.h`, lines 504-603) -/

def northFill (gen pro : Nat) : Nat :=
  let gen := gen ||| (shl gen 8 &&& pro)
  let pro := pro &&& shl pro 8
  let gen := gen ||| (shl gen 16 &&& pro)
  let pro := pro &&& shl pro 16
  let gen := gen ||| (shl gen 32 &&& pro)
  gen

def southFill (gen pro : Nat) : Nat :=
  let gen := gen ||| ((gen >>> 8) &&& pro)
  let pro := pro &&& (pro >>> 8)
  let gen := gen ||| ((gen >>> 16) &&& pro)
  let pro := pro &&& (pro >>> 16)
  let gen := gen ||| ((gen >>> 32) &&& pro)
  gen

def eastFill (gen pro : Nat) : Nat :=
  let pro := pro &&& bnot FILEA
  let gen := gen ||| (shl gen 1 &&& pro)
  let pro := pro &&& shl pro 1
  let gen := gen ||| (shl gen 2 &&& pro)
  let pro := pro &&& shl pro 2
  let gen := gen ||| (shl gen 3 &&& pro)
  gen

def westFill (gen pro : Nat) : Nat :=
  let pro := pro &&& bnot FILEH
  let gen := gen ||| ((gen >>> 1) &&& pro)
  let pro := pro &&& (pro >>> 1)
  let gen := gen ||| ((gen >>> 2) &&& pro)
  let pro := pro &&& (pro >>> 2)
  let gen := gen ||| ((gen >>> 3) &&& pro)
  gen

def northEastFill (gen pro : Nat) : Nat :=
  let pro := pro &&& bnot FILEA
  let gen := gen ||| (shl gen 9 &&& pro)
  let pro := pro &&& shl pro 9
  let gen := gen ||| (shl gen 18 &&& pro)
  let pro := pro &&& shl pro 18
  let gen := gen ||| (shl gen 36 &&& pro)
  gen

def northWestFill (gen pro : Nat) : Nat :=
  let pro := pro &&& bnot FILEH
  let gen := gen ||| (shl gen 7 &&& pro)
  let pro := pro &&& shl pro 7
  let gen := gen ||| (shl gen 14 &&& pro)
  let pro := pro &&& shl pro 14
  let gen := gen ||| (shl gen 28 &&& pro)
  gen

def southEastFill (gen pro : Nat) : Nat :=
  let pro := pro &&& bnot FILEA
  let gen := gen ||| ((gen >>> 7) &&& pro)
  let pro := pro &&& (pro >>> 7)
  let gen := gen ||| ((gen >>> 14) &&& pro)
  let pro := pro &&& (pro >>> 14)
  let gen := gen ||| ((gen >>> 28) &&& pro)
  gen

def southWestFill (gen pro : Nat) : Nat :=
  let pro := pro &&& bnot FILEH
  let gen := gen ||| ((gen >>> 9) &&& pro)
  let pro := pro &&& (pro >>> 9)
  let gen := gen ||| ((gen >>> 18) &&& pro)
  let pro := pro &&& (pro >>> 18)
  let gen := gen ||| ((gen >>> 36) &&& pro)
  gen

/-- The `Between` table as `init` fills it (lines 1012-1019): the pairs with
`i <= j` are computed and mirrored. -/
def BetweenTable (i j : Nat) : Nat :=
  if i ≤ j then squaresInBetween i j else squaresInBetween j i

/-- The store of `calcPerftNFromPerftNminus1_hash128b_deep` (lines 940-953):
the slot is replaced when the old entry is not deeper. -/
def deepStore (hashTable : Nat → HashEntryPerft128b) (hashBits indexBits : Nat)
    (hash : HashKey128b) (perftNminus1 depth : Nat) : Nat → HashEntryPerft128b :=
  let oldEntry := hashTable (hash.lowPart &&& indexBits)
  if oldEntry.depth ≤ depth then
    let newEntry : HashEntryPerft128b :=
      { perftVal := perftNminus1
        hashKey := HashKey128b.mk (hash.lowPart &&& hashBits) hash.highPart
        depth := depth }
    let newEntry := { newEntry with
      hashKey := { newEntry.hashKey with
        lowPart := newEntry.hashKey.lowPart ^^^ newEntry.perftVal } }
    let newEntry := { newEntry with
      hashKey := { newEntry.hashKey with
        highPart := newEntry.hashKey.highPart ^^^ newEntry.perftVal } }
    Function.update hashTable (hash.lowPart &&& indexBits) newEntry
  else hashTable

/-! ## Geometry of the board, stated on files and ranks -/

/-- The kind of line two squares share: 0 a rank, 1 a file, 2 a diagonal
(file and rank grow together), 3 an anti-diagonal, 4 none. -/
def lineKind (a b : Nat) : Nat :=
  if a / 8 = b / 8 then 0
  else if a % 8 = b % 8 then 1
  else if a % 8 + b / 8 = b % 8 + a / 8 then 2
  else if a % 8 + a / 8 = b % 8 + b / 8 then 3
  else 4

/-- Square `t` lies on the line of kind `k` through square `a`. -/
def onLineOfKind (k a t : Nat) : Bool :=
  match k with
  | 0 => t / 8 == a / 8
  | 1 => t % 8 == a % 8
  | 2 => t % 8 + a / 8 == a % 8 + t / 8
  | 3 => t % 8 + t / 8 == a % 8 + a / 8
  | _ => false

/-- The bitboard of the squares below 64 that satisfy `p`. -/
def squareSet (p : Nat → Bool) : Nat :=
  (List.range 64).foldl (fun acc t => if p t then acc ||| 2 ^ t else acc) 0

/-- The squares met strictly after `lo` and strictly before `hi` when walking
from `lo` in steps of `step` squares. -/
def walkBetween (lo hi step : Nat) : Nat :=
  (List.range 6).foldl
    (fun acc j => if lo + (j + 1) * step < hi then acc ||| 2 ^ (lo + (j + 1) * step) else acc) 0

/-- The squares strictly between `a` and `b` when they share a rank, file,
diagonal or anti-diagonal, met by walking from the lower square to the higher
one along the common line (one square east, north, north-east or north-west
at a time); empty otherwise. -/
def betweenSpec (a b : Nat) : Nat :=
  let lo := min a b
  let hi := max a b
  match lineKind lo hi with
  | 0 => walkBetween lo hi 1
  | 1 => walkBetween lo hi 8
  | 2 => walkBetween lo hi 9
  | 3 => walkBetween lo hi 7
  | _ => 0

/-- The complete common line of two squares, edge to edge; 0 when they are
not aligned. -/
def lineSpec (a b : Nat) : Nat :=
  squareSet fun t => onLineOfKind (lineKind a b) a t

/-- The line of kind `k` through square `a`, as a shifted mask. -/
def lineMask (k a : Nat) : Nat :=
  let file := a % 8
  let rank := a / 8
  match k with
  | 0 => shl RANK1 (rank * 8)
  | 1 => shl FILEA file
  | 2 => if file ≤ rank then shl DIAGONAL_A1H8 ((rank - file) * 8)
         else DIAGONAL_A1H8 >>> ((file - rank) * 8)
  | 3 => if 7 ≤ rank + file then shl DIAGONAL_A8H1 ((rank + file - 7) * 8)
         else DIAGONAL_A8H1 >>> ((7 - (rank + file)) * 8)
  | _ => 0

/-! ## Reachability along a shift direction -/

/-- Bit `t` is reached from a generator bit by at most `n` left shifts of `d`, every
square stepped onto satisfying `P`. -/
def reachL (d : Nat) (G P : Nat → Prop) (n t : Nat) : Prop :=
  ∃ k, k ≤ n ∧ k * d ≤ t ∧ G (t - k * d) ∧ ∀ j, j < k → P (t - j * d)

/-- The `b` squares ending at `t`, spaced `d` apart, all satisfy `P`. -/
def runL (d : Nat) (P : Nat → Prop) (b t : Nat) : Prop :=
  ∀ j, j < b → j * d ≤ t ∧ P (t - j * d)

/-- Bit `t` is reached from a generator bit by at most `n` right shifts of `d`, every
square stepped onto satisfying `P`. -/
def reachR (d : Nat) (G P : Nat → Prop) (n t : Nat) : Prop :=
  ∃ k, k ≤ n ∧ G (t + k * d) ∧ ∀ j, j < k → P (t + j * d)

/-- The `b` squares starting at `t`, spaced `d` apart, all satisfy `P`. -/
def runR (d : Nat) (P : Nat → Prop) (b t : Nat) : Prop :=
  ∀ j, j < b → P (t + j * d)

/-! ## Ray specification of fills and sliding attacks -/

/-- Square `t` is the square `k` steps from square `s` in the direction that changes the
file by `df` and the rank by `dr` per step; both squares are on the board, so a ray never
wraps around an edge. -/
def onRay (df dr : Int) (s k t : Nat) : Prop :=
  s < 64 ∧ t < 64 ∧ ((t % 8 : Nat) : Int) = ((s % 8 : Nat) : Int) + (k : Int) * df ∧
    ((t / 8 : Nat) : Int) = ((s / 8 : Nat) : Int) + (k : Int) * dr

instance (df dr : Int) (s k t : Nat) : Decidable (onRay df dr s k t) := by
  unfold onRay; infer_instance

/-- Square `t` is reached from a square `s` of `gen` by `k ≤ n` steps in direction
`(df, dr)`, every square stepped onto (the squares `1 .. k` steps from `s`, `t` included)
lying in `pro`; `k = 0` gives `gen` itself. -/
def reachSpec (df dr : Int) (n gen pro t : Nat) : Prop :=
  ∃ s, s < 64 ∧ ∃ k, k < n + 1 ∧ gen.testBit s = true ∧ onRay df dr s k t ∧
    ∀ j, j < 8 → ∀ q, q < 64 → 1 ≤ j → j ≤ k → onRay df dr s j q → pro.testBit q = true

instance (df dr : Int) (n gen pro t : Nat) : Decidable (reachSpec df dr n gen pro t) := by
  unfold reachSpec; infer_instance

/-- The full reachable set of a fill: no bound on the number of steps other than the
board (a ray has at most seven steps). -/
def fillSpec (df dr : Int) (gen pro t : Nat) : Prop := reachSpec df dr 7 gen pro t

instance (df dr : Int) (gen pro t : Nat) : Decidable (fillSpec df dr gen pro t) := by
  unfold fillSpec; infer_instance

/-- Square `t` is attacked by a slider of `gen` along direction `(df, dr)`: some slider
`s` lies `k ≥ 1` steps before `t` and every square strictly between `s` and `t` is in
`pro` (the set of empty squares); `t` itself may be occupied. -/
def attackSpec (df dr : Int) (gen pro t : Nat) : Prop :=
  ∃ s, s < 64 ∧ ∃ k, k < 8 ∧ 1 ≤ k ∧ gen.testBit s = true ∧ onRay df dr s k t ∧
    ∀ j, j < 8 → ∀ q, q < 64 → 1 ≤ j → j < k → onRay df dr s j q → pro.testBit q = true

instance (df dr : Int) (gen pro t : Nat) : Decidable (attackSpec df dr gen pro t) := by
  unfold attackSpec; infer_instance

/-! ## Step attacks of pawns, knights and kings -/

/-- The two capture directions of a pawn of the given colour. -/
def pawnDirs (color : Bool) : List (Int × Int) :=
  if color = WHITE then [(1, 1), (-1, 1)] else [(1, -1), (-1, -1)]

/-- The eight knight jumps. -/
def knightDirs : List (Int × Int) :=
  [(1, 2), (2, 1), (2, -1), (1, -2), (-1, -2), (-2, -1), (-2, 1), (-1, 2)]

/-- The eight king steps. -/
def kingDirs : List (Int × Int) :=
  [(1, 0), (-1, 0), (0, 1), (0, -1), (1, 1), (-1, 1), (1, -1), (-1, -1)]

/-- The four rook directions and the four bishop directions. -/
def rookDirs : List (Int × Int) := [(0, 1), (0, -1), (1, 0), (-1, 0)]
def bishopDirs : List (Int × Int) := [(1, 1), (-1, 1), (1, -1), (-1, -1)]

/-- Square `t` is one step of one of the offsets `dirs` away from a piece of `gen`,
the step staying on the board. -/
def stepAttackSpec (dirs : List (Int × Int)) (gen t : Nat) : Prop :=
  ∃ s, s < 64 ∧ gen.testBit s = true ∧ ∃ d ∈ dirs, onRay d.1 d.2 s 1 t

instance (dirs : List (Int × Int)) (gen t : Nat) : Decidable (stepAttackSpec dirs gen t) := by
  unfold stepAttackSpec; infer_instance

/-- Square `t` is attacked by a slider of `gen` along one of the directions `dirs`. -/
def slideAttackSpec (dirs : List (Int × Int)) (gen pro t : Nat) : Prop :=
  ∃ d ∈ dirs, attackSpec d.1 d.2 gen pro t

instance (dirs : List (Int × Int)) (gen pro t : Nat) :
    Decidable (slideAttackSpec dirs gen pro t) := by
  unfold slideAttackSpec; infer_instance

/-! ## Pinned pieces -/

/-- Square `p` holds the only piece strictly between square `a` and the square `k` steps
from it in direction `d`. -/
def soleBlocker (d : Int × Int) (a k allPieces p : Nat) : Prop :=
  ∀ i, i < 8 → ∀ q, q < 64 →
    1 ≤ i ∧ i < k ∧ onRay d.1 d.2 a i q ∧ allPieces.testBit q = true → q = p

instance (d : Int × Int) (a k allPieces p : Nat) : Decidable (soleBlocker d a k allPieces p) := by
  unfold soleBlocker; infer_instance

/-- Piece `p` is pinned by a slider of `sliders` along one of the directions `dirs`: some
slider `a` has the king `k` steps away in direction `d`, `p` is an occupied square
strictly between the two, and it is the only occupied square strictly between them. -/
def pinSpec (dirs : List (Int × Int)) (sliders allPieces kingIndex p : Nat) : Prop :=
  ∃ d ∈ dirs, ∃ a, a < 64 ∧ ∃ k, k < 8 ∧ ∃ j, j < 8 ∧ sliders.testBit a = true ∧
    onRay d.1 d.2 a k kingIndex ∧ 1 ≤ j ∧ j < k ∧ onRay d.1 d.2 a j p ∧
    allPieces.testBit p = true ∧ soleBlocker d a k allPieces p

instance (dirs : List (Int × Int)) (sliders allPieces kingIndex p : Nat) :
    Decidable (pinSpec dirs sliders allPieces kingIndex p) := by
  unfold pinSpec; infer_instance

/-! ## The rank test of the en-passant capture -/

/-- With the capturing pawn on square `i` and the captured pawn both taken off the board,
some enemy rook or queen attacks the mover's king along the rank (from the west or from
the east). -/
def epRankAttack (pos : HexaBitBoardPosition) (chance : Bool) (i : Nat) : Prop :=
  ∃ kq, kq < 64 ∧ (pos.kings &&& gmMyPieces pos chance).testBit kq = true ∧
    (attackSpec 1 0 (pos.rookQueens &&& gmEnemyPieces pos chance)
        (bnot (gmAllPieces pos) |||
          enPassentCapturedPieceOf (enPassentTargetOf pos.enPassent chance) chance ||| 2 ^ i) kq ∨
      attackSpec (-1) 0 (pos.rookQueens &&& gmEnemyPieces pos chance)
        (bnot (gmAllPieces pos) |||
          enPassentCapturedPieceOf (enPassentTargetOf pos.enPassent chance) chance ||| 2 ^ i) kq)

instance (pos : HexaBitBoardPosition) (chance : Bool) (i : Nat) :
    Decidable (epRankAttack pos chance i) := by
  unfold epRankAttack; infer_instance

/-- The list `ms2` extends `ms` by moves none of which is an en-passant capture. -/
def addsNoEnPassent (ms ms2 : List CMove) : Prop :=
  (∀ m, m ∈ ms → m ∈ ms2) ∧ ∀ m, m ∈ ms2 → m ∈ ms ∨ m.flags ≠ CM_FLAG_EP_CAPTURE

/-- A sample position with an en-passant capture: white king e1, white pawn e5, black king
e8, black pawn d5 that has just made a double push (en-passant file d). -/
def enPassentSamplePosition : HexaBitBoardPosition :=
  { whitePieces := 2 ^ 4 ||| 2 ^ 36
    pawns := 2 ^ 36 ||| 2 ^ 35
    knights := 0
    bishopQueens := 0
    rookQueens := 0
    kings := 2 ^ 4 ||| 2 ^ 60
    chance := WHITE
    whiteCastle := 0
    blackCastle := 0
    enPassent := 4
    halfMoveCounter := 0 }

/-! ## Castling rights -/

/-- Home corner of the rook of a colour (`true` is black) on a side (0 is the king side,
1 the queen side). -/
def rookHome (black : Bool) (side : Nat) : Nat :=
  if black then (if side = 0 then H8 else A8) else (if side = 0 then H1 else A1)

/-- The castling right of a colour on a side: bit `side` of the colour's two-bit field
(`CASTLE_FLAG_KING_SIDE` is bit 0, `CASTLE_FLAG_QUEEN_SIDE` is bit 1). -/
def castleRight (p : HexaBitBoardPosition) (black : Bool) (side : Nat) : Bool :=
  (if black then p.blackCastle else p.whiteCastle).testBit side

/-- The piece `makeMove` takes as moved: the piece found on the source square, replaced by
the promoted piece for a promotion flag. -/
def movedPiece (pos : HexaBitBoardPosition) (move : CMove) : Nat :=
  promotedPiece move.getFlags (pieceOn pos (BIT move.getFrom) ROOK)

/-- The square of the pawn captured en passant: directly behind the destination, south of
it for a white mover and north of it for a black mover. -/
def epCapturedSquare (move : CMove) (chance : Bool) : Nat :=
  if chance = WHITE then move.getTo - 8 else move.getTo + 8

/-- The squares of a castling move of a colour (`true` is black) on a side (0 is the king
side, 1 the queen side): the king's home, the king's destination and the rook's
destination; the rook's home is `rookHome`. -/
def kingHome (black : Bool) : Nat := if black then E8 else E1

def castleKingTo (black : Bool) (side : Nat) : Nat :=
  if black then (if side = 0 then G8 else C8) else (if side = 0 then G1 else C1)

def castleRookTo (black : Bool) (side : Nat) : Nat :=
  if black then (if side = 0 then F8 else D8) else (if side = 0 then F1 else D1)

def castleMove (black : Bool) (side : Nat) : CMove :=
  CMove.mk (kingHome black) (castleKingTo black side)
    (if side = 0 then CM_FLAG_KING_CASTLE else CM_FLAG_QUEEN_CASTLE)

/-- A sample position in which white may castle king side: white king e1 and rook h1,
black king e8. -/
def castleSamplePosition : HexaBitBoardPosition :=
  { whitePieces := 2 ^ 4 ||| 2 ^ 7
    pawns := 0
    knights := 0
    bishopQueens := 0
    rookQueens := 2 ^ 7
    kings := 2 ^ 4 ||| 2 ^ 60
    chance := WHITE
    whiteCastle := 1
    blackCastle := 0
    enPassent := 0
    halfMoveCounter := 0 }

/-! ## Castling moves in the move list -/

/-- The list `ms2` extends `ms` by moves that all satisfy `Q`. -/
def addsOnly (Q : CMove → Prop) (ms ms2 : List CMove) : Prop :=
  (∀ m, m ∈ ms → m ∈ ms2) ∧ ∀ m, m ∈ ms2 → m ∈ ms ∨ Q m

/-- A move whose flag is neither of the two castling flags. -/
def notCastleMove (m : CMove) : Prop :=
  m.flags ≠ CM_FLAG_KING_CASTLE ∧ m.flags ≠ CM_FLAG_QUEEN_CASTLE

/-- The squares that must be empty and the squares that must not be threatened for a
castling move of a colour (`true` is black) on a side (0 king side, 1 queen side): F and G
(king side) or B, C and D (queen side) empty; E, F, G (king side) or E, D, C (queen side)
not threatened. -/
def castleEmptySquares (black : Bool) (side : Nat) : List Nat :=
  if black then (if side = 0 then [F8, G8] else [57, C8, D8])
  else (if side = 0 then [F1, G1] else [1, C1, D1])

def castleSafeSquares (black : Bool) (side : Nat) : List Nat :=
  if black then (if side = 0 then [E8, F8, G8] else [E8, D8, C8])
  else (if side = 0 then [E1, F1, G1] else [E1, D1, C1])

/-! ## Device memory arena (`perft_bb.h`, lines 104-139) -/

def MEM_ALIGNMENT : Nat := 16

/-- The macro `ALIGN_UP(addr, align)` on a `uint32` address: the sum wraps at
32 bits and the mask is the 32-bit complement of `align - 1`. -/
def ALIGN_UP (addr align : Nat) : Nat :=
  ((addr + align - 1) % 2 ^ 32) &&& ((2 ^ 32 - 1) ^^^ (align - 1))

/-- The function `deviceMalloc` on the counter `preAllocatedMemoryUsed`: the
offset of the returned pointer in the arena and the counter after the call
(`atomicAdd` returns the old value and adds modulo 2^32). -/
def deviceMalloc (preAllocatedMemoryUsed size : Nat) : Nat × Nat :=
  let size := ALIGN_UP size MEM_ALIGNMENT
  let startOffset := preAllocatedMemoryUsed
  let preAllocatedMemoryUsed := (preAllocatedMemoryUsed + size) % 2 ^ 32
  (startOffset, preAllocatedMemoryUsed)

/-- Successive calls of `deviceMalloc`: the offsets returned, in call order,
and the counter after the last call. -/
def deviceMallocs : Nat → List Nat → List Nat × Nat
  | used, [] => ([], used)
  | used, size :: rest =>
    let r := deviceMalloc used size
    let rs := deviceMallocs r.2 rest
    (r.1 :: rs.1, rs.2)

/-- A size rounded up to the next multiple of 16. -/
def roundUp16 (size : Nat) : Nat := 16 * ((size + 15) / 16)

/-! ## Stores of the deep table in the launcher (`perft_bb.h`, lines 1657-1683) -/

/-- The store of `perft_bb_gpu_launcher_hash` (lines 1664-1681) for one child
with hash `posHash128b` and count `perft`; `hashTableNonNull` is the test
`hashTable` of the condition. -/
def launcherStore (hashTableNonNull : Bool) (hashTable : Nat → HashEntryPerft128b)
    (hashBits indexBits : Nat) (posHash128b : HashKey128b) (perft : Nat) (depth : Int) :
    Nat → HashEntryPerft128b :=
  let oldEntry := hashTable (posHash128b.lowPart &&& indexBits)
  if hashTableNonNull = true ∧ (oldEntry.depth : Int) ≤ depth - 1 then
    let newEntry : HashEntryPerft128b :=
      { perftVal := perft
        hashKey := HashKey128b.mk (posHash128b.lowPart &&& hashBits) posHash128b.highPart
        depth := (depth - 1).toNat }
    let newEntry := { newEntry with
      hashKey := { newEntry.hashKey with
        lowPart := newEntry.hashKey.lowPart ^^^ newEntry.perftVal } }
    let newEntry := { newEntry with
      hashKey := { newEntry.hashKey with
        highPart := newEntry.hashKey.highPart ^^^ newEntry.perftVal } }
    Function.update hashTable (posHash128b.lowPart &&& indexBits) newEntry
  else hashTable

/-! ## Folding the counts of a level into the parents (`perft_bb.h`, lines 855-961) -/

/-- One thread of `calcPerftNFromPerftNminus1_hash128b`: the parents' counters
(of `w` bits, the template type `PT`) and the shallow table after the thread
ran. `findDuplicates` is the switch `FIND_DUPLICATES_IN_BFS`. -/
def calcPerftNFromPerftNminus1_hash128b (findDuplicates : Bool) (w : Nat)
    (perftNCounters : Nat → Nat) (indices : Nat → Nat) (perftNminus1Counters : Nat → Nat)
    (hashes : Nat → HashKey128b) (hashTable : Nat → HashKey128b) (hashBits indexBits : Nat)
    (nThreads index : Nat) : (Nat → Nat) × (Nat → HashKey128b) :=
  if index < nThreads then
    let hash := hashes index
    if hash.highPart ≠ 0 then
      let perftNminus1 := perftNminus1Counters index
      if findDuplicates = true ∧ hash.highPart = ALLSET then
        let perftNminus1 := perftNminus1Counters perftNminus1
        (Function.update perftNCounters (indices index)
          ((perftNCounters (indices index) + perftNminus1) % 2 ^ w), hashTable)
      else
        (Function.update perftNCounters (indices index)
          ((perftNCounters (indices index) + perftNminus1) % 2 ^ w),
         shallowStore hashTable hashBits indexBits hash perftNminus1)
    else (perftNCounters, hashTable)
  else (perftNCounters, hashTable)

/-- One thread of `calcPerftNFromPerftNminus1_hash128b_deep`: the parents'
64-bit counters and the deep table after the thread ran. -/
def calcPerftNFromPerftNminus1_hash128b_deep (findDuplicates : Bool)
    (perftNCounters : Nat → Nat) (indices : Nat → Nat) (perftNminus1Counters : Nat → Nat)
    (hashes : Nat → HashKey128b) (hashTable : Nat → HashEntryPerft128b)
    (hashBits indexBits : Nat) (nThreads index : Nat) (depth : Nat) :
    (Nat → Nat) × (Nat → HashEntryPerft128b) :=
  if index < nThreads then
    let hash := hashes index
    if hash.highPart ≠ 0 then
      let perftNminus1 := perftNminus1Counters index
      if findDuplicates = true ∧ hash.highPart = ALLSET then
        let perftNminus1 := perftNminus1Counters perftNminus1
        (Function.update perftNCounters (indices index)
          ((perftNCounters (indices index) + perftNminus1) % 2 ^ 64), hashTable)
      else
        (Function.update perftNCounters (indices index)
          ((perftNCounters (indices index) + perftNminus1) % 2 ^ 64),
         deepStore hashTable hashBits indexBits hash perftNminus1 depth)
    else (perftNCounters, hashTable)
  else (perftNCounters, hashTable)



/-! ## makeMove over a 128-bit hash (`MoveGeneratorBitboard.h`, lines 3577-3836) -/

/-- Modelled from the spec: the operator `^=` of `HashKey128b` in the absent
`chess.h`, the XOR of the two words. -/
def HashKey128b.xor (a b : HashKey128b) : HashKey128b :=
  HashKey128b.mk (a.lowPart ^^^ b.lowPart) (a.highPart ^^^ b.highPart)

instance : Xor HashKey128b := ⟨HashKey128b.xor⟩

/-- The macro `ZOB_KEY_128(x)` (line 3308): the constant `x` of the first
table `zob` in the low part and of the second table `zob2` in the high part. -/
def ZOB_KEY_128 (zob zob2 : ZobristRandoms) (x : ZobristRandoms → Nat) : HashKey128b :=
  HashKey128b.mk (x zob) (x zob2)

/-- The castling-right and en-passant terms of the 128-bit hash (lines
3650-3665 and 3818-3833). -/
def stateKey128b (zob zob2 : ZobristRandoms) (pos : HexaBitBoardPosition)
    (hash : HashKey128b) : HashKey128b :=
  let hash := if pos.whiteCastle &&& CASTLE_FLAG_KING_SIDE ≠ 0 then
    hash ^^^ ZOB_KEY_128 zob zob2 (fun z => z.castlingRights WHITE 0) else hash
  let hash := if pos.whiteCastle &&& CASTLE_FLAG_QUEEN_SIDE ≠ 0 then
    hash ^^^ ZOB_KEY_128 zob zob2 (fun z => z.castlingRights WHITE 1) else hash
  let hash := if pos.blackCastle &&& CASTLE_FLAG_KING_SIDE ≠ 0 then
    hash ^^^ ZOB_KEY_128 zob zob2 (fun z => z.castlingRights BLACK 0) else hash
  let hash := if pos.blackCastle &&& CASTLE_FLAG_QUEEN_SIDE ≠ 0 then
    hash ^^^ ZOB_KEY_128 zob zob2 (fun z => z.castlingRights BLACK 1) else hash
  if pos.enPassent ≠ 0 then
    hash ^^^ ZOB_KEY_128 zob zob2 (fun z => z.enPassentTarget (pos.enPassent - 1))
  else hash

/-- The function `makeMove` over a `HashKey128b` hash. -/
def makeMove128b (sw : Switches) (zob zob2 : ZobristRandoms) (pos : HexaBitBoardPosition)
    (hash : HashKey128b) (move : CMove) (chance : Bool) (updateHash : Bool) :
    HexaBitBoardPosition × HashKey128b :=
  let src := BIT move.getFrom
  let dst := BIT move.getTo
  let queens := pos.bishopQueens &&& pos.rookQueens
  let piece := pieceOn pos src ROOK
  let hash := if updateHash then
    hash ^^^ ZOB_KEY_128 zob zob2 (fun z => z.pieces chance (piece - 1) move.getFrom)
    else hash
  let piece := promotedPiece move.getFlags piece
  let hash :=
    if updateHash then
      let dstPiece :=
        if pos.kings &&& dst ≠ 0 then KING
        else if pos.knights &&& dst ≠ 0 then KNIGHT
        else if (pos.pawns &&& RANKS2TO7) &&& dst ≠ 0 then PAWN
        else if queens &&& dst ≠ 0 then QUEEN
        else if pos.bishopQueens &&& dst ≠ 0 then BISHOP
        else if pos.rookQueens &&& dst ≠ 0 then ROOK
        else 0
      let hash := if dstPiece ≠ 0 then
        hash ^^^ ZOB_KEY_128 zob zob2 (fun z => z.pieces (!chance) (dstPiece - 1) move.getTo)
        else hash
      let hash := hash ^^^ ZOB_KEY_128 zob zob2 (fun z => z.pieces chance (piece - 1) move.getTo)
      let hash := hash ^^^ ZOB_KEY_128 zob zob2 (fun z => z.chance)
      stateKey128b zob zob2 pos hash
    else hash
  let pos := mmClear pos src dst
  let pos := mmPut pos piece dst chance
  let pos := mmColor pos src dst chance
  let enPassentCapturedPiece := if chance = WHITE then southOne dst else northOne dst
  let hash :=
    if move.getFlags = CM_FLAG_EP_CAPTURE ∧ updateHash = true then
      hash ^^^ ZOB_KEY_128 zob zob2
        (fun z => z.pieces (!chance) ZOB_INDEX_PAWN (bitScan enPassentCapturedPiece))
    else hash
  let pos := mmEnPassent pos move.getFlags dst chance
  let hash :=
    if updateHash then
      if chance = WHITE then
        if move.getFlags = CM_FLAG_KING_CASTLE then
          (hash ^^^ ZOB_KEY_128 zob zob2 (fun z => z.pieces chance ZOB_INDEX_ROOK H1)) ^^^
            ZOB_KEY_128 zob zob2 (fun z => z.pieces chance ZOB_INDEX_ROOK F1)
        else if move.getFlags = CM_FLAG_QUEEN_CASTLE then
          (hash ^^^ ZOB_KEY_128 zob zob2 (fun z => z.pieces chance ZOB_INDEX_ROOK A1)) ^^^
            ZOB_KEY_128 zob zob2 (fun z => z.pieces chance ZOB_INDEX_ROOK D1)
        else hash
      else
        if move.getFlags = CM_FLAG_KING_CASTLE then
          (hash ^^^ ZOB_KEY_128 zob zob2 (fun z => z.pieces chance ZOB_INDEX_ROOK H8)) ^^^
            ZOB_KEY_128 zob zob2 (fun z => z.pieces chance ZOB_INDEX_ROOK F8)
        else if move.getFlags = CM_FLAG_QUEEN_CASTLE then
          (hash ^^^ ZOB_KEY_128 zob zob2 (fun z => z.pieces chance ZOB_INDEX_ROOK A8)) ^^^
            ZOB_KEY_128 zob zob2 (fun z => z.pieces chance ZOB_INDEX_ROOK D8)
        else hash
    else hash
  let pos := mmCastle pos move.getFlags chance
  let pos := mmRights pos piece src dst chance
  let pos := mmDoublePush sw pos move dst chance
  let hash := if updateHash then stateKey128b zob zob2 pos hash else hash
  (pos, hash)

/-- The function `computeZobristKey128b` (lines 3914-3980). -/
def computeZobristKey128b (zob zob2 : ZobristRandoms) (pos : HexaBitBoardPosition) :
    HashKey128b :=
  let key : HashKey128b := HashKey128b.mk 0 0
  let key := if pos.chance = WHITE then key ^^^ ZOB_KEY_128 zob zob2 (fun z => z.chance)
    else key
  let key := stateKey128b zob zob2 pos key
  let allPawns := pos.pawns &&& RANKS2TO7
  let allPieces := pos.kings ||| allPawns ||| pos.knights ||| pos.bishopQueens |||
    pos.rookQueens
  forBits allPieces (fun piece key =>
    let square := bitScan piece
    let color : Bool := !(decide (piece &&& pos.whitePieces ≠ 0))
    if piece &&& allPawns ≠ 0 then
      key ^^^ ZOB_KEY_128 zob zob2 (fun z => z.pieces color ZOB_INDEX_PAWN square)
    else if piece &&& pos.kings ≠ 0 then
      key ^^^ ZOB_KEY_128 zob zob2 (fun z => z.pieces color ZOB_INDEX_KING square)
    else if piece &&& pos.knights ≠ 0 then
      key ^^^ ZOB_KEY_128 zob zob2 (fun z => z.pieces color ZOB_INDEX_KNIGHT square)
    else if piece &&& pos.rookQueens &&& pos.bishopQueens ≠ 0 then
      key ^^^ ZOB_KEY_128 zob zob2 (fun z => z.pieces color ZOB_INDEX_QUEEN square)
    else if piece &&& pos.rookQueens ≠ 0 then
      key ^^^ ZOB_KEY_128 zob zob2 (fun z => z.pieces color ZOB_INDEX_ROOK square)
    else if piece &&& pos.bishopQueens ≠ 0 then
      key ^^^ ZOB_KEY_128 zob zob2 (fun z => z.pieces color ZOB_INDEX_BISHOP square)
    else key) key

/-- The wrapper `makeMoveAndUpdateHash` of `perft_bb.h` (lines 160-176). -/
def makeMoveAndUpdateHash (sw : Switches) (zob zob2 : ZobristRandoms)
    (pos : HexaBitBoardPosition) (hash : HashKey128b) (move : CMove) (chance : Bool) :
    HexaBitBoardPosition × HashKey128b :=
  makeMove128b sw zob zob2 pos hash move chance true

/-- A Zobrist table with a different constant for every key, for evaluating the
hashes on concrete inputs. -/
def sampleZobrist (seed : Nat) : ZobristRandoms :=
  { pieces := fun c p s => seed + 1000 * (if c then 1 else 2) + 64 * p + s
    castlingRights := fun c i => 7 * seed + 2 * (if c then 1 else 2) + i
    enPassentTarget := fun f => 11 * seed + f
    chance := 13 * seed + 5
    depth := 0 }


/-! ## Expansion kernels with a table probe (`perft_bb.h`, lines 662-787, 983-996) -/

/-- The arrays one expansion thread writes. -/
structure ExpansionArrays where
  parentCounters : Nat → Nat
  outPositions : Nat → HexaBitBoardPosition
  outHashes : Nat → HashKey128b
  moveCounts : Nat → Nat
  perftCountersCurrentDepth : Nat → Nat

/-- One thread of `makemove_and_count_moves_single_level_hash128b`; the
counters of the parents have `w` bits (the template type `PT`), `atomicAdd`
adds modulo `2 ^ w`. -/
def makemove_and_count_moves_single_level_hash128b (sw : Switches)
    (zob zob2 : ZobristRandoms) (w : Nat)
    (parentBoards : Nat → HexaBitBoardPosition) (parentHashes : Nat → HashKey128b)
    (indices : Nat → Nat) (moves : Nat → CMove)
    (hashTable : Nat → HashKey128b) (hashBits indexBits : Nat)
    (arrays : ExpansionArrays) (nThreads index : Nat) : ExpansionArrays :=
  let nMoves : Nat := 0
  if index < nThreads then
    let parentIndex := indices index
    let pos := parentBoards parentIndex
    let hash := parentHashes parentIndex
    let move := moves index
    let color := pos.chance
    let r := makeMoveAndUpdateHash sw zob zob2 pos hash move color
    let pos := r.1
    let hash := r.2
    let entry := hashTable (hash.lowPart &&& indexBits)
    let entry := { entry with highPart := entry.highPart ^^^ entry.lowPart }
    let hit := entry.highPart = hash.highPart ∧
      entry.lowPart &&& hashBits = hash.lowPart &&& hashBits
    let perftFromHash := (entry.lowPart &&& indexBits) % 2 ^ 32
    let parentCounters := if hit then
      Function.update arrays.parentCounters parentIndex
        ((arrays.parentCounters parentIndex + perftFromHash) % 2 ^ w)
      else arrays.parentCounters
    let pos := if hit then { pos with whitePieces := 0 } else pos
    let hash := if hit then { hash with highPart := 0 } else hash
    let nMoves := if hit then nMoves else countMoves pos (!color)
    { parentCounters := parentCounters
      outPositions := Function.update arrays.outPositions index pos
      outHashes := Function.update arrays.outHashes index hash
      moveCounts := Function.update arrays.moveCounts index nMoves
      perftCountersCurrentDepth := Function.update arrays.perftCountersCurrentDepth index 0 }
  else arrays

/-- One thread of `makemove_and_count_moves_single_level_hash128b_deep`. -/
def makemove_and_count_moves_single_level_hash128b_deep (sw : Switches)
    (zob zob2 : ZobristRandoms)
    (parentBoards : Nat → HexaBitBoardPosition) (parentHashes : Nat → HashKey128b)
    (indices : Nat → Nat) (moves : Nat → CMove)
    (hashTable : Nat → HashEntryPerft128b) (hashBits indexBits : Nat)
    (arrays : ExpansionArrays) (nThreads index : Nat) (depth : Int) : ExpansionArrays :=
  let nMoves : Nat := 0
  if index < nThreads then
    let parentIndex := indices index
    let pos := parentBoards parentIndex
    let hash := parentHashes parentIndex
    let move := moves index
    let color := pos.chance
    let r := makeMoveAndUpdateHash sw zob zob2 pos hash move color
    let pos := r.1
    let hash := r.2
    let entry := hashTable (hash.lowPart &&& indexBits)
    let entry := { entry with
      hashKey := { entry.hashKey with highPart := entry.hashKey.highPart ^^^ entry.perftVal } }
    let entry := { entry with
      hashKey := { entry.hashKey with lowPart := entry.hashKey.lowPart ^^^ entry.perftVal } }
    let hit := entry.hashKey.highPart = hash.highPart ∧
      entry.hashKey.lowPart &&& hashBits = hash.lowPart &&& hashBits ∧
      (entry.depth : Int) = depth
    let parentCounters := if hit then
      Function.update arrays.parentCounters parentIndex
        ((arrays.parentCounters parentIndex + entry.perftVal) % 2 ^ 64)
      else arrays.parentCounters
    let pos := if hit then { pos with whitePieces := 0 } else pos
    let hash := if hit then { hash with highPart := 0 } else hash
    let nMoves := if hit then nMoves else countMoves pos (!color)
    { parentCounters := parentCounters
      outPositions := Function.update arrays.outPositions index pos
      outHashes := Function.update arrays.outHashes index hash
      moveCounts := Function.update arrays.moveCounts index nMoves
      perftCountersCurrentDepth := Function.update arrays.perftCountersCurrentDepth index 0 }
  else arrays

/-- One thread of `generate_moves_single_level`: the moves it writes at
`generatedMovesBase + moveListIndex[index]`. -/
def generate_moves_single_level (sw : Switches) (positions : Nat → HexaBitBoardPosition)
    (nThreads index : Nat) : List CMove :=
  let pos := positions index
  let color := pos.chance
  if index < nThreads ∧ pos.whitePieces ≠ 0 then generateMoves sw pos color else []


/-- The store loop of `perft_bb_gpu_launcher_hash` (lines 1657-1683) over the
hashes and counts of the new boards. -/
def launcherStoreLoop (hashTableNonNull : Bool) (hashTable : Nat → HashEntryPerft128b)
    (hashBits indexBits : Nat) (entries : List (HashKey128b × Nat)) (depth : Int) :
    Nat → HashEntryPerft128b :=
  entries.foldl
    (fun t e => launcherStore hashTableNonNull t hashBits indexBits e.1 e.2 depth) hashTable

/-- Arrays of a level before the expansion threads ran. -/
def emptyArrays : ExpansionArrays :=
  { parentCounters := fun _ => 0
    outPositions := fun _ => startingPosition
    outHashes := fun _ => HashKey128b.mk 0 0
    moveCounts := fun _ => 0
    perftCountersCurrentDepth := fun _ => 0 }


/-- A shallow table in which every slot caches the count 20 for the successor
of the starting position after e2-e4, hashed with the two sample tables. -/
def sampleShallowTable : Nat → HashKey128b :=
  shallowStore (fun _ => HashKey128b.mk 0 0) 0xFFFFFFFFFF000000 0xFFFFFF
    (makeMoveAndUpdateHash (Switches.mk false false) (sampleZobrist 1) (sampleZobrist 2)
      startingPosition
      (computeZobristKey128b (sampleZobrist 1) (sampleZobrist 2) startingPosition)
      (CMove.mk 12 28 CM_FLAG_DOUBLE_PAWN_PUSH) WHITE).2 20

/-- The first loop of `perft_bb_gpu_simple_hash` (lines 1297-1302) after `i`
rounds: the entries written to `moveListOffsetsRoot` and `nextLevelCount`. -/
def rootOffsetsLoop (positions : Nat → HexaBitBoardPosition) (color : Bool) :
    Nat → List Nat × Nat
  | 0 => ([], 0)
  | i + 1 =>
    let r := rootOffsetsLoop positions color i
    let nMoves := countMoves (positions i) color
    (r.1 ++ [r.2], r.2 + nMoves)

/-- The array `moveListOffsetsRoot` of `1 + count` entries after line 1303, with
`nextLevelCount`. -/
def moveListOffsetsRoot (MAX_MOVES : Nat) (positions : Nat → HexaBitBoardPosition)
    (count : Nat) : List Nat × Nat :=
  let color := (positions 0).chance
  let r := rootOffsetsLoop positions color count
  (r.1 ++ [MAX_MOVES * MAX_MOVES], r.2)

/-- The loop `while (i >= moveListOffsetsRoot[rootPointer + 1]) rootPointer++`
(lines 1327-1328): `none` when an entry outside the array is read or the fuel
runs out. -/
def advanceRootPointer (root : List Nat) (i : Nat) : Nat → Nat → Option Nat
  | 0, _ => none
  | fuel + 1, rootPointer =>
    match root.get? (rootPointer + 1) with
    | none => none
    | some v =>
      if i ≥ v then advanceRootPointer root i fuel (rootPointer + 1) else some rootPointer

/-- The loop of lines 1324-1331 after `i` rounds: the entries written to
`moveListOffsets` and `rootPointer`. -/
def parentIndexLoop (root : List Nat) : Nat → Option (List Nat × Nat)
  | 0 => some ([], 0)
  | i + 1 =>
    match parentIndexLoop root i with
    | none => none
    | some r =>
      match advanceRootPointer root i root.length r.2 with
      | none => none
      | some rootPointer => some (r.1 ++ [rootPointer], rootPointer)

/-- The array `moveListOffsets` of the first level in `perft_bb_gpu_simple_hash`
(lines 1293-1331); the routine returns before it when there is no move. -/
def rootParentIndices (MAX_MOVES : Nat) (positions : Nat → HexaBitBoardPosition)
    (count : Nat) : Option (List Nat) :=
  let r := moveListOffsetsRoot MAX_MOVES positions count
  if r.2 = 0 then some []
  else (parentIndexLoop r.1 r.2).map Prod.fst

/-- The number of moves of the roots before root `r`, all taken with the colour
of the first root. -/
def rootPrefix (positions : Nat → HexaBitBoardPosition) (r : Nat) : Nat :=
  ((List.range r).map (fun j => countMoves (positions j) (positions 0).chance)).sum

def CENTRAL_SQUARES : Nat := 0x007E7E7E7E7E7E00

/-- The entry `RookAttacksMasked[square]` as `init` computes it (lines
1029-1044). -/
def RookAttacksMasked (square : Nat) : Nat :=
  let thisSquare := BIT square
  let mask := sqRookAttacks square &&& bnot thisSquare
  let mask := if thisSquare &&& RANK1 = 0 then mask &&& bnot RANK1 else mask
  let mask := if thisSquare &&& RANK8 = 0 then mask &&& bnot RANK8 else mask
  let mask := if thisSquare &&& FILEA = 0 then mask &&& bnot FILEA else mask
  let mask := if thisSquare &&& FILEH = 0 then mask &&& bnot FILEH else mask
  mask

/-- The entry `BishopAttacksMasked[square]` as `init` computes it (lines
1046-1047). -/
def BishopAttacksMasked (square : Nat) : Nat :=
  let thisSquare := BIT square
  sqBishopAttacks square &&& bnot thisSquare &&& CENTRAL_SQUARES

/-- Square `q` lies on a rank or file ray from `sq`, strictly beyond `sq`, and
the ray goes on for at least one more square after `q`. -/
def rookRelevant (sq q : Nat) : Bool :=
  (decide (q / 8 = sq / 8) && decide (q ≠ sq) &&
    (decide (sq % 8 < q % 8) && decide (q % 8 < 7) ||
     decide (q % 8 < sq % 8) && decide (0 < q % 8))) ||
  (decide (q % 8 = sq % 8) && decide (q ≠ sq) &&
    (decide (sq / 8 < q / 8) && decide (q / 8 < 7) ||
     decide (q / 8 < sq / 8) && decide (0 < q / 8)))

/-- Square `q` lies on a diagonal ray from `sq`, strictly beyond `sq`, and is
not on the edge of the board. -/
def bishopRelevant (sq q : Nat) : Bool :=
  decide (q ≠ sq) &&
  (decide (q % 8 + sq / 8 = sq % 8 + q / 8) || decide (q % 8 + q / 8 = sq % 8 + sq / 8)) &&
  decide (0 < q % 8) && decide (q % 8 < 7) && decide (0 < q / 8) && decide (q / 8 < 7)


/-! ## The attackers of a king in check (lines 2281-2300) -/

/-- The set `attackers` of `generateMovesOutOfCheck` (lines 2281-2300; the
same lines open `countMovesOutOfCheck` and `generateBoardsOutOfCheck`). -/
def checkAttackers (pos : HexaBitBoardPosition) (allPawns allPieces myPieces enemyPieces : Nat)
    (chance : Bool) : Nat :=
  let king := pos.kings &&& myPieces
  let attackers : Nat := 0
  let enemyPawns := allPawns &&& enemyPieces
  let attackers := attackers |||
    ((if chance = WHITE then northEastOne king ||| northWestOne king
      else southEastOne king ||| southWestOne king) &&& enemyPawns)
  let enemyKnights := pos.knights &&& enemyPieces
  let attackers := attackers ||| (knightAttacks king &&& enemyKnights)
  let enemyBishops := pos.bishopQueens &&& enemyPieces
  let attackers := attackers ||| (bishopAttacks king (bnot allPieces) &&& enemyBishops)
  let enemyRooks := pos.rookQueens &&& enemyPieces
  let attackers := attackers ||| (rookAttacks king (bnot allPieces) &&& enemyRooks)
  attackers

/-- The attackers as the out-of-check routine computes them when `generateMoves`
calls it. -/
def gmAttackers (pos : HexaBitBoardPosition) (chance : Bool) : Nat :=
  checkAttackers pos (gmAllPawns pos) (gmAllPieces pos) (gmMyPieces pos chance)
    (gmEnemyPieces pos chance) chance

/-- A position with the white king on e1 in check by a black rook on e8, the
black king on a8. -/
def rookCheckPosition : HexaBitBoardPosition :=
  { whitePieces := BIT 4
    pawns := 0
    knights := 0
    bishopQueens := 0
    rookQueens := BIT 60
    kings := BIT 4 ||| BIT 56
    chance := WHITE
    whiteCastle := 0
    blackCastle := 0
    enPassent := 0
    halfMoveCounter := 0 }

/-! ## Comparing `generateBoards` with `makeMove` -/

/-- En-passant captures counted by `countMoves`. -/
def cntEnPassent (enPassentTarget myPawns allPieces enemyRooks myKing pinned kingIndex : Nat)
    (chance : Bool) (nMoves : Nat) : Nat :=
  if enPassentTarget ≠ 0 then
    let enPassentCapturedPiece :=
      if chance = WHITE then southOne enPassentTarget else northOne enPassentTarget
    let epSources :=
      (eastOne enPassentCapturedPiece ||| westOne enPassentCapturedPiece) &&& myPawns
    forBits epSources (fun pawn n =>
      if pawn &&& pinned ≠ 0 then
        let line := sqsInLine (bitScan pawn) kingIndex
        if enPassentTarget &&& line ≠ 0 then n + 1 else n
      else
        let propogator := bnot allPieces ||| enPassentCapturedPiece ||| pawn
        let causesCheck :=
          (eastAttacks enemyRooks propogator ||| westAttacks enemyRooks propogator) &&&
            myKing
        if causesCheck = 0 then n + 1 else n) nMoves
  else nMoves

/-- Moves of the pinned pawns counted by `countMoves`. -/
def cntPinnedPawns (myPawns allPieces enemyPieces pinned kingIndex : Nat) (chance : Bool)
    (nMoves : Nat) : Nat :=
  let checkingRankDoublePush := shl RANK3 (chance.toNat * 24)
  let pinnedPawns := myPawns &&& pinned
  forBits pinnedPawns (fun pawn n =>
    let pawnIndex := bitScan pawn
    let line := sqsInLine pawnIndex kingIndex
    let dst := (if chance = WHITE then northOne pawn else southOne pawn) &&& line &&&
      bnot allPieces
    let n :=
      if dst ≠ 0 then
        let n := n + 1
        let dst := (if chance = WHITE then northOne (dst &&& checkingRankDoublePush)
          else southOne (dst &&& checkingRankDoublePush)) &&& bnot allPieces
        if dst ≠ 0 then n + 1 else n
      else n
    let dst := (if chance = WHITE then northWestOne pawn else southWestOne pawn) &&& line
    let dst := dst ||| ((if chance = WHITE then northEastOne pawn else southEastOne pawn) &&&
      line)
    if dst &&& enemyPieces ≠ 0 then
      if dst &&& (RANK1 ||| RANK8) ≠ 0 then n + 4 else n + 1
    else n) nMoves

/-- Moves of the pawns that are not pinned, counted set-wise by `countMoves`. -/
def cntPawns (myPawns allPieces enemyPieces pinned : Nat) (chance : Bool) (nMoves : Nat) :
    Nat :=
  let checkingRankDoublePush := shl RANK3 (chance.toNat * 24)
  let myPawns := myPawns &&& bnot pinned
  let dsts := (if chance = WHITE then northOne myPawns else southOne myPawns) &&&
    bnot allPieces
  let nMoves := nMoves + popCount dsts
  let promotions := dsts &&& (RANK1 ||| RANK8)
  let nMoves := nMoves + 3 * popCount promotions
  let dsts := (if chance = WHITE then northOne (dsts &&& checkingRankDoublePush)
    else southOne (dsts &&& checkingRankDoublePush)) &&& bnot allPieces
  let nMoves := nMoves + popCount dsts
  let dsts := (if chance = WHITE then northWestOne myPawns else southWestOne myPawns) &&&
    enemyPieces
  let nMoves := nMoves + popCount dsts
  let promotions := dsts &&& (RANK1 ||| RANK8)
  let nMoves := nMoves + 3 * popCount promotions
  let dsts := (if chance = WHITE then northEastOne myPawns else southEastOne myPawns) &&&
    enemyPieces
  let nMoves := nMoves + popCount dsts
  let promotions := dsts &&& (RANK1 ||| RANK8)
  let nMoves := nMoves + 3 * popCount promotions
  nMoves

/-- Castling moves counted by `countMoves`. -/
def cntCastle (pos : HexaBitBoardPosition) (allPieces threatened : Nat) (chance : Bool)
    (nMoves : Nat) : Nat :=
  if chance = WHITE then
    let nMoves :=
      if pos.whiteCastle &&& CASTLE_FLAG_KING_SIDE ≠ 0 ∧ F1G1 &&& allPieces = 0 ∧
          F1G1 &&& threatened = 0 then nMoves + 1
      else nMoves
    if pos.whiteCastle &&& CASTLE_FLAG_QUEEN_SIDE ≠ 0 ∧ B1D1 &&& allPieces = 0 ∧
        C1D1 &&& threatened = 0 then nMoves + 1
    else nMoves
  else
    let nMoves :=
      if pos.blackCastle &&& CASTLE_FLAG_KING_SIDE ≠ 0 ∧ F8G8 &&& allPieces = 0 ∧
          F8G8 &&& threatened = 0 then nMoves + 1
      else nMoves
    if pos.blackCastle &&& CASTLE_FLAG_QUEEN_SIDE ≠ 0 ∧ B8D8 &&& allPieces = 0 ∧
        C8D8 &&& threatened = 0 then nMoves + 1
    else nMoves

/-- King, knight and slider moves counted by `countMoves`. -/
def cntPieces (pos : HexaBitBoardPosition) (allPieces myPieces pinned threatened
    kingIndex : Nat) (nMoves : Nat) : Nat :=
  let myKing := pos.kings &&& myPieces
  let kingMoves := kingAttacks myKing
  let kingMoves := kingMoves &&& bnot (threatened ||| myPieces)
  let nMoves := nMoves + popCount kingMoves
  let myKnights := (pos.knights &&& myPieces) &&& bnot pinned
  let nMoves := forBits myKnights (fun knight n =>
    let knightMoves := knightAttacks knight &&& bnot myPieces
    n + popCount knightMoves) nMoves
  let myBishops := pos.bishopQueens &&& myPieces
  let bishops := myBishops &&& pinned
  let nMoves := forBits bishops (fun bishop n =>
    let bishopMoves := bishopAttacks bishop (bnot allPieces) &&& bnot myPieces
    let bishopMoves := bishopMoves &&& sqsInLine (bitScan bishop) kingIndex
    n + popCount bishopMoves) nMoves
  let bishops := myBishops &&& bnot pinned
  let nMoves := forBits bishops (fun bishop n =>
    let bishopMoves := bishopAttacks bishop (bnot allPieces) &&& bnot myPieces
    n + popCount bishopMoves) nMoves
  let myRooks := pos.rookQueens &&& myPieces
  let rooks := myRooks &&& pinned
  let nMoves := forBits rooks (fun rook n =>
    let rookMoves := rookAttacks rook (bnot allPieces) &&& bnot myPieces
    let rookMoves := rookMoves &&& sqsInLine (bitScan rook) kingIndex
    n + popCount rookMoves) nMoves
  let rooks := myRooks &&& bnot pinned
  let nMoves := forBits rooks (fun rook n =>
    let rookMoves := rookAttacks rook (bnot allPieces) &&& bnot myPieces
    n + popCount rookMoves) nMoves
  nMoves

/-- The function `F` on bitboards moves every square `s` of its argument to the square `t`
with `R s t`, or drops it: `R` relates a square to at most one square, and no two squares
to the same one. -/
def BitMap (F : Nat → Nat) (R : Nat → Nat → Prop) : Prop :=
  (∀ S, S < 2 ^ 64 → ∀ t, (F S).testBit t = true ↔ ∃ s, s < 64 ∧ S.testBit s = true ∧ R s t) ∧
  (∀ s t u, R s t → R s u → t = u) ∧
  (∀ s r t, R s t → R r t → s = r) ∧
  (∀ s t, R s t → t < 64)

/-! ## Sample positions for check evasion and pins -/

/-- White king e1, a white rook on e2 pinned by a black rook on e8, the black king on
a8. -/
def pinnedRookPosition : HexaBitBoardPosition :=
  { whitePieces := BIT 4 ||| BIT 12
    pawns := 0
    knights := 0
    bishopQueens := 0
    rookQueens := BIT 12 ||| BIT 60
    kings := BIT 4 ||| BIT 56
    chance := WHITE
    whiteCastle := 0
    blackCastle := 0
    enPassent := 0
    halfMoveCounter := 0 }

/-! ## The squares a move changes -/

/-- The piece sets a piece of a type belongs to, in the order of `setsAt`: kings, knights,
pawns, bishopQueens, rookQueens; a queen belongs to the last two. -/
def setsOfPiece (piece : Nat) : List Bool :=
  [decide (piece = KING), decide (piece = KNIGHT), decide (piece = PAWN),
   decide (piece = BISHOP ∨ piece = QUEEN), decide (piece = ROOK ∨ piece = QUEEN)]

/-- The shape of a move of `generateMoves`: both squares on the board and different, a
castling flag only on the king's castling move with the rook's destination empty, the
en-passant flag only onto the en-passant target, a move that does not start on a king,
knight, bishop, rook or queen square or on the king's home square promotes, captures en
passant or ends on ranks 2 to 7, every move but castling starts on a square of the mover,
a promotion starts on a pawn, and a castling move has its castling right and an empty
rook destination. -/
def moveShape (pos : HexaBitBoardPosition) (chance : Bool) (m : CMove) : Prop :=
  m.src < 64 ∧ m.dst < 64 ∧ m.src ≠ m.dst ∧
  (m.flags = CM_FLAG_KING_CASTLE → m.src = kingHome chance ∧ m.dst = castleKingTo chance 0) ∧
  (m.flags = CM_FLAG_QUEEN_CASTLE → m.src = kingHome chance ∧ m.dst = castleKingTo chance 1) ∧
  (m.flags = CM_FLAG_EP_CAPTURE →
    (enPassentTargetOf pos.enPassent chance).testBit m.dst = true) ∧
  (pos.kings.testBit m.src = true ∨ pos.knights.testBit m.src = true ∨
    pos.bishopQueens.testBit m.src = true ∨ pos.rookQueens.testBit m.src = true ∨
    m.src = kingHome chance ∨ (8 ≤ m.flags ∧ m.flags < 16) ∨ m.flags = CM_FLAG_EP_CAPTURE ∨
    (8 ≤ m.dst ∧ m.dst < 56)) ∧
  (m.flags ≠ CM_FLAG_KING_CASTLE → m.flags ≠ CM_FLAG_QUEEN_CASTLE →
    (gmMyPieces pos chance).testBit m.src = true) ∧
  (8 ≤ m.flags → (gmAllPawns pos).testBit m.src = true) ∧
  (m.flags = CM_FLAG_KING_CASTLE → castleRight pos chance 0 = true ∧
    (gmAllPieces pos).testBit (castleRookTo chance 0) = false) ∧
  (m.flags = CM_FLAG_QUEEN_CASTLE → castleRight pos chance 1 = true ∧
    (gmAllPieces pos).testBit (castleRookTo chance 1) = false)

/-! ## The data-model invariants -/

/-- The membership patterns of `setsAt` of an empty square and of a king, a knight, a pawn,
a bishop, a rook and a queen. -/
def piecePatterns : List (List Bool) :=
  [[false, false, false, false, false], [true, false, false, false, false],
   [false, true, false, false, false], [false, false, true, false, false],
   [false, false, false, true, false], [false, false, false, false, true],
   [false, false, false, true, true]]

/-- Modelled from the spec: the data-model invariants of a position. The six sets are 64-bit
words; each colour has exactly one king bit; every square is in the sets of at most one
piece type (a queen being in `bishopQueens` and `rookQueens`); the pawn set lies on ranks 2
to 7; `whitePieces` is a subset of the occupied squares. -/
def validPosition (pos : HexaBitBoardPosition) : Prop :=
  (pos.whitePieces < 2 ^ 64 ∧ pos.pawns < 2 ^ 64 ∧ pos.knights < 2 ^ 64 ∧
    pos.bishopQueens < 2 ^ 64 ∧ pos.rookQueens < 2 ^ 64 ∧ pos.kings < 2 ^ 64) ∧
  (∃ k, k < 64 ∧ pos.kings &&& pos.whitePieces = BIT k) ∧
  (∃ k, k < 64 ∧ pos.kings &&& bnot pos.whitePieces = BIT k) ∧
  (∀ q, q < 64 → setsAt pos q ∈ piecePatterns) ∧
  pos.pawns &&& RANKS2TO7 = pos.pawns ∧
  pos.whitePieces &&& gmAllPieces pos = pos.whitePieces

instance (pos : HexaBitBoardPosition) : Decidable (validPosition pos) := by
  unfold validPosition
  infer_instance

/-- Castling rights of the mover that agree with the board: a right on a side is held only
while the mover's king and the mover's rook of that side stand on their home squares. -/
def castleConsistent (pos : HexaBitBoardPosition) (chance : Bool) : Prop :=
  ∀ side, side < 2 → castleRight pos chance side = true →
    (pos.kings &&& gmMyPieces pos chance).testBit (kingHome chance) = true ∧
    (pos.rookQueens &&& gmMyPieces pos chance).testBit (rookHome chance side) = true ∧
    pos.bishopQueens.testBit (rookHome chance side) = false

instance (pos : HexaBitBoardPosition) (chance : Bool) :
    Decidable (castleConsistent pos chance) := by
  unfold castleConsistent
  infer_instance

/-- An en-passant field that agrees with the board: it is 0 or a file number plus 1, and the
square behind the en-passant target (south of it for a white mover, north of it for a black
mover) holds a pawn of the opponent. -/
def enPassentConsistent (pos : HexaBitBoardPosition) (chance : Bool) : Prop :=
  pos.enPassent ≤ 8 ∧
  ∀ t, t < 64 → (enPassentTargetOf pos.enPassent chance).testBit t = true →
    (gmAllPawns pos &&& gmEnemyPieces pos chance).testBit
      (if chance = WHITE then t - 8 else t + 8) = true

instance (pos : HexaBitBoardPosition) (chance : Bool) :
    Decidable (enPassentConsistent pos chance) := by
  unfold enPassentConsistent
  infer_instance

/-- A position with black to move in which the white king is left in check: white king e1,
black rook e8, black king h8. -/
def kingCapturePosition : HexaBitBoardPosition :=
  { whitePieces := 2 ^ 4
    pawns := 0
    knights := 0
    bishopQueens := 0
    rookQueens := 2 ^ 60
    kings := 2 ^ 4 ||| 2 ^ 63
    chance := BLACK
    whiteCastle := 0
    blackCastle := 0
    enPassent := 0
    halfMoveCounter := 0 }

/-- A move that `makeMove` can apply to a position without leaving the data model: the
squares are on the board and differ, the source holds a piece of the mover, the destination
holds no king, a pawn that is not promoted ends on ranks 2 to 7, the piece that moves is a
king exactly when the source holds a king, an en-passant capture has a pawn of the opponent
on the square behind its destination, and a castling move starts on the king's home square
with the rook of its side at home and the rook's destination empty. -/
def cleanMove (pos : HexaBitBoardPosition) (chance : Bool) (m : CMove) : Prop :=
  m.src < 64 ∧ m.dst < 64 ∧ m.src ≠ m.dst ∧
  pos.whitePieces.testBit m.src = (chance == WHITE) ∧
  (gmAllPieces pos).testBit m.src = true ∧
  pos.kings.testBit m.dst = false ∧
  (movedPiece pos m = PAWN → 8 ≤ m.dst ∧ m.dst < 56) ∧
  (movedPiece pos m = KING ↔ pos.kings.testBit m.src = true) ∧
  (m.flags = CM_FLAG_EP_CAPTURE →
    (if chance = WHITE then 40 ≤ m.dst ∧ m.dst < 48 else 16 ≤ m.dst ∧ m.dst < 24) ∧
    setsAt pos (epCapturedSquare m chance) = [false, false, true, false, false] ∧
    pos.whitePieces.testBit (epCapturedSquare m chance) = !(chance == WHITE)) ∧
  (m.flags = CM_FLAG_KING_CASTLE →
    m.src = kingHome chance ∧ m.dst = castleKingTo chance 0 ∧
    setsAt pos (rookHome chance 0) = [false, false, false, false, true] ∧
    pos.whitePieces.testBit (rookHome chance 0) = (chance == WHITE) ∧
    setsAt pos (castleRookTo chance 0) = [false, false, false, false, false] ∧
    pos.whitePieces.testBit (castleRookTo chance 0) = false) ∧
  (m.flags = CM_FLAG_QUEEN_CASTLE →
    m.src = kingHome chance ∧ m.dst = castleKingTo chance 1 ∧
    setsAt pos (rookHome chance 1) = [false, false, false, false, true] ∧
    pos.whitePieces.testBit (rookHome chance 1) = (chance == WHITE) ∧
    setsAt pos (castleRookTo chance 1) = [false, false, false, false, false] ∧
    pos.whitePieces.testBit (castleRookTo chance 1) = false)

/-! # Lemmas and theorems -/

/-! ## Bit-level facts -/

theorem testBit_ALLSET (i : Nat) : ALLSET.testBit i = decide (i < 64) := by
  have : ALLSET = 2 ^ 64 - 1 := by decide
  rw [this, Nat.testBit_two_pow_sub_one]

theorem testBit_bnot (x i : Nat) :
    (bnot x).testBit i = (decide (i < 64) && !x.testBit i) := by
  unfold bnot
  rw [Nat.testBit_xor, testBit_ALLSET, Nat.testBit_mod_two_pow]
  by_cases h : i < 64 <;> simp [h]

theorem testBit_shl (x n i : Nat) :
    (shl x n).testBit i = (decide (i < 64) && (decide (n ≤ i) && x.testBit (i - n))) := by
  unfold shl
  rw [Nat.testBit_mod_two_pow, Nat.testBit_shiftLeft]

theorem testBit_u64 (x i : Nat) : (u64 x).testBit i = (decide (i < 64) && x.testBit i) := by
  unfold u64; rw [Nat.testBit_mod_two_pow]

theorem testBit_BIT (s i : Nat) : (BIT s).testBit i = (decide (i < 64) && decide (s = i)) := by
  unfold BIT
  rw [testBit_shl]
  by_cases h : s ≤ i
  · by_cases h2 : s = i
    · subst h2; simp
    · have h3 : i - s ≠ 0 := by omega
      have h4 : Nat.testBit 1 (i - s) = false := by
        cases h5 : Nat.testBit 1 (i - s)
        · rfl
        · exact absurd (Nat.testBit_one_eq_true_iff_self_eq_zero.mp h5) h3
      simp [h, h2, h4]
  · have : s ≠ i := by omega
    simp [h, this]

theorem lt_of_testBit_false {x : Nat} (h : ∀ i, 64 ≤ i → x.testBit i = false) : x < 2 ^ 64 := by
  by_contra hx
  push_neg at hx
  obtain ⟨i, hi, hb⟩ := Nat.ge_two_pow_implies_high_bit_true hx
  rw [h i hi] at hb
  exact absurd hb (by simp)

theorem testBit_false_of_lt {x i : Nat} (hx : x < 2 ^ 64) (hi : 64 ≤ i) : x.testBit i = false :=
  Nat.testBit_lt_two_pow (lt_of_lt_of_le hx (Nat.pow_le_pow_right (by decide) hi))

theorem testBit_two_mul_succ (a i : Nat) : (2 * a).testBit (i + 1) = a.testBit i := by
  rw [Nat.testBit_succ]; congr 1; omega

theorem testBit_two_mul_add_one_succ (a i : Nat) :
    (2 * a + 1).testBit (i + 1) = a.testBit i := by
  rw [Nat.testBit_succ]; congr 1; omega

theorem two_mul_and_two_mul (a b : Nat) : (2 * a) &&& (2 * b) = 2 * (a &&& b) := by
  apply Nat.eq_of_testBit_eq
  intro i
  cases i with
  | zero => simp [Nat.testBit_zero, Nat.mul_mod_right]
  | succ i =>
    rw [Nat.testBit_and, testBit_two_mul_succ, testBit_two_mul_succ, testBit_two_mul_succ,
      Nat.testBit_and]

theorem odd_and_odd (a b : Nat) : (2 * a + 1) &&& (2 * b + 1) = 2 * (a &&& b) + 1 := by
  apply Nat.eq_of_testBit_eq
  intro i
  cases i with
  | zero => simp [Nat.testBit_zero, Nat.add_mod]
  | succ i =>
    rw [Nat.testBit_and, testBit_two_mul_add_one_succ, testBit_two_mul_add_one_succ,
      testBit_two_mul_add_one_succ, Nat.testBit_and]

theorem and_compl_eq_zero (w y : Nat) (hy : y < 2 ^ w) : y &&& (2 ^ w - (y + 1)) = 0 := by
  apply Nat.eq_of_testBit_eq
  intro i
  rw [Nat.testBit_and, Nat.testBit_two_pow_sub_succ hy]
  cases y.testBit i <;> simp

/-- The lowest set bit of a non-zero `w`-bit number, as isolated by `x & -x`. -/
theorem lowBit_aux (w : Nat) : ∀ x, 0 < x → x < 2 ^ w →
    x &&& (2 ^ w - x) = 2 ^ bitScanAux w x ∧ bitScanAux w x < w ∧
    x.testBit (bitScanAux w x) = true ∧ ∀ j, j < bitScanAux w x → x.testBit j = false := by
  induction w with
  | zero => intro x h0 h1; simp at h1; omega
  | succ w ih =>
    intro x h0 h1
    rcases Nat.mod_two_eq_zero_or_one x with hx | hx
    · -- even
      obtain ⟨y, rfl⟩ : ∃ y, x = 2 * y := ⟨x / 2, by omega⟩
      have hy0 : 0 < y := by omega
      have hy1 : y < 2 ^ w := by rw [Nat.pow_succ] at h1; omega
      obtain ⟨e1, e2, e3, e4⟩ := ih y hy0 hy1
      have hs : bitScanAux (w + 1) (2 * y) = bitScanAux w y + 1 := by
        simp [bitScanAux, Nat.mul_mod_right]
      rw [hs]
      refine ⟨?_, by omega, ?_, ?_⟩
      · have : 2 ^ (w + 1) - 2 * y = 2 * (2 ^ w - y) := by rw [Nat.pow_succ]; omega
        rw [this, two_mul_and_two_mul, e1, Nat.pow_succ]; ring
      · rw [testBit_two_mul_succ]; exact e3
      · intro j hj
        cases j with
        | zero => simp [Nat.testBit_zero, Nat.mul_mod_right]
        | succ j => rw [testBit_two_mul_succ]; exact e4 j (by omega)
    · -- odd
      obtain ⟨y, rfl⟩ : ∃ y, x = 2 * y + 1 := ⟨x / 2, by omega⟩
      have hy1 : y < 2 ^ w := by rw [Nat.pow_succ] at h1; omega
      have hs : bitScanAux (w + 1) (2 * y + 1) = 0 := by
        simp [bitScanAux, Nat.add_mod]
      rw [hs]
      refine ⟨?_, by omega, ?_, ?_⟩
      · have : 2 ^ (w + 1) - (2 * y + 1) = 2 * (2 ^ w - (y + 1)) + 1 := by
          rw [Nat.pow_succ]; omega
        rw [this, odd_and_odd, and_compl_eq_zero w y hy1]; rfl
      · simp [Nat.testBit_zero, Nat.add_mod]
      · intro j hj; omega

theorem getOne_spec {x : Nat} (h0 : x ≠ 0) (hx : x < 2 ^ 64) :
    getOne x = 2 ^ bitScan x ∧ bitScan x < 64 ∧ x.testBit (bitScan x) = true ∧
    ∀ j, j < bitScan x → x.testBit j = false := by
  have hm : x % 2 ^ 64 = x := Nat.mod_eq_of_lt hx
  have hn : neg64 x = 2 ^ 64 - x := by
    unfold neg64; rw [hm]; apply Nat.mod_eq_of_lt; omega
  have hb : bitScan x = bitScanAux 64 x := by
    unfold bitScan; rw [hm, if_neg h0]
  unfold getOne
  rw [hn, hb]
  exact lowBit_aux 64 x (Nat.pos_of_ne_zero h0) hx

theorem getOne_zero : getOne 0 = 0 := by decide

theorem bitScan_two_pow {i : Nat} (hi : i < 64) : bitScan (2 ^ i) = i := by
  have h0 : (2 : Nat) ^ i ≠ 0 := by positivity
  have hx : 2 ^ i < 2 ^ 64 := Nat.pow_lt_pow_right (by decide) hi
  obtain ⟨_, _, e3, _⟩ := getOne_spec h0 hx
  rw [Nat.testBit_two_pow] at e3
  exact (of_decide_eq_true e3).symm

theorem mem_bitIdx {x i : Nat} : i ∈ bitIdx x ↔ i < 64 ∧ x.testBit i = true := by
  simp [bitIdx]

theorem bitIdx_sorted (x : Nat) : (bitIdx x).Sorted (· < ·) :=
  (List.sorted_lt_range 64).filter _

theorem bitIdx_nodup (x : Nat) : (bitIdx x).Nodup :=
  (bitIdx_sorted x).nodup

theorem bitIdx_length_le (x : Nat) : (bitIdx x).length ≤ 64 := by
  have := List.length_filter_le (fun i => x.testBit i) (List.range 64)
  simpa [bitIdx] using this

theorem bitIdx_zero : bitIdx 0 = [] := by
  simp [bitIdx]

theorem xor_lt_two_pow {a b : Nat} (ha : a < 2 ^ 64) (hb : b < 2 ^ 64) : a ^^^ b < 2 ^ 64 :=
  Nat.xor_lt_two_pow ha hb

theorem bitIdx_cons {x : Nat} (h0 : x ≠ 0) (hx : x < 2 ^ 64) :
    bitIdx x = bitScan x :: bitIdx (x ^^^ getOne x) := by
  obtain ⟨e1, e2, e3, e4⟩ := getOne_spec h0 hx
  have hmem : ∀ i, i ∈ bitIdx (x ^^^ getOne x) ↔ i ∈ bitIdx x ∧ i ≠ bitScan x := by
    intro i
    rw [mem_bitIdx, mem_bitIdx, e1, Nat.testBit_xor, Nat.testBit_two_pow]
    by_cases h : bitScan x = i
    · subst h; simp [e3]
    · have h' : i ≠ bitScan x := fun h2 => h h2.symm
      simp [h, h']
  have hgt : ∀ b ∈ bitIdx (x ^^^ getOne x), bitScan x < b := by
    intro b hb
    obtain ⟨hb1, hb2⟩ := (hmem b).mp hb
    rw [mem_bitIdx] at hb1
    by_contra hlt
    have : b < bitScan x := by omega
    rw [e4 b this] at hb1
    exact absurd hb1.2 (by simp)
  apply List.eq_of_perm_of_sorted (r := (· < ·)) _ (bitIdx_sorted x)
  · exact List.sorted_cons.mpr ⟨hgt, bitIdx_sorted _⟩
  · rw [List.perm_ext_iff_of_nodup (bitIdx_nodup x)]
    · intro a
      rw [List.mem_cons, hmem]
      constructor
      · intro ha
        by_cases h : a = bitScan x
        · exact Or.inl h
        · exact Or.inr ⟨ha, h⟩
      · rintro (h | h)
        · subst h; exact mem_bitIdx.mpr ⟨e2, e3⟩
        · exact h.1
    · refine List.nodup_cons.mpr ⟨?_, bitIdx_nodup _⟩
      intro h
      exact absurd (hgt _ h) (lt_irrefl _)

theorem bitLoop_eq_foldl {σ : Type} (body : Nat → σ → σ) :
    ∀ (fuel x : Nat) (s : σ), x < 2 ^ 64 → (bitIdx x).length ≤ fuel →
    bitLoop fuel x body s = (bitIdx x).foldl (fun s i => body (2 ^ i) s) s := by
  intro fuel
  induction fuel with
  | zero =>
    intro x s _ hl
    have : bitIdx x = [] := List.length_eq_zero.mp (Nat.le_zero.mp hl)
    simp [bitLoop, this]
  | succ fuel ih =>
    intro x s hx hl
    by_cases h0 : x = 0
    · subst h0; simp [bitLoop, bitIdx_zero]
    · obtain ⟨e1, e2, _, _⟩ := getOne_spec h0 hx
      have hc := bitIdx_cons h0 hx
      have hx' : x ^^^ getOne x < 2 ^ 64 := by
        apply xor_lt_two_pow hx
        rw [e1]; exact Nat.pow_lt_pow_right (by decide) e2
      have hl' : (bitIdx (x ^^^ getOne x)).length ≤ fuel := by
        rw [hc] at hl; simpa using hl
      rw [bitLoop, if_neg h0, ih _ _ hx' hl', hc, List.foldl_cons, e1]

theorem forBits_eq_foldl {σ : Type} (body : Nat → σ → σ) (x : Nat) (s : σ)
    (hx : x < 2 ^ 64) :
    forBits x body s = (bitIdx x).foldl (fun s i => body (2 ^ i) s) s :=
  bitLoop_eq_foldl body 64 x s hx (bitIdx_length_le x)

/-- More fuel than 64 rounds never changes the result of a bit loop. -/
theorem bitLoop_fuel {σ : Type} (body : Nat → σ → σ) (x : Nat) (s : σ) (hx : x < 2 ^ 64)
    (k : Nat) : bitLoop (64 + k) x body s = forBits x body s := by
  rw [forBits_eq_foldl body x s hx,
    bitLoop_eq_foldl body (64 + k) x s hx (le_trans (bitIdx_length_le x) (Nat.le_add_right _ _))]

theorem perft_fold_map (g : HexaBitBoardPosition → Option Nat)
    (l : List HexaBitBoardPosition) : ∀ acc : Option Nat,
    l.foldl (fun count child =>
      match count, g child with
      | some c, some childPerft => some ((c + childPerft) % 2 ^ 64)
      | _, _ => none) acc = (l.map g).foldl perftStep acc := by
  induction l with
  | nil => intro acc; rfl
  | cons a l ih => intro acc; simp only [List.foldl_cons, List.map_cons]; rw [ih]; rfl

theorem perft_fold_none (l : List (Option Nat)) : l.foldl perftStep none = none := by
  induction l with
  | nil => rfl
  | cons a l ih => simpa [perftStep] using ih

theorem perft_bb_succ (fuel : Nat) (pos : HexaBitBoardPosition) (depth : Nat) :
    perft_bb (fuel + 1) pos depth =
      if depth = 1 then some (countMoves pos pos.chance)
      else ((generateBoards pos pos.chance).map
        (fun child => perft_bb fuel child ((depth + 2 ^ 32 - 1) % 2 ^ 32))).foldl perftStep
          (some 0) := by
  rw [perft_bb]
  split
  · rfl
  · exact perft_fold_map _ _ _

theorem perft_fold_mono (l : List HexaBitBoardPosition)
    (g g' : HexaBitBoardPosition → Option Nat)
    (hg : ∀ c n, g c = some n → g' c = some n) :
    ∀ (acc : Option Nat) (n : Nat),
    (l.map g).foldl perftStep acc = some n → (l.map g').foldl perftStep acc = some n := by
  induction l with
  | nil => intro acc n h; exact h
  | cons a l ih =>
    intro acc n h
    simp only [List.map_cons, List.foldl_cons] at h ⊢
    cases acc with
    | none =>
      have : perftStep none (g a) = none := rfl
      rw [this, perft_fold_none] at h
      exact absurd h (by simp)
    | some c =>
      cases hga : g a with
      | none =>
        rw [hga] at h
        have : perftStep (some c) none = none := rfl
        rw [this, perft_fold_none] at h
        exact absurd h (by simp)
      | some v =>
        rw [hga] at h
        rw [hg a v hga]
        exact ih _ _ h

/-- A result of `perft_bb` does not change when more fuel is given. -/
theorem perft_bb_fuel_succ : ∀ (fuel : Nat) (pos : HexaBitBoardPosition) (depth n : Nat),
    perft_bb fuel pos depth = some n → perft_bb (fuel + 1) pos depth = some n := by
  intro fuel
  induction fuel with
  | zero => intro pos depth n h; simp [perft_bb] at h
  | succ fuel ih =>
    intro pos depth n h
    rw [perft_bb_succ] at h ⊢
    by_cases hd : depth = 1
    · simpa [hd] using h
    · simp only [hd, if_false] at h ⊢
      exact perft_fold_mono _ _ _ (fun c m hc => ih c _ m hc) _ _ h

theorem perft_bb_fuel_add (fuel k : Nat) (pos : HexaBitBoardPosition) (depth n : Nat)
    (h : perft_bb fuel pos depth = some n) : perft_bb (fuel + k) pos depth = some n := by
  induction k with
  | zero => exact h
  | succ k ih => exact perft_bb_fuel_succ _ _ _ _ ih

theorem perft_start_1 : perft_bb 1 startingPosition 1 = some 20 := by decide!
theorem perft_start_2 : perft_bb 2 startingPosition 2 = some 400 := by decide!

theorem perft_start_children_0 :
    ((generateBoards startingPosition WHITE).take 5).map (fun b => perft_bb 2 b 2) =
      [some 380, some 420, some 420, some 421, some 420] := by decide!

theorem perft_start_children_1 :
    (((generateBoards startingPosition WHITE).drop 5).take 5).map (fun b => perft_bb 2 b 2) =
      [some 441, some 539, some 560, some 599, some 600] := by decide!

theorem perft_start_children_2 :
    (((generateBoards startingPosition WHITE).drop 10).take 5).map (fun b => perft_bb 2 b 2) =
      [some 380, some 401, some 420, some 421, some 380] := by decide!

theorem perft_start_children_3 :
    ((generateBoards startingPosition WHITE).drop 15).map (fun b => perft_bb 2 b 2) =
      [some 420, some 400, some 440, some 440, some 400] := by decide!

theorem perft_start_3 : perft_bb 3 startingPosition 3 = some 8902 := by
  have c0 := perft_start_children_0
  have c1 := perft_start_children_1
  have c2 := perft_start_children_2
  have c3 := perft_start_children_3
  rw [perft_bb_succ]
  have hc : startingPosition.chance = WHITE := rfl
  have hd : (3 + 2 ^ 32 - 1) % 2 ^ 32 = 2 := by norm_num
  rw [if_neg (by decide), hc, hd]
  generalize generateBoards startingPosition WHITE = L at c0 c1 c2 c3 ⊢
  have e : L = L.take 5 ++ ((L.drop 5).take 5 ++ ((L.drop 10).take 5 ++ L.drop 15)) := by
    have h1 : (L.drop 10).take 5 ++ L.drop 15 = L.drop 10 := by
      have := List.take_append_drop 5 (L.drop 10)
      rwa [List.drop_drop] at this
    have h2 : (L.drop 5).take 5 ++ L.drop 10 = L.drop 5 := by
      have := List.take_append_drop 5 (L.drop 5)
      rwa [List.drop_drop] at this
    rw [h1, h2, List.take_append_drop]
  rw [e, List.map_append, List.map_append, List.map_append, c0, c1, c2, c3]
  decide

/-- C5: from the standard starting position the serial perft routine returns 20 at depth 1,
400 at depth 2 and 8902 at depth 3, whatever recursion bound at least the depth is given. -/
theorem perft_bb_starting_position (k : Nat) :
    perft_bb (1 + k) startingPosition 1 = some 20 ∧
    perft_bb (2 + k) startingPosition 2 = some 400 ∧
    perft_bb (3 + k) startingPosition 3 = some 8902 :=
  ⟨perft_bb_fuel_add 1 k _ _ _ perft_start_1, perft_bb_fuel_add 2 k _ _ _ perft_start_2,
   perft_bb_fuel_add 3 k _ _ _ perft_start_3⟩

/-! ## makeMove: the stages and their fields -/

theorem makeMove_fst (sw : Switches) (zob : ZobristRandoms) (pos : HexaBitBoardPosition)
    (hash : Nat) (move : CMove) (chance updateHash : Bool) :
    (makeMove sw zob pos hash move chance updateHash).1 = makeMoveBoard sw pos move chance :=
  rfl

section stageFields
variable (sw : Switches) (pos : HexaBitBoardPosition) (src dst piece flags : Nat)
  (chance : Bool) (move : CMove)

@[simp] theorem updateCastleFlag_whitePieces : (updateCastleFlag pos dst chance).whitePieces = pos.whitePieces := by
  unfold updateCastleFlag; split_ifs <;> rfl

@[simp] theorem updateCastleFlag_pawns : (updateCastleFlag pos dst chance).pawns = pos.pawns := by
  unfold updateCastleFlag; split_ifs <;> rfl

@[simp] theorem updateCastleFlag_knights : (updateCastleFlag pos dst chance).knights = pos.knights := by
  unfold updateCastleFlag; split_ifs <;> rfl

@[simp] theorem updateCastleFlag_bishopQueens : (updateCastleFlag pos dst chance).bishopQueens = pos.bishopQueens := by
  unfold updateCastleFlag; split_ifs <;> rfl

@[simp] theorem updateCastleFlag_rookQueens : (updateCastleFlag pos dst chance).rookQueens = pos.rookQueens := by
  unfold updateCastleFlag; split_ifs <;> rfl

@[simp] theorem updateCastleFlag_kings : (updateCastleFlag pos dst chance).kings = pos.kings := by
  unfold updateCastleFlag; split_ifs <;> rfl

@[simp] theorem updateCastleFlag_chance : (updateCastleFlag pos dst chance).chance = pos.chance := by
  unfold updateCastleFlag; split_ifs <;> rfl

@[simp] theorem updateCastleFlag_enPassent : (updateCastleFlag pos dst chance).enPassent = pos.enPassent := by
  unfold updateCastleFlag; split_ifs <;> rfl

@[simp] theorem updateCastleFlag_halfMoveCounter : (updateCastleFlag pos dst chance).halfMoveCounter = pos.halfMoveCounter := by
  unfold updateCastleFlag; split_ifs <;> rfl

@[simp] theorem mmClear_whitePieces : (mmClear pos src dst).whitePieces = pos.whitePieces := by
  rfl

@[simp] theorem mmClear_pawns : (mmClear pos src dst).pawns = pos.pawns &&& bnot (src &&& RANKS2TO7) &&& bnot (dst &&& RANKS2TO7) := by
  rfl

@[simp] theorem mmClear_knights : (mmClear pos src dst).knights = pos.knights &&& bnot src &&& bnot dst := by
  rfl

@[simp] theorem mmClear_bishopQueens : (mmClear pos src dst).bishopQueens = pos.bishopQueens &&& bnot src &&& bnot dst := by
  rfl

@[simp] theorem mmClear_rookQueens : (mmClear pos src dst).rookQueens = pos.rookQueens &&& bnot src &&& bnot dst := by
  rfl

@[simp] theorem mmClear_kings : (mmClear pos src dst).kings = pos.kings &&& bnot src &&& bnot dst := by
  rfl

@[simp] theorem mmClear_chance : (mmClear pos src dst).chance = pos.chance := by
  rfl

@[simp] theorem mmClear_whiteCastle : (mmClear pos src dst).whiteCastle = pos.whiteCastle := by
  rfl

@[simp] theorem mmClear_blackCastle : (mmClear pos src dst).blackCastle = pos.blackCastle := by
  rfl

@[simp] theorem mmClear_enPassent : (mmClear pos src dst).enPassent = pos.enPassent := by
  rfl

@[simp] theorem mmClear_halfMoveCounter : (mmClear pos src dst).halfMoveCounter = pos.halfMoveCounter := by
  rfl

@[simp] theorem mmPut_whitePieces : (mmPut pos piece dst chance).whitePieces = pos.whitePieces := by
  unfold mmPut; split_ifs <;> first | rfl | simp_all

@[simp] theorem mmPut_pawns : (mmPut pos piece dst chance).pawns = if piece = PAWN then pos.pawns ||| dst else pos.pawns := by
  unfold mmPut; split_ifs <;> first | rfl | simp_all

@[simp] theorem mmPut_knights : (mmPut pos piece dst chance).knights = if piece = KNIGHT then pos.knights ||| dst else pos.knights := by
  unfold mmPut; split_ifs <;> first | rfl | simp_all

@[simp] theorem mmPut_bishopQueens : (mmPut pos piece dst chance).bishopQueens = if piece = BISHOP ∨ piece = QUEEN then pos.bishopQueens ||| dst else pos.bishopQueens := by
  unfold mmPut; split_ifs <;> first | rfl | simp_all

@[simp] theorem mmPut_rookQueens : (mmPut pos piece dst chance).rookQueens = if piece = ROOK ∨ piece = QUEEN then pos.rookQueens ||| dst else pos.rookQueens := by
  unfold mmPut; split_ifs <;> first | rfl | simp_all

@[simp] theorem mmPut_kings : (mmPut pos piece dst chance).kings = if piece = KING then pos.kings ||| dst else pos.kings := by
  unfold mmPut; split_ifs <;> first | rfl | simp_all

@[simp] theorem mmPut_chance : (mmPut pos piece dst chance).chance = pos.chance := by
  unfold mmPut; split_ifs <;> first | rfl | simp_all

@[simp] theorem mmPut_whiteCastle : (mmPut pos piece dst chance).whiteCastle = if piece = KING ∧ chance = WHITE then 0 else pos.whiteCastle := by
  unfold mmPut; split_ifs <;> first | rfl | simp_all

@[simp] theorem mmPut_blackCastle : (mmPut pos piece dst chance).blackCastle = if piece = KING ∧ chance = BLACK then 0 else pos.blackCastle := by
  unfold mmPut; split_ifs <;> first | rfl | simp_all

@[simp] theorem mmPut_enPassent : (mmPut pos piece dst chance).enPassent = pos.enPassent := by
  unfold mmPut; split_ifs <;> first | rfl | simp_all

@[simp] theorem mmPut_halfMoveCounter : (mmPut pos piece dst chance).halfMoveCounter = pos.halfMoveCounter := by
  unfold mmPut; split_ifs <;> first | rfl | simp_all

@[simp] theorem mmColor_whitePieces : (mmColor pos src dst chance).whitePieces = if chance = WHITE then (pos.whitePieces ^^^ src) ||| dst else pos.whitePieces &&& bnot dst := by
  unfold mmColor; split_ifs <;> rfl

@[simp] theorem mmColor_pawns : (mmColor pos src dst chance).pawns = pos.pawns := by
  unfold mmColor; split_ifs <;> rfl

@[simp] theorem mmColor_knights : (mmColor pos src dst chance).knights = pos.knights := by
  unfold mmColor; split_ifs <;> rfl

@[simp] theorem mmColor_bishopQueens : (mmColor pos src dst chance).bishopQueens = pos.bishopQueens := by
  unfold mmColor; split_ifs <;> rfl

@[simp] theorem mmColor_rookQueens : (mmColor pos src dst chance).rookQueens = pos.rookQueens := by
  unfold mmColor; split_ifs <;> rfl

@[simp] theorem mmColor_kings : (mmColor pos src dst chance).kings = pos.kings := by
  unfold mmColor; split_ifs <;> rfl

@[simp] theorem mmColor_chance : (mmColor pos src dst chance).chance = pos.chance := by
  unfold mmColor; split_ifs <;> rfl

@[simp] theorem mmColor_whiteCastle : (mmColor pos src dst chance).whiteCastle = pos.whiteCastle := by
  unfold mmColor; split_ifs <;> rfl

@[simp] theorem mmColor_blackCastle : (mmColor pos src dst chance).blackCastle = pos.blackCastle := by
  unfold mmColor; split_ifs <;> rfl

@[simp] theorem mmColor_enPassent : (mmColor pos src dst chance).enPassent = pos.enPassent := by
  unfold mmColor; split_ifs <;> rfl

@[simp] theorem mmColor_halfMoveCounter : (mmColor pos src dst chance).halfMoveCounter = pos.halfMoveCounter := by
  unfold mmColor; split_ifs <;> rfl

@[simp] theorem mmEnPassent_whitePieces : (mmEnPassent pos flags dst chance).whitePieces = if flags = CM_FLAG_EP_CAPTURE ∧ chance = BLACK then pos.whitePieces &&& bnot (northOne dst) else pos.whitePieces := by
  unfold mmEnPassent; split_ifs <;> first | rfl | simp_all

@[simp] theorem mmEnPassent_pawns : (mmEnPassent pos flags dst chance).pawns = if flags = CM_FLAG_EP_CAPTURE then pos.pawns &&& bnot ((if chance = WHITE then southOne dst else northOne dst) &&& RANKS2TO7) else pos.pawns := by
  unfold mmEnPassent; split_ifs <;> first | rfl | simp_all

@[simp] theorem mmEnPassent_knights : (mmEnPassent pos flags dst chance).knights = pos.knights := by
  unfold mmEnPassent; split_ifs <;> first | rfl | simp_all

@[simp] theorem mmEnPassent_bishopQueens : (mmEnPassent pos flags dst chance).bishopQueens = pos.bishopQueens := by
  unfold mmEnPassent; split_ifs <;> first | rfl | simp_all

@[simp] theorem mmEnPassent_rookQueens : (mmEnPassent pos flags dst chance).rookQueens = pos.rookQueens := by
  unfold mmEnPassent; split_ifs <;> first | rfl | simp_all

@[simp] theorem mmEnPassent_kings : (mmEnPassent pos flags dst chance).kings = pos.kings := by
  unfold mmEnPassent; split_ifs <;> first | rfl | simp_all

@[simp] theorem mmEnPassent_chance : (mmEnPassent pos flags dst chance).chance = pos.chance := by
  unfold mmEnPassent; split_ifs <;> first | rfl | simp_all

@[simp] theorem mmEnPassent_whiteCastle : (mmEnPassent pos flags dst chance).whiteCastle = pos.whiteCastle := by
  unfold mmEnPassent; split_ifs <;> first | rfl | simp_all

@[simp] theorem mmEnPassent_blackCastle : (mmEnPassent pos flags dst chance).blackCastle = pos.blackCastle := by
  unfold mmEnPassent; split_ifs <;> first | rfl | simp_all

@[simp] theorem mmEnPassent_enPassent : (mmEnPassent pos flags dst chance).enPassent = pos.enPassent := by
  unfold mmEnPassent; split_ifs <;> first | rfl | simp_all

@[simp] theorem mmEnPassent_halfMoveCounter : (mmEnPassent pos flags dst chance).halfMoveCounter = pos.halfMoveCounter := by
  unfold mmEnPassent; split_ifs <;> first | rfl | simp_all

@[simp] theorem mmCastle_whitePieces : (mmCastle pos flags chance).whitePieces = if chance = WHITE then
        if flags = CM_FLAG_KING_CASTLE then (pos.whitePieces ^^^ BIT H1) ||| BIT F1
        else if flags = CM_FLAG_QUEEN_CASTLE then (pos.whitePieces ^^^ BIT A1) ||| BIT D1
        else pos.whitePieces
      else pos.whitePieces := by
  unfold mmCastle; split_ifs <;> rfl

@[simp] theorem mmCastle_pawns : (mmCastle pos flags chance).pawns = pos.pawns := by
  unfold mmCastle; split_ifs <;> rfl

@[simp] theorem mmCastle_knights : (mmCastle pos flags chance).knights = pos.knights := by
  unfold mmCastle; split_ifs <;> rfl

@[simp] theorem mmCastle_bishopQueens : (mmCastle pos flags chance).bishopQueens = pos.bishopQueens := by
  unfold mmCastle; split_ifs <;> rfl

@[simp] theorem mmCastle_rookQueens : (mmCastle pos flags chance).rookQueens = if chance = WHITE then
        if flags = CM_FLAG_KING_CASTLE then (pos.rookQueens ^^^ BIT H1) ||| BIT F1
        else if flags = CM_FLAG_QUEEN_CASTLE then (pos.rookQueens ^^^ BIT A1) ||| BIT D1
        else pos.rookQueens
      else
        if flags = CM_FLAG_KING_CASTLE then (pos.rookQueens ^^^ BIT H8) ||| BIT F8
        else if flags = CM_FLAG_QUEEN_CASTLE then (pos.rookQueens ^^^ BIT A8) ||| BIT D8
        else pos.rookQueens := by
  unfold mmCastle; split_ifs <;> rfl

@[simp] theorem mmCastle_kings : (mmCastle pos flags chance).kings = pos.kings := by
  unfold mmCastle; split_ifs <;> rfl

@[simp] theorem mmCastle_chance : (mmCastle pos flags chance).chance = pos.chance := by
  unfold mmCastle; split_ifs <;> rfl

@[simp] theorem mmCastle_whiteCastle : (mmCastle pos flags chance).whiteCastle = pos.whiteCastle := by
  unfold mmCastle; split_ifs <;> rfl

@[simp] theorem mmCastle_blackCastle : (mmCastle pos flags chance).blackCastle = pos.blackCastle := by
  unfold mmCastle; split_ifs <;> rfl

@[simp] theorem mmCastle_enPassent : (mmCastle pos flags chance).enPassent = pos.enPassent := by
  unfold mmCastle; split_ifs <;> rfl

@[simp] theorem mmCastle_halfMoveCounter : (mmCastle pos flags chance).halfMoveCounter = pos.halfMoveCounter := by
  unfold mmCastle; split_ifs <;> rfl

@[simp] theorem mmRights_whitePieces : (mmRights pos piece src dst chance).whitePieces = pos.whitePieces := by
  unfold mmRights; split_ifs <;> simp

@[simp] theorem mmRights_pawns : (mmRights pos piece src dst chance).pawns = pos.pawns := by
  unfold mmRights; split_ifs <;> simp

@[simp] theorem mmRights_knights : (mmRights pos piece src dst chance).knights = pos.knights := by
  unfold mmRights; split_ifs <;> simp

@[simp] theorem mmRights_bishopQueens : (mmRights pos piece src dst chance).bishopQueens = pos.bishopQueens := by
  unfold mmRights; split_ifs <;> simp

@[simp] theorem mmRights_rookQueens : (mmRights pos piece src dst chance).rookQueens = pos.rookQueens := by
  unfold mmRights; split_ifs <;> simp

@[simp] theorem mmRights_kings : (mmRights pos piece src dst chance).kings = pos.kings := by
  unfold mmRights; split_ifs <;> simp

@[simp] theorem mmRights_chance : (mmRights pos piece src dst chance).chance = !chance := by
  unfold mmRights; split_ifs <;> simp

@[simp] theorem mmRights_enPassent : (mmRights pos piece src dst chance).enPassent = 0 := by
  unfold mmRights; split_ifs <;> simp

@[simp] theorem mmRights_halfMoveCounter : (mmRights pos piece src dst chance).halfMoveCounter = pos.halfMoveCounter := by
  unfold mmRights; split_ifs <;> simp

@[simp] theorem mmDoublePush_whitePieces : (mmDoublePush sw pos move dst chance).whitePieces = pos.whitePieces := by
  unfold mmDoublePush; split_ifs <;> rfl

@[simp] theorem mmDoublePush_pawns : (mmDoublePush sw pos move dst chance).pawns = pos.pawns := by
  unfold mmDoublePush; split_ifs <;> rfl

@[simp] theorem mmDoublePush_knights : (mmDoublePush sw pos move dst chance).knights = pos.knights := by
  unfold mmDoublePush; split_ifs <;> rfl

@[simp] theorem mmDoublePush_bishopQueens : (mmDoublePush sw pos move dst chance).bishopQueens = pos.bishopQueens := by
  unfold mmDoublePush; split_ifs <;> rfl

@[simp] theorem mmDoublePush_rookQueens : (mmDoublePush sw pos move dst chance).rookQueens = pos.rookQueens := by
  unfold mmDoublePush; split_ifs <;> rfl

@[simp] theorem mmDoublePush_kings : (mmDoublePush sw pos move dst chance).kings = pos.kings := by
  unfold mmDoublePush; split_ifs <;> rfl

@[simp] theorem mmDoublePush_chance : (mmDoublePush sw pos move dst chance).chance = pos.chance := by
  unfold mmDoublePush; split_ifs <;> rfl

@[simp] theorem mmDoublePush_whiteCastle : (mmDoublePush sw pos move dst chance).whiteCastle = pos.whiteCastle := by
  unfold mmDoublePush; split_ifs <;> rfl

@[simp] theorem mmDoublePush_blackCastle : (mmDoublePush sw pos move dst chance).blackCastle = pos.blackCastle := by
  unfold mmDoublePush; split_ifs <;> rfl

@[simp] theorem mmDoublePush_halfMoveCounter : (mmDoublePush sw pos move dst chance).halfMoveCounter = pos.halfMoveCounter := by
  unfold mmDoublePush; split_ifs <;> rfl

end stageFields

theorem makeMove_enPassent (sw : Switches) (zob : ZobristRandoms)
    (pos : HexaBitBoardPosition) (hash : Nat) (m : CMove) (chance uh : Bool) :
    (makeMove sw zob pos hash m chance uh).1.enPassent =
      if m.flags = CM_FLAG_DOUBLE_PAWN_PUSH then
        if sw.exactEnPassentFlagging = true ∧
            epSourcesOf (makeMove sw zob pos hash m chance uh).1 (BIT m.dst) chance = 0 then 0
        else (m.src &&& 7) + 1
      else 0 := by
  rw [makeMove_fst]
  have he : ∀ q : HexaBitBoardPosition,
      epSourcesOf (mmDoublePush sw q m (BIT m.dst) chance) (BIT m.dst) chance =
        epSourcesOf q (BIT m.dst) chance := by
    intro q; simp [epSourcesOf]
  unfold makeMoveBoard
  simp only [CMove.getTo, he]
  simp only [mmDoublePush, CMove.getFlags, CMove.getFrom]
  split_ifs <;> simp_all

/-! ## C9: the en-passant field of the successor -/

/-- C9 (as stated, refuted): with `EXACT_EN_PASSENT_FLAGGING` on, the double pawn push
e2-e4 from the starting position leaves the en-passant field 0, not file + 1 = 5. -/
theorem makeMove_enPassent_exact_counterexample :
    (CMove.mk 12 28 CM_FLAG_DOUBLE_PAWN_PUSH).flags = CM_FLAG_DOUBLE_PAWN_PUSH ∧
    (makeMove (Switches.mk false true) zeroZobrist startingPosition 0
      (CMove.mk 12 28 CM_FLAG_DOUBLE_PAWN_PUSH) WHITE false).1.enPassent = 0 ∧
    ((CMove.mk 12 28 CM_FLAG_DOUBLE_PAWN_PUSH).src &&& 7) + 1 = 5 := by
  decide

/-- C9 (amended): after `makeMove` the en-passant field is 0 for every move whose flag is
not double-pawn-push; for a double pawn push it is the file of the source square plus one,
except that under `EXACT_EN_PASSENT_FLAGGING` it stays 0 when no enemy pawn stands on a
square beside the destination. -/
theorem makeMove_enPassent_field (sw : Switches) (zob : ZobristRandoms)
    (pos : HexaBitBoardPosition) (hash : Nat) (m : CMove) (chance uh : Bool) :
    (m.flags ≠ CM_FLAG_DOUBLE_PAWN_PUSH →
      (makeMove sw zob pos hash m chance uh).1.enPassent = 0) ∧
    (m.flags = CM_FLAG_DOUBLE_PAWN_PUSH → sw.exactEnPassentFlagging = false →
      (makeMove sw zob pos hash m chance uh).1.enPassent = (m.src &&& 7) + 1) ∧
    (m.flags = CM_FLAG_DOUBLE_PAWN_PUSH → sw.exactEnPassentFlagging = true →
      (makeMove sw zob pos hash m chance uh).1.enPassent =
        if epSourcesOf (makeMove sw zob pos hash m chance uh).1 (BIT m.dst) chance = 0 then 0
        else (m.src &&& 7) + 1) := by
  refine ⟨fun h => ?_, fun h hs => ?_, fun h hs => ?_⟩
  · rw [makeMove_enPassent, if_neg h]
  · rw [makeMove_enPassent, if_pos h, if_neg (by simp [hs])]
  · rw [makeMove_enPassent, if_pos h]
    simp [hs]

theorem makeMove_enPassent_field_witness :
    (makeMove (Switches.mk false false) zeroZobrist startingPosition 0
      (CMove.mk 12 28 CM_FLAG_DOUBLE_PAWN_PUSH) WHITE false).1.enPassent = (12 &&& 7) + 1 :=
  (makeMove_enPassent_field (Switches.mk false false) zeroZobrist startingPosition 0
    (CMove.mk 12 28 CM_FLAG_DOUBLE_PAWN_PUSH) WHITE false).2.1 rfl rfl

/-! ## C19, C20: transposition-table probes -/

/-- C19: a probe of the deep table (in the expansion kernel and in the launcher) reports a
hit only if the key halves, after the stored count is XOR-ed out, match the probing hash
(the low half under `hashBits`) and the stored depth is at least the depth requested; the
code in fact asks for the stored depth to equal it. -/
theorem deep_probe_hit_only_if (hashTable : Nat → HashEntryPerft128b)
    (hashBits indexBits : Nat) (hash : HashKey128b) (depth : Int) (v : Nat) :
    (deepProbe hashTable hashBits indexBits hash depth = some v →
      (hashTable (hash.lowPart &&& indexBits)).hashKey.highPart ^^^
          (hashTable (hash.lowPart &&& indexBits)).perftVal = hash.highPart ∧
      ((hashTable (hash.lowPart &&& indexBits)).hashKey.lowPart ^^^
          (hashTable (hash.lowPart &&& indexBits)).perftVal) &&& hashBits =
        hash.lowPart &&& hashBits ∧
      depth ≤ ((hashTable (hash.lowPart &&& indexBits)).depth : Int) ∧
      ((hashTable (hash.lowPart &&& indexBits)).depth : Int) = depth ∧
      v = (hashTable (hash.lowPart &&& indexBits)).perftVal) ∧
    (launcherProbe hashTable hashBits indexBits hash depth = some v →
      (hashTable (hash.lowPart &&& indexBits)).hashKey.highPart ^^^
          (hashTable (hash.lowPart &&& indexBits)).perftVal = hash.highPart ∧
      ((hashTable (hash.lowPart &&& indexBits)).hashKey.lowPart ^^^
          (hashTable (hash.lowPart &&& indexBits)).perftVal) &&& hashBits =
        hash.lowPart &&& hashBits ∧
      depth - 1 ≤ ((hashTable (hash.lowPart &&& indexBits)).depth : Int) ∧
      ((hashTable (hash.lowPart &&& indexBits)).depth : Int) = depth - 1 ∧
      v = (hashTable (hash.lowPart &&& indexBits)).perftVal) := by
  constructor
  · intro h
    simp only [deepProbe] at h
    split_ifs at h with hc
    obtain ⟨h1, h2, h3⟩ := hc
    exact ⟨h1, h2, le_of_eq h3.symm, h3, (Option.some.inj h).symm⟩
  · intro h
    simp only [launcherProbe] at h
    split_ifs at h with hc
    obtain ⟨h1, h2, h3⟩ := hc
    exact ⟨h1, h2, le_of_eq h3.symm, h3, (Option.some.inj h).symm⟩

theorem deep_probe_hit_only_if_witness :
    deepProbe sampleDeepTable 0xFF 0 (HashKey128b.mk 5 9) 3 = some 20 ∧
    (3 : Int) ≤ ((sampleDeepTable (5 &&& 0)).depth : Int) :=
  ⟨by decide,
   ((deep_probe_hit_only_if sampleDeepTable 0xFF 0 (HashKey128b.mk 5 9) 3 20).1
      (by decide)).2.2.1⟩

/-- C21: the entry that the deep store builds for `(h, v, d)` is accepted by the deep probe
with `h` at depth `d`, the count read back is `v`, and the key halves reconstructed from the
slot are `h.highPart` and `h.lowPart & hashBits`. The store writes the slot when the old
entry is not deeper than `d`. -/
theorem deep_round_trip (hashTable : Nat → HashEntryPerft128b) (hashBits indexBits : Nat)
    (h : HashKey128b) (v d : Nat)
    (hold : (hashTable (h.lowPart &&& indexBits)).depth ≤ d) :
    deepProbe (deepStore hashTable hashBits indexBits h v d) hashBits indexBits h (d : Int) =
      some v ∧
    ((deepStore hashTable hashBits indexBits h v d) (h.lowPart &&& indexBits)).hashKey.highPart
      ^^^ ((deepStore hashTable hashBits indexBits h v d) (h.lowPart &&& indexBits)).perftVal =
        h.highPart ∧
    ((deepStore hashTable hashBits indexBits h v d) (h.lowPart &&& indexBits)).hashKey.lowPart
      ^^^ ((deepStore hashTable hashBits indexBits h v d) (h.lowPart &&& indexBits)).perftVal =
        h.lowPart &&& hashBits := by
  have e1 : ∀ a : Nat, a ^^^ v ^^^ v = a := by
    intro a; rw [Nat.xor_assoc, Nat.xor_self, Nat.xor_zero]
  have e2 : (h.lowPart &&& hashBits) &&& hashBits = h.lowPart &&& hashBits := by
    rw [Nat.and_assoc, Nat.and_self]
  simp only [deepProbe, deepStore, if_pos hold, Function.update_same, e1, e2]
  simp

theorem deep_round_trip_witness :
    deepProbe (deepStore sampleDeepTable 0xFF00 0xFF (HashKey128b.mk 0x1234 0x77) 42 3)
      0xFF00 0xFF (HashKey128b.mk 0x1234 0x77) ((3 : Nat) : Int) = some 42 :=
  (deep_round_trip sampleDeepTable 0xFF00 0xFF (HashKey128b.mk 0x1234 0x77) 42 3
    (by decide)).1

/-! ## C24: eastFill and westFill -/

/-- C24 (code defect): the last doubling step of `eastFill` and `westFill` shifts by 3 where
the scheme needs 4, so a fill never reaches the seventh square: from a1 over an empty rank
`eastFill` returns a1..g1 without h1, and from h1 `westFill` returns b1..h1 without a1,
although h1 (a1) is reached by seven steps over propagator squares. -/
theorem eastFill_westFill_miss_seventh_square :
    eastFill (BIT A1) ALLSET = 0x7F ∧ (eastFill (BIT A1) ALLSET).testBit H1 = false ∧
    westFill (BIT H1) ALLSET = 0xFE ∧ (westFill (BIT H1) ALLSET).testBit A1 = false ∧
    northFill (BIT A1) ALLSET = FILEA := by
  decide!

/-! ## C29, C30: squares in between and squares in line -/

theorem squaresInBetween_rows_0 :
    (((List.range 64).take 32).all fun a => (List.range 64).all fun b =>
      squaresInBetween a b == betweenSpec a b && BetweenTable a b == betweenSpec a b) = true := by
  decide!

theorem squaresInBetween_rows_1 :
    (((List.range 64).drop 32).all fun a => (List.range 64).all fun b =>
      squaresInBetween a b == betweenSpec a b && BetweenTable a b == betweenSpec a b) = true := by
  decide!

theorem lineMask_all :
    ((List.range 64).all fun a => (List.range 5).all fun k =>
      lineMask k a == squareSet (onLineOfKind k a)) = true := by
  decide!

theorem squaresInLine_all_pairs :
    ((List.range 64).all fun a => (List.range 64).all fun b =>
      a == b || (squaresInLine a b == lineMask (lineKind a b) a && decide (lineKind a b < 5))) =
      true := by
  decide!

theorem all_range_64_of_halves (f : Nat → Bool)
    (h0 : ((List.range 64).take 32).all f = true)
    (h1 : ((List.range 64).drop 32).all f = true) (a : Nat) (ha : a < 64) : f a = true := by
  have h : (List.range 64).all f = true := by
    rw [← List.take_append_drop 32 (List.range 64), List.all_append, h0, h1]; rfl
  exact List.all_eq_true.mp h a (List.mem_range.mpr ha)

/-- C29: for all squares `sq1`, `sq2` below 64, in either order, `squaresInBetween` is the
set of squares strictly between the two when they share a rank, file, diagonal or
anti-diagonal and is empty otherwise, and the mirrored `Between` table holds the same set
for every ordered pair. -/
theorem squaresInBetween_correct (sq1 sq2 : Nat) (h1 : sq1 < 64) (h2 : sq2 < 64) :
    squaresInBetween sq1 sq2 = betweenSpec sq1 sq2 ∧
    squaresInBetween sq2 sq1 = betweenSpec sq1 sq2 ∧
    BetweenTable sq1 sq2 = betweenSpec sq1 sq2 := by
  have key : ∀ a b, a < 64 → b < 64 →
      squaresInBetween a b = betweenSpec a b ∧ BetweenTable a b = betweenSpec a b := by
    intro a b ha hb
    have h := all_range_64_of_halves _ squaresInBetween_rows_0 squaresInBetween_rows_1 a ha
    have h := List.all_eq_true.mp h b (List.mem_range.mpr hb)
    simpa using h
  have hs : betweenSpec sq2 sq1 = betweenSpec sq1 sq2 := by
    simp only [betweenSpec, min_comm, max_comm]
  exact ⟨(key sq1 sq2 h1 h2).1, hs ▸ (key sq2 sq1 h2 h1).1, (key sq1 sq2 h1 h2).2⟩

theorem squaresInBetween_correct_witness :
    squaresInBetween 0 63 = betweenSpec 0 63 ∧
    squaresInBetween 63 0 = betweenSpec 0 63 ∧
    BetweenTable 0 63 = betweenSpec 0 63 :=
  squaresInBetween_correct 0 63 (by decide) (by decide)

/-- C30: for all squares `sq1 ≠ sq2` below 64, `squaresInLine` is the complete rank, file,
diagonal or anti-diagonal through both squares when they are aligned, and 0 when they
are not. -/
theorem squaresInLine_correct (sq1 sq2 : Nat) (h1 : sq1 < 64) (h2 : sq2 < 64)
    (hne : sq1 ≠ sq2) : squaresInLine sq1 sq2 = lineSpec sq1 sq2 := by
  have h := List.all_eq_true.mp squaresInLine_all_pairs sq1 (List.mem_range.mpr h1)
  have h := List.all_eq_true.mp h sq2 (List.mem_range.mpr h2)
  simp only [Bool.or_eq_true, beq_iff_eq, Bool.and_eq_true, decide_eq_true_eq] at h
  rcases h with h | ⟨h, hk⟩
  · exact absurd h hne
  · have m := List.all_eq_true.mp lineMask_all sq1 (List.mem_range.mpr h1)
    have m := List.all_eq_true.mp m (lineKind sq1 sq2) (List.mem_range.mpr hk)
    simp only [beq_iff_eq] at m
    rw [h, m]; rfl

theorem squaresInLine_correct_witness : squaresInLine 0 63 = lineSpec 0 63 :=
  squaresInLine_correct 0 63 (by decide) (by decide) (by decide)

/-! ## Kogge-Stone doubling steps -/

theorem ks_runL {d b c : Nat} {P : Nat → Prop} {p : Nat}
    (hp : ∀ t, t < 64 → (p.testBit t = true ↔ runL d P b t)) (hb : 1 ≤ b) (hcb : c ≤ b) :
    ∀ t, t < 64 → ((p &&& shl p (c * d)).testBit t = true ↔ runL d P (b + c) t) := by
  intro t ht
  rw [Nat.testBit_and, testBit_shl]
  simp only [Bool.and_eq_true, decide_eq_true_eq]
  constructor
  · rintro ⟨h1, -, hcd, h2⟩
    have r1 := (hp t ht).mp h1
    have r2 := (hp (t - c * d) (by omega)).mp h2
    intro j hj
    by_cases hjb : j < b
    · exact r1 j hjb
    · have hcj : c ≤ j := by omega
      have e : (j - c) * d + c * d = j * d := by rw [← Nat.add_mul, Nat.sub_add_cancel hcj]
      obtain ⟨q1, q2⟩ := r2 (j - c) (by omega)
      have e2 : t - c * d - (j - c) * d = t - j * d := by omega
      rw [e2] at q2
      exact ⟨by omega, q2⟩
  · intro r
    have hc : c * d ≤ t := (r c (by omega)).1
    refine ⟨(hp t ht).mpr fun j hj => r j (by omega), ht, hc, (hp (t - c * d) (by omega)).mpr ?_⟩
    intro j hj
    have e : (j + c) * d = j * d + c * d := Nat.add_mul j c d
    obtain ⟨q1, q2⟩ := r (j + c) (by omega)
    have e2 : t - (j + c) * d = t - c * d - j * d := by omega
    rw [e2] at q2
    exact ⟨by omega, q2⟩

theorem ks_stepL {d a b c : Nat} {G P : Nat → Prop} {g p : Nat}
    (hg : ∀ t, t < 64 → (g.testBit t = true ↔ reachL d G P a t))
    (hp : ∀ t, t < 64 → (p.testBit t = true ↔ runL d P b t))
    (hcb : c ≤ b) (hca : c ≤ a + 1) (hba : b ≤ a + 1) :
    ∀ t, t < 64 → ((g ||| (shl g (c * d) &&& p)).testBit t = true ↔ reachL d G P (a + c) t) := by
  intro t ht
  rw [Nat.testBit_or, Nat.testBit_and, testBit_shl]
  simp only [Bool.or_eq_true, Bool.and_eq_true, decide_eq_true_eq]
  constructor
  · rintro (h | ⟨⟨-, hcd, h⟩, h2⟩)
    · obtain ⟨k, hk, r⟩ := (hg t ht).mp h
      exact ⟨k, by omega, r⟩
    · obtain ⟨k, hk, hkd, hG, hP⟩ := (hg (t - c * d) (by omega)).mp h
      have r := (hp t ht).mp h2
      have e : (k + c) * d = k * d + c * d := Nat.add_mul k c d
      refine ⟨k + c, by omega, by omega, ?_, ?_⟩
      · have e2 : t - (k + c) * d = t - c * d - k * d := by omega
        rw [e2]; exact hG
      · intro j hj
        by_cases hjc : j < c
        · exact (r j (by omega)).2
        · have hcj : c ≤ j := by omega
          have e3 : (j - c) * d + c * d = j * d := by
            rw [← Nat.add_mul, Nat.sub_add_cancel hcj]
          have q := hP (j - c) (by omega)
          have e4 : t - c * d - (j - c) * d = t - j * d := by omega
          rw [e4] at q; exact q
  · rintro ⟨k, hk, hkd, hG, hP⟩
    by_cases hka : k ≤ a
    · exact Or.inl ((hg t ht).mpr ⟨k, hka, hkd, hG, hP⟩)
    · right
      have hck : c ≤ k := by omega
      have e : (k - c) * d + c * d = k * d := by rw [← Nat.add_mul, Nat.sub_add_cancel hck]
      have hcd : c * d ≤ t := by omega
      refine ⟨⟨ht, hcd, (hg (t - c * d) (by omega)).mpr ⟨k - c, by omega, by omega, ?_, ?_⟩⟩,
        (hp t ht).mpr ?_⟩
      · have e2 : t - c * d - (k - c) * d = t - k * d := by omega
        rw [e2]; exact hG
      · intro j hj
        have e3 : (j + c) * d = j * d + c * d := Nat.add_mul j c d
        have q := hP (j + c) (by omega)
        have e4 : t - (j + c) * d = t - c * d - j * d := by omega
        rw [e4] at q; exact q
      · intro j hj
        have hjk : j < k := by omega
        have hle : j * d ≤ k * d := Nat.mul_le_mul_right d (by omega)
        exact ⟨by omega, hP j hjk⟩

theorem ks_runR {d b c : Nat} {P : Nat → Prop} {p : Nat}
    (hp : ∀ t, p.testBit t = true ↔ runR d P b t) (hcb : c ≤ b) :
    ∀ t, (p &&& (p >>> (c * d))).testBit t = true ↔ runR d P (b + c) t := by
  intro t
  rw [Nat.testBit_and, Nat.testBit_shiftRight]
  simp only [Bool.and_eq_true]
  constructor
  · rintro ⟨h1, h2⟩
    have r1 := (hp t).mp h1
    have r2 := (hp (c * d + t)).mp h2
    intro j hj
    by_cases hjb : j < b
    · exact r1 j hjb
    · have hcj : c ≤ j := by omega
      have e : (j - c) * d + c * d = j * d := by rw [← Nat.add_mul, Nat.sub_add_cancel hcj]
      have q := r2 (j - c) (by omega)
      have e2 : c * d + t + (j - c) * d = t + j * d := by omega
      rw [e2] at q; exact q
  · intro r
    refine ⟨(hp t).mpr fun j hj => r j (by omega), (hp (c * d + t)).mpr ?_⟩
    intro j hj
    have e : (j + c) * d = j * d + c * d := Nat.add_mul j c d
    have q := r (j + c) (by omega)
    have e2 : t + (j + c) * d = c * d + t + j * d := by omega
    rw [e2] at q; exact q

theorem ks_stepR {d a b c : Nat} {G P : Nat → Prop} {g p : Nat}
    (hg : ∀ t, g.testBit t = true ↔ reachR d G P a t)
    (hp : ∀ t, p.testBit t = true ↔ runR d P b t)
    (hcb : c ≤ b) (hca : c ≤ a + 1) (hba : b ≤ a + 1) :
    ∀ t, (g ||| ((g >>> (c * d)) &&& p)).testBit t = true ↔ reachR d G P (a + c) t := by
  intro t
  rw [Nat.testBit_or, Nat.testBit_and, Nat.testBit_shiftRight]
  simp only [Bool.or_eq_true, Bool.and_eq_true]
  constructor
  · rintro (h | ⟨h, h2⟩)
    · obtain ⟨k, hk, r⟩ := (hg t).mp h
      exact ⟨k, by omega, r⟩
    · obtain ⟨k, hk, hG, hP⟩ := (hg (c * d + t)).mp h
      have r := (hp t).mp h2
      have e : (k + c) * d = k * d + c * d := Nat.add_mul k c d
      refine ⟨k + c, by omega, ?_, ?_⟩
      · have e2 : t + (k + c) * d = c * d + t + k * d := by omega
        rw [e2]; exact hG
      · intro j hj
        by_cases hjc : j < c
        · exact r j (by omega)
        · have hcj : c ≤ j := by omega
          have e3 : (j - c) * d + c * d = j * d := by
            rw [← Nat.add_mul, Nat.sub_add_cancel hcj]
          have q := hP (j - c) (by omega)
          have e4 : c * d + t + (j - c) * d = t + j * d := by omega
          rw [e4] at q; exact q
  · rintro ⟨k, hk, hG, hP⟩
    by_cases hka : k ≤ a
    · exact Or.inl ((hg t).mpr ⟨k, hka, hG, hP⟩)
    · right
      have hck : c ≤ k := by omega
      have e : (k - c) * d + c * d = k * d := by rw [← Nat.add_mul, Nat.sub_add_cancel hck]
      refine ⟨(hg (c * d + t)).mpr ⟨k - c, by omega, ?_, ?_⟩, (hp t).mpr ?_⟩
      · have e2 : c * d + t + (k - c) * d = t + k * d := by omega
        rw [e2]; exact hG
      · intro j hj
        have e3 : (j + c) * d = j * d + c * d := Nat.add_mul j c d
        have q := hP (j + c) (by omega)
        have e4 : t + (j + c) * d = c * d + t + j * d := by omega
        rw [e4] at q; exact q
      · intro j hj
        exact hP j (by omega)

theorem reachL_zero (d : Nat) (G P : Nat → Prop) (t : Nat) : reachL d G P 0 t ↔ G t := by
  constructor
  · rintro ⟨k, hk, -, hG, -⟩
    have : k = 0 := by omega
    subst this; simpa using hG
  · intro h; exact ⟨0, le_refl 0, by simp, by simpa using h, fun j hj => absurd hj (by omega)⟩

theorem runL_one (d : Nat) (P : Nat → Prop) (t : Nat) : runL d P 1 t ↔ P t := by
  constructor
  · intro h; simpa using (h 0 (by omega)).2
  · intro h j hj
    have : j = 0 := by omega
    subst this; simpa using h

theorem reachR_zero (d : Nat) (G P : Nat → Prop) (t : Nat) : reachR d G P 0 t ↔ G t := by
  constructor
  · rintro ⟨k, hk, hG, -⟩
    have : k = 0 := by omega
    subst this; simpa using hG
  · intro h; exact ⟨0, le_refl 0, by simpa using h, fun j hj => absurd hj (by omega)⟩

theorem runR_one (d : Nat) (P : Nat → Prop) (t : Nat) : runR d P 1 t ↔ P t := by
  constructor
  · intro h; simpa using h 0 (by omega)
  · intro h j hj
    have : j = 0 := by omega
    subst this; simpa using h

/-- Three doubling steps with left shifts `d`, `2 d`, `c d` reach `3 + c` squares. -/
theorem ks_fillL (d c gen pro : Nat) (hc : c ≤ 4) :
    ∀ t, t < 64 →
      ((gen ||| (shl gen d &&& pro) |||
          (shl (gen ||| (shl gen d &&& pro)) (2 * d) &&& (pro &&& shl pro d)) |||
        (shl (gen ||| (shl gen d &&& pro) |||
          (shl (gen ||| (shl gen d &&& pro)) (2 * d) &&& (pro &&& shl pro d))) (c * d) &&&
          (pro &&& shl pro d &&& shl (pro &&& shl pro d) (2 * d)))).testBit t = true ↔
        reachL d (fun q => gen.testBit q = true) (fun q => pro.testBit q = true) (3 + c) t) := by
  have g0 : ∀ t, t < 64 → (gen.testBit t = true ↔
      reachL d (fun q => gen.testBit q = true) (fun q => pro.testBit q = true) 0 t) :=
    fun t _ => (reachL_zero d (fun q => gen.testBit q = true) (fun q => pro.testBit q = true) t).symm
  have p0 : ∀ t, t < 64 → (pro.testBit t = true ↔
      runL d (fun q => pro.testBit q = true) 1 t) := fun t _ => (runL_one d (fun q => pro.testBit q = true) t).symm
  have g1 := ks_stepL (c := 1) g0 p0 (by omega) (by omega) (by omega)
  have p1 := ks_runL (c := 1) p0 (by omega) (by omega)
  simp only [Nat.one_mul, Nat.zero_add] at g1 p1
  have g2 := ks_stepL (c := 2) g1 p1 (by omega) (by omega) (by omega)
  have p2 := ks_runL (c := 2) p1 (by omega) (by omega)
  have g3 := ks_stepL (c := c) g2 p2 (by omega) (by omega) (by omega)
  exact g3

/-- Three doubling steps with right shifts `d`, `2 d`, `c d` reach `3 + c` squares. -/
theorem ks_fillR (d c gen pro : Nat) (hc : c ≤ 4) :
    ∀ t,
      ((gen ||| ((gen >>> d) &&& pro) |||
          (((gen ||| ((gen >>> d) &&& pro)) >>> (2 * d)) &&& (pro &&& (pro >>> d))) |||
        (((gen ||| ((gen >>> d) &&& pro) |||
          (((gen ||| ((gen >>> d) &&& pro)) >>> (2 * d)) &&& (pro &&& (pro >>> d)))) >>> (c * d)) &&&
          (pro &&& (pro >>> d) &&& ((pro &&& (pro >>> d)) >>> (2 * d))))).testBit t = true ↔
        reachR d (fun q => gen.testBit q = true) (fun q => pro.testBit q = true) (3 + c) t) := by
  have g0 : ∀ t, (gen.testBit t = true ↔
      reachR d (fun q => gen.testBit q = true) (fun q => pro.testBit q = true) 0 t) :=
    fun t => (reachR_zero d (fun q => gen.testBit q = true) (fun q => pro.testBit q = true) t).symm
  have p0 : ∀ t, (pro.testBit t = true ↔
      runR d (fun q => pro.testBit q = true) 1 t) := fun t => (runR_one d (fun q => pro.testBit q = true) t).symm
  have g1 := ks_stepR (c := 1) g0 p0 (by omega) (by omega) (by omega)
  have p1 := ks_runR (c := 1) p0 (by omega)
  simp only [Nat.one_mul, Nat.zero_add] at g1 p1
  have g2 := ks_stepR (c := 2) g1 p1 (by omega) (by omega) (by omega)
  have p2 := ks_runR (c := 2) p1 (by omega)
  have g3 := ks_stepR (c := c) g2 p2 (by omega) (by omega) (by omega)
  exact g3

/-! ## Geometry of the eight ray directions -/

theorem testBit_FILEA_lt : ∀ q, q < 64 → FILEA.testBit q = decide (q % 8 = 0) := by
  decide

theorem testBit_FILEH_lt : ∀ q, q < 64 → FILEH.testBit q = decide (q % 8 = 7) := by
  decide

theorem testBit_and_bnot_FILEA (pro q : Nat) :
    (pro &&& bnot FILEA).testBit q = true ↔ pro.testBit q = true ∧ q < 64 ∧ q % 8 ≠ 0 := by
  rw [Nat.testBit_and, testBit_bnot]
  by_cases h : q < 64
  · rw [testBit_FILEA_lt q h]; simp [h]
  · simp [h]

theorem testBit_and_bnot_FILEH (pro q : Nat) :
    (pro &&& bnot FILEH).testBit q = true ↔ pro.testBit q = true ∧ q < 64 ∧ q % 8 ≠ 7 := by
  rw [Nat.testBit_and, testBit_bnot]
  by_cases h : q < 64
  · rw [testBit_FILEH_lt q h]; simp [h]
  · simp [h]

theorem lt_of_testBit_true {x q : Nat} (hx : x < 2 ^ 64) (h : x.testBit q = true) : q < 64 := by
  by_contra hq
  rw [testBit_false_of_lt hx (by omega)] at h
  exact Bool.noConfusion h

theorem geoA_1 : ∀ k s, s + 1 * k < 64 → (∀ i, 1 ≤ i → i ≤ k → (s + 1 * i) % 8 ≠ 0) →
    (s + 1 * k) % 8 = s % 8 + k ∧ (s + 1 * k) / 8 = s / 8 := by
  intro k
  induction k with
  | zero => intro s _ _; omega
  | succ k ih =>
    intro s h1 h2
    have := ih s (by omega) (fun i a b => h2 i a (by omega))
    have := h2 (k + 1) (by omega) (by omega)
    omega

theorem geoD_1 : ∀ k s, s + 1 * k < 64 → (∀ j, j < k → (s + 1 * j) % 8 ≠ 7) →
    (s + 1 * k) % 8 = s % 8 + k ∧ (s + 1 * k) / 8 = s / 8 := by
  intro k
  induction k with
  | zero => intro s _ _; omega
  | succ k ih =>
    intro s h1 h2
    have := ih s (by omega) (fun i a => h2 i (by omega))
    have := h2 k (by omega)
    omega

theorem geoA_9 : ∀ k s, s + 9 * k < 64 → (∀ i, 1 ≤ i → i ≤ k → (s + 9 * i) % 8 ≠ 0) →
    (s + 9 * k) % 8 = s % 8 + k ∧ (s + 9 * k) / 8 = s / 8 + k := by
  intro k
  induction k with
  | zero => intro s _ _; omega
  | succ k ih =>
    intro s h1 h2
    have := ih s (by omega) (fun i a b => h2 i a (by omega))
    have := h2 (k + 1) (by omega) (by omega)
    omega

theorem geoD_9 : ∀ k s, s + 9 * k < 64 → (∀ j, j < k → (s + 9 * j) % 8 ≠ 7) →
    (s + 9 * k) % 8 = s % 8 + k ∧ (s + 9 * k) / 8 = s / 8 + k := by
  intro k
  induction k with
  | zero => intro s _ _; omega
  | succ k ih =>
    intro s h1 h2
    have := ih s (by omega) (fun i a => h2 i (by omega))
    have := h2 k (by omega)
    omega

theorem geoA_7 : ∀ k s, s + 7 * k < 64 → (∀ i, 1 ≤ i → i ≤ k → (s + 7 * i) % 8 ≠ 7) →
    (s + 7 * k) % 8 + k = s % 8 ∧ (s + 7 * k) / 8 = s / 8 + k := by
  intro k
  induction k with
  | zero => intro s _ _; omega
  | succ k ih =>
    intro s h1 h2
    have := ih s (by omega) (fun i a b => h2 i a (by omega))
    have := h2 (k + 1) (by omega) (by omega)
    omega

theorem geoD_7 : ∀ k s, s + 7 * k < 64 → (∀ j, j < k → (s + 7 * j) % 8 ≠ 0) →
    (s + 7 * k) % 8 + k = s % 8 ∧ (s + 7 * k) / 8 = s / 8 + k := by
  intro k
  induction k with
  | zero => intro s _ _; omega
  | succ k ih =>
    intro s h1 h2
    have := ih s (by omega) (fun i a => h2 i (by omega))
    have := h2 k (by omega)
    omega

/-! ## The fills and attacks against the ray specification -/
theorem north_bridge (gen pro n t : Nat) (hn : n ≤ 7) (ht : t < 64) :
    reachL 8 (fun q => gen.testBit q = true) (fun q => pro.testBit q = true) n t ↔ reachSpec 0 1 n gen pro t := by
  constructor
  · rintro ⟨k, hk, hkd, hG, hP⟩
    have hM : ∀ i, 1 ≤ i → i ≤ k → pro.testBit (t - k * 8 + 8 * i) = true ∧ True := by
      intro i h1 h2
      have h := hP (k - i) (by omega)
      have e : t - (k - i) * 8 = t - k * 8 + 8 * i := by omega
      rw [e] at h
      exact ⟨h, trivial⟩
    refine ⟨t - k * 8, by omega, k, by omega, hG, ⟨by omega, ht, by omega, by omega⟩, ?_⟩
    intro j hj q hq h1 h2 hray
    obtain ⟨-, -, hf, hr⟩ := hray
    have e : q = t - k * 8 + 8 * j := by omega
    rw [e]; exact (hM j h1 h2).1
  · rintro ⟨s, hs, k, hk, hG, ⟨-, -, hf, hr⟩, hpro⟩
    have et : t = s + 8 * k := by omega
    refine ⟨k, by omega, by omega, ?_, ?_⟩
    · have e : t - k * 8 = s := by omega
      rw [e]; exact hG
    · intro j hj
      have hq := hpro (k - j) (by omega) (t - j * 8) (by omega) (by omega) (by omega)
        ⟨hs, by omega, by omega, by omega⟩
      exact hq

theorem northFill_reachSpec (gen pro t : Nat) (hg : gen < 2 ^ 64) :
    (northFill gen pro).testBit t = true ↔ reachSpec 0 1 7 gen pro t := by
  by_cases ht : t < 64
  · exact (ks_fillL 8 4 gen pro (by omega) t ht).trans
      (north_bridge gen pro 7 t (by omega) ht)
  · constructor
    · intro h
      have h2 : (northFill gen pro).testBit t = gen.testBit t := by
        simp [northFill, Nat.testBit_or, Nat.testBit_and, testBit_shl, ht]
      rw [h2, testBit_false_of_lt hg (by omega)] at h
      exact Bool.noConfusion h
    · rintro ⟨s, hs, k, hk, hG, ⟨-, h, -, -⟩, -⟩
      exact absurd h ht

theorem northAttacks_attackSpec (gen pro t : Nat) (hg : gen < 2 ^ 64) :
    (northAttacks gen pro).testBit t = true ↔ attackSpec 0 1 gen pro t := by
  have hA : northAttacks gen pro = shl (northFill gen pro) 8 := rfl
  rw [hA, testBit_shl]
  simp only [Bool.and_eq_true, decide_eq_true_eq]
  rw [northFill_reachSpec gen pro (t - 8) hg]
  constructor
  · rintro ⟨ht, hd, s, hs, k, hk, hG, ⟨-, h64, hf, hr⟩, hpro⟩
    refine ⟨s, hs, k + 1, by omega, by omega, hG, ⟨hs, ht, by omega, by omega⟩, ?_⟩
    intro j hj q hq h1 h2 hray
    exact hpro j hj q hq h1 (by omega) hray
  · rintro ⟨s, hs, k, hk, hk1, hG, ⟨-, ht, hf, hr⟩, hpro⟩
    refine ⟨ht, by omega, ?_⟩
    refine ⟨s, hs, k - 1, by omega, hG, ⟨hs, by omega, by omega, by omega⟩, ?_⟩
    intro j hj q hq h1 h2 hray
    exact hpro j hj q hq h1 (by omega) hray
theorem south_bridge (gen pro n t : Nat) (hn : n ≤ 7) (hg : gen < 2 ^ 64) :
    reachR 8 (fun q => gen.testBit q = true) (fun q => pro.testBit q = true) n t ↔ reachSpec 0 (-1) n gen pro t := by
  constructor
  · rintro ⟨k, hk, hG, hP⟩
    have hs := lt_of_testBit_true hg hG
    have hM : ∀ j, j < k → pro.testBit (t + 8 * j) = true ∧ True := by
      intro j h1
      have h := hP j h1
      have e : t + j * 8 = t + 8 * j := by omega
      rw [e] at h
      exact ⟨h, trivial⟩
    refine ⟨t + k * 8, hs, k, by omega, hG, ⟨hs, by omega, by omega, by omega⟩, ?_⟩
    intro j hj q hq h1 h2 hray
    obtain ⟨-, -, hf, hr⟩ := hray
    have e : q = t + 8 * (k - j) := by omega
    rw [e]; exact (hM (k - j) (by omega)).1
  · rintro ⟨s, hs, k, hk, hG, ⟨-, ht, hf, hr⟩, hpro⟩
    have et : s = t + 8 * k := by omega
    refine ⟨k, by omega, ?_, ?_⟩
    · have e : t + k * 8 = s := by omega
      rw [e]; exact hG
    · intro j hj
      have hq := hpro (k - j) (by omega) (t + j * 8) (by omega) (by omega) (by omega)
        ⟨hs, by omega, by omega, by omega⟩
      exact hq

theorem southFill_reachSpec (gen pro t : Nat) (hg : gen < 2 ^ 64) :
    (southFill gen pro).testBit t = true ↔ reachSpec 0 (-1) 7 gen pro t :=
  (ks_fillR 8 4 gen pro (by omega) t).trans (south_bridge gen pro 7 t (by omega) hg)

theorem southAttacks_attackSpec (gen pro t : Nat) (hg : gen < 2 ^ 64) :
    (southAttacks gen pro).testBit t = true ↔ attackSpec 0 (-1) gen pro t := by
  have hA : southAttacks gen pro = southFill gen pro >>> 8 := rfl
  rw [hA, Nat.testBit_shiftRight]
  rw [southFill_reachSpec gen pro (8 + t) hg]
  constructor
  · rintro ⟨s, hs, k, hk, hG, ⟨-, h64, hf, hr⟩, hpro⟩
    refine ⟨s, hs, k + 1, by omega, by omega, hG, ⟨hs, by omega, by omega, by omega⟩, ?_⟩
    intro j hj q hq h1 h2 hray
    exact hpro j hj q hq h1 (by omega) hray
  · rintro ⟨s, hs, k, hk, hk1, hG, ⟨-, ht, hf, hr⟩, hpro⟩
    refine ?_
    refine ⟨s, hs, k - 1, by omega, hG, ⟨hs, by omega, by omega, by omega⟩, ?_⟩
    intro j hj q hq h1 h2 hray
    exact hpro j hj q hq h1 (by omega) hray
theorem east_bridge (gen pro n t : Nat) (hn : n ≤ 7) (ht : t < 64) :
    reachL 1 (fun q => gen.testBit q = true) (fun q => (pro &&& bnot FILEA).testBit q = true) n t ↔ reachSpec 1 0 n gen pro t := by
  constructor
  · rintro ⟨k, hk, hkd, hG, hP⟩
    have hM : ∀ i, 1 ≤ i → i ≤ k →
        pro.testBit (t - k * 1 + 1 * i) = true ∧ (t - k * 1 + 1 * i) % 8 ≠ 0 := by
      intro i h1 h2
      have h := hP (k - i) (by omega)
      have e : t - (k - i) * 1 = t - k * 1 + 1 * i := by omega
      rw [e, testBit_and_bnot_FILEA] at h
      exact ⟨h.1, h.2.2⟩
    have geo := geoA_1 k (t - k * 1) (by omega) (fun i h1 h2 => (hM i h1 h2).2)
    refine ⟨t - k * 1, by omega, k, by omega, hG, ⟨by omega, ht, by omega, by omega⟩, ?_⟩
    intro j hj q hq h1 h2 hray
    obtain ⟨-, -, hf, hr⟩ := hray
    have e : q = t - k * 1 + 1 * j := by omega
    rw [e]; exact (hM j h1 h2).1
  · rintro ⟨s, hs, k, hk, hG, ⟨-, -, hf, hr⟩, hpro⟩
    have et : t = s + 1 * k := by omega
    refine ⟨k, by omega, by omega, ?_, ?_⟩
    · have e : t - k * 1 = s := by omega
      rw [e]; exact hG
    · intro j hj
      have hq := hpro (k - j) (by omega) (t - j * 1) (by omega) (by omega) (by omega)
        ⟨hs, by omega, by omega, by omega⟩
      rw [testBit_and_bnot_FILEA]
      exact ⟨hq, by omega, by omega⟩

theorem eastFill_reachSpec (gen pro t : Nat) (hg : gen < 2 ^ 64) :
    (eastFill gen pro).testBit t = true ↔ reachSpec 1 0 6 gen pro t := by
  by_cases ht : t < 64
  · exact (ks_fillL 1 3 gen (pro &&& bnot FILEA) (by omega) t ht).trans
      (east_bridge gen pro 6 t (by omega) ht)
  · constructor
    · intro h
      have h2 : (eastFill gen pro).testBit t = gen.testBit t := by
        simp [eastFill, Nat.testBit_or, Nat.testBit_and, testBit_shl, ht]
      rw [h2, testBit_false_of_lt hg (by omega)] at h
      exact Bool.noConfusion h
    · rintro ⟨s, hs, k, hk, hG, ⟨-, h, -, -⟩, -⟩
      exact absurd h ht

theorem eastAttacks_attackSpec (gen pro t : Nat) (hg : gen < 2 ^ 64) :
    (eastAttacks gen pro).testBit t = true ↔ attackSpec 1 0 gen pro t := by
  have hA : eastAttacks gen pro = shl (eastFill gen pro) 1 &&& bnot FILEA := rfl
  rw [hA, testBit_and_bnot_FILEA, testBit_shl]
  simp only [Bool.and_eq_true, decide_eq_true_eq]
  rw [eastFill_reachSpec gen pro (t - 1) hg]
  constructor
  · rintro ⟨⟨ht, hd, s, hs, k, hk, hG, ⟨-, h64, hf, hr⟩, hpro⟩, -, hm⟩
    refine ⟨s, hs, k + 1, by omega, by omega, hG, ⟨hs, ht, by omega, by omega⟩, ?_⟩
    intro j hj q hq h1 h2 hray
    exact hpro j hj q hq h1 (by omega) hray
  · rintro ⟨s, hs, k, hk, hk1, hG, ⟨-, ht, hf, hr⟩, hpro⟩
    refine ⟨⟨ht, by omega, ?_⟩, ht, by omega⟩
    refine ⟨s, hs, k - 1, by omega, hG, ⟨hs, by omega, by omega, by omega⟩, ?_⟩
    intro j hj q hq h1 h2 hray
    exact hpro j hj q hq h1 (by omega) hray
theorem west_bridge (gen pro n t : Nat) (hn : n ≤ 7) (hg : gen < 2 ^ 64) :
    reachR 1 (fun q => gen.testBit q = true) (fun q => (pro &&& bnot FILEH).testBit q = true) n t ↔ reachSpec (-1) 0 n gen pro t := by
  constructor
  · rintro ⟨k, hk, hG, hP⟩
    have hs := lt_of_testBit_true hg hG
    have hM : ∀ j, j < k →
        pro.testBit (t + 1 * j) = true ∧ (t + 1 * j) % 8 ≠ 7 := by
      intro j h1
      have h := hP j h1
      have e : t + j * 1 = t + 1 * j := by omega
      rw [e, testBit_and_bnot_FILEH] at h
      exact ⟨h.1, h.2.2⟩
    have geo := geoD_1 k t (by omega) (fun j h1 => (hM j h1).2)
    refine ⟨t + k * 1, hs, k, by omega, hG, ⟨hs, by omega, by omega, by omega⟩, ?_⟩
    intro j hj q hq h1 h2 hray
    obtain ⟨-, -, hf, hr⟩ := hray
    have e : q = t + 1 * (k - j) := by omega
    rw [e]; exact (hM (k - j) (by omega)).1
  · rintro ⟨s, hs, k, hk, hG, ⟨-, ht, hf, hr⟩, hpro⟩
    have et : s = t + 1 * k := by omega
    refine ⟨k, by omega, ?_, ?_⟩
    · have e : t + k * 1 = s := by omega
      rw [e]; exact hG
    · intro j hj
      have hq := hpro (k - j) (by omega) (t + j * 1) (by omega) (by omega) (by omega)
        ⟨hs, by omega, by omega, by omega⟩
      rw [testBit_and_bnot_FILEH]
      exact ⟨hq, by omega, by omega⟩

theorem westFill_reachSpec (gen pro t : Nat) (hg : gen < 2 ^ 64) :
    (westFill gen pro).testBit t = true ↔ reachSpec (-1) 0 6 gen pro t :=
  (ks_fillR 1 3 gen (pro &&& bnot FILEH) (by omega) t).trans (west_bridge gen pro 6 t (by omega) hg)

theorem westAttacks_attackSpec (gen pro t : Nat) (hg : gen < 2 ^ 64) :
    (westAttacks gen pro).testBit t = true ↔ attackSpec (-1) 0 gen pro t := by
  have hA : westAttacks gen pro = (westFill gen pro >>> 1) &&& bnot FILEH := rfl
  rw [hA, testBit_and_bnot_FILEH, Nat.testBit_shiftRight]
  rw [westFill_reachSpec gen pro (1 + t) hg]
  constructor
  · rintro ⟨⟨s, hs, k, hk, hG, ⟨-, h64, hf, hr⟩, hpro⟩, ht, hm⟩
    refine ⟨s, hs, k + 1, by omega, by omega, hG, ⟨hs, by omega, by omega, by omega⟩, ?_⟩
    intro j hj q hq h1 h2 hray
    exact hpro j hj q hq h1 (by omega) hray
  · rintro ⟨s, hs, k, hk, hk1, hG, ⟨-, ht, hf, hr⟩, hpro⟩
    refine ⟨?_, ht, by omega⟩
    refine ⟨s, hs, k - 1, by omega, hG, ⟨hs, by omega, by omega, by omega⟩, ?_⟩
    intro j hj q hq h1 h2 hray
    exact hpro j hj q hq h1 (by omega) hray
theorem northEast_bridge (gen pro n t : Nat) (hn : n ≤ 7) (ht : t < 64) :
    reachL 9 (fun q => gen.testBit q = true) (fun q => (pro &&& bnot FILEA).testBit q = true) n t ↔ reachSpec 1 1 n gen pro t := by
  constructor
  · rintro ⟨k, hk, hkd, hG, hP⟩
    have hM : ∀ i, 1 ≤ i → i ≤ k →
        pro.testBit (t - k * 9 + 9 * i) = true ∧ (t - k * 9 + 9 * i) % 8 ≠ 0 := by
      intro i h1 h2
      have h := hP (k - i) (by omega)
      have e : t - (k - i) * 9 = t - k * 9 + 9 * i := by omega
      rw [e, testBit_and_bnot_FILEA] at h
      exact ⟨h.1, h.2.2⟩
    have geo := geoA_9 k (t - k * 9) (by omega) (fun i h1 h2 => (hM i h1 h2).2)
    refine ⟨t - k * 9, by omega, k, by omega, hG, ⟨by omega, ht, by omega, by omega⟩, ?_⟩
    intro j hj q hq h1 h2 hray
    obtain ⟨-, -, hf, hr⟩ := hray
    have e : q = t - k * 9 + 9 * j := by omega
    rw [e]; exact (hM j h1 h2).1
  · rintro ⟨s, hs, k, hk, hG, ⟨-, -, hf, hr⟩, hpro⟩
    have et : t = s + 9 * k := by omega
    refine ⟨k, by omega, by omega, ?_, ?_⟩
    · have e : t - k * 9 = s := by omega
      rw [e]; exact hG
    · intro j hj
      have hq := hpro (k - j) (by omega) (t - j * 9) (by omega) (by omega) (by omega)
        ⟨hs, by omega, by omega, by omega⟩
      rw [testBit_and_bnot_FILEA]
      exact ⟨hq, by omega, by omega⟩

theorem northEastFill_reachSpec (gen pro t : Nat) (hg : gen < 2 ^ 64) :
    (northEastFill gen pro).testBit t = true ↔ reachSpec 1 1 7 gen pro t := by
  by_cases ht : t < 64
  · exact (ks_fillL 9 4 gen (pro &&& bnot FILEA) (by omega) t ht).trans
      (northEast_bridge gen pro 7 t (by omega) ht)
  · constructor
    · intro h
      have h2 : (northEastFill gen pro).testBit t = gen.testBit t := by
        simp [northEastFill, Nat.testBit_or, Nat.testBit_and, testBit_shl, ht]
      rw [h2, testBit_false_of_lt hg (by omega)] at h
      exact Bool.noConfusion h
    · rintro ⟨s, hs, k, hk, hG, ⟨-, h, -, -⟩, -⟩
      exact absurd h ht

theorem northEastAttacks_attackSpec (gen pro t : Nat) (hg : gen < 2 ^ 64) :
    (northEastAttacks gen pro).testBit t = true ↔ attackSpec 1 1 gen pro t := by
  have hA : northEastAttacks gen pro = shl (northEastFill gen pro) 9 &&& bnot FILEA := rfl
  rw [hA, testBit_and_bnot_FILEA, testBit_shl]
  simp only [Bool.and_eq_true, decide_eq_true_eq]
  rw [northEastFill_reachSpec gen pro (t - 9) hg]
  constructor
  · rintro ⟨⟨ht, hd, s, hs, k, hk, hG, ⟨-, h64, hf, hr⟩, hpro⟩, -, hm⟩
    refine ⟨s, hs, k + 1, by omega, by omega, hG, ⟨hs, ht, by omega, by omega⟩, ?_⟩
    intro j hj q hq h1 h2 hray
    exact hpro j hj q hq h1 (by omega) hray
  · rintro ⟨s, hs, k, hk, hk1, hG, ⟨-, ht, hf, hr⟩, hpro⟩
    refine ⟨⟨ht, by omega, ?_⟩, ht, by omega⟩
    refine ⟨s, hs, k - 1, by omega, hG, ⟨hs, by omega, by omega, by omega⟩, ?_⟩
    intro j hj q hq h1 h2 hray
    exact hpro j hj q hq h1 (by omega) hray
theorem northWest_bridge (gen pro n t : Nat) (hn : n ≤ 7) (ht : t < 64) :
    reachL 7 (fun q => gen.testBit q = true) (fun q => (pro &&& bnot FILEH).testBit q = true) n t ↔ reachSpec (-1) 1 n gen pro t := by
  constructor
  · rintro ⟨k, hk, hkd, hG, hP⟩
    have hM : ∀ i, 1 ≤ i → i ≤ k →
        pro.testBit (t - k * 7 + 7 * i) = true ∧ (t - k * 7 + 7 * i) % 8 ≠ 7 := by
      intro i h1 h2
      have h := hP (k - i) (by omega)
      have e : t - (k - i) * 7 = t - k * 7 + 7 * i := by omega
      rw [e, testBit_and_bnot_FILEH] at h
      exact ⟨h.1, h.2.2⟩
    have geo := geoA_7 k (t - k * 7) (by omega) (fun i h1 h2 => (hM i h1 h2).2)
    refine ⟨t - k * 7, by omega, k, by omega, hG, ⟨by omega, ht, by omega, by omega⟩, ?_⟩
    intro j hj q hq h1 h2 hray
    obtain ⟨-, -, hf, hr⟩ := hray
    have e : q = t - k * 7 + 7 * j := by omega
    rw [e]; exact (hM j h1 h2).1
  · rintro ⟨s, hs, k, hk, hG, ⟨-, -, hf, hr⟩, hpro⟩
    have et : t = s + 7 * k := by omega
    refine ⟨k, by omega, by omega, ?_, ?_⟩
    · have e : t - k * 7 = s := by omega
      rw [e]; exact hG
    · intro j hj
      have hq := hpro (k - j) (by omega) (t - j * 7) (by omega) (by omega) (by omega)
        ⟨hs, by omega, by omega, by omega⟩
      rw [testBit_and_bnot_FILEH]
      exact ⟨hq, by omega, by omega⟩

theorem northWestFill_reachSpec (gen pro t : Nat) (hg : gen < 2 ^ 64) :
    (northWestFill gen pro).testBit t = true ↔ reachSpec (-1) 1 7 gen pro t := by
  by_cases ht : t < 64
  · exact (ks_fillL 7 4 gen (pro &&& bnot FILEH) (by omega) t ht).trans
      (northWest_bridge gen pro 7 t (by omega) ht)
  · constructor
    · intro h
      have h2 : (northWestFill gen pro).testBit t = gen.testBit t := by
        simp [northWestFill, Nat.testBit_or, Nat.testBit_and, testBit_shl, ht]
      rw [h2, testBit_false_of_lt hg (by omega)] at h
      exact Bool.noConfusion h
    · rintro ⟨s, hs, k, hk, hG, ⟨-, h, -, -⟩, -⟩
      exact absurd h ht

theorem northWestAttacks_attackSpec (gen pro t : Nat) (hg : gen < 2 ^ 64) :
    (northWestAttacks gen pro).testBit t = true ↔ attackSpec (-1) 1 gen pro t := by
  have hA : northWestAttacks gen pro = shl (northWestFill gen pro) 7 &&& bnot FILEH := rfl
  rw [hA, testBit_and_bnot_FILEH, testBit_shl]
  simp only [Bool.and_eq_true, decide_eq_true_eq]
  rw [northWestFill_reachSpec gen pro (t - 7) hg]
  constructor
  · rintro ⟨⟨ht, hd, s, hs, k, hk, hG, ⟨-, h64, hf, hr⟩, hpro⟩, -, hm⟩
    refine ⟨s, hs, k + 1, by omega, by omega, hG, ⟨hs, ht, by omega, by omega⟩, ?_⟩
    intro j hj q hq h1 h2 hray
    exact hpro j hj q hq h1 (by omega) hray
  · rintro ⟨s, hs, k, hk, hk1, hG, ⟨-, ht, hf, hr⟩, hpro⟩
    refine ⟨⟨ht, by omega, ?_⟩, ht, by omega⟩
    refine ⟨s, hs, k - 1, by omega, hG, ⟨hs, by omega, by omega, by omega⟩, ?_⟩
    intro j hj q hq h1 h2 hray
    exact hpro j hj q hq h1 (by omega) hray
theorem southEast_bridge (gen pro n t : Nat) (hn : n ≤ 7) (hg : gen < 2 ^ 64) :
    reachR 7 (fun q => gen.testBit q = true) (fun q => (pro &&& bnot FILEA).testBit q = true) n t ↔ reachSpec 1 (-1) n gen pro t := by
  constructor
  · rintro ⟨k, hk, hG, hP⟩
    have hs := lt_of_testBit_true hg hG
    have hM : ∀ j, j < k →
        pro.testBit (t + 7 * j) = true ∧ (t + 7 * j) % 8 ≠ 0 := by
      intro j h1
      have h := hP j h1
      have e : t + j * 7 = t + 7 * j := by omega
      rw [e, testBit_and_bnot_FILEA] at h
      exact ⟨h.1, h.2.2⟩
    have geo := geoD_7 k t (by omega) (fun j h1 => (hM j h1).2)
    refine ⟨t + k * 7, hs, k, by omega, hG, ⟨hs, by omega, by omega, by omega⟩, ?_⟩
    intro j hj q hq h1 h2 hray
    obtain ⟨-, -, hf, hr⟩ := hray
    have e : q = t + 7 * (k - j) := by omega
    rw [e]; exact (hM (k - j) (by omega)).1
  · rintro ⟨s, hs, k, hk, hG, ⟨-, ht, hf, hr⟩, hpro⟩
    have et : s = t + 7 * k := by omega
    refine ⟨k, by omega, ?_, ?_⟩
    · have e : t + k * 7 = s := by omega
      rw [e]; exact hG
    · intro j hj
      have hq := hpro (k - j) (by omega) (t + j * 7) (by omega) (by omega) (by omega)
        ⟨hs, by omega, by omega, by omega⟩
      rw [testBit_and_bnot_FILEA]
      exact ⟨hq, by omega, by omega⟩

theorem southEastFill_reachSpec (gen pro t : Nat) (hg : gen < 2 ^ 64) :
    (southEastFill gen pro).testBit t = true ↔ reachSpec 1 (-1) 7 gen pro t :=
  (ks_fillR 7 4 gen (pro &&& bnot FILEA) (by omega) t).trans (southEast_bridge gen pro 7 t (by omega) hg)

theorem southEastAttacks_attackSpec (gen pro t : Nat) (hg : gen < 2 ^ 64) :
    (southEastAttacks gen pro).testBit t = true ↔ attackSpec 1 (-1) gen pro t := by
  have hA : southEastAttacks gen pro = (southEastFill gen pro >>> 7) &&& bnot FILEA := rfl
  rw [hA, testBit_and_bnot_FILEA, Nat.testBit_shiftRight]
  rw [southEastFill_reachSpec gen pro (7 + t) hg]
  constructor
  · rintro ⟨⟨s, hs, k, hk, hG, ⟨-, h64, hf, hr⟩, hpro⟩, ht, hm⟩
    refine ⟨s, hs, k + 1, by omega, by omega, hG, ⟨hs, by omega, by omega, by omega⟩, ?_⟩
    intro j hj q hq h1 h2 hray
    exact hpro j hj q hq h1 (by omega) hray
  · rintro ⟨s, hs, k, hk, hk1, hG, ⟨-, ht, hf, hr⟩, hpro⟩
    refine ⟨?_, ht, by omega⟩
    refine ⟨s, hs, k - 1, by omega, hG, ⟨hs, by omega, by omega, by omega⟩, ?_⟩
    intro j hj q hq h1 h2 hray
    exact hpro j hj q hq h1 (by omega) hray
theorem southWest_bridge (gen pro n t : Nat) (hn : n ≤ 7) (hg : gen < 2 ^ 64) :
    reachR 9 (fun q => gen.testBit q = true) (fun q => (pro &&& bnot FILEH).testBit q = true) n t ↔ reachSpec (-1) (-1) n gen pro t := by
  constructor
  · rintro ⟨k, hk, hG, hP⟩
    have hs := lt_of_testBit_true hg hG
    have hM : ∀ j, j < k →
        pro.testBit (t + 9 * j) = true ∧ (t + 9 * j) % 8 ≠ 7 := by
      intro j h1
      have h := hP j h1
      have e : t + j * 9 = t + 9 * j := by omega
      rw [e, testBit_and_bnot_FILEH] at h
      exact ⟨h.1, h.2.2⟩
    have geo := geoD_9 k t (by omega) (fun j h1 => (hM j h1).2)
    refine ⟨t + k * 9, hs, k, by omega, hG, ⟨hs, by omega, by omega, by omega⟩, ?_⟩
    intro j hj q hq h1 h2 hray
    obtain ⟨-, -, hf, hr⟩ := hray
    have e : q = t + 9 * (k - j) := by omega
    rw [e]; exact (hM (k - j) (by omega)).1
  · rintro ⟨s, hs, k, hk, hG, ⟨-, ht, hf, hr⟩, hpro⟩
    have et : s = t + 9 * k := by omega
    refine ⟨k, by omega, ?_, ?_⟩
    · have e : t + k * 9 = s := by omega
      rw [e]; exact hG
    · intro j hj
      have hq := hpro (k - j) (by omega) (t + j * 9) (by omega) (by omega) (by omega)
        ⟨hs, by omega, by omega, by omega⟩
      rw [testBit_and_bnot_FILEH]
      exact ⟨hq, by omega, by omega⟩

theorem southWestFill_reachSpec (gen pro t : Nat) (hg : gen < 2 ^ 64) :
    (southWestFill gen pro).testBit t = true ↔ reachSpec (-1) (-1) 7 gen pro t :=
  (ks_fillR 9 4 gen (pro &&& bnot FILEH) (by omega) t).trans (southWest_bridge gen pro 7 t (by omega) hg)

theorem southWestAttacks_attackSpec (gen pro t : Nat) (hg : gen < 2 ^ 64) :
    (southWestAttacks gen pro).testBit t = true ↔ attackSpec (-1) (-1) gen pro t := by
  have hA : southWestAttacks gen pro = (southWestFill gen pro >>> 9) &&& bnot FILEH := rfl
  rw [hA, testBit_and_bnot_FILEH, Nat.testBit_shiftRight]
  rw [southWestFill_reachSpec gen pro (9 + t) hg]
  constructor
  · rintro ⟨⟨s, hs, k, hk, hG, ⟨-, h64, hf, hr⟩, hpro⟩, ht, hm⟩
    refine ⟨s, hs, k + 1, by omega, by omega, hG, ⟨hs, by omega, by omega, by omega⟩, ?_⟩
    intro j hj q hq h1 h2 hray
    exact hpro j hj q hq h1 (by omega) hray
  · rintro ⟨s, hs, k, hk, hk1, hG, ⟨-, ht, hf, hr⟩, hpro⟩
    refine ⟨?_, ht, by omega⟩
    refine ⟨s, hs, k - 1, by omega, hG, ⟨hs, by omega, by omega, by omega⟩, ?_⟩
    intro j hj q hq h1 h2 hray
    exact hpro j hj q hq h1 (by omega) hray

/-- C25: for every generator set `gen` (a 64-bit value) and propagator set `pro`, each of
`northFill`, `southFill`, `northEastFill`, `northWestFill`, `southEastFill` and
`southWestFill` returns exactly the full reachable set: square `t` is in the result iff
some square `s` of `gen` lies `k ≥ 0` steps before `t` in the operator's direction, on the
board the whole way (no wrap across the A and H files), with every square stepped onto in
`pro`. -/
theorem fills_return_full_reachable_set (gen pro t : Nat) (hg : gen < 2 ^ 64) :
    ((northFill gen pro).testBit t = true ↔ fillSpec 0 1 gen pro t) ∧
    ((southFill gen pro).testBit t = true ↔ fillSpec 0 (-1) gen pro t) ∧
    ((northEastFill gen pro).testBit t = true ↔ fillSpec 1 1 gen pro t) ∧
    ((northWestFill gen pro).testBit t = true ↔ fillSpec (-1) 1 gen pro t) ∧
    ((southEastFill gen pro).testBit t = true ↔ fillSpec 1 (-1) gen pro t) ∧
    ((southWestFill gen pro).testBit t = true ↔ fillSpec (-1) (-1) gen pro t) :=
  ⟨northFill_reachSpec gen pro t hg, southFill_reachSpec gen pro t hg,
    northEastFill_reachSpec gen pro t hg, northWestFill_reachSpec gen pro t hg,
    southEastFill_reachSpec gen pro t hg, southWestFill_reachSpec gen pro t hg⟩

theorem fills_return_full_reachable_set_witness :
    (northFill 1 0xFFFFFFFFFFFFFFFF).testBit 56 = true ↔ fillSpec 0 1 1 0xFFFFFFFFFFFFFFFF 56 :=
  (fills_return_full_reachable_set 1 0xFFFFFFFFFFFFFFFF 56 (by decide)).1

/-- C23: the Kogge-Stone sliding attacks are correct for any occupancy and any number of
sliders: for every 64-bit set of rooks and every set `pro` of empty squares, square `t` is
in `rookAttacksKoggeStone rooks pro` iff some rook lies `k ≥ 1` steps from `t` along its
rank or file, on the board the whole way, with every square strictly between the two in
`pro`; `bishopAttacksKoggeStone` is the same for the four diagonal directions. -/
theorem koggeStone_attacks_correct (sliders pro t : Nat) (hg : sliders < 2 ^ 64) :
    ((rookAttacksKoggeStone sliders pro).testBit t = true ↔
      attackSpec 0 1 sliders pro t ∨ attackSpec 0 (-1) sliders pro t ∨
      attackSpec 1 0 sliders pro t ∨ attackSpec (-1) 0 sliders pro t) ∧
    ((bishopAttacksKoggeStone sliders pro).testBit t = true ↔
      attackSpec 1 1 sliders pro t ∨ attackSpec (-1) 1 sliders pro t ∨
      attackSpec 1 (-1) sliders pro t ∨ attackSpec (-1) (-1) sliders pro t) := by
  constructor
  · unfold rookAttacksKoggeStone
    simp only [Nat.testBit_or, Bool.or_eq_true, northAttacks_attackSpec _ _ _ hg,
      southAttacks_attackSpec _ _ _ hg, eastAttacks_attackSpec _ _ _ hg,
      westAttacks_attackSpec _ _ _ hg, or_assoc]
  · unfold bishopAttacksKoggeStone
    simp only [Nat.testBit_or, Bool.or_eq_true, northEastAttacks_attackSpec _ _ _ hg,
      northWestAttacks_attackSpec _ _ _ hg, southEastAttacks_attackSpec _ _ _ hg,
      southWestAttacks_attackSpec _ _ _ hg, or_assoc]

theorem koggeStone_attacks_correct_witness :
    (rookAttacksKoggeStone 1 0).testBit 8 = true ↔
      attackSpec 0 1 1 0 8 ∨ attackSpec 0 (-1) 1 0 8 ∨
      attackSpec 1 0 1 0 8 ∨ attackSpec (-1) 0 1 0 8 :=
  (koggeStone_attacks_correct 1 0 8 (by decide)).1

/-! ## One-step shifts against the ray specification -/

theorem northOne_spec (x t : Nat) (hx : x < 2 ^ 64) :
    (northOne x).testBit t = true ↔ ∃ s, s < 64 ∧ x.testBit s = true ∧ onRay 0 1 s 1 t := by
  unfold northOne onRay
  rw [testBit_shl]
  simp only [Bool.and_eq_true, decide_eq_true_eq]
  constructor
  · rintro ⟨ht, hd, h⟩
    exact ⟨t - 8, by omega, h, by omega, ht, by omega, by omega⟩
  · rintro ⟨s, hs, h, -, ht, hf, hr⟩
    have e : t - 8 = s := by omega
    exact ⟨ht, by omega, e ▸ h⟩

theorem southOne_spec (x t : Nat) (hx : x < 2 ^ 64) :
    (southOne x).testBit t = true ↔ ∃ s, s < 64 ∧ x.testBit s = true ∧ onRay 0 (-1) s 1 t := by
  unfold southOne onRay
  rw [Nat.testBit_shiftRight]
  constructor
  · intro h
    have hs := lt_of_testBit_true hx h
    exact ⟨8 + t, hs, h, hs, by omega, by omega, by omega⟩
  · rintro ⟨s, hs, h, -, ht, hf, hr⟩
    have e : 8 + t = s := by omega
    exact e ▸ h

theorem eastOne_spec (x t : Nat) (hx : x < 2 ^ 64) :
    (eastOne x).testBit t = true ↔ ∃ s, s < 64 ∧ x.testBit s = true ∧ onRay 1 0 s 1 t := by
  unfold eastOne onRay
  rw [testBit_and_bnot_FILEA, testBit_shl]
  simp only [Bool.and_eq_true, decide_eq_true_eq]
  constructor
  · rintro ⟨⟨ht, hd, h⟩, -, hm⟩
    exact ⟨t - 1, by omega, h, by omega, ht, by omega, by omega⟩
  · rintro ⟨s, hs, h, -, ht, hf, hr⟩
    have e : t - 1 = s := by omega
    exact ⟨⟨ht, by omega, e ▸ h⟩, ht, by omega⟩

theorem westOne_spec (x t : Nat) (hx : x < 2 ^ 64) :
    (westOne x).testBit t = true ↔ ∃ s, s < 64 ∧ x.testBit s = true ∧ onRay (-1) 0 s 1 t := by
  unfold westOne onRay
  rw [testBit_and_bnot_FILEH, Nat.testBit_shiftRight]
  constructor
  · rintro ⟨h, ht, hm⟩
    have hs := lt_of_testBit_true hx h
    exact ⟨1 + t, hs, h, hs, by omega, by omega, by omega⟩
  · rintro ⟨s, hs, h, -, ht, hf, hr⟩
    have e : 1 + t = s := by omega
    exact ⟨e ▸ h, ht, by omega⟩

theorem northEastOne_spec (x t : Nat) (hx : x < 2 ^ 64) :
    (northEastOne x).testBit t = true ↔ ∃ s, s < 64 ∧ x.testBit s = true ∧ onRay 1 1 s 1 t := by
  unfold northEastOne onRay
  rw [testBit_and_bnot_FILEA, testBit_shl]
  simp only [Bool.and_eq_true, decide_eq_true_eq]
  constructor
  · rintro ⟨⟨ht, hd, h⟩, -, hm⟩
    exact ⟨t - 9, by omega, h, by omega, ht, by omega, by omega⟩
  · rintro ⟨s, hs, h, -, ht, hf, hr⟩
    have e : t - 9 = s := by omega
    exact ⟨⟨ht, by omega, e ▸ h⟩, ht, by omega⟩

theorem northWestOne_spec (x t : Nat) (hx : x < 2 ^ 64) :
    (northWestOne x).testBit t = true ↔
      ∃ s, s < 64 ∧ x.testBit s = true ∧ onRay (-1) 1 s 1 t := by
  unfold northWestOne onRay
  rw [testBit_and_bnot_FILEH, testBit_shl]
  simp only [Bool.and_eq_true, decide_eq_true_eq]
  constructor
  · rintro ⟨⟨ht, hd, h⟩, -, hm⟩
    exact ⟨t - 7, by omega, h, by omega, ht, by omega, by omega⟩
  · rintro ⟨s, hs, h, -, ht, hf, hr⟩
    have e : t - 7 = s := by omega
    exact ⟨⟨ht, by omega, e ▸ h⟩, ht, by omega⟩

theorem southEastOne_spec (x t : Nat) (hx : x < 2 ^ 64) :
    (southEastOne x).testBit t = true ↔
      ∃ s, s < 64 ∧ x.testBit s = true ∧ onRay 1 (-1) s 1 t := by
  unfold southEastOne onRay
  rw [testBit_and_bnot_FILEA, Nat.testBit_shiftRight]
  constructor
  · rintro ⟨h, ht, hm⟩
    have hs := lt_of_testBit_true hx h
    exact ⟨7 + t, hs, h, hs, by omega, by omega, by omega⟩
  · rintro ⟨s, hs, h, -, ht, hf, hr⟩
    have e : 7 + t = s := by omega
    exact ⟨e ▸ h, ht, by omega⟩

theorem southWestOne_spec (x t : Nat) (hx : x < 2 ^ 64) :
    (southWestOne x).testBit t = true ↔
      ∃ s, s < 64 ∧ x.testBit s = true ∧ onRay (-1) (-1) s 1 t := by
  unfold southWestOne onRay
  rw [testBit_and_bnot_FILEH, Nat.testBit_shiftRight]
  constructor
  · rintro ⟨h, ht, hm⟩
    have hs := lt_of_testBit_true hx h
    exact ⟨9 + t, hs, h, hs, by omega, by omega, by omega⟩
  · rintro ⟨s, hs, h, -, ht, hf, hr⟩
    have e : 9 + t = s := by omega
    exact ⟨e ▸ h, ht, by omega⟩

theorem eastOne_lt (x : Nat) : eastOne x < 2 ^ 64 :=
  lt_of_testBit_false fun i hi => by
    simp [eastOne, Nat.testBit_and, testBit_bnot, testBit_shl, Nat.not_lt.mpr hi]

theorem westOne_lt (x : Nat) : westOne x < 2 ^ 64 :=
  lt_of_testBit_false fun i hi => by
    simp [westOne, Nat.testBit_and, testBit_bnot, Nat.not_lt.mpr hi]

theorem stepAttackSpec_kingDirs (gen t : Nat) :
    stepAttackSpec kingDirs gen t ↔ ∃ s, s < 64 ∧ gen.testBit s = true ∧
      (onRay 1 0 s 1 t ∨ onRay (-1) 0 s 1 t ∨ onRay 0 1 s 1 t ∨ onRay 0 (-1) s 1 t ∨
       onRay 1 1 s 1 t ∨ onRay (-1) 1 s 1 t ∨ onRay 1 (-1) s 1 t ∨ onRay (-1) (-1) s 1 t) := by
  simp [stepAttackSpec, kingDirs]

theorem stepAttackSpec_knightDirs (gen t : Nat) :
    stepAttackSpec knightDirs gen t ↔ ∃ s, s < 64 ∧ gen.testBit s = true ∧
      (onRay 1 2 s 1 t ∨ onRay 2 1 s 1 t ∨ onRay 2 (-1) s 1 t ∨ onRay 1 (-2) s 1 t ∨
       onRay (-1) (-2) s 1 t ∨ onRay (-2) (-1) s 1 t ∨ onRay (-2) 1 s 1 t ∨
       onRay (-1) 2 s 1 t) := by
  simp [stepAttackSpec, knightDirs]

theorem kingAttacks_spec (kingSet t : Nat) (hx : kingSet < 2 ^ 64) :
    (kingAttacks kingSet).testBit t = true ↔ stepAttackSpec kingDirs kingSet t := by
  have hy : kingSet ||| (eastOne kingSet ||| westOne kingSet) < 2 ^ 64 :=
    Nat.or_lt_two_pow hx (Nat.or_lt_two_pow (eastOne_lt _) (westOne_lt _))
  rw [stepAttackSpec_kingDirs]
  unfold kingAttacks
  simp only [Nat.testBit_or, Bool.or_eq_true, northOne_spec _ _ hy, southOne_spec _ _ hy,
    eastOne_spec _ _ hx, westOne_spec _ _ hx]
  constructor
  · rintro (((⟨s, hs, h, r⟩ | ⟨s, hs, h, r⟩) | ⟨s, hs, (h | ⟨u, hu, h, r2⟩ | ⟨u, hu, h, r2⟩), r⟩) |
      ⟨s, hs, (h | ⟨u, hu, h, r2⟩ | ⟨u, hu, h, r2⟩), r⟩)
    · exact ⟨s, hs, h, Or.inl r⟩
    · exact ⟨s, hs, h, Or.inr (Or.inl r)⟩
    · exact ⟨s, hs, h, Or.inr (Or.inr (Or.inl r))⟩
    · refine ⟨u, hu, h, Or.inr (Or.inr (Or.inr (Or.inr (Or.inl ?_))))⟩
      unfold onRay at *; omega
    · refine ⟨u, hu, h, Or.inr (Or.inr (Or.inr (Or.inr (Or.inr (Or.inl ?_)))))⟩
      unfold onRay at *; omega
    · exact ⟨s, hs, h, Or.inr (Or.inr (Or.inr (Or.inl r)))⟩
    · refine ⟨u, hu, h, Or.inr (Or.inr (Or.inr (Or.inr (Or.inr (Or.inr (Or.inl ?_))))))⟩
      unfold onRay at *; omega
    · refine ⟨u, hu, h, Or.inr (Or.inr (Or.inr (Or.inr (Or.inr (Or.inr (Or.inr ?_))))))⟩
      unfold onRay at *; omega
  · rintro ⟨s, hs, h, r | r | r | r | r | r | r | r⟩
    · exact Or.inl (Or.inl (Or.inl ⟨s, hs, h, r⟩))
    · exact Or.inl (Or.inl (Or.inr ⟨s, hs, h, r⟩))
    · exact Or.inl (Or.inr ⟨s, hs, Or.inl h, r⟩)
    · exact Or.inr ⟨s, hs, Or.inl h, r⟩
    · refine Or.inl (Or.inr ⟨s + 1, ?_, Or.inr (Or.inl ⟨s, hs, h, ?_⟩), ?_⟩) <;>
        (unfold onRay at *; omega)
    · refine Or.inl (Or.inr ⟨s - 1, ?_, Or.inr (Or.inr ⟨s, hs, h, ?_⟩), ?_⟩) <;>
        (unfold onRay at *; omega)
    · refine Or.inr ⟨s + 1, ?_, Or.inr (Or.inl ⟨s, hs, h, ?_⟩), ?_⟩ <;>
        (unfold onRay at *; omega)
    · refine Or.inr ⟨s - 1, ?_, Or.inr (Or.inr ⟨s, hs, h, ?_⟩), ?_⟩ <;>
        (unfold onRay at *; omega)

theorem testBit_mask7f : ∀ q, q < 64 → (0x7f7f7f7f7f7f7f7f : Nat).testBit q = decide (q % 8 ≠ 7) := by
  decide

theorem testBit_mask3f : ∀ q, q < 64 → (0x3f3f3f3f3f3f3f3f : Nat).testBit q = decide (q % 8 < 6) := by
  decide

theorem testBit_maskfe : ∀ q, q < 64 → (0xfefefefefefefefe : Nat).testBit q = decide (q % 8 ≠ 0) := by
  decide

theorem testBit_maskfc : ∀ q, q < 64 → (0xfcfcfcfcfcfcfcfc : Nat).testBit q = decide (2 ≤ q % 8) := by
  decide

theorem testBit_mask_ge : ∀ m, m < 2 ^ 64 → ∀ q, 64 ≤ q → m.testBit q = false :=
  fun m hm q hq => testBit_false_of_lt hm hq

theorem knight_l1 (x q : Nat) (hx : x < 2 ^ 64) :
    ((x >>> 1) &&& 0x7f7f7f7f7f7f7f7f).testBit q = true ↔
      x.testBit (q + 1) = true ∧ q + 1 < 64 ∧ q % 8 ≠ 7 := by
  rw [Nat.testBit_and, Nat.testBit_shiftRight, Nat.add_comm 1 q]
  by_cases hq : q < 64
  · rw [testBit_mask7f q hq]
    simp only [Bool.and_eq_true, decide_eq_true_eq]
    constructor
    · rintro ⟨h, m⟩; exact ⟨h, lt_of_testBit_true hx h, m⟩
    · rintro ⟨h, -, m⟩; exact ⟨h, m⟩
  · rw [testBit_false_of_lt hx (by omega : 64 ≤ q + 1)]
    simp

theorem knight_l2 (x q : Nat) (hx : x < 2 ^ 64) :
    ((x >>> 2) &&& 0x3f3f3f3f3f3f3f3f).testBit q = true ↔
      x.testBit (q + 2) = true ∧ q + 2 < 64 ∧ q % 8 < 6 := by
  rw [Nat.testBit_and, Nat.testBit_shiftRight, Nat.add_comm 2 q]
  by_cases hq : q < 64
  · rw [testBit_mask3f q hq]
    simp only [Bool.and_eq_true, decide_eq_true_eq]
    constructor
    · rintro ⟨h, m⟩; exact ⟨h, lt_of_testBit_true hx h, m⟩
    · rintro ⟨h, -, m⟩; exact ⟨h, m⟩
  · rw [testBit_false_of_lt hx (by omega : 64 ≤ q + 2)]
    simp

theorem knight_r1 (x q : Nat) :
    (shl x 1 &&& 0xfefefefefefefefe).testBit q = true ↔
      q < 64 ∧ 1 ≤ q ∧ x.testBit (q - 1) = true ∧ q % 8 ≠ 0 := by
  rw [Nat.testBit_and, testBit_shl]
  by_cases hq : q < 64
  · rw [testBit_maskfe q hq]
    simp only [Bool.and_eq_true, decide_eq_true_eq]
    tauto
  · simp [hq]

theorem knight_r2 (x q : Nat) :
    (shl x 2 &&& 0xfcfcfcfcfcfcfcfc).testBit q = true ↔
      q < 64 ∧ 2 ≤ q ∧ x.testBit (q - 2) = true ∧ 2 ≤ q % 8 := by
  rw [Nat.testBit_and, testBit_shl]
  by_cases hq : q < 64
  · rw [testBit_maskfc q hq]
    simp only [Bool.and_eq_true, decide_eq_true_eq]
    tauto
  · simp [hq]

theorem knightAttacks_spec (knights t : Nat) (hx : knights < 2 ^ 64) :
    (knightAttacks knights).testBit t = true ↔ stepAttackSpec knightDirs knights t := by
  rw [stepAttackSpec_knightDirs]
  unfold knightAttacks
  simp only [Nat.testBit_or, Bool.or_eq_true, testBit_shl, Nat.testBit_shiftRight,
    Bool.and_eq_true, decide_eq_true_eq, knight_l1 _ _ hx, knight_l2 _ _ hx, knight_r1,
    knight_r2]
  constructor
  · rintro ((((⟨ht, hd, h | h⟩) | (h | h)) | ⟨ht, hd, h | h⟩) | (h | h))
    · obtain ⟨h, a, b⟩ := h
      have hs := lt_of_testBit_true hx h
      have r : onRay (-1) 2 (t - 16 + 1) 1 t := by unfold onRay; omega
      exact ⟨t - 16 + 1, hs, h, (Or.inr (Or.inr (Or.inr (Or.inr (Or.inr (Or.inr (Or.inr r)))))))⟩
    · obtain ⟨a, b, h, c⟩ := h
      have hs := lt_of_testBit_true hx h
      have r : onRay 1 2 (t - 16 - 1) 1 t := by unfold onRay; omega
      exact ⟨t - 16 - 1, hs, h, (Or.inl r)⟩
    · obtain ⟨h, a, b⟩ := h
      have hs := lt_of_testBit_true hx h
      have r : onRay (-1) (-2) (16 + t + 1) 1 t := by unfold onRay; omega
      exact ⟨16 + t + 1, hs, h, (Or.inr (Or.inr (Or.inr (Or.inr (Or.inl r)))))⟩
    · obtain ⟨a, b, h, c⟩ := h
      have hs := lt_of_testBit_true hx h
      have r : onRay 1 (-2) (16 + t - 1) 1 t := by unfold onRay; omega
      exact ⟨16 + t - 1, hs, h, (Or.inr (Or.inr (Or.inr (Or.inl r))))⟩
    · obtain ⟨h, a, b⟩ := h
      have hs := lt_of_testBit_true hx h
      have r : onRay (-2) 1 (t - 8 + 2) 1 t := by unfold onRay; omega
      exact ⟨t - 8 + 2, hs, h, (Or.inr (Or.inr (Or.inr (Or.inr (Or.inr (Or.inr (Or.inl r)))))))⟩
    · obtain ⟨a, b, h, c⟩ := h
      have hs := lt_of_testBit_true hx h
      have r : onRay 2 1 (t - 8 - 2) 1 t := by unfold onRay; omega
      exact ⟨t - 8 - 2, hs, h, (Or.inr (Or.inl r))⟩
    · obtain ⟨h, a, b⟩ := h
      have hs := lt_of_testBit_true hx h
      have r : onRay (-2) (-1) (8 + t + 2) 1 t := by unfold onRay; omega
      exact ⟨8 + t + 2, hs, h, (Or.inr (Or.inr (Or.inr (Or.inr (Or.inr (Or.inl r))))))⟩
    · obtain ⟨a, b, h, c⟩ := h
      have hs := lt_of_testBit_true hx h
      have r : onRay 2 (-1) (8 + t - 2) 1 t := by unfold onRay; omega
      exact ⟨8 + t - 2, hs, h, (Or.inr (Or.inr (Or.inl r)))⟩
  · rintro ⟨s, hs, h, r | r | r | r | r | r | r | r⟩
    · unfold onRay at r
      have e : t - 16 - 1 = s := by omega
      left; left; left
      refine ⟨by omega, by omega, Or.inr ⟨by omega, by omega, ?_, by omega⟩⟩
      rw [e]; exact h
    · unfold onRay at r
      have e : t - 8 - 2 = s := by omega
      left; right
      refine ⟨by omega, by omega, Or.inr ⟨by omega, by omega, ?_, by omega⟩⟩
      rw [e]; exact h
    · unfold onRay at r
      have e : 8 + t - 2 = s := by omega
      right; right
      refine ⟨by omega, by omega, ?_, by omega⟩
      rw [e]; exact h
    · unfold onRay at r
      have e : 16 + t - 1 = s := by omega
      left; left; right; right
      refine ⟨by omega, by omega, ?_, by omega⟩
      rw [e]; exact h
    · unfold onRay at r
      have e : 16 + t + 1 = s := by omega
      left; left; right; left
      refine ⟨?_, by omega, by omega⟩
      rw [e]; exact h
    · unfold onRay at r
      have e : 8 + t + 2 = s := by omega
      right; left
      refine ⟨?_, by omega, by omega⟩
      rw [e]; exact h
    · unfold onRay at r
      have e : t - 8 + 2 = s := by omega
      left; right
      refine ⟨by omega, by omega, Or.inl ⟨?_, by omega, by omega⟩⟩
      rw [e]; exact h
    · unfold onRay at r
      have e : t - 16 + 1 = s := by omega
      left; left; left
      refine ⟨by omega, by omega, Or.inl ⟨?_, by omega, by omega⟩⟩
      rw [e]; exact h

theorem pawnAttacks_spec (enemyPawns t : Nat) (enemyColor : Bool) (hx : enemyPawns < 2 ^ 64) :
    ((if enemyColor = WHITE then
        ((0 : Nat) ||| northEastOne enemyPawns) ||| northWestOne enemyPawns
      else ((0 : Nat) ||| southEastOne enemyPawns) ||| southWestOne enemyPawns).testBit t = true) ↔
      stepAttackSpec (pawnDirs enemyColor) enemyPawns t := by
  cases enemyColor
  · simp only [if_true, stepAttackSpec, pawnDirs, Nat.testBit_or, Bool.or_eq_true,
      Nat.zero_testBit, false_or, northEastOne_spec _ _ hx, northWestOne_spec _ _ hx,
      Bool.false_eq_true]
    constructor
    · rintro (⟨s, hs, h, r⟩ | ⟨s, hs, h, r⟩)
      · exact ⟨s, hs, h, (1, 1), by simp, r⟩
      · exact ⟨s, hs, h, (-1, 1), by simp, r⟩
    · rintro ⟨s, hs, h, d, hd, r⟩
      simp only [List.mem_cons, List.mem_singleton, List.not_mem_nil, or_false] at hd
      rcases hd with rfl | rfl
      · exact Or.inl ⟨s, hs, h, r⟩
      · exact Or.inr ⟨s, hs, h, r⟩
  · simp only [stepAttackSpec, pawnDirs, Nat.testBit_or, Bool.or_eq_true,
      Nat.zero_testBit, false_or, southEastOne_spec _ _ hx, southWestOne_spec _ _ hx,
      Bool.false_eq_true, if_false, Bool.true_eq_false]
    constructor
    · rintro (⟨s, hs, h, r⟩ | ⟨s, hs, h, r⟩)
      · exact ⟨s, hs, h, (1, -1), by simp, r⟩
      · exact ⟨s, hs, h, (-1, -1), by simp, r⟩
    · rintro ⟨s, hs, h, d, hd, r⟩
      simp only [List.mem_cons, List.mem_singleton, List.not_mem_nil, or_false] at hd
      rcases hd with rfl | rfl
      · exact Or.inl ⟨s, hs, h, r⟩
      · exact Or.inr ⟨s, hs, h, r⟩

theorem rookAttacks_slideSpec (gen pro t : Nat) (hg : gen < 2 ^ 64) :
    (rookAttacksKoggeStone gen pro).testBit t = true ↔ slideAttackSpec rookDirs gen pro t := by
  unfold rookAttacksKoggeStone
  simp only [Nat.testBit_or, Bool.or_eq_true, northAttacks_attackSpec _ _ _ hg,
    southAttacks_attackSpec _ _ _ hg, eastAttacks_attackSpec _ _ _ hg,
    westAttacks_attackSpec _ _ _ hg, or_assoc]
  simp [slideAttackSpec, rookDirs]

theorem bishopAttacks_slideSpec (gen pro t : Nat) (hg : gen < 2 ^ 64) :
    (bishopAttacksKoggeStone gen pro).testBit t = true ↔
      slideAttackSpec bishopDirs gen pro t := by
  unfold bishopAttacksKoggeStone
  simp only [Nat.testBit_or, Bool.or_eq_true, northEastAttacks_attackSpec _ _ _ hg,
    northWestAttacks_attackSpec _ _ _ hg, southEastAttacks_attackSpec _ _ _ hg,
    southWestAttacks_attackSpec _ _ _ hg, or_assoc]
  simp [slideAttackSpec, bishopDirs]

theorem findAttackedSquares_union (emptySquares enemyBishops enemyRooks enemyPawns enemyKnights
    enemyKing myKing t : Nat) (enemyColor : Bool)
    (hB : enemyBishops < 2 ^ 64) (hR : enemyRooks < 2 ^ 64) (hP : enemyPawns < 2 ^ 64)
    (hN : enemyKnights < 2 ^ 64) (hK : enemyKing < 2 ^ 64) :
    (findAttackedSquares emptySquares enemyBishops enemyRooks enemyPawns enemyKnights
        enemyKing myKing enemyColor).testBit t = true ↔
      stepAttackSpec (pawnDirs enemyColor) enemyPawns t ∨
      stepAttackSpec knightDirs enemyKnights t ∨
      slideAttackSpec bishopDirs enemyBishops (emptySquares ||| myKing) t ∨
      slideAttackSpec rookDirs enemyRooks (emptySquares ||| myKing) t ∨
      stepAttackSpec kingDirs enemyKing t := by
  unfold findAttackedSquares multiBishopAttacks multiRookAttacks
  simp only [Nat.testBit_or (_ ||| _) (kingAttacks _), Nat.testBit_or (_ ||| _)
    (rookAttacksKoggeStone _ _), Nat.testBit_or (_ ||| _) (bishopAttacksKoggeStone _ _),
    Nat.testBit_or _ (knightAttacks _), Bool.or_eq_true, pawnAttacks_spec _ _ _ hP,
    knightAttacks_spec _ _ hN, kingAttacks_spec _ _ hK, rookAttacks_slideSpec _ _ _ hR,
    bishopAttacks_slideSpec _ _ _ hB, or_assoc]

theorem attackSpec_behind (df dr : Int) (hd : (df, dr) ∈ rookDirs ++ bishopDirs)
    (gen pro kingSet r k kSq j t : Nat)
    (hr : gen.testBit r = true) (hking : kingSet.testBit kSq = true) (hk : 1 ≤ k)
    (hray : onRay df dr r k kSq)
    (hbetween : ∀ i q, 1 ≤ i → i < k → onRay df dr r i q → pro.testBit q = true)
    (hj : 1 ≤ j) (hray2 : onRay df dr kSq j t)
    (hbeyond : ∀ i q, 1 ≤ i → i < j → onRay df dr kSq i q → pro.testBit q = true) :
    attackSpec df dr gen (pro ||| kingSet) t := by
  have hstep : ∀ i q, 1 ≤ i → i < k + j → onRay df dr r i q →
      (i < k ∧ onRay df dr r i q) ∨ (i = k ∧ q = kSq) ∨ (k < i ∧ onRay df dr kSq (i - k) q) := by
    simp only [rookDirs, bishopDirs, List.cons_append, List.nil_append, List.mem_cons,
      List.mem_singleton, Prod.mk.injEq, List.not_mem_nil, or_false] at hd
    intro i q h1 h2 h3
    unfold onRay at *
    rcases hd with h | h | h | h | h | h | h | h <;>
      (obtain ⟨hdf, hdr⟩ := h; subst hdf; subst hdr; omega)
  have hlen : k + j < 8 ∧ onRay df dr r (k + j) t := by
    simp only [rookDirs, bishopDirs, List.cons_append, List.nil_append, List.mem_cons,
      List.mem_singleton, Prod.mk.injEq, List.not_mem_nil, or_false] at hd
    unfold onRay at *
    rcases hd with h | h | h | h | h | h | h | h <;>
      (obtain ⟨hdf, hdr⟩ := h; subst hdf; subst hdr; push_cast; omega)
  refine ⟨r, hray.1, k + j, hlen.1, by omega, hr, hlen.2, ?_⟩
  intro i hi q hq h1 h2 h3
  rw [Nat.testBit_or, Bool.or_eq_true]
  rcases hstep i q h1 h2 h3 with ⟨a, b⟩ | ⟨a, b⟩ | ⟨a, b⟩
  · exact Or.inl (hbetween i q h1 a b)
  · exact Or.inr (b ▸ hking)
  · exact Or.inl (hbeyond (i - k) q (by omega) (by omega) b)

/-- C27: `findAttackedSquares` is the union of the squares attacked by the enemy pawns (their
two forward diagonals for the enemy colour), knights, king, bishops-or-queens and
rooks-or-queens, the sliding attacks being computed on the occupancy
`emptySquares ||| myKing` in which the defending king's square counts as empty; so a square
`t` behind the king on a checking ray (all squares between slider and king and between king
and `t` empty, `t` itself empty or not) is in the result. -/
theorem findAttackedSquares_correct (emptySquares enemyBishops enemyRooks enemyPawns
    enemyKnights enemyKing myKing t : Nat) (enemyColor : Bool)
    (hB : enemyBishops < 2 ^ 64) (hR : enemyRooks < 2 ^ 64) (hP : enemyPawns < 2 ^ 64)
    (hN : enemyKnights < 2 ^ 64) (hK : enemyKing < 2 ^ 64) :
    ((findAttackedSquares emptySquares enemyBishops enemyRooks enemyPawns enemyKnights
        enemyKing myKing enemyColor).testBit t = true ↔
      stepAttackSpec (pawnDirs enemyColor) enemyPawns t ∨
      stepAttackSpec knightDirs enemyKnights t ∨
      slideAttackSpec bishopDirs enemyBishops (emptySquares ||| myKing) t ∨
      slideAttackSpec rookDirs enemyRooks (emptySquares ||| myKing) t ∨
      stepAttackSpec kingDirs enemyKing t) ∧
    (∀ d sliders, (d ∈ bishopDirs ∧ sliders = enemyBishops) ∨
        (d ∈ rookDirs ∧ sliders = enemyRooks) →
      ∀ r k kSq j, sliders.testBit r = true → myKing.testBit kSq = true → 1 ≤ k →
        onRay d.1 d.2 r k kSq →
        (∀ i q, 1 ≤ i → i < k → onRay d.1 d.2 r i q → emptySquares.testBit q = true) →
        1 ≤ j → onRay d.1 d.2 kSq j t →
        (∀ i q, 1 ≤ i → i < j → onRay d.1 d.2 kSq i q → emptySquares.testBit q = true) →
        (findAttackedSquares emptySquares enemyBishops enemyRooks enemyPawns enemyKnights
          enemyKing myKing enemyColor).testBit t = true) := by
  have hU := findAttackedSquares_union emptySquares enemyBishops enemyRooks enemyPawns
    enemyKnights enemyKing myKing t enemyColor hB hR hP hN hK
  refine ⟨hU, ?_⟩
  intro d sliders hd r k kSq j hr hking hk hray hbetween hj hray2 hbeyond
  rw [hU]
  rcases hd with ⟨hd, rfl⟩ | ⟨hd, rfl⟩
  · exact Or.inr (Or.inr (Or.inl ⟨d, hd, attackSpec_behind d.1 d.2
      (List.mem_append_right _ hd) _ _ _ r k kSq j t hr hking hk hray hbetween hj hray2
      hbeyond⟩))
  · exact Or.inr (Or.inr (Or.inr (Or.inl ⟨d, hd, attackSpec_behind d.1 d.2
      (List.mem_append_left _ hd) _ _ _ r k kSq j t hr hking hk hray hbetween hj hray2
      hbeyond⟩)))

theorem findAttackedSquares_correct_witness :
    (findAttackedSquares 0xFFFFFFFFFFFFFFEE 0 1 0 0 0 0x10 BLACK).testBit 7 = true ↔
      stepAttackSpec (pawnDirs BLACK) 0 7 ∨
      stepAttackSpec knightDirs 0 7 ∨
      slideAttackSpec bishopDirs 0 (0xFFFFFFFFFFFFFFEE ||| 0x10) 7 ∨
      slideAttackSpec rookDirs 1 (0xFFFFFFFFFFFFFFEE ||| 0x10) 7 ∨
      stepAttackSpec kingDirs 0 7 :=
  (findAttackedSquares_correct 0xFFFFFFFFFFFFFFEE 0 1 0 0 0 0x10 7 BLACK
    (by decide) (by decide) (by decide) (by decide) (by decide)).1

/-! ## Squares in between along a known direction -/

theorem testBit_foldl_or_pow (c : Nat → Prop) [DecidablePred c] (f : Nat → Nat) (q : Nat) :
    ∀ (l : List Nat) (init : Nat),
      (l.foldl (fun acc j => if c j then acc ||| 2 ^ f j else acc) init).testBit q = true ↔
        init.testBit q = true ∨ ∃ j ∈ l, c j ∧ f j = q := by
  intro l
  induction l with
  | nil => intro init; simp
  | cons x xs ih =>
    intro init
    rw [List.foldl_cons, ih]
    by_cases hc : c x
    · rw [if_pos hc, Nat.testBit_or, Bool.or_eq_true, Nat.testBit_two_pow]
      simp only [decide_eq_true_eq, List.mem_cons, exists_eq_or_imp]
      tauto
    · rw [if_neg hc]
      simp only [List.mem_cons, exists_eq_or_imp]
      tauto

theorem testBit_walkBetween (lo hi step q : Nat) :
    (walkBetween lo hi step).testBit q = true ↔
      ∃ j, j < 6 ∧ lo + (j + 1) * step < hi ∧ lo + (j + 1) * step = q := by
  unfold walkBetween
  rw [testBit_foldl_or_pow (fun j => lo + (j + 1) * step < hi) (fun j => lo + (j + 1) * step)]
  simp [List.mem_range]

theorem squaresInBetween_eq_betweenSpec (a b : Nat) (ha : a < 64) (hb : b < 64) :
    squaresInBetween a b = betweenSpec a b := by
  have h := all_range_64_of_halves _ squaresInBetween_rows_0 squaresInBetween_rows_1 a ha
  have h := List.all_eq_true.mp h b (List.mem_range.mpr hb)
  simp only [Bool.and_eq_true, beq_iff_eq] at h
  exact h.1

theorem between_east (a b k q : Nat) (hray : onRay 1 0 a k b) (hk : 1 ≤ k) :
    (betweenSpec a b).testBit q = true ↔ ∃ j, 1 ≤ j ∧ j < k ∧ onRay 1 0 a j q := by
  unfold onRay at hray
  obtain ⟨ha, hb, hf, hr⟩ := hray
  have hle : a ≤ b := by omega
  have c0 : a / 8 = b / 8 := by omega
  have e : betweenSpec a b = walkBetween a b 1 := by
    simp only [betweenSpec, lineKind, min_eq_left hle, max_eq_right hle, if_pos c0]
  rw [e, testBit_walkBetween]
  unfold onRay
  constructor
  · rintro ⟨j, hj, h1, h2⟩
    exact ⟨j + 1, by omega, by omega, ha, by omega, by omega, by omega⟩
  · rintro ⟨j, hj1, hj2, -, hq, h1, h2⟩
    exact ⟨j - 1, by omega, by omega, by omega⟩

theorem between_west (a b k q : Nat) (hray : onRay (-1) 0 a k b) (hk : 1 ≤ k) :
    (betweenSpec a b).testBit q = true ↔ ∃ j, 1 ≤ j ∧ j < k ∧ onRay (-1) 0 a j q := by
  unfold onRay at hray
  obtain ⟨ha, hb, hf, hr⟩ := hray
  have hle : b ≤ a := by omega
  have c0 : b / 8 = a / 8 := by omega
  have e : betweenSpec a b = walkBetween b a 1 := by
    simp only [betweenSpec, lineKind, min_eq_right hle, max_eq_left hle, if_pos c0]
  rw [e, testBit_walkBetween]
  unfold onRay
  constructor
  · rintro ⟨j, hj, h1, h2⟩
    exact ⟨k - (j + 1), by omega, by omega, ha, by omega, by omega, by omega⟩
  · rintro ⟨j, hj1, hj2, -, hq, h1, h2⟩
    exact ⟨k - j - 1, by omega, by omega, by omega⟩

theorem between_north (a b k q : Nat) (hray : onRay 0 1 a k b) (hk : 1 ≤ k) :
    (betweenSpec a b).testBit q = true ↔ ∃ j, 1 ≤ j ∧ j < k ∧ onRay 0 1 a j q := by
  unfold onRay at hray
  obtain ⟨ha, hb, hf, hr⟩ := hray
  have hle : a ≤ b := by omega
  have c0 : ¬ (a / 8 = b / 8) := by omega
  have c1 : a % 8 = b % 8 := by omega
  have e : betweenSpec a b = walkBetween a b 8 := by
    simp only [betweenSpec, lineKind, min_eq_left hle, max_eq_right hle, if_neg c0, if_pos c1]
  rw [e, testBit_walkBetween]
  unfold onRay
  constructor
  · rintro ⟨j, hj, h1, h2⟩
    exact ⟨j + 1, by omega, by omega, ha, by omega, by omega, by omega⟩
  · rintro ⟨j, hj1, hj2, -, hq, h1, h2⟩
    exact ⟨j - 1, by omega, by omega, by omega⟩

theorem between_south (a b k q : Nat) (hray : onRay 0 (-1) a k b) (hk : 1 ≤ k) :
    (betweenSpec a b).testBit q = true ↔ ∃ j, 1 ≤ j ∧ j < k ∧ onRay 0 (-1) a j q := by
  unfold onRay at hray
  obtain ⟨ha, hb, hf, hr⟩ := hray
  have hle : b ≤ a := by omega
  have c0 : ¬ (b / 8 = a / 8) := by omega
  have c1 : b % 8 = a % 8 := by omega
  have e : betweenSpec a b = walkBetween b a 8 := by
    simp only [betweenSpec, lineKind, min_eq_right hle, max_eq_left hle, if_neg c0, if_pos c1]
  rw [e, testBit_walkBetween]
  unfold onRay
  constructor
  · rintro ⟨j, hj, h1, h2⟩
    exact ⟨k - (j + 1), by omega, by omega, ha, by omega, by omega, by omega⟩
  · rintro ⟨j, hj1, hj2, -, hq, h1, h2⟩
    exact ⟨k - j - 1, by omega, by omega, by omega⟩

theorem between_northEast (a b k q : Nat) (hray : onRay 1 1 a k b) (hk : 1 ≤ k) :
    (betweenSpec a b).testBit q = true ↔ ∃ j, 1 ≤ j ∧ j < k ∧ onRay 1 1 a j q := by
  unfold onRay at hray
  obtain ⟨ha, hb, hf, hr⟩ := hray
  have hle : a ≤ b := by omega
  have c0 : ¬ (a / 8 = b / 8) := by omega
  have c1 : ¬ (a % 8 = b % 8) := by omega
  have c2 : a % 8 + b / 8 = b % 8 + a / 8 := by omega
  have e : betweenSpec a b = walkBetween a b 9 := by
    simp only [betweenSpec, lineKind, min_eq_left hle, max_eq_right hle, if_neg c0, if_neg c1, if_pos c2]
  rw [e, testBit_walkBetween]
  unfold onRay
  constructor
  · rintro ⟨j, hj, h1, h2⟩
    exact ⟨j + 1, by omega, by omega, ha, by omega, by omega, by omega⟩
  · rintro ⟨j, hj1, hj2, -, hq, h1, h2⟩
    exact ⟨j - 1, by omega, by omega, by omega⟩

theorem between_southWest (a b k q : Nat) (hray : onRay (-1) (-1) a k b) (hk : 1 ≤ k) :
    (betweenSpec a b).testBit q = true ↔ ∃ j, 1 ≤ j ∧ j < k ∧ onRay (-1) (-1) a j q := by
  unfold onRay at hray
  obtain ⟨ha, hb, hf, hr⟩ := hray
  have hle : b ≤ a := by omega
  have c0 : ¬ (b / 8 = a / 8) := by omega
  have c1 : ¬ (b % 8 = a % 8) := by omega
  have c2 : b % 8 + a / 8 = a % 8 + b / 8 := by omega
  have e : betweenSpec a b = walkBetween b a 9 := by
    simp only [betweenSpec, lineKind, min_eq_right hle, max_eq_left hle, if_neg c0, if_neg c1, if_pos c2]
  rw [e, testBit_walkBetween]
  unfold onRay
  constructor
  · rintro ⟨j, hj, h1, h2⟩
    exact ⟨k - (j + 1), by omega, by omega, ha, by omega, by omega, by omega⟩
  · rintro ⟨j, hj1, hj2, -, hq, h1, h2⟩
    exact ⟨k - j - 1, by omega, by omega, by omega⟩

theorem between_northWest (a b k q : Nat) (hray : onRay (-1) 1 a k b) (hk : 1 ≤ k) :
    (betweenSpec a b).testBit q = true ↔ ∃ j, 1 ≤ j ∧ j < k ∧ onRay (-1) 1 a j q := by
  unfold onRay at hray
  obtain ⟨ha, hb, hf, hr⟩ := hray
  have hle : a ≤ b := by omega
  have c0 : ¬ (a / 8 = b / 8) := by omega
  have c1 : ¬ (a % 8 = b % 8) := by omega
  have c2 : ¬ (a % 8 + b / 8 = b % 8 + a / 8) := by omega
  have c3 : a % 8 + a / 8 = b % 8 + b / 8 := by omega
  have e : betweenSpec a b = walkBetween a b 7 := by
    simp only [betweenSpec, lineKind, min_eq_left hle, max_eq_right hle, if_neg c0, if_neg c1, if_neg c2, if_pos c3]
  rw [e, testBit_walkBetween]
  unfold onRay
  constructor
  · rintro ⟨j, hj, h1, h2⟩
    exact ⟨j + 1, by omega, by omega, ha, by omega, by omega, by omega⟩
  · rintro ⟨j, hj1, hj2, -, hq, h1, h2⟩
    exact ⟨j - 1, by omega, by omega, by omega⟩

theorem between_southEast (a b k q : Nat) (hray : onRay 1 (-1) a k b) (hk : 1 ≤ k) :
    (betweenSpec a b).testBit q = true ↔ ∃ j, 1 ≤ j ∧ j < k ∧ onRay 1 (-1) a j q := by
  unfold onRay at hray
  obtain ⟨ha, hb, hf, hr⟩ := hray
  have hle : b ≤ a := by omega
  have c0 : ¬ (b / 8 = a / 8) := by omega
  have c1 : ¬ (b % 8 = a % 8) := by omega
  have c2 : ¬ (b % 8 + a / 8 = a % 8 + b / 8) := by omega
  have c3 : b % 8 + b / 8 = a % 8 + a / 8 := by omega
  have e : betweenSpec a b = walkBetween b a 7 := by
    simp only [betweenSpec, lineKind, min_eq_right hle, max_eq_left hle, if_neg c0, if_neg c1, if_neg c2, if_pos c3]
  rw [e, testBit_walkBetween]
  unfold onRay
  constructor
  · rintro ⟨j, hj, h1, h2⟩
    exact ⟨k - (j + 1), by omega, by omega, ha, by omega, by omega, by omega⟩
  · rintro ⟨j, hj1, hj2, -, hq, h1, h2⟩
    exact ⟨k - j - 1, by omega, by omega, by omega⟩

/-! ## findPinnedPieces -/

theorem isSingular_iff (x : Nat) : isSingular x = true ↔ x ^^^ getOne x = 0 := by
  unfold isSingular isMultiple; simp

theorem eq_of_xor_eq_zero {x y : Nat} (h : x ^^^ y = 0) : x = y := by
  apply Nat.eq_of_testBit_eq
  intro i
  have := congrArg (fun z => Nat.testBit z i) h
  simp only [Nat.testBit_xor, Nat.zero_testBit] at this
  cases hx : x.testBit i <;> cases hy : y.testBit i <;> simp_all

theorem isSingular_testBit {x p : Nat} (hx : x < 2 ^ 64) :
    (isSingular x = true ∧ x.testBit p = true) ↔
      (x.testBit p = true ∧ ∀ q, x.testBit q = true → q = p) := by
  rw [isSingular_iff]
  constructor
  · rintro ⟨h1, h2⟩
    have h0 : x ≠ 0 := by
      rintro rfl; simp at h2
    obtain ⟨hg, -, -, -⟩ := getOne_spec h0 hx
    have e : x = 2 ^ bitScan x := by rw [← hg]; exact eq_of_xor_eq_zero h1
    have key : ∀ q, x.testBit q = true → q = bitScan x := by
      intro q hq
      rw [e, Nat.testBit_two_pow] at hq
      exact (of_decide_eq_true hq).symm
    refine ⟨h2, fun q hq => ?_⟩
    rw [key q hq, key p h2]
  · rintro ⟨h1, h2⟩
    have h0 : x ≠ 0 := by
      rintro rfl; simp at h1
    obtain ⟨hg, -, hb, -⟩ := getOne_spec h0 hx
    have e : x = 2 ^ bitScan x := by
      apply Nat.eq_of_testBit_eq
      intro i
      rw [Nat.testBit_two_pow]
      by_cases hi : x.testBit i = true
      · rw [hi]
        have := h2 i hi
        have := h2 _ hb
        simp; omega
      · have hne : bitScan x ≠ i := by
          rintro rfl; exact hi hb
        simp [hi, hne]
    refine ⟨?_, h1⟩
    rw [hg, ← e, Nat.xor_self]

theorem testBit_foldl_or_if (g : Nat → Nat) (c : Nat → Bool) (body : Nat → Nat → Nat)
    (q : Nat) : ∀ (l : List Nat) (init : Nat),
      (∀ i ∈ l, ∀ s, body i s = if c i = true then s ||| g i else s) →
      ((l.foldl (fun s i => body i s) init).testBit q = true ↔
        init.testBit q = true ∨ ∃ i ∈ l, c i = true ∧ (g i).testBit q = true) := by
  intro l
  induction l with
  | nil => intro init _; simp
  | cons x xs ih =>
    intro init hb
    rw [List.foldl_cons, ih _ (fun i hi => hb i (List.mem_cons_of_mem _ hi)),
      hb x (List.mem_cons_self _ _)]
    by_cases hc : c x = true
    · rw [if_pos hc, Nat.testBit_or, Bool.or_eq_true]
      simp only [List.mem_cons, exists_eq_or_imp]
      tauto
    · rw [if_neg hc]
      simp only [List.mem_cons, exists_eq_or_imp]
      tauto

theorem BIT_lt (i : Nat) : BIT i < 2 ^ 64 := by
  unfold BIT shl; exact Nat.mod_lt _ (by decide)

theorem onRay_reverse (df dr : Int) (a k b : Nat) :
    onRay df dr a k b ↔ onRay (-df) (-dr) b k a := by
  unfold onRay
  simp only [mul_neg]
  constructor <;> rintro ⟨h1, h2, h3, h4⟩ <;> exact ⟨h2, h1, by omega, by omega⟩

theorem attackSpec_single (df dr : Int) (king a : Nat) (hk : king < 64) :
    attackSpec df dr (BIT king) ALLSET a ↔
      ∃ k, k < 8 ∧ 1 ≤ k ∧ onRay (-df) (-dr) a k king := by
  unfold attackSpec
  constructor
  · rintro ⟨s, hs, k, hk8, hk1, hG, hray, -⟩
    rw [testBit_BIT] at hG
    simp only [Bool.and_eq_true, decide_eq_true_eq] at hG
    obtain ⟨-, rfl⟩ := hG
    exact ⟨k, hk8, hk1, (onRay_reverse df dr king k a).mp hray⟩
  · rintro ⟨k, hk8, hk1, hray⟩
    refine ⟨king, hk, k, hk8, hk1, ?_, (onRay_reverse df dr king k a).mpr hray, ?_⟩
    · rw [testBit_BIT]; simp [hk]
    · intro j hj q hq _ _ _
      rw [testBit_ALLSET]; simp [hq]

theorem sqBishopAttacks_spec (king a : Nat) (hk : king < 64) :
    (sqBishopAttacks king).testBit a = true ↔
      ∃ d ∈ bishopDirs, ∃ k, k < 8 ∧ 1 ≤ k ∧ onRay d.1 d.2 a k king := by
  rw [show sqBishopAttacks king = bishopAttacksKoggeStone (BIT king) ALLSET from rfl,
    bishopAttacks_slideSpec _ _ _ (BIT_lt king)]
  simp only [slideAttackSpec, bishopDirs, List.mem_cons, List.mem_singleton, List.not_mem_nil,
    or_false, exists_eq_or_imp, exists_eq_left, attackSpec_single _ _ _ _ hk, neg_neg]
  constructor
  · rintro (h | h | h | h)
    exacts [Or.inr (Or.inr (Or.inr h)), Or.inr (Or.inr (Or.inl h)), Or.inr (Or.inl h), Or.inl h]
  · rintro (h | h | h | h)
    exacts [Or.inr (Or.inr (Or.inr h)), Or.inr (Or.inr (Or.inl h)), Or.inr (Or.inl h), Or.inl h]

theorem sqRookAttacks_spec (king a : Nat) (hk : king < 64) :
    (sqRookAttacks king).testBit a = true ↔
      ∃ d ∈ rookDirs, ∃ k, k < 8 ∧ 1 ≤ k ∧ onRay d.1 d.2 a k king := by
  rw [show sqRookAttacks king = rookAttacksKoggeStone (BIT king) ALLSET from rfl,
    rookAttacks_slideSpec _ _ _ (BIT_lt king)]
  simp only [slideAttackSpec, rookDirs, List.mem_cons, List.mem_singleton, List.not_mem_nil,
    or_false, exists_eq_or_imp, exists_eq_left, attackSpec_single _ _ _ _ hk, neg_neg,
    neg_zero]
  constructor
  · rintro (h | h | h | h)
    exacts [Or.inr (Or.inl h), Or.inl h, Or.inr (Or.inr (Or.inr h)), Or.inr (Or.inr (Or.inl h))]
  · rintro (h | h | h | h)
    exacts [Or.inr (Or.inl h), Or.inl h, Or.inr (Or.inr (Or.inr h)), Or.inr (Or.inr (Or.inl h))]

theorem between_along (d : Int × Int) (hd : d ∈ kingDirs) (a b k q : Nat)
    (hray : onRay d.1 d.2 a k b) (hk : 1 ≤ k) :
    (squaresInBetween a b).testBit q = true ↔ ∃ j, 1 ≤ j ∧ j < k ∧ onRay d.1 d.2 a j q := by
  rw [squaresInBetween_eq_betweenSpec a b hray.1 hray.2.1]
  simp only [kingDirs, List.mem_cons, List.mem_singleton, List.not_mem_nil, or_false] at hd
  rcases hd with rfl | rfl | rfl | rfl | rfl | rfl | rfl | rfl
  · exact between_east a b k q hray hk
  · exact between_west a b k q hray hk
  · exact between_north a b k q hray hk
  · exact between_south a b k q hray hk
  · exact between_northEast a b k q hray hk
  · exact between_northWest a b k q hray hk
  · exact between_southEast a b k q hray hk
  · exact between_southWest a b k q hray hk

theorem findPinnedPieces_testBit (myKing myPieces enemyBishops enemyRooks allPieces
    kingIndex p : Nat) (hB : enemyBishops < 2 ^ 64) (hR : enemyRooks < 2 ^ 64) :
    (findPinnedPieces myKing myPieces enemyBishops enemyRooks allPieces kingIndex).testBit p
        = true ↔
      ∃ a, a < 64 ∧
        (sqBishopAttacks kingIndex &&& enemyBishops |||
          sqRookAttacks kingIndex &&& enemyRooks).testBit a = true ∧
        isSingular (squaresInBetween a kingIndex &&& allPieces) = true ∧
        (squaresInBetween a kingIndex &&& allPieces).testBit p = true := by
  have hlt : sqBishopAttacks kingIndex &&& enemyBishops |||
      sqRookAttacks kingIndex &&& enemyRooks < 2 ^ 64 :=
    Nat.or_lt_two_pow (Nat.and_lt_two_pow _ hB) (Nat.and_lt_two_pow _ hR)
  unfold findPinnedPieces
  simp only []
  rw [forBits_eq_foldl _ _ _ hlt]
  rw [testBit_foldl_or_if (fun i => squaresInBetween i kingIndex &&& allPieces)
    (fun i => isSingular (squaresInBetween i kingIndex &&& allPieces))]
  · simp only [EMPTY, Nat.zero_testBit, Bool.false_eq_true, false_or, mem_bitIdx]
    constructor
    · rintro ⟨a, ⟨h1, h2⟩, h3, h4⟩; exact ⟨a, h1, h2, h3, h4⟩
    · rintro ⟨a, h1, h2, h3, h4⟩; exact ⟨a, ⟨h1, h2⟩, h3, h4⟩
  · intro i hi s
    rw [mem_bitIdx] at hi
    simp only [sqsInBetween, bitScan_two_pow hi.1]

theorem squaresInBetween_lt (a b : Nat) : squaresInBetween a b < 2 ^ 64 := by
  unfold squaresInBetween
  exact lt_of_le_of_lt Nat.and_le_right
    (xor_lt_two_pow (Nat.mod_lt _ (by decide)) (Nat.mod_lt _ (by decide)))

theorem bishopDirs_sub : ∀ d ∈ bishopDirs, d ∈ kingDirs := by decide

theorem rookDirs_sub : ∀ d ∈ rookDirs, d ∈ kingDirs := by decide

theorem pinSpec_iff (dirs : List (Int × Int)) (hsub : ∀ d ∈ dirs, d ∈ kingDirs)
    (sliders allPieces kingIndex p : Nat) :
    (∃ a, a < 64 ∧
      (sliders.testBit a = true ∧
        ∃ d ∈ dirs, ∃ k, k < 8 ∧ 1 ≤ k ∧ onRay d.1 d.2 a k kingIndex) ∧
      isSingular (squaresInBetween a kingIndex &&& allPieces) = true ∧
      (squaresInBetween a kingIndex &&& allPieces).testBit p = true) ↔
    pinSpec dirs sliders allPieces kingIndex p := by
  have hx : ∀ a, squaresInBetween a kingIndex &&& allPieces < 2 ^ 64 := fun a =>
    lt_of_le_of_lt Nat.and_le_left (squaresInBetween_lt a kingIndex)
  constructor
  · rintro ⟨a, ha, ⟨hs, d, hd, k, hk8, hk1, hray⟩, hsing, hp⟩
    obtain ⟨hp1, huniq⟩ := (isSingular_testBit (hx a)).mp ⟨hsing, hp⟩
    have hbt := fun q => between_along d (hsub d hd) a kingIndex k q hray hk1
    rw [Nat.testBit_and, Bool.and_eq_true, hbt p] at hp1
    obtain ⟨⟨j, hj1, hjk, hrayp⟩, hall⟩ := hp1
    refine ⟨d, hd, a, ha, k, hk8, j, by omega, hs, hray, hj1, hjk, hrayp, hall, ?_⟩
    rintro i hi q hq ⟨h1, h2, h3, h4⟩
    apply huniq q
    rw [Nat.testBit_and, Bool.and_eq_true, hbt q]
    exact ⟨⟨i, h1, h2, h3⟩, h4⟩
  · rintro ⟨d, hd, a, ha, k, hk8, j, hj8, hs, hray, hj1, hjk, hrayp, hall, hsole⟩
    have hk1 : 1 ≤ k := by omega
    have hbt := fun q => between_along d (hsub d hd) a kingIndex k q hray hk1
    refine ⟨a, ha, ⟨hs, d, hd, k, hk8, hk1, hray⟩, (isSingular_testBit (hx a)).mpr ⟨?_, ?_⟩⟩
    · rw [Nat.testBit_and, Bool.and_eq_true, hbt p]
      exact ⟨⟨j, hj1, hjk, hrayp⟩, hall⟩
    · intro q hq
      rw [Nat.testBit_and, Bool.and_eq_true, hbt q] at hq
      obtain ⟨⟨i, h1, h2, h3⟩, h4⟩ := hq
      exact hsole i (by omega) q h3.2.1 ⟨h1, h2, h3, h4⟩

/-- C26: `findPinnedPieces` returns exactly the occupied squares `p` for which an enemy
bishop-or-queen on a diagonal through the king's square, or an enemy rook-or-queen on the
king's rank or file, has `p` as the only occupied square strictly between itself and the
king; an attacker with no piece or with two or more pieces in between contributes
nothing. -/
theorem findPinnedPieces_correct (myKing myPieces enemyBishops enemyRooks allPieces
    kingIndex p : Nat) (hk : kingIndex < 64) (hB : enemyBishops < 2 ^ 64)
    (hR : enemyRooks < 2 ^ 64) :
    (findPinnedPieces myKing myPieces enemyBishops enemyRooks allPieces kingIndex).testBit p
        = true ↔
      pinSpec bishopDirs enemyBishops allPieces kingIndex p ∨
      pinSpec rookDirs enemyRooks allPieces kingIndex p := by
  rw [findPinnedPieces_testBit _ _ _ _ _ _ _ hB hR,
    ← pinSpec_iff bishopDirs bishopDirs_sub, ← pinSpec_iff rookDirs rookDirs_sub]
  simp only [Nat.testBit_or, Nat.testBit_and, Bool.or_eq_true, Bool.and_eq_true,
    sqBishopAttacks_spec _ _ hk, sqRookAttacks_spec _ _ hk]
  constructor
  · rintro ⟨a, ha, (⟨h1, h2⟩ | ⟨h1, h2⟩), h3, h4⟩
    · exact Or.inl ⟨a, ha, ⟨h2, h1⟩, h3, h4⟩
    · exact Or.inr ⟨a, ha, ⟨h2, h1⟩, h3, h4⟩
  · rintro (⟨a, ha, ⟨h2, h1⟩, h3, h4⟩ | ⟨a, ha, ⟨h2, h1⟩, h3, h4⟩)
    · exact ⟨a, ha, Or.inl ⟨h1, h2⟩, h3, h4⟩
    · exact ⟨a, ha, Or.inr ⟨h1, h2⟩, h3, h4⟩

theorem findPinnedPieces_correct_witness :
    (findPinnedPieces 0x10 0x1010 0 0x1000000000000000 0x1000000000001010 4).testBit 12
        = true ↔
      pinSpec bishopDirs 0 0x1000000000001010 4 12 ∨
      pinSpec rookDirs 0x1000000000000000 0x1000000000001010 4 12 :=
  findPinnedPieces_correct 0x10 0x1010 0 0x1000000000000000 0x1000000000001010 4 12
    (by decide) (by decide) (by decide)

/-! ## Membership in the move list -/

theorem bitLoop_mem_mono {α : Type} (body : Nat → List α → List α)
    (hbody : ∀ b ms m, m ∈ ms → m ∈ body b ms) :
    ∀ fuel x ms m, m ∈ ms → m ∈ bitLoop fuel x body ms := by
  intro fuel
  induction fuel with
  | zero => intro x ms m h; exact h
  | succ n ih =>
    intro x ms m h
    unfold bitLoop
    split
    · exact h
    · exact ih _ _ _ (hbody _ _ _ h)

theorem bitLoop_mem_inv {α : Type} (Q : α → Prop) (body : Nat → List α → List α)
    (hbody : ∀ b ms m, m ∈ body b ms → m ∈ ms ∨ Q m) :
    ∀ fuel x ms m, m ∈ bitLoop fuel x body ms → m ∈ ms ∨ Q m := by
  intro fuel
  induction fuel with
  | zero => intro x ms m h; exact Or.inl h
  | succ n ih =>
    intro x ms m h
    unfold bitLoop at h
    split at h
    · exact Or.inl h
    · rcases ih _ _ _ h with h1 | h1
      · exact hbody _ _ _ h1
      · exact Or.inr h1

theorem forBits_mem_mono {α : Type} (body : Nat → List α → List α)
    (hbody : ∀ b ms m, m ∈ ms → m ∈ body b ms) (x : Nat) (ms : List α) (m : α)
    (h : m ∈ ms) : m ∈ forBits x body ms :=
  bitLoop_mem_mono body hbody 64 x ms m h

theorem forBits_mem_inv {α : Type} (Q : α → Prop) (body : Nat → List α → List α)
    (hbody : ∀ b ms m, m ∈ body b ms → m ∈ ms ∨ Q m) (x : Nat) (ms : List α) (m : α)
    (h : m ∈ forBits x body ms) : m ∈ ms ∨ Q m :=
  bitLoop_mem_inv Q body hbody 64 x ms m h

theorem mem_addCompactMove (ms : List CMove) (s d f : Nat) (m : CMove) :
    m ∈ addCompactMove ms s d f ↔ m ∈ ms ∨ m = CMove.mk s d f := by
  unfold addCompactMove; simp

theorem mem_addCompactPawnMoves (ms : List CMove) (s d f : Nat) (m : CMove)
    (h : m ∈ addCompactPawnMoves ms s d f) :
    m ∈ ms ∨ m.flags = f ∨ m.flags = (f ||| CM_FLAG_KNIGHT_PROMOTION) ∨
      m.flags = (f ||| CM_FLAG_BISHOP_PROMOTION) ∨ m.flags = (f ||| CM_FLAG_QUEEN_PROMOTION) ∨
      m.flags = (f ||| CM_FLAG_ROOK_PROMOTION) := by
  unfold addCompactPawnMoves at h
  simp only [] at h
  split at h
  · simp only [mem_addCompactMove] at h
    rcases h with (((h | h) | h) | h) | h
    · exact Or.inl h
    all_goals (subst h; simp)
  · simp only [mem_addCompactMove] at h
    rcases h with h | h
    · exact Or.inl h
    · subst h; simp

theorem mono_addCompactPawnMoves (ms : List CMove) (s d f : Nat) (m : CMove) (h : m ∈ ms) :
    m ∈ addCompactPawnMoves ms s d f := by
  unfold addCompactPawnMoves
  simp only []
  split <;> simp [mem_addCompactMove, h]

theorem captureFlagOf_ne (sw : Switches) (dst enemyPieces : Nat) :
    captureFlagOf sw dst enemyPieces ≠ CM_FLAG_EP_CAPTURE := by
  unfold captureFlagOf
  split
  · decide
  · split <;> decide

/-- A move that is not an en-passant capture. -/
theorem inv_capture_loop (sw : Switches) (src x enemyPieces : Nat) (ms : List CMove)
    (m : CMove)
    (h : m ∈ forBits x (fun dst ms =>
      addCompactMove ms src (bitScan dst) (captureFlagOf sw dst enemyPieces)) ms) :
    m ∈ ms ∨ m.flags ≠ CM_FLAG_EP_CAPTURE := by
  refine forBits_mem_inv (fun m => m.flags ≠ CM_FLAG_EP_CAPTURE) _ ?_ x ms m h
  intro b ms m hm
  rw [mem_addCompactMove] at hm
  rcases hm with hm | hm
  · exact Or.inl hm
  · subst hm; exact Or.inr (captureFlagOf_ne _ _ _)

theorem inv_genKingMoves (sw : Switches) (myKing kingIndex threatened myPieces enemyPieces : Nat)
    (ms : List CMove) (m : CMove)
    (h : m ∈ genKingMoves sw myKing kingIndex threatened myPieces enemyPieces ms) :
    m ∈ ms ∨ m.flags ≠ CM_FLAG_EP_CAPTURE :=
  inv_capture_loop sw _ _ _ ms m h

theorem inv_nested_loop (sw : Switches) (x enemyPieces : Nat) (f : Nat → Nat)
    (ms : List CMove) (m : CMove)
    (h : m ∈ forBits x (fun piece ms =>
      forBits (f piece) (fun dst ms =>
        addCompactMove ms (bitScan piece) (bitScan dst) (captureFlagOf sw dst enemyPieces))
        ms) ms) :
    m ∈ ms ∨ m.flags ≠ CM_FLAG_EP_CAPTURE := by
  refine forBits_mem_inv (fun m => m.flags ≠ CM_FLAG_EP_CAPTURE) _ ?_ x ms m h
  intro b ms m hm
  exact inv_capture_loop sw _ _ _ ms m hm

theorem inv_genKnightMoves (sw : Switches) (knights myPieces enemyPieces pinned : Nat)
    (ms : List CMove) (m : CMove)
    (h : m ∈ genKnightMoves sw knights myPieces enemyPieces pinned ms) :
    m ∈ ms ∨ m.flags ≠ CM_FLAG_EP_CAPTURE :=
  inv_nested_loop sw _ enemyPieces (fun knight => knightAttacks knight &&& bnot myPieces) ms m h

theorem inv_genPinnedBishopMoves (sw : Switches) (myBishops allPieces myPieces enemyPieces
    pinned kingIndex : Nat) (ms : List CMove) (m : CMove)
    (h : m ∈ genPinnedBishopMoves sw myBishops allPieces myPieces enemyPieces pinned
      kingIndex ms) :
    m ∈ ms ∨ m.flags ≠ CM_FLAG_EP_CAPTURE :=
  inv_nested_loop sw _ enemyPieces (fun bishop =>
    bishopAttacks bishop (bnot allPieces) &&& bnot myPieces &&&
      sqsInLine (bitScan bishop) kingIndex) ms m h

theorem inv_genBishopMoves (sw : Switches) (myBishops allPieces myPieces enemyPieces
    pinned : Nat) (ms : List CMove) (m : CMove)
    (h : m ∈ genBishopMoves sw myBishops allPieces myPieces enemyPieces pinned ms) :
    m ∈ ms ∨ m.flags ≠ CM_FLAG_EP_CAPTURE :=
  inv_nested_loop sw _ enemyPieces (fun bishop =>
    bishopAttacks bishop (bnot allPieces) &&& bnot myPieces) ms m h

theorem inv_genPinnedRookMoves (sw : Switches) (myRooks allPieces myPieces enemyPieces
    pinned kingIndex : Nat) (ms : List CMove) (m : CMove)
    (h : m ∈ genPinnedRookMoves sw myRooks allPieces myPieces enemyPieces pinned
      kingIndex ms) :
    m ∈ ms ∨ m.flags ≠ CM_FLAG_EP_CAPTURE :=
  inv_nested_loop sw _ enemyPieces (fun rook =>
    rookAttacks rook (bnot allPieces) &&& bnot myPieces &&&
      sqsInLine (bitScan rook) kingIndex) ms m h

theorem inv_genRookMoves (sw : Switches) (myRooks allPieces myPieces enemyPieces
    pinned : Nat) (ms : List CMove) (m : CMove)
    (h : m ∈ genRookMoves sw myRooks allPieces myPieces enemyPieces pinned ms) :
    m ∈ ms ∨ m.flags ≠ CM_FLAG_EP_CAPTURE :=
  inv_nested_loop sw _ enemyPieces (fun rook =>
    rookAttacks rook (bnot allPieces) &&& bnot myPieces) ms m h

theorem ane_refl (ms : List CMove) : addsNoEnPassent ms ms :=
  ⟨fun _ h => h, fun _ h => Or.inl h⟩

theorem ane_trans {a b c : List CMove} (h1 : addsNoEnPassent a b) (h2 : addsNoEnPassent b c) :
    addsNoEnPassent a c := by
  refine ⟨fun m h => h2.1 m (h1.1 m h), fun m h => ?_⟩
  rcases h2.2 m h with h | h
  · exact h1.2 m h
  · exact Or.inr h

theorem ane_acm (ms : List CMove) (s d f : Nat) (hf : f ≠ CM_FLAG_EP_CAPTURE) :
    addsNoEnPassent ms (addCompactMove ms s d f) := by
  refine ⟨fun m h => (mem_addCompactMove _ _ _ _ _).mpr (Or.inl h), fun m h => ?_⟩
  rcases (mem_addCompactMove _ _ _ _ _).mp h with h | h
  · exact Or.inl h
  · subst h; exact Or.inr hf

theorem ane_acpm (ms : List CMove) (s d f : Nat)
    (hf : f = 0 ∨ f = CM_FLAG_DOUBLE_PAWN_PUSH ∨ f = CM_FLAG_CAPTURE) :
    addsNoEnPassent ms (addCompactPawnMoves ms s d f) := by
  refine ⟨fun m h => mono_addCompactPawnMoves _ _ _ _ _ h, fun m h => ?_⟩
  rcases mem_addCompactPawnMoves _ _ _ _ _ h with h | h | h | h | h | h
  · exact Or.inl h
  all_goals (right; rw [h]; rcases hf with rfl | rfl | rfl <;> decide)

theorem ane_forBits (body : Nat → List CMove → List CMove)
    (hbody : ∀ b ms, addsNoEnPassent ms (body b ms)) (x : Nat) (ms : List CMove) :
    addsNoEnPassent ms (forBits x body ms) :=
  ⟨fun m h => forBits_mem_mono body (fun b ms m h => (hbody b ms).1 m h) x ms m h,
    fun m h => forBits_mem_inv _ body (fun b ms m h => (hbody b ms).2 m h) x ms m h⟩

theorem ane_genPinnedPawnMoves (myPawns allPieces enemyPieces pinned kingIndex : Nat)
    (chance : Bool) (ms : List CMove) :
    addsNoEnPassent ms
      (genPinnedPawnMoves myPawns allPieces enemyPieces pinned kingIndex chance ms) := by
  unfold genPinnedPawnMoves
  apply ane_forBits
  intro b ms
  simp only []
  split_ifs <;>
    repeat first
      | exact ane_refl _
      | refine ane_trans ?_ (ane_acm _ _ _ _ (by decide))
      | refine ane_trans ?_ (ane_acpm _ _ _ _ (by decide))

theorem ane_genPawnMoves (myPawns allPieces enemyPieces pinned : Nat)
    (chance : Bool) (ms : List CMove) :
    addsNoEnPassent ms (genPawnMoves myPawns allPieces enemyPieces pinned chance ms) := by
  unfold genPawnMoves
  apply ane_forBits
  intro b ms
  simp only []
  split_ifs <;>
    repeat first
      | exact ane_refl _
      | refine ane_trans ?_ (ane_acm _ _ _ _ (by decide))
      | refine ane_trans ?_ (ane_acpm _ _ _ _ (by decide))

theorem ane_genCastleMoves (pos : HexaBitBoardPosition) (allPieces threatened : Nat)
    (chance : Bool) (ms : List CMove) :
    addsNoEnPassent ms (genCastleMoves pos allPieces threatened chance ms) := by
  unfold genCastleMoves
  simp only []
  split_ifs <;>
    repeat first
      | exact ane_refl _
      | refine ane_trans ?_ (ane_acm _ _ _ _ (by decide))

theorem mem_foldl_cond_append (c : Nat → Prop) [DecidablePred c] (mv : Nat → CMove)
    (body : Nat → List CMove → List CMove) (m : CMove) :
    ∀ (l : List Nat) (ms : List CMove),
      (∀ i ∈ l, ∀ ms, body i ms = if c i then ms ++ [mv i] else ms) →
      (m ∈ l.foldl (fun s i => body i s) ms ↔ m ∈ ms ∨ ∃ i ∈ l, c i ∧ m = mv i) := by
  intro l
  induction l with
  | nil => intro ms _; simp
  | cons x xs ih =>
    intro ms hb
    rw [List.foldl_cons, ih _ (fun i hi => hb i (List.mem_cons_of_mem _ hi)),
      hb x (List.mem_cons_self _ _)]
    by_cases hc : c x
    · rw [if_pos hc]
      simp only [List.mem_append, List.mem_singleton, List.mem_cons, exists_eq_or_imp]
      tauto
    · rw [if_neg hc]
      simp only [List.mem_cons, exists_eq_or_imp]
      tauto

theorem two_pow_and_ne_zero (i x : Nat) : 2 ^ i &&& x ≠ 0 ↔ x.testBit i = true := by
  constructor
  · intro h
    by_contra hx
    apply h
    apply Nat.eq_of_testBit_eq
    intro j
    rw [Nat.testBit_and, Nat.testBit_two_pow, Nat.zero_testBit]
    by_cases hij : i = j
    · subst hij; simp [hx]
    · simp [hij]
  · intro hx h
    have := congrArg (fun z => Nat.testBit z i) h
    simp [Nat.testBit_and, Nat.testBit_two_pow, hx] at this

theorem and_eq_zero_iff_testBit (x y : Nat) :
    x &&& y = 0 ↔ ∀ t, ¬ (x.testBit t = true ∧ y.testBit t = true) := by
  constructor
  · intro h t ht
    have := congrArg (fun z => Nat.testBit z t) h
    simp [Nat.testBit_and, ht.1, ht.2] at this
  · intro h
    apply Nat.eq_of_testBit_eq
    intro t
    rw [Nat.testBit_and, Nat.zero_testBit]
    have := h t
    cases hx : x.testBit t <;> cases hy : y.testBit t <;> simp_all

/-- The condition under which the en-passant loop of `generateMoves` emits the capture by
the pawn `pawn` (a one-bit board). -/
theorem mem_genEnPassentMoves (enPassentTarget myPawns allPieces enemyRooks myKing pinned
    kingIndex : Nat) (chance : Bool) (ms : List CMove) (m : CMove) :
    m ∈ genEnPassentMoves enPassentTarget myPawns allPieces enemyRooks myKing pinned
        kingIndex chance ms ↔
      m ∈ ms ∨ (enPassentTarget ≠ 0 ∧ ∃ i, i < 64 ∧
        (epCapturersOf enPassentTarget myPawns chance).testBit i = true ∧
        (if 2 ^ i &&& pinned ≠ 0 then enPassentTarget &&& sqsInLine i kingIndex ≠ 0
          else (eastAttacks enemyRooks (bnot allPieces |||
              enPassentCapturedPieceOf enPassentTarget chance ||| 2 ^ i) |||
            westAttacks enemyRooks (bnot allPieces |||
              enPassentCapturedPieceOf enPassentTarget chance ||| 2 ^ i)) &&& myKing = 0) ∧
        m = CMove.mk i (bitScan enPassentTarget) CM_FLAG_EP_CAPTURE) := by
  unfold genEnPassentMoves
  by_cases hT : enPassentTarget ≠ 0
  · rw [if_pos hT]
    simp only []
    have hlt : epCapturersOf enPassentTarget myPawns chance < 2 ^ 64 := by
      unfold epCapturersOf
      exact lt_of_le_of_lt Nat.and_le_left (Nat.or_lt_two_pow (eastOne_lt _) (westOne_lt _))
    rw [forBits_eq_foldl _ _ _ hlt]
    rw [mem_foldl_cond_append (fun i =>
        if 2 ^ i &&& pinned ≠ 0 then enPassentTarget &&& sqsInLine i kingIndex ≠ 0
        else (eastAttacks enemyRooks (bnot allPieces |||
              enPassentCapturedPieceOf enPassentTarget chance ||| 2 ^ i) |||
            westAttacks enemyRooks (bnot allPieces |||
              enPassentCapturedPieceOf enPassentTarget chance ||| 2 ^ i)) &&& myKing = 0)
      (fun i => CMove.mk i (bitScan enPassentTarget) CM_FLAG_EP_CAPTURE)]
    · simp only [mem_bitIdx]
      constructor
      · rintro (h | ⟨i, ⟨h1, h2⟩, h3, h4⟩)
        · exact Or.inl h
        · exact Or.inr ⟨hT, i, h1, h2, h3, h4⟩
      · rintro (h | ⟨-, i, h1, h2, h3, h4⟩)
        · exact Or.inl h
        · exact Or.inr ⟨i, ⟨h1, h2⟩, h3, h4⟩
    · intro i hi ms
      rw [mem_bitIdx] at hi
      simp only [bitScan_two_pow hi.1, addCompactMove]
      split_ifs <;> first | rfl | contradiction | simp_all
  · rw [if_neg hT]
    constructor
    · exact fun h => Or.inl h
    · rintro (h | ⟨h, -⟩)
      · exact h
      · exact absurd h hT

theorem not_mem_before_enPassent (sw : Switches) (pos : HexaBitBoardPosition) (chance : Bool)
    (m : CMove) (h5 : m.flags = CM_FLAG_EP_CAPTURE) :
    m ∉ genRookMoves sw (pos.rookQueens &&& gmMyPieces pos chance) (gmAllPieces pos)
      (gmMyPieces pos chance) (gmEnemyPieces pos chance) (gmPinned pos chance)
      (genPinnedRookMoves sw (pos.rookQueens &&& gmMyPieces pos chance) (gmAllPieces pos)
        (gmMyPieces pos chance) (gmEnemyPieces pos chance) (gmPinned pos chance)
        (gmKingIndex pos chance)
        (genBishopMoves sw (pos.bishopQueens &&& gmMyPieces pos chance) (gmAllPieces pos)
          (gmMyPieces pos chance) (gmEnemyPieces pos chance) (gmPinned pos chance)
          (genPinnedBishopMoves sw (pos.bishopQueens &&& gmMyPieces pos chance)
            (gmAllPieces pos) (gmMyPieces pos chance) (gmEnemyPieces pos chance)
            (gmPinned pos chance) (gmKingIndex pos chance)
            (genKnightMoves sw pos.knights (gmMyPieces pos chance) (gmEnemyPieces pos chance)
              (gmPinned pos chance)
              (genKingMoves sw (pos.kings &&& gmMyPieces pos chance) (gmKingIndex pos chance)
                (gmThreatened pos chance) (gmMyPieces pos chance) (gmEnemyPieces pos chance)
                []))))) := by
  intro h
  rcases inv_genRookMoves _ _ _ _ _ _ _ _ h with h | h
  · rcases inv_genPinnedRookMoves _ _ _ _ _ _ _ _ _ h with h | h
    · rcases inv_genBishopMoves _ _ _ _ _ _ _ _ h with h | h
      · rcases inv_genPinnedBishopMoves _ _ _ _ _ _ _ _ _ h with h | h
        · rcases inv_genKnightMoves _ _ _ _ _ _ _ h with h | h
          · rcases inv_genKingMoves _ _ _ _ _ _ _ _ h with h | h
            · exact List.not_mem_nil _ h
            · exact h h5
          · exact h h5
        · exact h h5
      · exact h h5
    · exact h h5
  · exact h h5

theorem ane_after_enPassent (pos : HexaBitBoardPosition) (chance : Bool) (ms : List CMove) :
    addsNoEnPassent ms
      (genCastleMoves pos (gmAllPieces pos) (gmThreatened pos chance) chance
        (genPawnMoves (gmAllPawns pos &&& gmMyPieces pos chance) (gmAllPieces pos)
          (gmEnemyPieces pos chance) (gmPinned pos chance) chance
          (genPinnedPawnMoves (gmAllPawns pos &&& gmMyPieces pos chance) (gmAllPieces pos)
            (gmEnemyPieces pos chance) (gmPinned pos chance) (gmKingIndex pos chance) chance
            ms))) :=
  ane_trans (ane_trans (ane_genPinnedPawnMoves _ _ _ _ _ _ ms) (ane_genPawnMoves _ _ _ _ _ _))
    (ane_genCastleMoves _ _ _ _ _)

/-- Outside check, the en-passant captures in the list of `generateMoves` are exactly the
moves that its en-passant loop emits. -/
theorem mem_generateMoves_enPassent (sw : Switches) (pos : HexaBitBoardPosition)
    (chance : Bool) (m : CMove)
    (hcheck : gmThreatened pos chance &&& (pos.kings &&& gmMyPieces pos chance) = 0)
    (h5 : m.flags = CM_FLAG_EP_CAPTURE) :
    m ∈ generateMoves sw pos chance ↔
      m ∈ genEnPassentMoves (enPassentTargetOf pos.enPassent chance)
        (gmAllPawns pos &&& gmMyPieces pos chance) (gmAllPieces pos)
        (pos.rookQueens &&& gmEnemyPieces pos chance) (pos.kings &&& gmMyPieces pos chance)
        (gmPinned pos chance) (gmKingIndex pos chance) chance [] := by
  unfold generateMoves
  simp only []
  rw [if_neg (not_not.mpr hcheck)]
  have hno := not_mem_before_enPassent sw pos chance m h5
  constructor
  · intro h
    rcases (ane_after_enPassent pos chance _).2 m h with h | h
    · rcases (mem_genEnPassentMoves _ _ _ _ _ _ _ _ _ _).mp h with h | h
      · exact absurd h hno
      · exact (mem_genEnPassentMoves _ _ _ _ _ _ _ _ _ _).mpr (Or.inr h)
    · exact absurd h5 h
  · intro h
    apply (ane_after_enPassent pos chance _).1
    rcases (mem_genEnPassentMoves _ _ _ _ _ _ _ _ _ _).mp h with h | h
    · exact absurd h (List.not_mem_nil _)
    · exact (mem_genEnPassentMoves _ _ _ _ _ _ _ _ _ _).mpr (Or.inr h)

theorem causesCheck_iff (pos : HexaBitBoardPosition) (chance : Bool) (i : Nat)
    (hR : pos.rookQueens < 2 ^ 64) :
    (eastAttacks (pos.rookQueens &&& gmEnemyPieces pos chance) (bnot (gmAllPieces pos) |||
        enPassentCapturedPieceOf (enPassentTargetOf pos.enPassent chance) chance ||| 2 ^ i) |||
      westAttacks (pos.rookQueens &&& gmEnemyPieces pos chance) (bnot (gmAllPieces pos) |||
        enPassentCapturedPieceOf (enPassentTargetOf pos.enPassent chance) chance ||| 2 ^ i)) &&&
      (pos.kings &&& gmMyPieces pos chance) = 0 ↔ ¬ epRankAttack pos chance i := by
  have hg : pos.rookQueens &&& gmEnemyPieces pos chance < 2 ^ 64 :=
    lt_of_le_of_lt Nat.and_le_left hR
  rw [and_eq_zero_iff_testBit]
  unfold epRankAttack
  simp only [Nat.testBit_or, Bool.or_eq_true, eastAttacks_attackSpec _ _ _ hg,
    westAttacks_attackSpec _ _ _ hg]
  constructor
  · rintro h ⟨kq, hkq, hk, ha⟩
    exact h kq ⟨ha, hk⟩
  · rintro h t ⟨ha, hk⟩
    apply h
    refine ⟨t, ?_, hk, ha⟩
    rcases ha with ⟨s, hs, k, hk8, hk1, hG, ⟨-, ht, -, -⟩, -⟩ | ⟨s, hs, k, hk8, hk1, hG, ⟨-, ht, -, -⟩, -⟩
    · exact ht
    · exact ht

/-- C28: outside check, with an en-passant target on the board, `generateMoves` emits the
en-passant capture by an unpinned pawn standing next to the captured pawn exactly when
removing both pawns from their rank leaves no enemy rook or queen attacking the mover's
king along that rank; and every en-passant capture in the list comes from such a pawn, so
none is emitted for an unpinned pawn when that rank attack arises. -/
theorem generateMoves_enPassent_rank_check (sw : Switches) (pos : HexaBitBoardPosition)
    (chance : Bool) (hR : pos.rookQueens < 2 ^ 64)
    (hcheck : gmThreatened pos chance &&& (pos.kings &&& gmMyPieces pos chance) = 0) :
    (∀ i, i < 64 → enPassentTargetOf pos.enPassent chance ≠ 0 →
      (epCapturersOf (enPassentTargetOf pos.enPassent chance)
        (gmAllPawns pos &&& gmMyPieces pos chance) chance).testBit i = true →
      (gmPinned pos chance).testBit i = false →
      (CMove.mk i (bitScan (enPassentTargetOf pos.enPassent chance)) CM_FLAG_EP_CAPTURE ∈
          generateMoves sw pos chance ↔ ¬ epRankAttack pos chance i)) ∧
    (∀ m, m ∈ generateMoves sw pos chance → m.flags = CM_FLAG_EP_CAPTURE →
      ∃ i, i < 64 ∧
        (epCapturersOf (enPassentTargetOf pos.enPassent chance)
          (gmAllPawns pos &&& gmMyPieces pos chance) chance).testBit i = true ∧
        m = CMove.mk i (bitScan (enPassentTargetOf pos.enPassent chance))
          CM_FLAG_EP_CAPTURE ∧
        ((gmPinned pos chance).testBit i = false → ¬ epRankAttack pos chance i)) := by
  constructor
  · intro i hi hT hsrc hpin
    have hp : ¬ (2 ^ i &&& gmPinned pos chance ≠ 0) := by
      rw [two_pow_and_ne_zero, hpin]; exact Bool.false_ne_true
    rw [mem_generateMoves_enPassent sw pos chance _ hcheck rfl, mem_genEnPassentMoves]
    constructor
    · rintro (h | ⟨-, j, hj, hjs, hc, he⟩)
      · exact absurd h (List.not_mem_nil _)
      · have hij : i = j := by injection he
        subst hij
        rw [if_neg hp] at hc
        exact (causesCheck_iff pos chance i hR).mp hc
    · intro h
      refine Or.inr ⟨hT, i, hi, hsrc, ?_, rfl⟩
      rw [if_neg hp]
      exact (causesCheck_iff pos chance i hR).mpr h
  · intro m hm h5
    rw [mem_generateMoves_enPassent sw pos chance m hcheck h5, mem_genEnPassentMoves] at hm
    rcases hm with h | ⟨-, j, hj, hjs, hc, he⟩
    · exact absurd h (List.not_mem_nil _)
    · refine ⟨j, hj, hjs, he, fun hpin => ?_⟩
      have hp : ¬ (2 ^ j &&& gmPinned pos chance ≠ 0) := by
        rw [two_pow_and_ne_zero, hpin]; exact Bool.false_ne_true
      rw [if_neg hp] at hc
      exact (causesCheck_iff pos chance j hR).mp hc

theorem generateMoves_enPassent_rank_check_witness :
    CMove.mk 36 (bitScan (enPassentTargetOf enPassentSamplePosition.enPassent WHITE))
        CM_FLAG_EP_CAPTURE ∈ generateMoves (Switches.mk false false) enPassentSamplePosition WHITE
      ↔ ¬ epRankAttack enPassentSamplePosition WHITE 36 :=
  (generateMoves_enPassent_rank_check (Switches.mk false false) enPassentSamplePosition WHITE
    (by decide) (by decide!)).1 36 (by decide) (by decide!) (by decide!) (by decide!)

/-! ## makeMove: castling rights -/

theorem BIT_eq_two_pow {i : Nat} (hi : i < 64) : BIT i = 2 ^ i := by
  unfold BIT shl
  rw [Nat.shiftLeft_eq, Nat.one_mul]
  exact Nat.mod_eq_of_lt (Nat.pow_lt_pow_right (by decide) hi)

theorem BIT_and_ne_zero {i : Nat} (hi : i < 64) (x : Nat) :
    BIT i &&& x ≠ 0 ↔ x.testBit i = true := by
  rw [BIT_eq_two_pow hi]; exact two_pow_and_ne_zero i x

theorem corner_testBit : ∀ i, i < 64 →
    (BLACK_KING_SIDE_ROOK.testBit i = decide (i = H8)) ∧
    (BLACK_QUEEN_SIDE_ROOK.testBit i = decide (i = A8)) ∧
    (WHITE_KING_SIDE_ROOK.testBit i = decide (i = H1)) ∧
    (WHITE_QUEEN_SIDE_ROOK.testBit i = decide (i = A1)) := by
  decide

theorem testBit_two_one : Nat.testBit 2 1 = true ∧ Nat.testBit 2 0 = false ∧
    Nat.testBit 1 0 = true ∧ Nat.testBit 1 1 = false := by decide

theorem testBit_mod_two (x : Nat) :
    (x % 2).testBit 1 = false ∧ (x % 2).testBit 0 = x.testBit 0 := by
  have h1 := Nat.testBit_mod_two_pow x 1 1
  have h0 := Nat.testBit_mod_two_pow x 1 0
  simp only [Nat.pow_one] at h1 h0
  constructor
  · rw [h1]; simp
  · rw [h0]; simp

theorem updateCastleFlag_right {i : Nat} (hi : i < 64) (pos : HexaBitBoardPosition)
    (chance c : Bool) (side : Nat) (hside : side < 2) :
    castleRight (updateCastleFlag pos (BIT i) chance) c side =
      (castleRight pos c side && !(decide (c = !chance) && decide (i = rookHome c side))) := by
  obtain ⟨h1, h2, h3, h4⟩ := corner_testBit i hi
  unfold updateCastleFlag castleRight rookHome
  simp only [BIT_and_ne_zero hi, h1, h2, h3, h4, decide_eq_true_eq]
  have hs : side = 0 ∨ side = 1 := by omega
  cases chance <;> cases c <;> rcases hs with rfl | rfl <;>
    split_ifs <;>
    simp_all [clearCastleBit, CASTLE_FLAG_KING_SIDE, CASTLE_FLAG_QUEEN_SIDE, Nat.testBit_and,
      H8, A8, H1, A1, testBit_two_one.1, testBit_two_one.2.1, testBit_two_one.2.2.1,
      testBit_two_one.2.2.2, (testBit_mod_two _).1, (testBit_mod_two _).2]

theorem castleRight_stages (pos : HexaBitBoardPosition) (src dst piece flags : Nat)
    (chance c : Bool) (side : Nat) :
    castleRight (mmCastle (mmEnPassent (mmColor (mmPut (mmClear pos src dst) piece dst chance)
        src dst chance) flags dst chance) flags chance) c side =
      (castleRight pos c side && !(decide (c = chance) && decide (piece = KING))) := by
  unfold castleRight
  simp only [mmCastle_whiteCastle, mmCastle_blackCastle, mmEnPassent_whiteCastle,
    mmEnPassent_blackCastle, mmColor_whiteCastle, mmColor_blackCastle, mmPut_whiteCastle,
    mmPut_blackCastle, mmClear_whiteCastle, mmClear_blackCastle]
  cases chance <;> cases c <;> by_cases hp : piece = KING <;> simp [hp]

theorem castleRight_mmRights (pos : HexaBitBoardPosition) (piece i j : Nat) (hi : i < 64)
    (hj : j < 64) (chance c : Bool) (side : Nat) (hside : side < 2) :
    castleRight (mmRights pos piece (BIT i) (BIT j) chance) c side =
      (castleRight pos c side &&
        !(decide (c = !chance) && decide (j = rookHome c side)) &&
        !(decide (piece = ROOK) && decide (c = chance) && decide (i = rookHome c side))) := by
  unfold mmRights
  simp only []
  have e : ∀ q : HexaBitBoardPosition,
      castleRight { q with chance := !chance, enPassent := 0 } c side = castleRight q c side :=
    fun q => rfl
  by_cases hp : piece = ROOK
  · rw [if_pos hp, updateCastleFlag_right hi _ _ _ _ hside,
      updateCastleFlag_right hj _ _ _ _ hside, e]
    cases chance <;> cases c <;> simp [hp]
  · rw [if_neg hp, updateCastleFlag_right hj _ _ _ _ hside, e]
    simp [hp]

/-- C10: after `makeMove` a castling right is set exactly when it was set before and the
move did not clear it; the move clears both rights of the mover when the moved piece is
the king, the mover's right on a side when a rook leaves its home corner of that side, and
the opponent's right on a side when the destination is the opponent's rook home corner of
that side. No other right changes and no right becomes set. -/
theorem makeMove_castle_rights (sw : Switches) (zob : ZobristRandoms)
    (pos : HexaBitBoardPosition) (hash : Nat) (move : CMove) (chance updateHash : Bool)
    (hs : move.getFrom < 64) (hd : move.getTo < 64) (c : Bool) (side : Nat) (hside : side < 2) :
    castleRight (makeMove sw zob pos hash move chance updateHash).1 c side =
      (castleRight pos c side &&
        !(if c = chance then
            decide (movedPiece pos move = KING) ||
              (decide (movedPiece pos move = ROOK) && decide (move.getFrom = rookHome c side))
          else decide (move.getTo = rookHome c side))) := by
  rw [makeMove_fst]
  unfold makeMoveBoard
  simp only []
  have e1 : ∀ q : HexaBitBoardPosition,
      castleRight (mmDoublePush sw q move (BIT move.getTo) chance) c side =
        castleRight q c side := by
    intro q; unfold castleRight; simp
  rw [e1, castleRight_mmRights _ _ _ _ hs hd _ _ _ hside, castleRight_stages]
  unfold movedPiece
  cases chance <;> cases c <;> simp [Bool.and_assoc]

theorem makeMove_castle_rights_witness :
    castleRight (makeMove (Switches.mk false false) zeroZobrist startingPosition 0
        (CMove.mk 12 28 CM_FLAG_DOUBLE_PAWN_PUSH) WHITE false).1 false 0 =
      (castleRight startingPosition false 0 &&
        !(if false = WHITE then
            decide (movedPiece startingPosition (CMove.mk 12 28 CM_FLAG_DOUBLE_PAWN_PUSH) = KING) ||
              (decide (movedPiece startingPosition (CMove.mk 12 28 CM_FLAG_DOUBLE_PAWN_PUSH)
                = ROOK) &&
                decide ((CMove.mk 12 28 CM_FLAG_DOUBLE_PAWN_PUSH).getFrom = rookHome false 0))
          else decide ((CMove.mk 12 28 CM_FLAG_DOUBLE_PAWN_PUSH).getTo = rookHome false 0))) :=
  makeMove_castle_rights (Switches.mk false false) zeroZobrist startingPosition 0
    (CMove.mk 12 28 CM_FLAG_DOUBLE_PAWN_PUSH) WHITE false (by decide) (by decide) false 0
    (by decide)

/-! ## makeMove: the en-passant capture -/

theorem testBit_RANKS2TO7 (i : Nat) : RANKS2TO7.testBit i = (decide (8 ≤ i) && decide (i < 56)) := by
  by_cases hi : i < 64
  · have h : ∀ j, j < 64 → RANKS2TO7.testBit j = (decide (8 ≤ j) && decide (j < 56)) := by
      decide
    exact h i hi
  · rw [testBit_false_of_lt (by decide : RANKS2TO7 < 2 ^ 64) (by omega)]
    have : ¬ i < 56 := by omega
    simp [this]

theorem southOne_BIT {d : Nat} (h8 : 8 ≤ d) (hd : d < 64) : southOne (BIT d) = BIT (d - 8) := by
  unfold southOne
  rw [BIT_eq_two_pow hd, BIT_eq_two_pow (by omega : d - 8 < 64), Nat.shiftRight_eq_div_pow,
    Nat.pow_div h8 (by decide)]

theorem northOne_BIT {d : Nat} (hd : d + 8 < 64) : northOne (BIT d) = BIT (d + 8) := by
  unfold northOne
  apply Nat.eq_of_testBit_eq
  intro i
  rw [testBit_shl, testBit_BIT, testBit_BIT, Bool.eq_iff_iff]
  simp only [Bool.and_eq_true, decide_eq_true_eq]
  omega

theorem epCaptured_board (move : CMove) (chance : Bool)
    (hd : if chance = WHITE then 40 ≤ move.getTo ∧ move.getTo < 48
      else 16 ≤ move.getTo ∧ move.getTo < 24) :
    (if chance = WHITE then southOne (BIT move.getTo) else northOne (BIT move.getTo)) =
      BIT (epCapturedSquare move chance) := by
  unfold epCapturedSquare
  cases chance
  · simp only [if_true] at hd ⊢
    exact southOne_BIT (by omega) (by omega)
  · simp only [Bool.true_eq_false, if_false] at hd ⊢
    exact northOne_BIT (by omega)

/-- C12: for a move flagged en-passant capture made by a pawn, with the destination on the
sixth rank of the mover and an enemy pawn and nothing else on the square directly behind
the destination, `makeMove` leaves that square in no piece set and not in `whitePieces`,
and the capturing pawn stands on the destination. -/
theorem makeMove_enPassent_capture (sw : Switches) (zob : ZobristRandoms)
    (pos : HexaBitBoardPosition) (hash : Nat) (move : CMove) (chance updateHash : Bool)
    (hflag : move.getFlags = CM_FLAG_EP_CAPTURE)
    (hs : move.getFrom < 64)
    (hd : if chance = WHITE then 40 ≤ move.getTo ∧ move.getTo < 48
      else 16 ≤ move.getTo ∧ move.getTo < 24)
    (hpawn : pieceOn pos (BIT move.getFrom) ROOK = PAWN)
    (hne : move.getFrom ≠ epCapturedSquare move chance)
    (hcap : setsAt pos (epCapturedSquare move chance) = [false, false, true, false, false])
    (hcapw : pos.whitePieces.testBit (epCapturedSquare move chance) = (chance == BLACK)) :
    setsAt (makeMove sw zob pos hash move chance updateHash).1 (epCapturedSquare move chance) =
        [false, false, false, false, false] ∧
    (makeMove sw zob pos hash move chance updateHash).1.whitePieces.testBit
        (epCapturedSquare move chance) = false ∧
    setsAt (makeMove sw zob pos hash move chance updateHash).1 move.getTo =
        [false, false, true, false, false] ∧
    (makeMove sw zob pos hash move chance updateHash).1.whitePieces.testBit move.getTo =
        (chance == WHITE) := by
  rw [makeMove_fst]
  unfold makeMoveBoard
  have hp : promotedPiece move.getFlags (pieceOn pos (BIT move.getFrom) ROOK) = PAWN := by
    rw [hflag, hpawn]; decide
  have hcb := epCaptured_board move chance hd
  have hdl : move.getTo < 64 := by
    cases chance <;> simp at hd <;> omega
  have hcl : epCapturedSquare move chance < 64 := by
    unfold epCapturedSquare; cases chance <;> simp at hd ⊢ <;> omega
  have hdc : move.getTo ≠ epCapturedSquare move chance := by
    unfold epCapturedSquare; cases chance <;> simp at hd ⊢ <;> omega
  have hdr : 8 ≤ move.getTo ∧ move.getTo < 56 := by
    cases chance <;> simp at hd <;> omega
  have hcr : 8 ≤ epCapturedSquare move chance ∧ epCapturedSquare move chance < 56 := by
    unfold epCapturedSquare; cases chance <;> simp at hd ⊢ <;> omega
  simp only [setsAt, List.cons.injEq, and_true] at hcap ⊢
  obtain ⟨c1, c2, c3, c4, c5⟩ := hcap
  rw [Nat.testBit_and, testBit_RANKS2TO7] at c3
  have hnk : PAWN ≠ KING ∧ PAWN ≠ KNIGHT ∧ PAWN ≠ BISHOP ∧ PAWN ≠ QUEEN ∧ PAWN ≠ ROOK := by
    decide
  have hfl : CM_FLAG_EP_CAPTURE ≠ CM_FLAG_KING_CASTLE ∧
      CM_FLAG_EP_CAPTURE ≠ CM_FLAG_QUEEN_CASTLE ∧
      CM_FLAG_EP_CAPTURE ≠ CM_FLAG_DOUBLE_PAWN_PUSH := by decide
  have hn : northOne (BIT move.getTo) = BIT (epCapturedSquare move chance) ∨ chance = WHITE := by
    cases chance
    · exact Or.inr rfl
    · exact Or.inl hcb
  have hp2 : promotedPiece CM_FLAG_EP_CAPTURE (pieceOn pos (BIT move.getFrom) ROOK) = PAWN := by
    rw [hpawn]; decide
  simp only [hflag, hp2, hcb]
  simp only [mmDoublePush_kings, mmRights_kings, mmCastle_kings, mmEnPassent_kings,
    mmColor_kings, mmPut_kings, mmClear_kings, mmDoublePush_knights, mmRights_knights,
    mmCastle_knights, mmEnPassent_knights, mmColor_knights, mmPut_knights, mmClear_knights,
    mmDoublePush_pawns, mmRights_pawns, mmCastle_pawns, mmEnPassent_pawns, mmColor_pawns,
    mmPut_pawns, mmClear_pawns, mmDoublePush_bishopQueens, mmRights_bishopQueens,
    mmCastle_bishopQueens, mmEnPassent_bishopQueens, mmColor_bishopQueens, mmPut_bishopQueens,
    mmClear_bishopQueens, mmDoublePush_rookQueens, mmRights_rookQueens, mmCastle_rookQueens,
    mmEnPassent_rookQueens, mmColor_rookQueens, mmPut_rookQueens, mmClear_rookQueens,
    mmDoublePush_whitePieces, mmRights_whitePieces, mmCastle_whitePieces,
    mmEnPassent_whitePieces, mmColor_whitePieces, mmPut_whitePieces, mmClear_whitePieces,
    hcb, hnk.1, hnk.2.1, hnk.2.2.1, hnk.2.2.2.1, hnk.2.2.2.2, hfl.1, hfl.2.1, hfl.2.2,
    if_true, if_false, false_or, or_false, or_self, true_and]
  have hsc : (move.getFrom = epCapturedSquare move chance) = False := eq_false hne
  have hdc2 : (move.getTo = epCapturedSquare move chance) = False := eq_false hdc
  have hcd : (epCapturedSquare move chance = move.getTo) = False := eq_false (Ne.symm hdc)
  have hcs : (epCapturedSquare move chance = move.getFrom) = False := eq_false (Ne.symm hne)
  rcases hn with hn | hn
  · have hb : chance = BLACK := by
      cases chance
      · exfalso
        simp only [epCapturedSquare, if_true] at hn
        rw [northOne_BIT (by simp at hd; omega)] at hn
        have := congrArg (fun z => Nat.testBit z (move.getTo + 8)) hn
        simp [testBit_BIT] at this
        simp at hd
        omega
      · rfl
    subst hb
    simp only [hn, Bool.true_eq_false, if_false, and_true, if_true]
    simp [Nat.testBit_and, Nat.testBit_or, Nat.testBit_xor, testBit_bnot, testBit_BIT,
      testBit_RANKS2TO7, c1, c2, c4, c5, hs, hdl, hcl, hsc, hdc2, hcd, hcs, hdr.1, hdr.2, hcr.1,
      hcr.2]
  · subst hn
    simp only [if_true]
    simp [Nat.testBit_and, Nat.testBit_or, Nat.testBit_xor, testBit_bnot, testBit_BIT,
      testBit_RANKS2TO7, c1, c2, c4, c5, hs, hdl, hcl, hsc, hdc2, hcd, hcs, hdr.1, hdr.2, hcr.1,
      hcr.2]
    simpa using hcapw

theorem makeMove_enPassent_capture_witness :
    setsAt (makeMove (Switches.mk false false) zeroZobrist enPassentSamplePosition 0
        (CMove.mk 36 43 CM_FLAG_EP_CAPTURE) WHITE false).1
        (epCapturedSquare (CMove.mk 36 43 CM_FLAG_EP_CAPTURE) WHITE) =
      [false, false, false, false, false] :=
  (makeMove_enPassent_capture (Switches.mk false false) zeroZobrist enPassentSamplePosition 0
    (CMove.mk 36 43 CM_FLAG_EP_CAPTURE) WHITE false rfl (by decide) (by decide) (by decide)
    (by decide) (by decide) (by decide)).1

/-! ## makeMove: castling -/

theorem and_BIT_ne_zero {i : Nat} (hi : i < 64) (x : Nat) :
    x &&& BIT i ≠ 0 ↔ x.testBit i = true := by
  rw [Nat.and_comm]; exact BIT_and_ne_zero hi x

theorem and_bnot_BIT_of_not_testBit {x i : Nat} (hx : x < 2 ^ 64)
    (h : x.testBit i = false) : x &&& bnot (BIT i) = x := by
  apply Nat.eq_of_testBit_eq
  intro j
  rw [Nat.testBit_and, testBit_bnot, testBit_BIT]
  by_cases hj : j < 64
  · by_cases hij : i = j
    · subst hij; simp [h]
    · simp [hj, hij]
  · rw [testBit_false_of_lt hx (by omega)]; simp

/-- C11: for a castling move of a side whose king stands on its home square with the rook on
its home corner and an empty square for the rook to land on, `makeMove` leaves the king on
its destination and a rook next to it, with the king's home and the rook's corner empty;
for white `whitePieces` holds the two destination squares and neither home square, for
black `whitePieces` is unchanged (the destination not being white). -/
theorem makeMove_castling (sw : Switches) (zob : ZobristRandoms)
    (pos : HexaBitBoardPosition) (hash : Nat) (black updateHash : Bool) (side : Nat)
    (hside : side < 2)
    (hking : setsAt pos (kingHome black) = [true, false, false, false, false])
    (hrook : setsAt pos (rookHome black side) = [false, false, false, false, true])
    (hempty : setsAt pos (castleRookTo black side) = [false, false, false, false, false])
    (hwk : pos.whitePieces.testBit (kingHome black) = !black)
    (hwr : pos.whitePieces.testBit (rookHome black side) = !black)
    (hwd : pos.whitePieces.testBit (castleKingTo black side) = false)
    (hw64 : pos.whitePieces < 2 ^ 64) :
    setsAt (makeMove sw zob pos hash (castleMove black side) black updateHash).1
        (castleKingTo black side) = [true, false, false, false, false] ∧
    setsAt (makeMove sw zob pos hash (castleMove black side) black updateHash).1
        (castleRookTo black side) = [false, false, false, false, true] ∧
    setsAt (makeMove sw zob pos hash (castleMove black side) black updateHash).1
        (kingHome black) = [false, false, false, false, false] ∧
    setsAt (makeMove sw zob pos hash (castleMove black side) black updateHash).1
        (rookHome black side) = [false, false, false, false, false] ∧
    (black = false →
      (makeMove sw zob pos hash (castleMove black side) black updateHash).1.whitePieces.testBit
          (castleKingTo black side) = true ∧
      (makeMove sw zob pos hash (castleMove black side) black updateHash).1.whitePieces.testBit
          (castleRookTo black side) = true ∧
      (makeMove sw zob pos hash (castleMove black side) black updateHash).1.whitePieces.testBit
          (kingHome black) = false ∧
      (makeMove sw zob pos hash (castleMove black side) black updateHash).1.whitePieces.testBit
          (rookHome black side) = false) ∧
    (black = true →
      (makeMove sw zob pos hash (castleMove black side) black updateHash).1.whitePieces =
        pos.whitePieces) := by
  rw [makeMove_fst]
  unfold makeMoveBoard
  have hs : side = 0 ∨ side = 1 := by omega
  simp only [setsAt, List.cons.injEq, and_true, Nat.testBit_and, testBit_RANKS2TO7] at hking hrook hempty ⊢
  obtain ⟨k1, k2, k3, k4, k5⟩ := hking
  obtain ⟨r1, r2, r3, r4, r5⟩ := hrook
  obtain ⟨e1, e2, e3, e4, e5⟩ := hempty
  have hpiece : pieceOn pos (BIT (kingHome black)) ROOK = KING := by
    unfold pieceOn
    have hk : kingHome black < 64 := by cases black <;> decide
    simp only []
    rw [if_pos ((and_BIT_ne_zero hk _).mpr k1)]
  have hpp : ∀ f, f = CM_FLAG_KING_CASTLE ∨ f = CM_FLAG_QUEEN_CASTLE →
      promotedPiece f KING = KING := by
    rintro f (rfl | rfl) <;> decide
  rcases hs with rfl | rfl <;> cases black <;>
    simp_all [castleMove, kingHome, castleKingTo, castleRookTo, rookHome, CMove.getFrom,
      CMove.getTo, CMove.getFlags, Nat.testBit_and, Nat.testBit_or, Nat.testBit_xor, testBit_bnot,
      testBit_BIT, testBit_RANKS2TO7, E1, G1, C1, F1, D1, H1, A1, E8, G8, C8, F8, D8, H8, A8,
      KING, KNIGHT, PAWN, BISHOP, ROOK, QUEEN, CM_FLAG_KING_CASTLE, CM_FLAG_QUEEN_CASTLE,
      CM_FLAG_EP_CAPTURE, CM_FLAG_DOUBLE_PAWN_PUSH, -Nat.testBit_zero] <;>
    try exact and_bnot_BIT_of_not_testBit (by simpa using hw64) hwd

theorem makeMove_castling_witness :
    setsAt (makeMove (Switches.mk false false) zeroZobrist castleSamplePosition 0
        (castleMove false 0) false false).1 (castleKingTo false 0) =
      [true, false, false, false, false] :=
  (makeMove_castling (Switches.mk false false) zeroZobrist castleSamplePosition 0 false false 0
    (by decide) (by decide) (by decide) (by decide) (by decide) (by decide) (by decide)
    (by decide)).1

/-! ## Moves added by the blocks of generateMoves -/

theorem addsOnly_refl (Q : CMove → Prop) (ms : List CMove) : addsOnly Q ms ms :=
  ⟨fun _ h => h, fun _ h => Or.inl h⟩

theorem addsOnly_trans {Q : CMove → Prop} {a b c : List CMove} (h1 : addsOnly Q a b)
    (h2 : addsOnly Q b c) : addsOnly Q a c := by
  refine ⟨fun m h => h2.1 m (h1.1 m h), fun m h => ?_⟩
  rcases h2.2 m h with h | h
  · exact h1.2 m h
  · exact Or.inr h

theorem addsOnly_acm (Q : CMove → Prop) (ms : List CMove) (s d f : Nat)
    (hf : Q (CMove.mk s d f)) : addsOnly Q ms (addCompactMove ms s d f) := by
  refine ⟨fun m h => (mem_addCompactMove _ _ _ _ _).mpr (Or.inl h), fun m h => ?_⟩
  rcases (mem_addCompactMove _ _ _ _ _).mp h with h | h
  · exact Or.inl h
  · subst h; exact Or.inr hf

theorem addsOnly_forBits (Q : CMove → Prop) (body : Nat → List CMove → List CMove)
    (hbody : ∀ b ms, addsOnly Q ms (body b ms)) (x : Nat) (ms : List CMove) :
    addsOnly Q ms (forBits x body ms) :=
  ⟨fun m h => forBits_mem_mono body (fun b ms m h => (hbody b ms).1 m h) x ms m h,
    fun m h => forBits_mem_inv _ body (fun b ms m h => (hbody b ms).2 m h) x ms m h⟩

theorem addsOnly_ite (Q : CMove → Prop) (c : Prop) [Decidable c] (ms a b : List CMove)
    (ha : c → addsOnly Q ms a) (hb : ¬ c → addsOnly Q ms b) :
    addsOnly Q ms (if c then a else b) := by
  split
  · exact ha (by assumption)
  · exact hb (by assumption)

theorem notCastle_acm (ms : List CMove) (s d f : Nat)
    (hf : f ≠ CM_FLAG_KING_CASTLE ∧ f ≠ CM_FLAG_QUEEN_CASTLE) :
    addsOnly notCastleMove ms (addCompactMove ms s d f) :=
  addsOnly_acm _ ms s d f hf

theorem notCastle_capture (sw : Switches) (ms : List CMove) (s d dst enemyPieces : Nat) :
    addsOnly notCastleMove ms (addCompactMove ms s d (captureFlagOf sw dst enemyPieces)) := by
  apply notCastle_acm
  unfold captureFlagOf
  split
  · decide
  · split <;> decide

theorem notCastle_acpm (ms : List CMove) (s d f : Nat)
    (hf : f = 0 ∨ f = CM_FLAG_DOUBLE_PAWN_PUSH ∨ f = CM_FLAG_CAPTURE) :
    addsOnly notCastleMove ms (addCompactPawnMoves ms s d f) := by
  refine ⟨fun m h => mono_addCompactPawnMoves _ _ _ _ _ h, fun m h => ?_⟩
  rcases mem_addCompactPawnMoves _ _ _ _ _ h with h | h | h | h | h | h
  · exact Or.inl h
  all_goals (right; unfold notCastleMove; rw [h]; rcases hf with rfl | rfl | rfl <;> decide)

theorem notCastle_genKingMoves (sw : Switches) (myKing kingIndex threatened myPieces
    enemyPieces : Nat) (ms : List CMove) :
    addsOnly notCastleMove ms
      (genKingMoves sw myKing kingIndex threatened myPieces enemyPieces ms) := by
  unfold genKingMoves
  exact addsOnly_forBits _ _ (fun b ms => notCastle_capture sw ms _ _ _ _) _ ms

theorem notCastle_nested (sw : Switches) (x enemyPieces : Nat) (f : Nat → Nat)
    (ms : List CMove) :
    addsOnly notCastleMove ms (forBits x (fun piece ms =>
      forBits (f piece) (fun dst ms =>
        addCompactMove ms (bitScan piece) (bitScan dst) (captureFlagOf sw dst enemyPieces))
        ms) ms) :=
  addsOnly_forBits _ _ (fun b ms =>
    addsOnly_forBits _ _ (fun b2 ms => notCastle_capture sw ms _ _ _ _) _ ms) _ ms

theorem notCastle_genKnightMoves (sw : Switches) (knights myPieces enemyPieces pinned : Nat)
    (ms : List CMove) :
    addsOnly notCastleMove ms (genKnightMoves sw knights myPieces enemyPieces pinned ms) :=
  notCastle_nested sw _ enemyPieces (fun knight => knightAttacks knight &&& bnot myPieces) ms

theorem notCastle_genPinnedBishopMoves (sw : Switches) (myBishops allPieces myPieces enemyPieces
    pinned kingIndex : Nat) (ms : List CMove) :
    addsOnly notCastleMove ms (genPinnedBishopMoves sw myBishops allPieces myPieces enemyPieces
      pinned kingIndex ms) :=
  notCastle_nested sw _ enemyPieces (fun bishop =>
    bishopAttacks bishop (bnot allPieces) &&& bnot myPieces &&&
      sqsInLine (bitScan bishop) kingIndex) ms

theorem notCastle_genBishopMoves (sw : Switches) (myBishops allPieces myPieces enemyPieces
    pinned : Nat) (ms : List CMove) :
    addsOnly notCastleMove ms
      (genBishopMoves sw myBishops allPieces myPieces enemyPieces pinned ms) :=
  notCastle_nested sw _ enemyPieces (fun bishop =>
    bishopAttacks bishop (bnot allPieces) &&& bnot myPieces) ms

theorem notCastle_genPinnedRookMoves (sw : Switches) (myRooks allPieces myPieces enemyPieces
    pinned kingIndex : Nat) (ms : List CMove) :
    addsOnly notCastleMove ms (genPinnedRookMoves sw myRooks allPieces myPieces enemyPieces
      pinned kingIndex ms) :=
  notCastle_nested sw _ enemyPieces (fun rook =>
    rookAttacks rook (bnot allPieces) &&& bnot myPieces &&&
      sqsInLine (bitScan rook) kingIndex) ms

theorem notCastle_genRookMoves (sw : Switches) (myRooks allPieces myPieces enemyPieces
    pinned : Nat) (ms : List CMove) :
    addsOnly notCastleMove ms
      (genRookMoves sw myRooks allPieces myPieces enemyPieces pinned ms) :=
  notCastle_nested sw _ enemyPieces (fun rook =>
    rookAttacks rook (bnot allPieces) &&& bnot myPieces) ms

theorem notCastle_genEnPassentMoves (enPassentTarget myPawns allPieces enemyRooks myKing pinned
    kingIndex : Nat) (chance : Bool) (ms : List CMove) :
    addsOnly notCastleMove ms (genEnPassentMoves enPassentTarget myPawns allPieces enemyRooks
      myKing pinned kingIndex chance ms) := by
  unfold genEnPassentMoves
  split
  · apply addsOnly_forBits
    intro b ms
    simp only []
    split_ifs <;>
      first
        | exact addsOnly_refl _ _
        | exact notCastle_acm _ _ _ _ (by decide)
  · exact addsOnly_refl _ _

theorem notCastle_genPinnedPawnMoves (myPawns allPieces enemyPieces pinned kingIndex : Nat)
    (chance : Bool) (ms : List CMove) :
    addsOnly notCastleMove ms
      (genPinnedPawnMoves myPawns allPieces enemyPieces pinned kingIndex chance ms) := by
  unfold genPinnedPawnMoves
  apply addsOnly_forBits
  intro b ms
  simp only []
  split_ifs <;>
    repeat first
      | exact addsOnly_refl _ _
      | refine addsOnly_trans ?_ (notCastle_acm _ _ _ _ (by decide))
      | refine addsOnly_trans ?_ (notCastle_acpm _ _ _ _ (by decide))

theorem notCastle_genPawnMoves (myPawns allPieces enemyPieces pinned : Nat)
    (chance : Bool) (ms : List CMove) :
    addsOnly notCastleMove ms
      (genPawnMoves myPawns allPieces enemyPieces pinned chance ms) := by
  unfold genPawnMoves
  apply addsOnly_forBits
  intro b ms
  simp only []
  split_ifs <;>
    repeat first
      | exact addsOnly_refl _ _
      | refine addsOnly_trans ?_ (notCastle_acm _ _ _ _ (by decide))
      | refine addsOnly_trans ?_ (notCastle_acpm _ _ _ _ (by decide))

theorem notCastle_simple_nested (x : Nat) (f : Nat → Nat) (ms : List CMove) :
    addsOnly notCastleMove ms (forBits x (fun piece ms =>
      forBits (f piece) (fun dst ms =>
        addCompactMove ms (bitScan piece) (bitScan dst) 0) ms) ms) :=
  addsOnly_forBits _ _ (fun b ms =>
    addsOnly_forBits _ _ (fun b2 ms => notCastle_acm ms _ _ _ (by decide)) _ ms) _ ms

theorem notCastle_checkPawnBody (chance : Bool) (allPieces enemyPieces safeSquares
    checkingRankDoublePush enPassentTarget pawn : Nat) (ms : List CMove) :
    addsOnly notCastleMove ms
      (let dst := (if chance = WHITE then northOne pawn else southOne pawn) &&& bnot allPieces
      let ms :=
        if dst ≠ 0 then
          if dst &&& safeSquares ≠ 0 then
            addCompactPawnMoves ms (bitScan pawn) dst 0
          else
            let dst := (if chance = WHITE then northOne (dst &&& checkingRankDoublePush)
              else southOne (dst &&& checkingRankDoublePush)) &&& safeSquares &&& bnot allPieces
            if dst ≠ 0 then
              addCompactMove ms (bitScan pawn) (bitScan dst) CM_FLAG_DOUBLE_PAWN_PUSH
            else ms
        else ms
      let westCapture := if chance = WHITE then northWestOne pawn else southWestOne pawn
      let eastCapture := if chance = WHITE then northEastOne pawn else southEastOne pawn
      let dst := (westCapture ||| eastCapture) &&& enemyPieces &&& safeSquares
      let ms :=
        if dst ≠ 0 then addCompactPawnMoves ms (bitScan pawn) dst CM_FLAG_CAPTURE else ms
      let dst := (westCapture ||| eastCapture) &&& enPassentTarget
      if dst ≠ 0 then addCompactMove ms (bitScan pawn) (bitScan dst) CM_FLAG_EP_CAPTURE
      else ms) := by
  cases chance <;>
  · simp only [if_true, Bool.true_eq_false, if_false]
    split_ifs <;>
      repeat first
        | exact addsOnly_refl _ _
        | refine addsOnly_trans ?_ (notCastle_acm _ _ _ _ (by decide))
        | refine addsOnly_trans ?_ (notCastle_acpm _ _ _ _ (by decide))

theorem notCastle_generateMovesOutOfCheck (pos : HexaBitBoardPosition) (ms : List CMove)
    (allPawns allPieces myPieces enemyPieces pinned threatened kingIndex : Nat)
    (chance : Bool) :
    addsOnly notCastleMove ms (generateMovesOutOfCheck pos ms allPawns allPieces myPieces
      enemyPieces pinned threatened kingIndex chance) := by
  unfold generateMovesOutOfCheck
  simp only []
  have hk : ∀ x ms, addsOnly notCastleMove ms (forBits x (fun dst ms =>
      addCompactMove ms kingIndex (bitScan dst) 0) ms) := fun x ms =>
    addsOnly_forBits _ _ (fun b ms => notCastle_acm ms _ _ _ (by decide)) _ ms
  refine addsOnly_ite _ _ _ _ _ (fun _ => ?_) (fun _ => ?_)
  · refine addsOnly_trans ?_ (notCastle_simple_nested _ _ _)
    refine addsOnly_trans ?_ (notCastle_simple_nested _ _ _)
    refine addsOnly_trans ?_ (notCastle_simple_nested _ _ _)
    refine addsOnly_trans ?_ (addsOnly_forBits _ _ ?_ _ _)
    · exact hk _ _
    · intro b ms
      exact notCastle_checkPawnBody chance allPieces enemyPieces _ _ _ b ms
  · exact hk _ _

/-! ## The castling block -/

theorem mask_and_eq_zero (M x : Nat) (l : List Nat)
    (hM : ∀ t, M.testBit t = true ↔ t ∈ l) :
    M &&& x = 0 ↔ ∀ t ∈ l, x.testBit t = false := by
  rw [and_eq_zero_iff_testBit]
  constructor
  · intro h t ht
    have := h t
    rw [(hM t).mpr ht] at this
    cases hx : x.testBit t
    · rfl
    · exact absurd ⟨rfl, hx⟩ this
  · rintro h t ⟨h1, h2⟩
    rw [h t ((hM t).mp h1)] at h2
    exact Bool.noConfusion h2

theorem testBit_mask_list (M : Nat) (l : List Nat) (hlt : M < 2 ^ 64)
    (h : ∀ t, t < 64 → (M.testBit t = true ↔ t ∈ l)) (hl : ∀ t ∈ l, t < 64) :
    ∀ t, M.testBit t = true ↔ t ∈ l := by
  intro t
  by_cases ht : t < 64
  · exact h t ht
  · rw [testBit_false_of_lt hlt (by omega)]
    constructor
    · intro h; exact Bool.noConfusion h
    · intro h; exact absurd (hl t h) ht

theorem castle_masks :
    (∀ t, F1G1.testBit t = true ↔ t ∈ [F1, G1]) ∧
    (∀ t, B1D1.testBit t = true ↔ t ∈ [1, C1, D1]) ∧
    (∀ t, C1D1.testBit t = true ↔ t ∈ [D1, C1]) ∧
    (∀ t, F8G8.testBit t = true ↔ t ∈ [F8, G8]) ∧
    (∀ t, B8D8.testBit t = true ↔ t ∈ [57, C8, D8]) ∧
    (∀ t, C8D8.testBit t = true ↔ t ∈ [D8, C8]) :=
  ⟨testBit_mask_list _ _ (by decide) (by decide) (by decide),
    testBit_mask_list _ _ (by decide) (by decide) (by decide),
    testBit_mask_list _ _ (by decide) (by decide) (by decide),
    testBit_mask_list _ _ (by decide) (by decide) (by decide),
    testBit_mask_list _ _ (by decide) (by decide) (by decide),
    testBit_mask_list _ _ (by decide) (by decide) (by decide)⟩

theorem and_one_ne_zero (x : Nat) : x &&& 1 ≠ 0 ↔ x.testBit 0 = true := by
  have := BIT_and_ne_zero (by decide : 0 < 64) x
  rw [Nat.and_comm] at this
  exact this

theorem and_two_ne_zero (x : Nat) : x &&& 2 ≠ 0 ↔ x.testBit 1 = true := by
  have := BIT_and_ne_zero (by decide : 1 < 64) x
  rw [Nat.and_comm] at this
  exact this

theorem mem_ite_acm (c : Prop) [Decidable c] (ms : List CMove) (s d f : Nat) (m : CMove) :
    m ∈ (if c then addCompactMove ms s d f else ms) ↔ m ∈ ms ∨ (c ∧ m = CMove.mk s d f) := by
  split <;> simp [mem_addCompactMove, *]

theorem mem_genCastleMoves (pos : HexaBitBoardPosition) (allPieces threatened : Nat)
    (chance : Bool) (ms : List CMove) (m : CMove) :
    m ∈ genCastleMoves pos allPieces threatened chance ms ↔
      m ∈ ms ∨
      ((castleRight pos chance 0 = true ∧
          (∀ t ∈ castleEmptySquares chance 0, allPieces.testBit t = false) ∧
          (∀ t ∈ (castleSafeSquares chance 0).tail, threatened.testBit t = false)) ∧
        m = castleMove chance 0) ∨
      ((castleRight pos chance 1 = true ∧
          (∀ t ∈ castleEmptySquares chance 1, allPieces.testBit t = false) ∧
          (∀ t ∈ (castleSafeSquares chance 1).tail, threatened.testBit t = false)) ∧
        m = castleMove chance 1) := by
  obtain ⟨m1, m2, m3, m4, m5, m6⟩ := castle_masks
  unfold genCastleMoves castleRight castleEmptySquares castleSafeSquares castleMove kingHome
    castleKingTo
  cases chance
  · simp only [if_true, Bool.false_eq_true, if_false, one_ne_zero]
    rw [mem_ite_acm, mem_ite_acm, or_assoc]
    simp only [CASTLE_FLAG_KING_SIDE, CASTLE_FLAG_QUEEN_SIDE, and_one_ne_zero, and_two_ne_zero,
      mask_and_eq_zero _ _ _ m1, mask_and_eq_zero _ _ _ m2, mask_and_eq_zero _ _ _ m3,
      List.tail_cons]
  · simp only [Bool.true_eq_false, if_true, if_false, one_ne_zero]
    rw [mem_ite_acm, mem_ite_acm, or_assoc]
    simp only [CASTLE_FLAG_KING_SIDE, CASTLE_FLAG_QUEEN_SIDE, and_one_ne_zero, and_two_ne_zero,
      mask_and_eq_zero _ _ _ m4, mask_and_eq_zero _ _ _ m5, mask_and_eq_zero _ _ _ m6,
      List.tail_cons]

theorem not_mem_of_addsOnly_notCastle {L : List CMove} (h : addsOnly notCastleMove [] L)
    (black : Bool) (side : Nat) : castleMove black side ∉ L := by
  intro hm
  rcases h.2 _ hm with h1 | h1
  · exact List.not_mem_nil _ h1
  · unfold notCastleMove castleMove at h1
    by_cases hs : side = 0
    · simp [hs] at h1
    · simp [hs] at h1

/-- C15: for a side whose king stands on its home square (E1 or E8), `generateMoves` emits
the castling move of a side of the board if and only if the right is set, the squares
between king and rook are empty (F and G, or B, C and D) and none of the king's start,
transit and destination squares (E, F, G, or E, D, C) is threatened. -/
theorem generateMoves_castling (sw : Switches) (pos : HexaBitBoardPosition) (chance : Bool)
    (side : Nat) (hside : side < 2)
    (hking : pos.kings &&& gmMyPieces pos chance = BIT (kingHome chance)) :
    castleMove chance side ∈ generateMoves sw pos chance ↔
      castleRight pos chance side = true ∧
      (∀ t ∈ castleEmptySquares chance side, (gmAllPieces pos).testBit t = false) ∧
      (∀ t ∈ castleSafeSquares chance side, (gmThreatened pos chance).testBit t = false) := by
  have hkh : kingHome chance < 64 := by cases chance <;> decide
  have hE : gmThreatened pos chance &&& (pos.kings &&& gmMyPieces pos chance) ≠ 0 ↔
      (gmThreatened pos chance).testBit (kingHome chance) = true := by
    rw [hking]; exact and_BIT_ne_zero hkh _
  have hs : side = 0 ∨ side = 1 := by omega
  have hsafe : (∀ t ∈ castleSafeSquares chance side, (gmThreatened pos chance).testBit t = false) ↔
      (gmThreatened pos chance).testBit (kingHome chance) = false ∧
      ∀ t ∈ (castleSafeSquares chance side).tail, (gmThreatened pos chance).testBit t = false := by
    unfold castleSafeSquares kingHome
    cases chance <;> rcases hs with rfl | rfl <;> simp
  have hdiff : castleMove chance 0 ≠ castleMove chance 1 := by
    intro h
    have h2 := congrArg CMove.flags h
    unfold castleMove at h2
    simp only [one_ne_zero, if_true, if_false] at h2
    exact absurd h2 (by decide)
  rw [hsafe]
  unfold generateMoves
  simp only []
  split
  · rename_i hc
    have ht := hE.mp hc
    constructor
    · intro h
      exact absurd h (not_mem_of_addsOnly_notCastle
        (notCastle_generateMovesOutOfCheck pos [] _ _ _ _ _ _ _ _) chance side)
    · rintro ⟨-, -, h, -⟩
      rw [ht] at h
      exact Bool.noConfusion h
  · rename_i hc
    have ht : (gmThreatened pos chance).testBit (kingHome chance) = false := by
      cases hb : (gmThreatened pos chance).testBit (kingHome chance)
      · rfl
      · exact absurd (hE.mpr hb) hc
    rw [mem_genCastleMoves]
    constructor
    · rintro (h | ⟨⟨h1, h2, h3⟩, h4⟩ | ⟨⟨h1, h2, h3⟩, h4⟩)
      · refine absurd h (not_mem_of_addsOnly_notCastle ?_ chance side)
        refine addsOnly_trans ?_ (notCastle_genPawnMoves _ _ _ _ _ _)
        refine addsOnly_trans ?_ (notCastle_genPinnedPawnMoves _ _ _ _ _ _ _)
        refine addsOnly_trans ?_ (notCastle_genEnPassentMoves _ _ _ _ _ _ _ _ _)
        refine addsOnly_trans ?_ (notCastle_genRookMoves _ _ _ _ _ _ _)
        refine addsOnly_trans ?_ (notCastle_genPinnedRookMoves _ _ _ _ _ _ _ _)
        refine addsOnly_trans ?_ (notCastle_genBishopMoves _ _ _ _ _ _ _)
        refine addsOnly_trans ?_ (notCastle_genPinnedBishopMoves _ _ _ _ _ _ _ _)
        refine addsOnly_trans ?_ (notCastle_genKnightMoves _ _ _ _ _ _)
        exact notCastle_genKingMoves _ _ _ _ _ _ _
      · rcases hs with rfl | rfl
        · exact ⟨h1, h2, ht, h3⟩
        · exact absurd h4.symm hdiff
      · rcases hs with rfl | rfl
        · exact absurd h4 hdiff
        · exact ⟨h1, h2, ht, h3⟩
    · rintro ⟨h1, h2, -, h3⟩
      rcases hs with rfl | rfl
      · exact Or.inr (Or.inl ⟨⟨h1, h2, h3⟩, rfl⟩)
      · exact Or.inr (Or.inr ⟨⟨h1, h2, h3⟩, rfl⟩)

theorem generateMoves_castling_witness :
    castleMove false 0 ∈ generateMoves (Switches.mk false false) castleSamplePosition false ↔
      castleRight castleSamplePosition false 0 = true ∧
      (∀ t ∈ castleEmptySquares false 0, (gmAllPieces castleSamplePosition).testBit t = false) ∧
      (∀ t ∈ castleSafeSquares false 0,
        (gmThreatened castleSamplePosition false).testBit t = false) :=
  generateMoves_castling (Switches.mk false false) castleSamplePosition false 0 (by decide)
    (by decide!)

/-! ## C34: the bump allocator -/

theorem ALIGN_UP_sixteen (size : Nat) (h : size + 15 < 2 ^ 32) :
    ALIGN_UP size MEM_ALIGNMENT = roundUp16 size := by
  unfold ALIGN_UP MEM_ALIGNMENT roundUp16
  apply Nat.eq_of_testBit_eq
  intro i
  have e1 : (size + 16 - 1) % 2 ^ 32 = size + 15 := by
    rw [Nat.mod_eq_of_lt] <;> omega
  rw [e1]
  have e2 : (2 ^ 32 - 1) ^^^ (16 - 1) = 2 ^ 32 - 2 ^ 4 := by decide
  rw [e2, Nat.testBit_and]
  have e3 : 16 * ((size + 15) / 16) = 2 ^ 4 * ((size + 15) / 2 ^ 4) := by norm_num
  rw [e3, Nat.testBit_mul_pow_two, ← Nat.shiftRight_eq_div_pow, Nat.testBit_shiftRight]
  have e4 : (2 ^ 32 - 2 ^ 4 : Nat) = 2 ^ 4 * (2 ^ 28 - 1) := by norm_num
  rw [e4, Nat.testBit_mul_pow_two, Nat.testBit_two_pow_sub_one]
  by_cases h4 : 4 ≤ i
  · have : 4 + (i - 4) = i := by omega
    simp only [h4, decide_True, Bool.true_and, this]
    by_cases h32 : i - 4 < 28
    · simp [h32]
    · have : (size + 15).testBit i = false :=
        Nat.testBit_lt_two_pow
          (lt_of_lt_of_le h (Nat.pow_le_pow_right (by norm_num) (by omega : 32 ≤ i)))
      simp [h32, this]
  · simp [h4]


/-! ## C32: the 128-bit make-move against the 64-bit one -/

theorem makeMove128b_fst (sw : Switches) (zob zob2 : ZobristRandoms)
    (pos : HexaBitBoardPosition) (hash : HashKey128b) (h64 : Nat) (move : CMove)
    (chance uh : Bool) :
    (makeMove128b sw zob zob2 pos hash move chance uh).1 =
      (makeMove sw zob pos h64 move chance uh).1 := rfl

theorem and_mask_of_lt_sixteen (x : Nat) (h : x < 16) : x &&& (2 ^ 32 - 16) = 0 := by
  interval_cases x <;> decide

theorem deviceMalloc_eq (used size : Nat) (hs : size < 2 ^ 32) :
    deviceMalloc used size = (used, (used + roundUp16 size) % 2 ^ 32) := by
  by_cases h : size + 15 < 2 ^ 32
  · simp only [deviceMalloc, ALIGN_UP_sixteen size h]
  · have e1 : ALIGN_UP size MEM_ALIGNMENT = 0 := by
      unfold ALIGN_UP MEM_ALIGNMENT
      have : (size + 16 - 1) % 2 ^ 32 = size + 15 - 2 ^ 32 := by omega
      rw [this]
      exact and_mask_of_lt_sixteen _ (by omega)
    have e2 : roundUp16 size = 2 ^ 32 := by
      unfold roundUp16
      have : (size + 15) / 16 = 2 ^ 28 := by omega
      rw [this]; norm_num
    simp only [deviceMalloc, e1, e2, Nat.add_zero, Nat.add_mod_right]

theorem le_roundUp16 (size : Nat) : size ≤ roundUp16 size := by
  unfold roundUp16; omega

theorem deviceMallocs_spec : ∀ (sizes : List Nat) (used : Nat),
    used + (sizes.map roundUp16).sum < 2 ^ 32 →
    (deviceMallocs used sizes).2 = used + (sizes.map roundUp16).sum ∧
    (deviceMallocs used sizes).1.length = sizes.length ∧
    ∀ i, i < sizes.length →
      (deviceMallocs used sizes).1.getD i 0 = used + ((sizes.take i).map roundUp16).sum := by
  intro sizes
  induction sizes with
  | nil => intro used _; simp [deviceMallocs]
  | cons s rest ih =>
    intro used h
    simp only [List.map_cons, List.sum_cons] at h
    have hs : s < 2 ^ 32 := by have := le_roundUp16 s; omega
    have e : deviceMalloc used s = (used, used + roundUp16 s) := by
      rw [deviceMalloc_eq used s hs, Nat.mod_eq_of_lt (by omega)]
    obtain ⟨h1, h2, h3⟩ := ih (used + roundUp16 s) (by omega)
    simp only [deviceMallocs, e, List.map_cons, List.sum_cons, List.length_cons]
    refine ⟨by rw [h1]; omega, by rw [h2], ?_⟩
    intro i hi
    cases i with
    | zero => simp
    | succ j =>
      simp only [List.getD_cons_succ, List.take_succ_cons, List.map_cons, List.sum_cons]
      rw [h3 j (by omega)]; omega

theorem roundUp16_sum_dvd (l : List Nat) : 16 ∣ (l.map roundUp16).sum := by
  induction l with
  | nil => simp
  | cons a t ih =>
    simp only [List.map_cons, List.sum_cons]
    exact Dvd.dvd.add ⟨_, rfl⟩ ih

theorem sum_take_le (l : List Nat) : ∀ i, (l.take i).sum ≤ l.sum := by
  induction l with
  | nil => intro i; simp
  | cons a t ih =>
    intro i
    cases i with
    | zero => simp
    | succ j => simp only [List.take_succ_cons, List.sum_cons]; have := ih j; omega

theorem sum_take_succ_le (l : List Nat) (g : Nat → Nat) (hg : ∀ x, x ≤ g x) :
    ∀ i j, i < j → j ≤ l.length →
    ((l.take i).map g).sum + l.getD i 0 ≤ ((l.take j).map g).sum := by
  induction l with
  | nil => intro i j hij hj; simp at hj; omega
  | cons a t ih =>
    intro i j hij hj
    cases j with
    | zero => omega
    | succ j2 =>
      cases i with
      | zero =>
        simp only [List.take_zero, List.map_nil, List.sum_nil, List.getD_cons_zero,
          List.take_succ_cons, List.map_cons, List.sum_cons]
        have := hg a; omega
      | succ i2 =>
        simp only [List.take_succ_cons, List.map_cons, List.sum_cons, List.getD_cons_succ]
        have := ih i2 j2 (by omega) (by simpa using hj); omega

/-- C34: `deviceMalloc` returns the offset equal to the used count before the call and
adds the size rounded up to a multiple of 16 (modulo 2^32); starting from 0, while the
running total of the rounded sizes stays below 2^32, every returned offset is the used
count before that call, a multiple of 16, the regions of successive calls are disjoint
(an earlier region ends at or before a later offset) and no call lowers the count. -/
theorem deviceMalloc_bump_allocator (sizes : List Nat)
    (h : (sizes.map roundUp16).sum < 2 ^ 32) :
    (∀ used size, size < 2 ^ 32 →
      deviceMalloc used size = (used, (used + roundUp16 size) % 2 ^ 32)) ∧
    (deviceMallocs 0 sizes).1.length = sizes.length ∧
    (∀ i, i < sizes.length →
      (deviceMallocs 0 sizes).1.getD i 0 = (deviceMallocs 0 (sizes.take i)).2 ∧
      16 ∣ (deviceMallocs 0 sizes).1.getD i 0 ∧
      (deviceMallocs 0 (sizes.take i)).2 ≤ (deviceMallocs 0 (sizes.take (i + 1))).2 ∧
      (deviceMallocs 0 (sizes.take (i + 1))).2 =
        (deviceMallocs 0 (sizes.take i)).2 + roundUp16 (sizes.getD i 0)) ∧
    (∀ i j, i < j → j < sizes.length →
      (deviceMallocs 0 sizes).1.getD i 0 + sizes.getD i 0 ≤
        (deviceMallocs 0 sizes).1.getD j 0) := by
  have hpre : ∀ i, ((sizes.take i).map roundUp16).sum < 2 ^ 32 := by
    intro i
    have := sum_take_le (sizes.map roundUp16) i
    rw [← List.map_take] at this
    omega
  obtain ⟨-, h2, h3⟩ := deviceMallocs_spec sizes 0 (by simpa using h)
  have hused : ∀ i, (deviceMallocs 0 (sizes.take i)).2 = ((sizes.take i).map roundUp16).sum := by
    intro i
    have := (deviceMallocs_spec (sizes.take i) 0 (by simpa using hpre i)).1
    simpa using this
  refine ⟨fun used size hs => deviceMalloc_eq used size hs, h2, ?_, ?_⟩
  · intro i hi
    rw [h3 i hi, hused i, hused (i + 1)]
    have e : ((sizes.take (i + 1)).map roundUp16).sum =
        ((sizes.take i).map roundUp16).sum + roundUp16 (sizes.getD i 0) := by
      rw [List.take_succ, List.map_append, List.sum_append]
      congr 1
      rw [List.getD_eq_getElem _ _ hi, List.getElem?_eq_getElem hi]
      simp
    refine ⟨by simp, ?_, by rw [e]; omega, e⟩
    simpa using roundUp16_sum_dvd (sizes.take i)
  · intro i j hij hj
    rw [h3 i (by omega), h3 j hj]
    have := sum_take_succ_le sizes roundUp16 le_roundUp16 i j hij (by omega)
    omega

theorem deviceMalloc_bump_allocator_witness :
    ((([10, 32, 1] : List Nat).map roundUp16).sum < 2 ^ 32) ∧
    deviceMallocs 0 [10, 32, 1] = ([0, 16, 48], 64) ∧
    (deviceMallocs 0 [10, 32, 1]).1.getD 1 0 + ([10, 32, 1] : List Nat).getD 1 0 ≤
      (deviceMallocs 0 [10, 32, 1]).1.getD 2 0 :=
  ⟨by decide, by decide,
   (deviceMalloc_bump_allocator [10, 32, 1] (by decide)).2.2.2 1 2 (by decide) (by decide)⟩

/-! ## C33: the deep table keeps the deeper entry -/

theorem deepStore_depth_le (hashTable : Nat → HashEntryPerft128b) (hashBits indexBits : Nat)
    (hash : HashKey128b) (perft d : Nat) (i : Nat) :
    (hashTable i).depth ≤ (deepStore hashTable hashBits indexBits hash perft d i).depth := by
  unfold deepStore
  simp only
  split_ifs with hc
  · by_cases hi : i = hash.lowPart &&& indexBits
    · subst hi; simpa using hc
    · simp [Function.update, hi]
  · exact le_refl _

theorem launcherStore_depth_le (nn : Bool) (hashTable : Nat → HashEntryPerft128b)
    (hashBits indexBits : Nat) (hash : HashKey128b) (perft : Nat) (depth : Int) (i : Nat) :
    (hashTable i).depth ≤
      (launcherStore nn hashTable hashBits indexBits hash perft depth i).depth := by
  unfold launcherStore
  simp only
  split_ifs with hc
  · by_cases hi : i = hash.lowPart &&& indexBits
    · subst hi
      simp only [Function.update_same]
      omega
    · simp [Function.update, hi]
  · exact le_refl _

theorem launcherStoreLoop_depth_le (nn : Bool) (hashBits indexBits : Nat) (depth : Int)
    (i : Nat) : ∀ (entries : List (HashKey128b × Nat)) (hashTable : Nat → HashEntryPerft128b),
    (hashTable i).depth ≤
      (launcherStoreLoop nn hashTable hashBits indexBits entries depth i).depth := by
  intro entries
  induction entries with
  | nil => intro t; exact le_refl _
  | cons e rest ih =>
    intro t
    unfold launcherStoreLoop
    simp only [List.foldl_cons]
    exact le_trans (launcherStore_depth_le nn t hashBits indexBits e.1 e.2 depth i)
      (ih (launcherStore nn t hashBits indexBits e.1 e.2 depth))

/-- C33: a thread of `calcPerftNFromPerftNminus1_hash128b_deep` that processes an entry at
depth `d` leaves the table unchanged when the slot holds a deeper entry and otherwise puts
the new entry (count, key XOR-ed with the count, depth `d`) in the slot; the store of
`perft_bb_gpu_launcher_hash` does the same at depth `depth - 1`; in every case, and over the
whole store loop of the launcher, the depth stored in any slot never decreases. -/
theorem deep_table_depth_never_decreases (findDuplicates nn : Bool)
    (perftNCounters indices perftNminus1Counters : Nat → Nat)
    (hashes : Nat → HashKey128b) (hashTable : Nat → HashEntryPerft128b)
    (hashBits indexBits nThreads index d : Nat) (hash : HashKey128b) (perft : Nat)
    (depth : Int) (entries : List (HashKey128b × Nat)) :
    (index < nThreads ∧ (hashes index).highPart ≠ 0 ∧
        ¬ (findDuplicates = true ∧ (hashes index).highPart = ALLSET) →
      (d < (hashTable ((hashes index).lowPart &&& indexBits)).depth →
        (calcPerftNFromPerftNminus1_hash128b_deep findDuplicates perftNCounters indices
          perftNminus1Counters hashes hashTable hashBits indexBits nThreads index d).2 =
          hashTable) ∧
      ((hashTable ((hashes index).lowPart &&& indexBits)).depth ≤ d →
        (calcPerftNFromPerftNminus1_hash128b_deep findDuplicates perftNCounters indices
          perftNminus1Counters hashes hashTable hashBits indexBits nThreads index d).2 =
          Function.update hashTable ((hashes index).lowPart &&& indexBits)
            (HashEntryPerft128b.mk
              (HashKey128b.mk
                (((hashes index).lowPart &&& hashBits) ^^^ perftNminus1Counters index)
                ((hashes index).highPart ^^^ perftNminus1Counters index))
              (perftNminus1Counters index) d))) ∧
    (∀ i, (hashTable i).depth ≤
      ((calcPerftNFromPerftNminus1_hash128b_deep findDuplicates perftNCounters indices
        perftNminus1Counters hashes hashTable hashBits indexBits nThreads index d).2 i).depth) ∧
    (depth - 1 < ((hashTable (hash.lowPart &&& indexBits)).depth : Int) →
      launcherStore nn hashTable hashBits indexBits hash perft depth = hashTable) ∧
    (((hashTable (hash.lowPart &&& indexBits)).depth : Int) ≤ depth - 1 →
      launcherStore true hashTable hashBits indexBits hash perft depth =
        Function.update hashTable (hash.lowPart &&& indexBits)
          (HashEntryPerft128b.mk
            (HashKey128b.mk ((hash.lowPart &&& hashBits) ^^^ perft) (hash.highPart ^^^ perft))
            perft (depth - 1).toNat)) ∧
    (∀ i, (hashTable i).depth ≤
      (launcherStoreLoop nn hashTable hashBits indexBits entries depth i).depth) := by
  refine ⟨?_, ?_, ?_, ?_,
    fun i => launcherStoreLoop_depth_le nn hashBits indexBits depth i entries hashTable⟩
  · rintro ⟨h1, h2, h3⟩
    constructor
    · intro hd
      simp only [calcPerftNFromPerftNminus1_hash128b_deep, h1, h2, h3, if_true, if_false,
        ne_eq, not_false_eq_true, deepStore, not_le.mpr hd]
    · intro hd
      simp only [calcPerftNFromPerftNminus1_hash128b_deep, h1, h2, h3, if_true, if_false,
        ne_eq, not_false_eq_true, deepStore, hd]
  · intro i
    unfold calcPerftNFromPerftNminus1_hash128b_deep
    simp only
    split_ifs
    · exact le_refl _
    · exact deepStore_depth_le _ _ _ _ _ _ _
    · exact le_refl _
    · exact le_refl _
  · intro hd
    simp only [launcherStore, not_le.mpr hd, and_false, if_false]
  · intro hd
    simp only [launcherStore, hd, and_self, if_true]

theorem deep_table_depth_never_decreases_witness :
    (sampleDeepTable ((HashKey128b.mk 5 9).lowPart &&& 0)).depth = 3 ∧
    (calcPerftNFromPerftNminus1_hash128b_deep false (fun _ => 0) (fun _ => 0) (fun _ => 7)
      (fun _ => HashKey128b.mk 5 9) sampleDeepTable 0xFF 0 1 0 2).2 = sampleDeepTable :=
  ⟨by decide,
   ((deep_table_depth_never_decreases false true (fun _ => 0) (fun _ => 0) (fun _ => 7)
      (fun _ => HashKey128b.mk 5 9) sampleDeepTable 0xFF 0 1 0 2 (HashKey128b.mk 5 9) 7 3
      []).1 ⟨by decide, by decide, by decide⟩).1 (by decide)⟩


/-! ## C31: a probe hit and a probe miss in the expansion kernels -/

/-- C31: in a thread of `makemove_and_count_moves_single_level_hash128b` and of its deep
variant, a probe hit adds the cached count once to the counter of the child's parent
(`parentCounters[indices[index]]`) and writes the child out as invalid (`whitePieces` 0,
hash high part 0, move count 0, own counter 0), so that `generate_moves_single_level`
writes no move for it; a miss leaves the parents' counters untouched and stores
`countMoves` of the successor position as the child's move count. -/
theorem expansion_probe_hit_and_miss (sw : Switches) (zob zob2 : ZobristRandoms) (w : Nat)
    (parentBoards : Nat → HexaBitBoardPosition) (parentHashes : Nat → HashKey128b)
    (indices : Nat → Nat) (moves : Nat → CMove)
    (shallowTable : Nat → HashKey128b) (deepTable : Nat → HashEntryPerft128b)
    (hashBits indexBits : Nat) (arrays : ExpansionArrays) (nThreads index : Nat)
    (depth : Int) (c : Nat) (hi : index < nThreads)
    (parentIndex : Nat) (color : Bool) (r : HexaBitBoardPosition × HashKey128b)
    (out outDeep : ExpansionArrays)
    (hparent : parentIndex = indices index)
    (hcolor : color = (parentBoards parentIndex).chance)
    (hr : r = makeMoveAndUpdateHash sw zob zob2 (parentBoards parentIndex)
      (parentHashes parentIndex) (moves index) color)
    (hout : out = makemove_and_count_moves_single_level_hash128b sw zob zob2 w parentBoards
      parentHashes indices moves shallowTable hashBits indexBits arrays nThreads index)
    (houtDeep : outDeep = makemove_and_count_moves_single_level_hash128b_deep sw zob zob2
      parentBoards parentHashes indices moves deepTable hashBits indexBits arrays nThreads
      index depth) :
    (shallowProbe shallowTable hashBits indexBits r.2 = some c →
      out.parentCounters = Function.update arrays.parentCounters parentIndex
        ((arrays.parentCounters parentIndex + c) % 2 ^ w) ∧
      (out.outPositions index).whitePieces = 0 ∧ (out.outHashes index).highPart = 0 ∧
      out.moveCounts index = 0 ∧ out.perftCountersCurrentDepth index = 0 ∧
      generate_moves_single_level sw out.outPositions nThreads index = []) ∧
    (shallowProbe shallowTable hashBits indexBits r.2 = none →
      out.parentCounters = arrays.parentCounters ∧
      out.moveCounts index = countMoves r.1 (!color) ∧
      out.outPositions index = r.1 ∧ out.outHashes index = r.2 ∧
      out.perftCountersCurrentDepth index = 0) ∧
    (deepProbe deepTable hashBits indexBits r.2 depth = some c →
      outDeep.parentCounters = Function.update arrays.parentCounters parentIndex
        ((arrays.parentCounters parentIndex + c) % 2 ^ 64) ∧
      (outDeep.outPositions index).whitePieces = 0 ∧
      (outDeep.outHashes index).highPart = 0 ∧
      outDeep.moveCounts index = 0 ∧ outDeep.perftCountersCurrentDepth index = 0 ∧
      generate_moves_single_level sw outDeep.outPositions nThreads index = []) ∧
    (deepProbe deepTable hashBits indexBits r.2 depth = none →
      outDeep.parentCounters = arrays.parentCounters ∧
      outDeep.moveCounts index = countMoves r.1 (!color) ∧
      outDeep.outPositions index = r.1 ∧ outDeep.outHashes index = r.2 ∧
      outDeep.perftCountersCurrentDepth index = 0) := by
  subst hparent hcolor hr hout houtDeep
  refine ⟨?_, ?_, ?_, ?_⟩
  · intro hp
    simp only [shallowProbe] at hp
    split_ifs at hp with hc
    have hcnt := Option.some.inj hp
    simp only [makemove_and_count_moves_single_level_hash128b, hi, if_true,
      generate_moves_single_level, Function.update_same]
    rw [if_pos hc, if_pos hc, if_pos hc, if_pos hc]
    simp only [← hcnt, ne_eq, not_true_eq_false, and_false, if_false, and_self,
      true_and]
  · intro hp
    simp only [shallowProbe] at hp
    split_ifs at hp with hc
    simp only [makemove_and_count_moves_single_level_hash128b, hi, if_true,
      Function.update_same]
    rw [if_neg hc, if_neg hc, if_neg hc, if_neg hc]
    exact ⟨rfl, rfl, rfl, rfl, trivial⟩
  · intro hp
    simp only [deepProbe] at hp
    split_ifs at hp with hc
    have hcnt := Option.some.inj hp
    simp only [makemove_and_count_moves_single_level_hash128b_deep, hi, if_true,
      generate_moves_single_level, Function.update_same]
    rw [if_pos hc, if_pos hc, if_pos hc, if_pos hc]
    simp only [← hcnt, ne_eq, not_true_eq_false, and_false, if_false, and_self,
      true_and]
  · intro hp
    simp only [deepProbe] at hp
    split_ifs at hp with hc
    simp only [makemove_and_count_moves_single_level_hash128b_deep, hi, if_true,
      Function.update_same]
    rw [if_neg hc, if_neg hc, if_neg hc, if_neg hc]
    exact ⟨rfl, rfl, rfl, rfl, trivial⟩

theorem expansion_probe_hit_and_miss_witness :
    (0 : Nat) < 1 ∧
    (makemove_and_count_moves_single_level_hash128b (Switches.mk false false)
      (sampleZobrist 1) (sampleZobrist 2) 32 (fun _ => startingPosition)
      (fun _ => computeZobristKey128b (sampleZobrist 1) (sampleZobrist 2) startingPosition)
      (fun _ => 0) (fun _ => CMove.mk 12 28 CM_FLAG_DOUBLE_PAWN_PUSH) sampleShallowTable
      0xFFFFFFFFFF000000 0xFFFFFF emptyArrays 1 0).parentCounters =
      Function.update emptyArrays.parentCounters 0
        ((emptyArrays.parentCounters 0 + 20) % 2 ^ 32) :=
  ⟨by decide,
   ((expansion_probe_hit_and_miss (Switches.mk false false) (sampleZobrist 1)
      (sampleZobrist 2) 32 (fun _ => startingPosition)
      (fun _ => computeZobristKey128b (sampleZobrist 1) (sampleZobrist 2) startingPosition)
      (fun _ => 0) (fun _ => CMove.mk 12 28 CM_FLAG_DOUBLE_PAWN_PUSH) sampleShallowTable
      sampleDeepTable 0xFFFFFFFFFF000000 0xFFFFFF emptyArrays 1 0 3 20 (by decide)
      0 WHITE _ _ _ rfl rfl rfl rfl rfl).1 (by decide!)).1⟩

/-! ## C37: folding the counts back -/

/-- An entry whose hash has a non-zero high part (and is no duplicate marker) has its count
added once to the counter of its parent, by the shallow and by the deep kernel. -/
theorem foldBack_adds_when_high_part_nonzero (findDuplicates : Bool) (w : Nat)
    (perftNCounters indices perftNminus1Counters : Nat → Nat) (hashes : Nat → HashKey128b)
    (shallowTable : Nat → HashKey128b) (deepTable : Nat → HashEntryPerft128b)
    (hashBits indexBits nThreads index depth : Nat) (hi : index < nThreads)
    (hh : (hashes index).highPart ≠ 0)
    (hd : ¬ (findDuplicates = true ∧ (hashes index).highPart = ALLSET)) :
    (calcPerftNFromPerftNminus1_hash128b findDuplicates w perftNCounters indices
      perftNminus1Counters hashes shallowTable hashBits indexBits nThreads index).1 =
      Function.update perftNCounters (indices index)
        ((perftNCounters (indices index) + perftNminus1Counters index) % 2 ^ w) ∧
    (calcPerftNFromPerftNminus1_hash128b_deep findDuplicates perftNCounters indices
      perftNminus1Counters hashes deepTable hashBits indexBits nThreads index depth).1 =
      Function.update perftNCounters (indices index)
        ((perftNCounters (indices index) + perftNminus1Counters index) % 2 ^ 64) := by
  constructor
  · simp only [calcPerftNFromPerftNminus1_hash128b, hi, hh, hd, if_true, if_false, ne_eq,
      not_false_eq_true]
  · simp only [calcPerftNFromPerftNminus1_hash128b_deep, hi, hh, hd, if_true, if_false, ne_eq,
      not_false_eq_true]

/-- An entry whose hash has the high part 0 is skipped by both kernels, whatever its
count. -/
theorem foldBack_skips_zero_high_part (findDuplicates : Bool) (w : Nat)
    (perftNCounters indices perftNminus1Counters : Nat → Nat) (hashes : Nat → HashKey128b)
    (shallowTable : Nat → HashKey128b) (deepTable : Nat → HashEntryPerft128b)
    (hashBits indexBits nThreads index depth : Nat)
    (hh : (hashes index).highPart = 0) :
    calcPerftNFromPerftNminus1_hash128b findDuplicates w perftNCounters indices
      perftNminus1Counters hashes shallowTable hashBits indexBits nThreads index =
      (perftNCounters, shallowTable) ∧
    calcPerftNFromPerftNminus1_hash128b_deep findDuplicates perftNCounters indices
      perftNminus1Counters hashes deepTable hashBits indexBits nThreads index depth =
      (perftNCounters, deepTable) := by
  constructor
  · simp only [calcPerftNFromPerftNminus1_hash128b, hh, ne_eq, not_true_eq_false, if_false,
      ite_self]
  · simp only [calcPerftNFromPerftNminus1_hash128b_deep, hh, ne_eq, not_true_eq_false,
      if_false, ite_self]

theorem rootPrefix_succ (positions : Nat → HexaBitBoardPosition) (r : Nat) :
    rootPrefix positions (r + 1) =
      rootPrefix positions r + countMoves (positions r) (positions 0).chance := by
  simp [rootPrefix, List.range_succ]

theorem rootPrefix_mono (positions : Nat → HexaBitBoardPosition) {a b : Nat} (h : a ≤ b) :
    rootPrefix positions a ≤ rootPrefix positions b := by
  induction b with
  | zero => simp at h; subst h; exact le_refl _
  | succ n ih =>
    rcases Nat.lt_or_ge a (n + 1) with h1 | h1
    · have := ih (by omega); rw [rootPrefix_succ]; omega
    · have : a = n + 1 := by omega
      subst this; exact le_refl _

theorem rootOffsetsLoop_eq (positions : Nat → HexaBitBoardPosition) (k : Nat) :
    rootOffsetsLoop positions (positions 0).chance k =
      ((List.range k).map (rootPrefix positions), rootPrefix positions k) := by
  induction k with
  | zero => simp [rootOffsetsLoop, rootPrefix]
  | succ n ih =>
    simp only [rootOffsetsLoop, ih, List.range_succ, List.map_append, List.map_cons,
      List.map_nil, rootPrefix_succ]

theorem root_get (MM : Nat) (positions : Nat → HexaBitBoardPosition) (count j : Nat)
    (hj : j ≤ count) :
    (moveListOffsetsRoot MM positions count).1.get? j =
      some (if j < count then rootPrefix positions j else MM * MM) := by
  simp only [moveListOffsetsRoot, rootOffsetsLoop_eq, List.get?_eq_getElem?]
  by_cases h : j < count
  · rw [List.getElem?_append_left (by simpa using h)]
    simp [h]
  · have : j = count := by omega
    subst this
    rw [List.getElem?_append_right (by simp)]
    simp

theorem root_length (MM : Nat) (positions : Nat → HexaBitBoardPosition) (count : Nat) :
    (moveListOffsetsRoot MM positions count).1.length = count + 1 := by
  simp [moveListOffsetsRoot, rootOffsetsLoop_eq]

theorem advanceRootPointer_spec (MM : Nat) (positions : Nat → HexaBitBoardPosition)
    (count i : Nat) (hi : i < rootPrefix positions count) (hM : i < MM * MM) :
    ∀ fuel rp, rp < count → rootPrefix positions rp ≤ i → count - rp ≤ fuel →
    ∃ r, advanceRootPointer (moveListOffsetsRoot MM positions count).1 i fuel rp = some r ∧
      rp ≤ r ∧ r < count ∧ rootPrefix positions r ≤ i ∧ i < rootPrefix positions (r + 1) := by
  intro fuel
  induction fuel with
  | zero => intro rp h1 _ h3; omega
  | succ n ih =>
    intro rp h1 h2 h3
    simp only [advanceRootPointer, root_get MM positions count (rp + 1) (by omega)]
    by_cases hc : rp + 1 < count
    · simp only [hc, if_true]
      by_cases hv : i ≥ rootPrefix positions (rp + 1)
      · simp only [hv, if_true]
        obtain ⟨r, e, a, b, c, d⟩ := ih (rp + 1) hc hv (by omega)
        exact ⟨r, e, by omega, b, c, d⟩
      · simp only [hv, if_false]
        exact ⟨rp, rfl, le_refl _, h1, h2, by omega⟩
    · have e : rp + 1 = count := by omega
      simp only [hc, if_false, ge_iff_le, not_le.mpr hM]
      exact ⟨rp, rfl, le_refl _, h1, h2, by rw [e]; exact hi⟩

theorem parentIndexLoop_spec (MM : Nat) (positions : Nat → HexaBitBoardPosition)
    (count : Nat) (hpos : 0 < rootPrefix positions count)
    (hM : rootPrefix positions count < MM * MM) :
    ∀ k, k ≤ rootPrefix positions count →
    ∃ offs rp, parentIndexLoop (moveListOffsetsRoot MM positions count).1 k = some (offs, rp) ∧
      offs.length = k ∧ rp < count ∧ rootPrefix positions rp ≤ k ∧
      ∀ i, i < k → offs.getD i 0 < count ∧ rootPrefix positions (offs.getD i 0) ≤ i ∧
        i < rootPrefix positions (offs.getD i 0 + 1) := by
  have hcount : 0 < count := by
    rcases Nat.eq_zero_or_pos count with h | h
    · subst h; simp [rootPrefix] at hpos
    · exact h
  intro k
  induction k with
  | zero =>
    intro _
    exact ⟨[], 0, rfl, rfl, hcount, by simp [rootPrefix], by intro i hi; omega⟩
  | succ n ih =>
    intro hk
    obtain ⟨offs, rp, e, hl, h1, h2, h3⟩ := ih (by omega)
    obtain ⟨r, er, a, b, c, d⟩ := advanceRootPointer_spec MM positions count n (by omega)
      (by omega) (count + 1) rp h1 h2 (by omega)
    refine ⟨offs ++ [r], r, ?_, by simp [hl], b, by omega, ?_⟩
    · simp only [parentIndexLoop, e, root_length, er]
    · intro i hi
      by_cases hin : i < n
      · rw [List.getD_append _ _ _ _ (by omega)]
        exact h3 i hin
      · have : i = n := by omega
        subst this
        rw [List.getD_append_right _ _ _ _ (by omega)]
        simp only [hl, Nat.sub_self, List.getD_cons_zero]
        exact ⟨b, c, d⟩

/-- C40: for `count` roots whose move counts (taken by `countMoves` with the colour of the
first root) have a positive total below `MAX_MOVES * MAX_MOVES`, the scan of
`perft_bb_gpu_simple_hash` runs to the end without reading `moveListOffsetsRoot` beyond
index `count`, and `moveListOffsets[i]` is, for every child index `i` below the total, the
unique root `r` whose prefix sums satisfy `n_0 + .. + n_(r-1) <= i < n_0 + .. + n_r`. -/
theorem rootParentIndices_correct (MAX_MOVES : Nat)
    (positions : Nat → HexaBitBoardPosition) (count : Nat)
    (hpos : 0 < rootPrefix positions count)
    (hM : rootPrefix positions count < MAX_MOVES * MAX_MOVES) :
    ∃ offs, rootParentIndices MAX_MOVES positions count = some offs ∧
      offs.length = rootPrefix positions count ∧
      ∀ i, i < rootPrefix positions count →
        offs.getD i 0 < count ∧
        rootPrefix positions (offs.getD i 0) ≤ i ∧
        i < rootPrefix positions (offs.getD i 0 + 1) ∧
        ∀ r, r < count → rootPrefix positions r ≤ i → i < rootPrefix positions (r + 1) →
          r = offs.getD i 0 := by
  obtain ⟨offs, rp, e, hl, -, -, h3⟩ :=
    parentIndexLoop_spec MAX_MOVES positions count hpos hM _ (le_refl _)
  refine ⟨offs, ?_, hl, ?_⟩
  · have e2 : (moveListOffsetsRoot MAX_MOVES positions count).2 = rootPrefix positions count := by
      simp [moveListOffsetsRoot, rootOffsetsLoop_eq]
    simp only [rootParentIndices, e2, Nat.ne_of_gt hpos, if_false, e, Option.map_some']
  · intro i hi
    obtain ⟨a, b, c⟩ := h3 i hi
    refine ⟨a, b, c, ?_⟩
    intro r hr h1 h2
    rcases Nat.lt_trichotomy r (offs.getD i 0) with h | h | h
    · have := rootPrefix_mono positions (show r + 1 ≤ offs.getD i 0 from h); omega
    · exact h
    · have := rootPrefix_mono positions (show offs.getD i 0 + 1 ≤ r from h); omega

theorem rootParentIndices_correct_witness :
    0 < rootPrefix (fun _ => startingPosition) 2 ∧
    rootPrefix (fun _ => startingPosition) 2 < 256 * 256 ∧
    rootParentIndices 256 (fun _ => startingPosition) 2 =
      some (List.replicate 20 0 ++ List.replicate 20 1) ∧
    ∃ offs, rootParentIndices 256 (fun _ => startingPosition) 2 = some offs ∧
      offs.length = rootPrefix (fun _ => startingPosition) 2 :=
  ⟨by decide!, by decide!, by decide!,
   (rootParentIndices_correct 256 (fun _ => startingPosition) 2 (by decide!) (by decide!)).imp
     (fun _ h => ⟨h.1, h.2.1⟩)⟩

/-! ## C35: the depth cutoff of the recursive launcher -/

theorem rookMask_all : ∀ sq, sq < 64 → ∀ q, q < 64 →
    rookRelevant sq q = true → (RookAttacksMasked sq).testBit q = true := by
  decide!

theorem bishopMask_all : ∀ sq, sq < 64 → ∀ q, q < 64 →
    bishopRelevant sq q = true → (BishopAttacksMasked sq).testBit q = true := by
  decide!

theorem rookRelevant_of_ray (d : Int × Int) (hd : d ∈ rookDirs) (sq j k q t : Nat)
    (hj : 1 ≤ j) (hjk : j < k) (h1 : onRay d.1 d.2 sq j q) (h2 : onRay d.1 d.2 sq k t) :
    rookRelevant sq q = true := by
  simp only [rookDirs, List.mem_cons, List.mem_singleton, List.not_mem_nil, or_false] at hd
  unfold onRay at h1 h2
  unfold rookRelevant
  simp only [Bool.or_eq_true, Bool.and_eq_true, decide_eq_true_eq]
  rcases hd with h | h | h | h <;> subst h <;> simp only [mul_zero, mul_one, mul_neg] at h1 h2
  · right; exact ⟨⟨by omega, by omega⟩, Or.inl ⟨by omega, by omega⟩⟩
  · right; exact ⟨⟨by omega, by omega⟩, Or.inr ⟨by omega, by omega⟩⟩
  · left; exact ⟨⟨by omega, by omega⟩, Or.inl ⟨by omega, by omega⟩⟩
  · left; exact ⟨⟨by omega, by omega⟩, Or.inr ⟨by omega, by omega⟩⟩

theorem bishopRelevant_of_ray (d : Int × Int) (hd : d ∈ bishopDirs) (sq j k q t : Nat)
    (hj : 1 ≤ j) (hjk : j < k) (h1 : onRay d.1 d.2 sq j q) (h2 : onRay d.1 d.2 sq k t) :
    bishopRelevant sq q = true := by
  simp only [bishopDirs, List.mem_cons, List.mem_singleton, List.not_mem_nil, or_false] at hd
  unfold onRay at h1 h2
  unfold bishopRelevant
  simp only [Bool.or_eq_true, Bool.and_eq_true, decide_eq_true_eq]
  rcases hd with h | h | h | h <;> subst h <;> simp only [mul_one, mul_neg] at h1 h2
  · exact ⟨⟨⟨⟨⟨by omega, Or.inl (by omega)⟩, by omega⟩, by omega⟩, by omega⟩, by omega⟩
  · exact ⟨⟨⟨⟨⟨by omega, Or.inr (by omega)⟩, by omega⟩, by omega⟩, by omega⟩, by omega⟩
  · exact ⟨⟨⟨⟨⟨by omega, Or.inr (by omega)⟩, by omega⟩, by omega⟩, by omega⟩, by omega⟩
  · exact ⟨⟨⟨⟨⟨by omega, Or.inl (by omega)⟩, by omega⟩, by omega⟩, by omega⟩, by omega⟩

theorem attackSpec_congr_between (df dr : Int) (sq pro1 pro2 t : Nat)
    (h : ∀ j k q u, 1 ≤ j → j < k → onRay df dr sq j q → onRay df dr sq k u →
      pro1.testBit q = pro2.testBit q) :
    attackSpec df dr (BIT sq) pro1 t → attackSpec df dr (BIT sq) pro2 t := by
  unfold attackSpec
  rintro ⟨s, hs, k, hk8, hk1, hG, hray, hb⟩
  have hs2 : sq = s := by
    rw [testBit_BIT] at hG
    simp only [Bool.and_eq_true, decide_eq_true_eq] at hG
    exact hG.2
  subst hs2
  refine ⟨sq, hs, k, hk8, hk1, hG, hray, ?_⟩
  intro j hj q hq h1 h2 hr
  rw [← h j k q t h1 h2 hr hray]
  exact hb j hj q hq h1 h2 hr

theorem slideSpec_congr_between (dirs : List (Int × Int)) (sq pro1 pro2 t : Nat)
    (h : ∀ d, d ∈ dirs → ∀ j k q u, 1 ≤ j → j < k → onRay d.1 d.2 sq j q →
      onRay d.1 d.2 sq k u → pro1.testBit q = pro2.testBit q) :
    slideAttackSpec dirs (BIT sq) pro1 t ↔ slideAttackSpec dirs (BIT sq) pro2 t := by
  unfold slideAttackSpec
  constructor
  · rintro ⟨d, hd, ha⟩
    exact ⟨d, hd, attackSpec_congr_between d.1 d.2 sq pro1 pro2 t (h d hd) ha⟩
  · rintro ⟨d, hd, ha⟩
    exact ⟨d, hd, attackSpec_congr_between d.1 d.2 sq pro2 pro1 t
      (fun j k q u a b c e => (h d hd j k q u a b c e).symm) ha⟩

theorem testBit_bnot_and_mask (occ mask q : Nat) (hm : mask.testBit q = true) :
    (bnot occ).testBit q = (bnot (occ &&& mask)).testBit q := by
  rw [testBit_bnot, testBit_bnot, Nat.testBit_and, hm, Bool.and_true]

/-- C39: for every square and every occupancy, the Kogge-Stone rook and bishop attacks
from the square see the occupancy only through the masks `RookAttacksMasked` and
`BishopAttacksMasked` that `init` computes. -/
theorem sliding_attacks_depend_on_mask (sq occ : Nat) (hsq : sq < 64) :
    rookAttacksKoggeStone (BIT sq) (bnot occ) =
      rookAttacksKoggeStone (BIT sq) (bnot (occ &&& RookAttacksMasked sq)) ∧
    bishopAttacksKoggeStone (BIT sq) (bnot occ) =
      bishopAttacksKoggeStone (BIT sq) (bnot (occ &&& BishopAttacksMasked sq)) := by
  constructor
  · apply Nat.eq_of_testBit_eq
    intro t
    rw [Bool.eq_iff_iff, rookAttacks_slideSpec _ _ _ (BIT_lt sq),
      rookAttacks_slideSpec _ _ _ (BIT_lt sq)]
    apply slideSpec_congr_between
    intro d hd j k q u hj hjk h1 h2
    exact testBit_bnot_and_mask occ _ q
      (rookMask_all sq hsq q h1.2.1 (rookRelevant_of_ray d hd sq j k q u hj hjk h1 h2))
  · apply Nat.eq_of_testBit_eq
    intro t
    rw [Bool.eq_iff_iff, bishopAttacks_slideSpec _ _ _ (BIT_lt sq),
      bishopAttacks_slideSpec _ _ _ (BIT_lt sq)]
    apply slideSpec_congr_between
    intro d hd j k q u hj hjk h1 h2
    exact testBit_bnot_and_mask occ _ q
      (bishopMask_all sq hsq q h1.2.1 (bishopRelevant_of_ray d hd sq j k q u hj hjk h1 h2))

theorem sliding_attacks_depend_on_mask_witness :
    (27 : Nat) < 64 ∧
    rookAttacksKoggeStone (BIT 27) (bnot 0xFF000000FF00FFFF) =
      rookAttacksKoggeStone (BIT 27) (bnot (0xFF000000FF00FFFF &&& RookAttacksMasked 27)) :=
  ⟨by decide, (sliding_attacks_depend_on_mask 27 0xFF000000FF00FFFF (by decide)).1⟩

/-! ## C38: a king in check has an attacker -/

theorem dirs_neg_mem (d : Int × Int) :
    (d ∈ knightDirs → (-d.1, -d.2) ∈ knightDirs) ∧
    (d ∈ bishopDirs → (-d.1, -d.2) ∈ bishopDirs) ∧
    (d ∈ rookDirs → (-d.1, -d.2) ∈ rookDirs) := by
  refine ⟨?_, ?_, ?_⟩
  · intro h
    simp only [knightDirs, List.mem_cons, List.mem_singleton, List.not_mem_nil, or_false] at h
    rcases h with h | h | h | h | h | h | h | h <;> subst h <;> simp [knightDirs]
  · intro h
    simp only [bishopDirs, List.mem_cons, List.mem_singleton, List.not_mem_nil, or_false] at h
    rcases h with h | h | h | h <;> subst h <;> simp [bishopDirs]
  · intro h
    simp only [rookDirs, List.mem_cons, List.mem_singleton, List.not_mem_nil, or_false] at h
    rcases h with h | h | h | h <;> subst h <;> simp [rookDirs]

theorem onRay_back (d : Int × Int) (hd : d ∈ rookDirs ∨ d ∈ bishopDirs) (s n kSq j q : Nat)
    (hj1 : 1 ≤ j) (hjn : j < n) (h1 : onRay d.1 d.2 s n kSq)
    (h2 : onRay (-d.1) (-d.2) kSq j q) :
    onRay d.1 d.2 s (n - j) q ∧ q ≠ kSq := by
  simp only [rookDirs, bishopDirs, List.mem_cons, List.mem_singleton, List.not_mem_nil,
    or_false] at hd
  unfold onRay at *
  rcases hd with (h | h | h | h) | (h | h | h | h) <;> subst h <;>
    simp only [mul_zero, mul_one, mul_neg, neg_zero, neg_neg] at h1 h2 ⊢ <;>
    (refine ⟨⟨h1.1, h2.2.1, ?_, ?_⟩, ?_⟩ <;> omega)

theorem slide_reverse (d : Int × Int) (hd : d ∈ rookDirs ∨ d ∈ bishopDirs)
    (enemy allPieces kSq : Nat) (hk : kSq < 64)
    (h : attackSpec d.1 d.2 enemy (bnot allPieces ||| BIT kSq) kSq) :
    ∃ s, enemy.testBit s = true ∧ attackSpec (-d.1) (-d.2) (BIT kSq) (bnot allPieces) s := by
  obtain ⟨s, hs, n, hn8, hn1, hE, hray, hb⟩ := h
  refine ⟨s, hE, kSq, hk, n, hn8, hn1, ?_, (onRay_reverse _ _ _ _ _).mp hray, ?_⟩
  · rw [testBit_BIT]; simp [hk]
  · intro j hj q hq h1 h2 hr
    obtain ⟨r1, r2⟩ := onRay_back d hd s n kSq j q h1 h2 hray hr
    have := hb (n - j) (by omega) q hq (by omega) (by omega) r1
    rw [Nat.testBit_or, testBit_BIT] at this
    have hne : ¬ (kSq = q) := fun e => r2 e.symm
    simpa [hne] using this

theorem testBit_ne_zero {x i : Nat} (h : x.testBit i = true) : x ≠ 0 := by
  intro h0; rw [h0] at h; simp at h

theorem gmAttackers_nonempty (pos : HexaBitBoardPosition) (chance : Bool) (kSq : Nat)
    (hwp : pos.whitePieces < 2 ^ 64)
    (hk : kSq < 64) (hking : pos.kings &&& gmMyPieces pos chance = BIT kSq)
    (hcheck : gmThreatened pos chance &&& (pos.kings &&& gmMyPieces pos chance) ≠ 0)
    (hadj : ¬ stepAttackSpec kingDirs (pos.kings &&& gmEnemyPieces pos chance) kSq) :
    gmAttackers pos chance ≠ 0 ∧ bitScan (gmAttackers pos chance) < 64 ∧
    (gmAttackers pos chance).testBit (bitScan (gmAttackers pos chance)) = true := by
  have hE : gmEnemyPieces pos chance < 2 ^ 64 := by
    unfold gmEnemyPieces
    split_ifs
    · exact Nat.and_lt_two_pow _ (by unfold bnot; exact xor_lt_two_pow (by decide) (Nat.mod_lt _ (by decide)))
    · exact hwp
  have hb : ∀ x, x &&& gmEnemyPieces pos chance < 2 ^ 64 := fun x => Nat.and_lt_two_pow _ hE
  have hlt : gmAttackers pos chance < 2 ^ 64 := by
    unfold gmAttackers checkAttackers
    simp only [Nat.zero_or]
    exact Nat.or_lt_two_pow (Nat.or_lt_two_pow (Nat.or_lt_two_pow
      (Nat.and_lt_two_pow _ (hb _)) (Nat.and_lt_two_pow _ (hb _)))
      (Nat.and_lt_two_pow _ (hb _))) (Nat.and_lt_two_pow _ (hb _))
  have hne : gmAttackers pos chance ≠ 0 := by
    rw [hking, and_BIT_ne_zero hk] at hcheck
    unfold gmThreatened at hcheck
    rw [findAttackedSquares_union _ _ _ _ _ _ _ _ _ (hb _) (hb _) (hb _) (hb _) (hb _), hking]
      at hcheck
    unfold gmAttackers checkAttackers
    simp only [Nat.zero_or, hking]
    rcases hcheck with h | h | h | h | h
    · obtain ⟨s, hs, hP, d, hd, hray⟩ := h
      apply testBit_ne_zero (i := s)
      simp only [Nat.testBit_or, Nat.testBit_and, Bool.or_eq_true, Bool.and_eq_true]
      refine Or.inl (Or.inl (Or.inl ⟨?_, by simpa [Nat.testBit_and] using hP⟩))
      have hrev := (onRay_reverse _ _ _ _ _).mp hray
      have hB : (BIT kSq).testBit kSq = true := by rw [testBit_BIT]; simp [hk]
      cases chance
      · simp only [pawnDirs, Bool.not_false, WHITE, BLACK, if_true, if_false,
          Bool.true_eq_false, Bool.false_eq_true, List.mem_cons, List.mem_singleton,
          List.not_mem_nil, or_false] at hd ⊢
        rw [Nat.testBit_or, Bool.or_eq_true, northEastOne_spec _ _ (BIT_lt _),
          northWestOne_spec _ _ (BIT_lt _)]
        rcases hd with h | h <;> subst h <;> simp only [neg_neg] at hrev
        · exact Or.inr ⟨kSq, hk, hB, hrev⟩
        · exact Or.inl ⟨kSq, hk, hB, hrev⟩
      · simp only [pawnDirs, Bool.not_true, WHITE, BLACK, if_true, if_false,
          Bool.true_eq_false, Bool.false_eq_true, List.mem_cons, List.mem_singleton,
          List.not_mem_nil, or_false] at hd ⊢
        rw [Nat.testBit_or, Bool.or_eq_true, southEastOne_spec _ _ (BIT_lt _),
          southWestOne_spec _ _ (BIT_lt _)]
        rcases hd with h | h <;> subst h <;> simp only [neg_neg] at hrev
        · exact Or.inr ⟨kSq, hk, hB, hrev⟩
        · exact Or.inl ⟨kSq, hk, hB, hrev⟩
    · obtain ⟨s, hs, hN, d, hd, hray⟩ := h
      apply testBit_ne_zero (i := s)
      simp only [Nat.testBit_or, Nat.testBit_and, Bool.or_eq_true, Bool.and_eq_true]
      refine Or.inl (Or.inl (Or.inr ⟨?_, by simpa [Nat.testBit_and] using hN⟩))
      rw [knightAttacks_spec _ _ (BIT_lt _)]
      exact ⟨kSq, hk, by rw [testBit_BIT]; simp [hk], (-d.1, -d.2), (dirs_neg_mem d).1 hd,
        (onRay_reverse _ _ _ _ _).mp hray⟩
    · obtain ⟨d, hd, ha⟩ := h
      obtain ⟨s, hs, hatt⟩ := slide_reverse d (Or.inr hd) _ _ kSq hk ha
      apply testBit_ne_zero (i := s)
      simp only [Nat.testBit_or, Nat.testBit_and, Bool.or_eq_true, Bool.and_eq_true]
      refine Or.inl (Or.inr ⟨?_, by simpa [Nat.testBit_and] using hs⟩)
      unfold bishopAttacks
      rw [bishopAttacks_slideSpec _ _ _ (BIT_lt _)]
      exact ⟨(-d.1, -d.2), (dirs_neg_mem d).2.1 hd, hatt⟩
    · obtain ⟨d, hd, ha⟩ := h
      obtain ⟨s, hs, hatt⟩ := slide_reverse d (Or.inl hd) _ _ kSq hk ha
      apply testBit_ne_zero (i := s)
      simp only [Nat.testBit_or, Nat.testBit_and, Bool.or_eq_true, Bool.and_eq_true]
      refine Or.inr ⟨?_, by simpa [Nat.testBit_and] using hs⟩
      unfold rookAttacks
      rw [rookAttacks_slideSpec _ _ _ (BIT_lt _)]
      exact ⟨(-d.1, -d.2), (dirs_neg_mem d).2.2 hd, hatt⟩
    · exact absurd h hadj
  obtain ⟨-, e2, e3, -⟩ := getOne_spec hne hlt
  exact ⟨hne, e2, e3⟩

/-- C38: when the mover has one king, the king stands on a threatened square
(`generateMoves` enters the out-of-check routine) and the enemy king is not on a square
next to it, the set `attackers` that the out-of-check routine builds from the pawn,
knight, bishop-or-queen and rook-or-queen attacks on the king is not empty, so that
`bitScan(attackers)` is the index of a square of the board holding an attacker. -/
theorem attackers_nonempty_in_check (pos : HexaBitBoardPosition) (chance : Bool) (kSq : Nat)
    (hwp : pos.whitePieces < 2 ^ 64)
    (hk : kSq < 64) (hking : pos.kings &&& gmMyPieces pos chance = BIT kSq)
    (hcheck : gmThreatened pos chance &&& (pos.kings &&& gmMyPieces pos chance) ≠ 0)
    (hadj : ¬ stepAttackSpec kingDirs (pos.kings &&& gmEnemyPieces pos chance) kSq) :
    gmAttackers pos chance ≠ 0 ∧ bitScan (gmAttackers pos chance) < 64 ∧
    (gmAttackers pos chance).testBit (bitScan (gmAttackers pos chance)) = true :=
  gmAttackers_nonempty pos chance kSq hwp hk hking hcheck hadj

theorem attackers_nonempty_in_check_witness :
    rookCheckPosition.whitePieces < 2 ^ 64 ∧ (4 : Nat) < 64 ∧
    gmAttackers rookCheckPosition WHITE = BIT 60 ∧
    bitScan (gmAttackers rookCheckPosition WHITE) < 64 :=
  ⟨by decide, by decide, by decide!,
   (attackers_nonempty_in_check rookCheckPosition WHITE 4 (by decide) (by decide)
      (by decide!) (by decide!) (by decide!)).2.1⟩

/-! ## C36: boards generated directly against make-move -/

theorem popCountAux_eq : ∀ (n x : Nat),
    popCountAux n x = ((List.range n).filter (fun i => x.testBit i)).length := by
  intro n
  induction n with
  | zero => intro x; rfl
  | succ n ih =>
    intro x
    rw [popCountAux, ih, List.range_succ_eq_map, List.filter_cons, List.filter_map]
    have h0 : x % 2 = if x.testBit 0 = true then 1 else 0 := by
      rw [Nat.testBit_zero]
      rcases Nat.mod_two_eq_zero_or_one x with h | h <;> simp [h]
    have h1 : (fun i => x.testBit i) ∘ Nat.succ = fun i => (x / 2).testBit i := by
      funext i
      simp only [Function.comp, Nat.succ_eq_add_one, Nat.testBit_succ]
    rw [h1, h0]
    split_ifs <;> simp only [List.length_cons, List.length_map] <;> omega

theorem popCount_eq_length (x : Nat) : popCount x = (bitIdx x).length :=
  popCountAux_eq 64 x

theorem foldl_length_sim {α : Type} (l : List Nat) (P : Nat → Prop)
    (gb : Nat → List α → List α) (cb : Nat → Nat → Nat)
    (h : ∀ i, P i → ∀ ms n, ms.length = n → (gb (2 ^ i) ms).length = cb (2 ^ i) n) :
    (∀ i, i ∈ l → P i) → ∀ ms n, ms.length = n →
    (l.foldl (fun s i => gb (2 ^ i) s) ms).length = l.foldl (fun s i => cb (2 ^ i) s) n := by
  induction l with
  | nil => intro _ ms n h; exact h
  | cons a t ih =>
    intro hP ms n hmn
    simp only [List.foldl_cons]
    exact ih (fun i hi => hP i (List.mem_cons_of_mem _ hi)) _ _
      (h a (hP a (List.mem_cons_self _ _)) ms n hmn)

/-- A loop over the bits of `x` that appends moves and the loop over the same bits that
counts them stay in step when their bodies do. -/
theorem forBits_length_sim {α : Type} (x : Nat) (hx : x < 2 ^ 64)
    (gb : Nat → List α → List α) (cb : Nat → Nat → Nat)
    (h : ∀ i, i < 64 → x.testBit i = true → ∀ ms n, ms.length = n →
      (gb (2 ^ i) ms).length = cb (2 ^ i) n)
    (ms : List α) (n : Nat) (hmn : ms.length = n) :
    (forBits x gb ms).length = forBits x cb n := by
  rw [forBits_eq_foldl gb x ms hx, forBits_eq_foldl cb x n hx]
  exact foldl_length_sim (bitIdx x) (fun i => i < 64 ∧ x.testBit i = true) gb cb
    (fun i hi => h i hi.1 hi.2) (fun i hi => mem_bitIdx.mp hi) ms n hmn

theorem foldl_append_one_length {α : Type} (l : List Nat) (f : Nat → List α → α) :
    ∀ ms : List α, (l.foldl (fun s i => s ++ [f i s]) ms).length = ms.length + l.length := by
  induction l with
  | nil => intro ms; rfl
  | cons a t ih =>
    intro ms
    simp only [List.foldl_cons, List.length_cons]
    rw [ih]; simp; omega

/-- A loop that adds one move per bit adds `popCount` moves. -/
theorem length_forBits_acm (x : Nat) (hx : x < 2 ^ 64) (s : Nat) (f : Nat → Nat)
    (ms : List CMove) :
    (forBits x (fun dst ms => addCompactMove ms s (bitScan dst) (f dst)) ms).length =
      ms.length + popCount x := by
  rw [forBits_eq_foldl _ x ms hx, popCount_eq_length]
  exact foldl_append_one_length (bitIdx x)
    (fun i _ => CMove.mk s (bitScan (2 ^ i)) (f (2 ^ i))) ms

theorem foldl_shift (l : List Nat) (body : Nat → Nat → Nat)
    (h : ∀ b n, body b n = n + body b 0) :
    ∀ n0, l.foldl (fun s i => body (2 ^ i) s) n0 =
      n0 + l.foldl (fun s i => body (2 ^ i) s) 0 := by
  induction l with
  | nil => intro n0; rfl
  | cons a t ih =>
    intro n0
    simp only [List.foldl_cons]
    rw [ih (body (2 ^ a) n0), ih (body (2 ^ a) 0), h (2 ^ a) n0]
    omega

/-- A counting loop started at `n0` is `n0` plus the loop started at 0. -/
theorem forBits_shift (x : Nat) (hx : x < 2 ^ 64) (body : Nat → Nat → Nat)
    (h : ∀ b n, body b n = n + body b 0) (n0 : Nat) :
    forBits x body n0 = n0 + forBits x body 0 := by
  rw [forBits_eq_foldl body x n0 hx, forBits_eq_foldl body x 0 hx]
  exact foldl_shift (bitIdx x) body h n0

theorem and_bnot_lt (a b : Nat) : a &&& bnot b < 2 ^ 64 :=
  Nat.and_lt_two_pow _ (by unfold bnot; exact xor_lt_two_pow (by decide) (Nat.mod_lt _ (by decide)))

theorem bnot_lt (b : Nat) : bnot b < 2 ^ 64 := by
  unfold bnot; exact xor_lt_two_pow (by decide) (Nat.mod_lt _ (by decide))

theorem length_genKingMoves (sw : Switches)
    (myKing kingIndex threatened myPieces enemyPieces : Nat) (ms : List CMove) :
    (genKingMoves sw myKing kingIndex threatened myPieces enemyPieces ms).length =
      ms.length + popCount (kingAttacks myKing &&& bnot (threatened ||| myPieces)) := by
  unfold genKingMoves
  exact length_forBits_acm _ (and_bnot_lt _ _) _ _ _

/-- A piece loop with an inner destination loop against the counting loop with
`popCount`. -/
theorem length_nested_flag (f : Nat → Nat) (pieces : Nat) (hp : pieces < 2 ^ 64)
    (moves : Nat → Nat) (hm : ∀ b, moves b < 2 ^ 64) (ms : List CMove) (n : Nat)
    (hmn : ms.length = n) :
    (forBits pieces (fun piece ms =>
      forBits (moves piece) (fun dst ms =>
        addCompactMove ms (bitScan piece) (bitScan dst) (f dst)) ms) ms).length =
      forBits pieces (fun piece n => n + popCount (moves piece)) n := by
  apply forBits_length_sim pieces hp
  · intro i hi hb ms n hmn
    rw [length_forBits_acm _ (hm _), hmn]
  · exact hmn

theorem length_nested (sw : Switches) (pieces enemyPieces : Nat) (hp : pieces < 2 ^ 64)
    (moves : Nat → Nat) (hm : ∀ b, moves b < 2 ^ 64) (ms : List CMove) :
    (forBits pieces (fun piece ms =>
      forBits (moves piece) (fun dst ms =>
        addCompactMove ms (bitScan piece) (bitScan dst) (captureFlagOf sw dst enemyPieces))
        ms) ms).length =
      ms.length + forBits pieces (fun piece n => n + popCount (moves piece)) 0 := by
  rw [← forBits_shift pieces hp (fun piece n => n + popCount (moves piece))
    (fun b n => by simp only []; omega) ms.length]
  apply forBits_length_sim pieces hp
  · intro i hi hb ms n hmn
    rw [length_forBits_acm _ (hm _), hmn]
  · rfl

theorem length_genKnightMoves (sw : Switches) (knights myPieces enemyPieces pinned : Nat)
    (ms : List CMove) :
    (genKnightMoves sw knights myPieces enemyPieces pinned ms).length =
      ms.length + forBits ((knights &&& myPieces) &&& bnot pinned)
        (fun knight n => n + popCount (knightAttacks knight &&& bnot myPieces)) 0 := by
  unfold genKnightMoves
  exact length_nested sw _ enemyPieces (and_bnot_lt _ _)
    (fun knight => knightAttacks knight &&& bnot myPieces) (fun b => and_bnot_lt _ _) ms

theorem length_genPinnedBishopMoves (sw : Switches) (myBishops allPieces myPieces enemyPieces
    pinned kingIndex : Nat) (hb : myBishops < 2 ^ 64) (ms : List CMove) :
    (genPinnedBishopMoves sw myBishops allPieces myPieces enemyPieces pinned kingIndex
      ms).length =
      ms.length + forBits (myBishops &&& pinned)
        (fun bishop n => n + popCount ((bishopAttacks bishop (bnot allPieces) &&&
          bnot myPieces) &&& sqsInLine (bitScan bishop) kingIndex)) 0 := by
  unfold genPinnedBishopMoves
  exact length_nested sw _ enemyPieces (lt_of_le_of_lt Nat.and_le_left hb)
    (fun bishop => (bishopAttacks bishop (bnot allPieces) &&& bnot myPieces) &&&
      sqsInLine (bitScan bishop) kingIndex)
    (fun b => lt_of_le_of_lt Nat.and_le_left (and_bnot_lt _ _)) ms

theorem length_genBishopMoves (sw : Switches) (myBishops allPieces myPieces enemyPieces
    pinned : Nat) (ms : List CMove) :
    (genBishopMoves sw myBishops allPieces myPieces enemyPieces pinned ms).length =
      ms.length + forBits (myBishops &&& bnot pinned)
        (fun bishop n => n + popCount (bishopAttacks bishop (bnot allPieces) &&&
          bnot myPieces)) 0 := by
  unfold genBishopMoves
  exact length_nested sw _ enemyPieces (and_bnot_lt _ _)
    (fun bishop => bishopAttacks bishop (bnot allPieces) &&& bnot myPieces)
    (fun b => and_bnot_lt _ _) ms

theorem length_genPinnedRookMoves (sw : Switches) (myRooks allPieces myPieces enemyPieces
    pinned kingIndex : Nat) (hb : myRooks < 2 ^ 64) (ms : List CMove) :
    (genPinnedRookMoves sw myRooks allPieces myPieces enemyPieces pinned kingIndex
      ms).length =
      ms.length + forBits (myRooks &&& pinned)
        (fun rook n => n + popCount ((rookAttacks rook (bnot allPieces) &&&
          bnot myPieces) &&& sqsInLine (bitScan rook) kingIndex)) 0 := by
  unfold genPinnedRookMoves
  exact length_nested sw _ enemyPieces (lt_of_le_of_lt Nat.and_le_left hb)
    (fun rook => (rookAttacks rook (bnot allPieces) &&& bnot myPieces) &&&
      sqsInLine (bitScan rook) kingIndex)
    (fun b => lt_of_le_of_lt Nat.and_le_left (and_bnot_lt _ _)) ms

theorem length_genRookMoves (sw : Switches) (myRooks allPieces myPieces enemyPieces
    pinned : Nat) (ms : List CMove) :
    (genRookMoves sw myRooks allPieces myPieces enemyPieces pinned ms).length =
      ms.length + forBits (myRooks &&& bnot pinned)
        (fun rook n => n + popCount (rookAttacks rook (bnot allPieces) &&&
          bnot myPieces)) 0 := by
  unfold genRookMoves
  exact length_nested sw _ enemyPieces (and_bnot_lt _ _)
    (fun rook => rookAttacks rook (bnot allPieces) &&& bnot myPieces)
    (fun b => and_bnot_lt _ _) ms

/-- The function `countMoves` as the composition of its blocks. -/
theorem countMoves_blocks (pos : HexaBitBoardPosition) (chance : Bool) :
    countMoves pos chance =
      if gmThreatened pos chance &&& (pos.kings &&& gmMyPieces pos chance) ≠ 0 then
        countMovesOutOfCheck pos (gmAllPawns pos) (gmAllPieces pos) (gmMyPieces pos chance)
          (gmEnemyPieces pos chance) (gmPinned pos chance) (gmThreatened pos chance)
          (gmKingIndex pos chance) chance
      else
        cntPieces pos (gmAllPieces pos) (gmMyPieces pos chance) (gmPinned pos chance)
          (gmThreatened pos chance) (gmKingIndex pos chance)
          (cntCastle pos (gmAllPieces pos) (gmThreatened pos chance) chance
            (cntPawns (gmAllPawns pos &&& gmMyPieces pos chance) (gmAllPieces pos)
              (gmEnemyPieces pos chance) (gmPinned pos chance) chance
              (cntPinnedPawns (gmAllPawns pos &&& gmMyPieces pos chance) (gmAllPieces pos)
                (gmEnemyPieces pos chance) (gmPinned pos chance) (gmKingIndex pos chance)
                chance
                (cntEnPassent (enPassentTargetOf pos.enPassent chance)
                  (gmAllPawns pos &&& gmMyPieces pos chance) (gmAllPieces pos)
                  (pos.rookQueens &&& gmEnemyPieces pos chance)
                  (pos.kings &&& gmMyPieces pos chance) (gmPinned pos chance)
                  (gmKingIndex pos chance) chance 0)))) := by
  cases chance <;> rfl


theorem BitMap.lt {F : Nat → Nat} {R : Nat → Nat → Prop} (h : BitMap F R) (S : Nat)
    (hS : S < 2 ^ 64) : F S < 2 ^ 64 := by
  apply lt_of_testBit_false
  intro i hi
  by_contra hc
  have ht : (F S).testBit i = true := by simpa using hc
  obtain ⟨s, -, -, r⟩ := (h.1 S hS i).mp ht
  have := h.2.2.2 s i r
  omega

theorem BitMap.and_mask {F : Nat → Nat} {R : Nat → Nat → Prop} (h : BitMap F R) (X : Nat) :
    BitMap (fun S => F S &&& X) (fun s t => R s t ∧ X.testBit t = true) := by
  refine ⟨?_, ?_, ?_, ?_⟩
  · intro S hS t
    rw [Nat.testBit_and, Bool.and_eq_true, h.1 S hS t]
    constructor
    · rintro ⟨⟨s, a, b, c⟩, d⟩; exact ⟨s, a, b, c, d⟩
    · rintro ⟨s, a, b, c, d⟩; exact ⟨⟨s, a, b, c⟩, d⟩
  · intro s t u a b; exact h.2.1 s t u a.1 b.1
  · intro s r t a b; exact h.2.2.1 s r t a.1 b.1
  · intro s t a; exact h.2.2.2 s t a.1

theorem BitMap.comp {F G : Nat → Nat} {R Q : Nat → Nat → Prop} (hF : BitMap F R)
    (hG : BitMap G Q) :
    BitMap (fun S => G (F S)) (fun s t => ∃ j, R s j ∧ Q j t) := by
  refine ⟨?_, ?_, ?_, ?_⟩
  · intro S hS t
    rw [hG.1 (F S) (hF.lt S hS) t]
    constructor
    · rintro ⟨j, hj, hb, q⟩
      obtain ⟨s, a, b, c⟩ := (hF.1 S hS j).mp hb
      exact ⟨s, a, b, j, c, q⟩
    · rintro ⟨s, a, b, j, c, q⟩
      exact ⟨j, hF.2.2.2 s j c, (hF.1 S hS j).mpr ⟨s, a, b, c⟩, q⟩
  · rintro s t u ⟨j, a, b⟩ ⟨k, c, d⟩
    have := hF.2.1 s j k a c
    subst this
    exact hG.2.1 j t u b d
  · rintro s r t ⟨j, a, b⟩ ⟨k, c, d⟩
    have := hG.2.2.1 j k t b d
    subst this
    exact hF.2.2.1 s r j a c
  · rintro s t ⟨j, a, b⟩; exact hG.2.2.2 j t b

theorem testBit_two_pow_iff (i s : Nat) : (2 ^ i).testBit s = true ↔ s = i := by
  rw [Nat.testBit_two_pow]; simp [eq_comm]

theorem BitMap.single {F : Nat → Nat} {R : Nat → Nat → Prop} (h : BitMap F R) (i : Nat)
    (hi : i < 64) : F (2 ^ i) ≠ 0 ↔ ∃ t, R i t := by
  have hlt : 2 ^ i < 2 ^ 64 := Nat.pow_lt_pow_right (by decide) hi
  constructor
  · intro hne
    obtain ⟨t, ht⟩ := Nat.ne_zero_implies_bit_true hne
    obtain ⟨s, -, hs, r⟩ := (h.1 _ hlt t).mp ht
    rw [testBit_two_pow_iff] at hs
    subst hs
    exact ⟨t, r⟩
  · rintro ⟨t, r⟩
    apply testBit_ne_zero (i := t)
    exact (h.1 _ hlt t).mpr ⟨i, hi, (testBit_two_pow_iff i i).mpr rfl, r⟩

open Classical in
/-- The image of a bitboard under a `BitMap` has as many squares as there are squares of
the bitboard that the map does not drop. -/
theorem BitMap.popCount {F : Nat → Nat} {R : Nat → Nat → Prop} (h : BitMap F R) (S : Nat)
    (hS : S < 2 ^ 64) :
    popCount (F S) = ((bitIdx S).map (fun i => if F (2 ^ i) ≠ 0 then 1 else 0)).sum := by
  rw [popCount_eq_length]
  have e1 : (bitIdx (F S)).length =
      ((Finset.range 64).filter (fun t => (F S).testBit t = true)).card := by
    unfold bitIdx
    rw [← List.toFinset_card_of_nodup ((List.nodup_range 64).filter _)]
    congr 1
    ext t
    simp
  have e2 : ((bitIdx S).map (fun i => if F (2 ^ i) ≠ 0 then 1 else 0)).sum =
      ((Finset.range 64).filter (fun s => S.testBit s = true ∧ ∃ t, R s t)).card := by
    have : ∀ l : List Nat, (∀ i, i ∈ l → i < 64) → l.Nodup →
        (l.map (fun i => if F (2 ^ i) ≠ 0 then 1 else 0)).sum =
          (l.toFinset.filter (fun s => ∃ t, R s t)).card := by
      intro l
      induction l with
      | nil => intro _ _; simp
      | cons a t ih =>
        intro hl hn
        rw [List.map_cons, List.sum_cons, ih (fun i hi => hl i (List.mem_cons_of_mem _ hi))
          (List.nodup_cons.mp hn).2, List.toFinset_cons, Finset.filter_insert]
        have ha := h.single a (hl a (List.mem_cons_self _ _))
        by_cases hc : ∃ u, R a u
        · rw [if_pos (ha.mpr hc), if_pos hc, Finset.card_insert_of_not_mem]
          · omega
          · simp only [Finset.mem_filter, List.mem_toFinset, not_and]
            intro hmem
            exact absurd hmem (List.nodup_cons.mp hn).1
        · rw [if_neg (fun hne => hc (ha.mp hne)), if_neg hc]; omega
    rw [this (bitIdx S) (fun i hi => (mem_bitIdx.mp hi).1) (bitIdx_nodup S)]
    congr 1
    ext s
    simp only [Finset.mem_filter, List.mem_toFinset, mem_bitIdx, Finset.mem_range]
    tauto
  rw [e1, e2]
  symm
  apply Finset.card_bij (fun s hs => Classical.choose (Finset.mem_filter.mp hs).2.2)
  · intro s hs
    have hs2 := Finset.mem_filter.mp hs
    have r := Classical.choose_spec hs2.2.2
    simp only [Finset.mem_filter, Finset.mem_range]
    exact ⟨h.2.2.2 _ _ r, (h.1 S hS _).mpr ⟨s, Finset.mem_range.mp hs2.1, hs2.2.1, r⟩⟩
  · intro s hs r hr e
    have r1 := Classical.choose_spec (Finset.mem_filter.mp hs).2.2
    have r2 := Classical.choose_spec (Finset.mem_filter.mp hr).2.2
    rw [e] at r1
    exact h.2.2.1 _ _ _ r1 r2
  · intro t ht
    have ht2 := Finset.mem_filter.mp ht
    obtain ⟨s, a, b, c⟩ := (h.1 S hS t).mp ht2.2
    have hmem : s ∈ (Finset.range 64).filter (fun s => S.testBit s = true ∧ ∃ t, R s t) :=
      Finset.mem_filter.mpr ⟨Finset.mem_range.mpr a, b, t, c⟩
    refine ⟨s, hmem, ?_⟩
    exact h.2.1 _ _ _ (Classical.choose_spec (Finset.mem_filter.mp hmem).2.2) c

theorem onRay_step_fun (df dr : Int) (s t u : Nat) (h1 : onRay df dr s 1 t)
    (h2 : onRay df dr s 1 u) : t = u := by
  unfold onRay at h1 h2; omega

theorem onRay_step_inj (df dr : Int) (s r t : Nat) (h1 : onRay df dr s 1 t)
    (h2 : onRay df dr r 1 t) : s = r := by
  unfold onRay at h1 h2; omega

theorem BitMap.of_step (σ : Nat → Nat) (df dr : Int)
    (hσ : ∀ x t, x < 2 ^ 64 →
      ((σ x).testBit t = true ↔ ∃ s, s < 64 ∧ x.testBit s = true ∧ onRay df dr s 1 t)) :
    BitMap σ (fun s t => onRay df dr s 1 t) :=
  ⟨fun S hS t => hσ S t hS, fun s t u => onRay_step_fun df dr s t u,
    fun s r t => onRay_step_inj df dr s r t, fun s t h => h.2.1⟩

theorem length_acpm (ms : List CMove) (s d f : Nat) :
    (addCompactPawnMoves ms s d f).length =
      if d &&& (RANK1 ||| RANK8) ≠ 0 then ms.length + 4 else ms.length + 1 := by
  unfold addCompactPawnMoves addCompactMove
  split_ifs <;> simp

theorem promo_facts :
    shl RANK3 (false.toNat * 24) = RANK3 ∧ shl RANK3 (true.toNat * 24) = RANK6 ∧
    (∀ t, t < 64 → RANK3.testBit (t - 8) = true → 8 ≤ t →
      (RANK1 ||| RANK8).testBit t = false) ∧
    (∀ t, t < 64 → RANK6.testBit (t + 8) = true → (RANK1 ||| RANK8).testBit t = false) := by
  decide

theorem no_promo_north (y z : Nat) :
    (northOne (y &&& RANK3) &&& z) &&& (RANK1 ||| RANK8) = 0 := by
  rw [and_eq_zero_iff_testBit]
  rintro t ⟨h1, h2⟩
  rw [Nat.testBit_and, Bool.and_eq_true] at h1
  have h3 := h1.1
  unfold northOne at h3
  rw [testBit_shl] at h3
  simp only [Bool.and_eq_true, decide_eq_true_eq, Nat.testBit_and] at h3
  have := promo_facts.2.2.1 t h3.1 h3.2.2.2 h3.2.1
  rw [this] at h2; exact absurd h2 (by simp)

theorem no_promo_south (y z : Nat) :
    (southOne (y &&& RANK6) &&& z) &&& (RANK1 ||| RANK8) = 0 := by
  rw [and_eq_zero_iff_testBit]
  rintro t ⟨h1, h2⟩
  rw [Nat.testBit_and, Bool.and_eq_true] at h1
  have h3 := h1.1
  unfold southOne at h3
  rw [Nat.testBit_shiftRight, Nat.testBit_and, Bool.and_eq_true] at h3
  by_cases ht : t < 64
  · have := promo_facts.2.2.2 t ht (by rw [Nat.add_comm]; exact h3.2)
    rw [this] at h2; exact absurd h2 (by simp)
  · have : (RANK1 ||| RANK8).testBit t = false :=
      testBit_false_of_lt (by decide) (by omega)
    rw [this] at h2; exact absurd h2 (by simp)

theorem pawn_body_length_aux (d1 d2 w e s : Nat) (h0 : d1 = 0 → d2 = 0)
    (hd2 : d2 &&& (RANK1 ||| RANK8) = 0) (ms : List CMove) :
    (let ms :=
        if d1 ≠ 0 then
          let ms := addCompactPawnMoves ms s d1 0
          if d2 ≠ 0 then addCompactPawnMoves ms s d2 CM_FLAG_DOUBLE_PAWN_PUSH
          else ms
        else ms
      let ms := if w ≠ 0 then addCompactPawnMoves ms s w CM_FLAG_CAPTURE else ms
      if e ≠ 0 then addCompactPawnMoves ms s e CM_FLAG_CAPTURE
      else ms).length =
      ms.length +
        ((if d1 ≠ 0 then 1 else 0) + 3 * (if d1 &&& (RANK1 ||| RANK8) ≠ 0 then 1 else 0) +
         (if d2 ≠ 0 then 1 else 0) +
         (if w ≠ 0 then 1 else 0) + 3 * (if w &&& (RANK1 ||| RANK8) ≠ 0 then 1 else 0) +
         (if e ≠ 0 then 1 else 0) + 3 * (if e &&& (RANK1 ||| RANK8) ≠ 0 then 1 else 0)) := by
  have hp : ∀ x : Nat, x = 0 → x &&& (RANK1 ||| RANK8) = 0 := by
    intro x h; rw [h, Nat.zero_and]
  by_cases c1 : d1 = 0
  · have c2 := h0 c1
    subst c1; subst c2
    by_cases cw : w = 0
    · subst cw
      by_cases ce : e = 0
      · subst ce; simp
      · by_cases ce2 : e &&& (RANK1 ||| RANK8) = 0 <;> simp [ce, ce2, length_acpm]
    · by_cases cw2 : w &&& (RANK1 ||| RANK8) = 0 <;>
        by_cases ce : e = 0 <;>
        by_cases ce2 : e &&& (RANK1 ||| RANK8) = 0 <;>
        first
        | exact absurd (hp _ ce) ce2
        | (simp [cw, cw2, ce, ce2, length_acpm]; try omega)
  · by_cases c3 : d1 &&& (RANK1 ||| RANK8) = 0 <;>
      by_cases c2 : d2 = 0 <;>
      by_cases cw : w = 0 <;>
      by_cases cw2 : w &&& (RANK1 ||| RANK8) = 0 <;>
      by_cases ce : e = 0 <;>
      by_cases ce2 : e &&& (RANK1 ||| RANK8) = 0 <;>
      first
      | exact absurd (hp _ ce) ce2
      | exact absurd (hp _ cw) cw2
      | (simp [c1, c2, c3, cw, cw2, ce, ce2, hd2, length_acpm]; try omega)

/-- The moves of one pawn that is not pinned, counted as `genPawnMoves` adds them. -/
theorem pawn_body_length (σ σw σe : Nat → Nat) (rk allPieces enemyPieces pawn : Nat)
    (hnp : ∀ y z, (σ (y &&& rk) &&& z) &&& (RANK1 ||| RANK8) = 0) (hz : σ 0 = 0)
    (ms : List CMove) :
    (let dst := σ pawn &&& bnot allPieces
      let ms :=
        if dst ≠ 0 then
          let ms := addCompactPawnMoves ms (bitScan pawn) dst 0
          let dst := σ (dst &&& rk) &&& bnot allPieces
          if dst ≠ 0 then addCompactPawnMoves ms (bitScan pawn) dst CM_FLAG_DOUBLE_PAWN_PUSH
          else ms
        else ms
      let dst := σw pawn &&& enemyPieces
      let ms :=
        if dst ≠ 0 then addCompactPawnMoves ms (bitScan pawn) dst CM_FLAG_CAPTURE else ms
      let dst := σe pawn &&& enemyPieces
      if dst ≠ 0 then addCompactPawnMoves ms (bitScan pawn) dst CM_FLAG_CAPTURE
      else ms).length =
      ms.length +
        ((if σ pawn &&& bnot allPieces ≠ 0 then 1 else 0) +
         3 * (if (σ pawn &&& bnot allPieces) &&& (RANK1 ||| RANK8) ≠ 0 then 1 else 0) +
         (if σ ((σ pawn &&& bnot allPieces) &&& rk) &&& bnot allPieces ≠ 0 then 1 else 0) +
         (if σw pawn &&& enemyPieces ≠ 0 then 1 else 0) +
         3 * (if (σw pawn &&& enemyPieces) &&& (RANK1 ||| RANK8) ≠ 0 then 1 else 0) +
         (if σe pawn &&& enemyPieces ≠ 0 then 1 else 0) +
         3 * (if (σe pawn &&& enemyPieces) &&& (RANK1 ||| RANK8) ≠ 0 then 1 else 0)) :=
  pawn_body_length_aux (σ pawn &&& bnot allPieces)
    (σ ((σ pawn &&& bnot allPieces) &&& rk) &&& bnot allPieces) (σw pawn &&& enemyPieces)
    (σe pawn &&& enemyPieces) (bitScan pawn)
    (fun h => by rw [h, Nat.zero_and, hz, Nat.zero_and])
    (hnp (σ pawn &&& bnot allPieces) (bnot allPieces)) ms

theorem foldl_sum (l : List Nat) (g : Nat → Nat) :
    ∀ n0, l.foldl (fun s i => s + g (2 ^ i)) n0 = n0 + (l.map (fun i => g (2 ^ i))).sum := by
  induction l with
  | nil => intro n0; rfl
  | cons a t ih =>
    intro n0
    simp only [List.foldl_cons, List.map_cons, List.sum_cons]
    rw [ih]; omega

theorem forBits_sum (x : Nat) (hx : x < 2 ^ 64) (g : Nat → Nat) (n0 : Nat) :
    forBits x (fun b n => n + g b) n0 = n0 + ((bitIdx x).map (fun i => g (2 ^ i))).sum := by
  rw [forBits_eq_foldl _ x n0 hx]
  exact foldl_sum (bitIdx x) g n0

theorem sum_seven (l : List Nat) (a1 p1 a2 aw pw ae pe : Nat → Nat) :
    (l.map (fun i => a1 i + 3 * p1 i + a2 i + aw i + 3 * pw i + ae i + 3 * pe i)).sum =
      (l.map a1).sum + 3 * (l.map p1).sum + (l.map a2).sum + (l.map aw).sum +
        3 * (l.map pw).sum + (l.map ae).sum + 3 * (l.map pe).sum := by
  induction l with
  | nil => rfl
  | cons a t ih =>
    simp only [List.map_cons, List.sum_cons]
    rw [ih]; omega

/-- The per-pawn loop of `genPawnMoves` adds as many moves as the set-wise `popCount`s of
`countMoves` count. -/
theorem length_pawns_aux (σ σw σe : Nat → Nat) (R Rw Re : Nat → Nat → Prop)
    (hσ : BitMap σ R) (hw : BitMap σw Rw) (he : BitMap σe Re)
    (rk allPieces enemyPieces S : Nat) (hS : S < 2 ^ 64)
    (hnp : ∀ y z, (σ (y &&& rk) &&& z) &&& (RANK1 ||| RANK8) = 0) (hz : σ 0 = 0)
    (ms : List CMove) :
    (forBits S (fun pawn ms =>
      let dst := σ pawn &&& bnot allPieces
      let ms :=
        if dst ≠ 0 then
          let ms := addCompactPawnMoves ms (bitScan pawn) dst 0
          let dst := σ (dst &&& rk) &&& bnot allPieces
          if dst ≠ 0 then addCompactPawnMoves ms (bitScan pawn) dst CM_FLAG_DOUBLE_PAWN_PUSH
          else ms
        else ms
      let dst := σw pawn &&& enemyPieces
      let ms :=
        if dst ≠ 0 then addCompactPawnMoves ms (bitScan pawn) dst CM_FLAG_CAPTURE else ms
      let dst := σe pawn &&& enemyPieces
      if dst ≠ 0 then addCompactPawnMoves ms (bitScan pawn) dst CM_FLAG_CAPTURE
      else ms) ms).length =
      ms.length + popCount (σ S &&& bnot allPieces) +
        3 * popCount ((σ S &&& bnot allPieces) &&& (RANK1 ||| RANK8)) +
        popCount (σ ((σ S &&& bnot allPieces) &&& rk) &&& bnot allPieces) +
        popCount (σw S &&& enemyPieces) +
        3 * popCount ((σw S &&& enemyPieces) &&& (RANK1 ||| RANK8)) +
        popCount (σe S &&& enemyPieces) +
        3 * popCount ((σe S &&& enemyPieces) &&& (RANK1 ||| RANK8)) := by
  have e1 : popCount (σ S &&& bnot allPieces) = _ := (hσ.and_mask (bnot allPieces)).popCount S hS
  have e2 : popCount ((σ S &&& bnot allPieces) &&& (RANK1 ||| RANK8)) = _ :=
    ((hσ.and_mask (bnot allPieces)).and_mask (RANK1 ||| RANK8)).popCount S hS
  have e3 : popCount (σ ((σ S &&& bnot allPieces) &&& rk) &&& bnot allPieces) = _ :=
    ((((hσ.and_mask (bnot allPieces)).and_mask rk).comp hσ).and_mask
      (bnot allPieces)).popCount S hS
  have e4 : popCount (σw S &&& enemyPieces) = _ := (hw.and_mask enemyPieces).popCount S hS
  have e5 : popCount ((σw S &&& enemyPieces) &&& (RANK1 ||| RANK8)) = _ :=
    ((hw.and_mask enemyPieces).and_mask (RANK1 ||| RANK8)).popCount S hS
  have e6 : popCount (σe S &&& enemyPieces) = _ := (he.and_mask enemyPieces).popCount S hS
  have e7 : popCount ((σe S &&& enemyPieces) &&& (RANK1 ||| RANK8)) = _ :=
    ((he.and_mask enemyPieces).and_mask (RANK1 ||| RANK8)).popCount S hS
  rw [e1, e2, e3, e4, e5, e6, e7]
  have key := forBits_length_sim S hS
    (fun pawn ms =>
      let dst := σ pawn &&& bnot allPieces
      let ms :=
        if dst ≠ 0 then
          let ms := addCompactPawnMoves ms (bitScan pawn) dst 0
          let dst := σ (dst &&& rk) &&& bnot allPieces
          if dst ≠ 0 then addCompactPawnMoves ms (bitScan pawn) dst CM_FLAG_DOUBLE_PAWN_PUSH
          else ms
        else ms
      let dst := σw pawn &&& enemyPieces
      let ms :=
        if dst ≠ 0 then addCompactPawnMoves ms (bitScan pawn) dst CM_FLAG_CAPTURE else ms
      let dst := σe pawn &&& enemyPieces
      if dst ≠ 0 then addCompactPawnMoves ms (bitScan pawn) dst CM_FLAG_CAPTURE
      else ms)
    (fun pawn n => n +
        ((if σ pawn &&& bnot allPieces ≠ 0 then 1 else 0) +
         3 * (if (σ pawn &&& bnot allPieces) &&& (RANK1 ||| RANK8) ≠ 0 then 1 else 0) +
         (if σ ((σ pawn &&& bnot allPieces) &&& rk) &&& bnot allPieces ≠ 0 then 1 else 0) +
         (if σw pawn &&& enemyPieces ≠ 0 then 1 else 0) +
         3 * (if (σw pawn &&& enemyPieces) &&& (RANK1 ||| RANK8) ≠ 0 then 1 else 0) +
         (if σe pawn &&& enemyPieces ≠ 0 then 1 else 0) +
         3 * (if (σe pawn &&& enemyPieces) &&& (RANK1 ||| RANK8) ≠ 0 then 1 else 0)))
    (fun i hi hb ms n hmn => by
      rw [← hmn]
      exact pawn_body_length σ σw σe rk allPieces enemyPieces (2 ^ i) hnp hz ms)
    ms ms.length rfl
  rw [key, forBits_sum S hS, sum_seven]
  omega

theorem shift_zero : northOne 0 = 0 ∧ southOne 0 = 0 := by decide

theorem length_genPawnMoves (myPawns allPieces enemyPieces pinned : Nat) (chance : Bool)
    (ms : List CMove) :
    (genPawnMoves myPawns allPieces enemyPieces pinned chance ms).length =
      cntPawns myPawns allPieces enemyPieces pinned chance ms.length := by
  cases chance
  · have h := length_pawns_aux northOne northWestOne northEastOne _ _ _
      (BitMap.of_step _ _ _ northOne_spec) (BitMap.of_step _ _ _ northWestOne_spec)
      (BitMap.of_step _ _ _ northEastOne_spec) (shl RANK3 (false.toNat * 24)) allPieces
      enemyPieces (myPawns &&& bnot pinned) (and_bnot_lt _ _)
      (by rw [promo_facts.1]; exact no_promo_north) shift_zero.1 ms
    unfold genPawnMoves cntPawns
    simp only [WHITE, if_true] at h ⊢
    rw [h]
  · have h := length_pawns_aux southOne southWestOne southEastOne _ _ _
      (BitMap.of_step _ _ _ southOne_spec) (BitMap.of_step _ _ _ southWestOne_spec)
      (BitMap.of_step _ _ _ southEastOne_spec) (shl RANK3 (true.toNat * 24)) allPieces
      enemyPieces (myPawns &&& bnot pinned) (and_bnot_lt _ _)
      (by rw [promo_facts.2.1]; exact no_promo_south) shift_zero.2 ms
    unfold genPawnMoves cntPawns
    simp only [WHITE, Bool.true_eq_false, if_false] at h ⊢
    rw [h]

theorem cntPawns_shift (myPawns allPieces enemyPieces pinned : Nat) (chance : Bool)
    (n : Nat) :
    cntPawns myPawns allPieces enemyPieces pinned chance n =
      n + cntPawns myPawns allPieces enemyPieces pinned chance 0 := by
  unfold cntPawns
  simp only []
  omega

theorem length_genCastleMoves (pos : HexaBitBoardPosition) (allPieces threatened : Nat)
    (chance : Bool) (ms : List CMove) :
    (genCastleMoves pos allPieces threatened chance ms).length =
      cntCastle pos allPieces threatened chance ms.length := by
  unfold genCastleMoves cntCastle addCompactMove
  split_ifs <;> simp

theorem cntCastle_shift (pos : HexaBitBoardPosition) (allPieces threatened : Nat)
    (chance : Bool) (n : Nat) :
    cntCastle pos allPieces threatened chance n =
      n + cntCastle pos allPieces threatened chance 0 := by
  unfold cntCastle
  split_ifs <;> simp only [] <;> omega

theorem length_genEnPassentMoves (enPassentTarget myPawns allPieces enemyRooks myKing pinned
    kingIndex : Nat) (chance : Bool) (ms : List CMove) :
    (genEnPassentMoves enPassentTarget myPawns allPieces enemyRooks myKing pinned kingIndex
      chance ms).length =
      cntEnPassent enPassentTarget myPawns allPieces enemyRooks myKing pinned kingIndex
        chance ms.length := by
  unfold genEnPassentMoves cntEnPassent epCapturersOf enPassentCapturedPieceOf
  by_cases h0 : enPassentTarget = 0
  · simp [h0]
  · simp only [ne_eq, h0, not_false_eq_true, if_true]
    apply forBits_length_sim _
      (lt_of_le_of_lt Nat.and_le_left (Nat.or_lt_two_pow (eastOne_lt _) (westOne_lt _)))
    · intro i hi hb ms n hmn
      simp only [addCompactMove]
      split_ifs <;> simp [hmn]
    · rfl

theorem cntEnPassent_shift (enPassentTarget myPawns allPieces enemyRooks myKing pinned
    kingIndex : Nat) (chance : Bool) (n : Nat) :
    cntEnPassent enPassentTarget myPawns allPieces enemyRooks myKing pinned kingIndex
        chance n =
      n + cntEnPassent enPassentTarget myPawns allPieces enemyRooks myKing pinned kingIndex
        chance 0 := by
  unfold cntEnPassent
  by_cases h0 : enPassentTarget = 0
  · simp [h0]
  · simp only [ne_eq, h0, not_false_eq_true, if_true]
    apply forBits_shift _
      (lt_of_le_of_lt Nat.and_le_left (Nat.or_lt_two_pow (eastOne_lt _) (westOne_lt _)))
    intro b n
    split_ifs <;> omega

theorem pinned_pawn_body_aux (d1 d2 c e s a b : Nat) (ms : List CMove) :
    (let ms :=
        if d1 ≠ 0 then
          let ms := addCompactMove ms s a 0
          if d2 ≠ 0 then addCompactMove ms s b CM_FLAG_DOUBLE_PAWN_PUSH
          else ms
        else ms
      if c &&& e ≠ 0 then addCompactPawnMoves ms s c CM_FLAG_CAPTURE
      else ms).length =
      (let n := ms.length
       let n :=
        if d1 ≠ 0 then
          let n := n + 1
          if d2 ≠ 0 then n + 1 else n
        else n
       if c &&& e ≠ 0 then
         if c &&& (RANK1 ||| RANK8) ≠ 0 then n + 4 else n + 1
       else n) := by
  by_cases h1 : d1 = 0 <;> by_cases h2 : d2 = 0 <;> by_cases h3 : c &&& e = 0 <;>
    by_cases h4 : c &&& (RANK1 ||| RANK8) = 0 <;>
    simp [h1, h2, h3, h4, addCompactMove, length_acpm]

theorem length_genPinnedPawnMoves (myPawns allPieces enemyPieces pinned kingIndex : Nat)
    (chance : Bool) (hp : myPawns < 2 ^ 64) (ms : List CMove) :
    (genPinnedPawnMoves myPawns allPieces enemyPieces pinned kingIndex chance ms).length =
      cntPinnedPawns myPawns allPieces enemyPieces pinned kingIndex chance ms.length := by
  unfold genPinnedPawnMoves cntPinnedPawns
  apply forBits_length_sim _ (lt_of_le_of_lt Nat.and_le_left hp)
  · intro i hi hb ms n hmn
    subst hmn
    exact pinned_pawn_body_aux _ _ _ _ _ _ _ ms
  · rfl

theorem cntPinnedPawns_shift (myPawns allPieces enemyPieces pinned kingIndex : Nat)
    (chance : Bool) (hp : myPawns < 2 ^ 64) (n : Nat) :
    cntPinnedPawns myPawns allPieces enemyPieces pinned kingIndex chance n =
      n + cntPinnedPawns myPawns allPieces enemyPieces pinned kingIndex chance 0 := by
  unfold cntPinnedPawns
  apply forBits_shift _ (lt_of_le_of_lt Nat.and_le_left hp)
  intro b n
  simp only []
  split_ifs <;> omega

theorem cntPieces_eq (pos : HexaBitBoardPosition) (allPieces myPieces pinned threatened
    kingIndex : Nat) (hmy : myPieces < 2 ^ 64) (n : Nat) :
    cntPieces pos allPieces myPieces pinned threatened kingIndex n =
      n + popCount (kingAttacks (pos.kings &&& myPieces) &&& bnot (threatened ||| myPieces)) +
        forBits ((pos.knights &&& myPieces) &&& bnot pinned)
          (fun knight n => n + popCount (knightAttacks knight &&& bnot myPieces)) 0 +
        forBits ((pos.bishopQueens &&& myPieces) &&& pinned)
          (fun bishop n => n + popCount ((bishopAttacks bishop (bnot allPieces) &&&
            bnot myPieces) &&& sqsInLine (bitScan bishop) kingIndex)) 0 +
        forBits ((pos.bishopQueens &&& myPieces) &&& bnot pinned)
          (fun bishop n => n + popCount (bishopAttacks bishop (bnot allPieces) &&&
            bnot myPieces)) 0 +
        forBits ((pos.rookQueens &&& myPieces) &&& pinned)
          (fun rook n => n + popCount ((rookAttacks rook (bnot allPieces) &&&
            bnot myPieces) &&& sqsInLine (bitScan rook) kingIndex)) 0 +
        forBits ((pos.rookQueens &&& myPieces) &&& bnot pinned)
          (fun rook n => n + popCount (rookAttacks rook (bnot allPieces) &&&
            bnot myPieces)) 0 := by
  have hb : ∀ x y, (x &&& myPieces) &&& y < 2 ^ 64 := fun x y =>
    lt_of_le_of_lt Nat.and_le_left (Nat.and_lt_two_pow _ hmy)
  unfold cntPieces
  simp only []
  rw [forBits_shift _ (hb _ _) _ (fun b n => by omega),
    forBits_shift ((pos.rookQueens &&& myPieces) &&& pinned) (hb _ _) _
      (fun b n => by omega),
    forBits_shift ((pos.bishopQueens &&& myPieces) &&& bnot pinned) (hb _ _) _
      (fun b n => by omega),
    forBits_shift ((pos.bishopQueens &&& myPieces) &&& pinned) (hb _ _) _
      (fun b n => by omega),
    forBits_shift ((pos.knights &&& myPieces) &&& bnot pinned) (hb _ _) _
      (fun b n => by omega)]
  try omega

theorem check_pawn_body_aux (d1 ds d2 c e s a b : Nat) (ms : List CMove) :
    (let ms :=
        if d1 ≠ 0 then
          if ds ≠ 0 then addCompactPawnMoves ms s d1 0
          else
            if d2 ≠ 0 then addCompactMove ms s a CM_FLAG_DOUBLE_PAWN_PUSH
            else ms
        else ms
      let ms := if c ≠ 0 then addCompactPawnMoves ms s c CM_FLAG_CAPTURE else ms
      if e ≠ 0 then addCompactMove ms s b CM_FLAG_EP_CAPTURE
      else ms).length =
      (let n := ms.length
       let n :=
        if d1 ≠ 0 then
          if ds ≠ 0 then
            if d1 &&& (RANK1 ||| RANK8) ≠ 0 then n + 4 else n + 1
          else
            if d2 ≠ 0 then n + 1 else n
        else n
       let n :=
        if c ≠ 0 then
          if c &&& (RANK1 ||| RANK8) ≠ 0 then n + 4 else n + 1
        else n
       if e ≠ 0 then n + 1 else n) := by
  simp only [apply_ite List.length, length_acpm, addCompactMove, List.length_append,
    List.length_singleton, List.length_cons, List.length_nil]

theorem length_generateMovesOutOfCheck (pos : HexaBitBoardPosition)
    (allPawns allPieces myPieces enemyPieces pinned threatened kingIndex : Nat)
    (chance : Bool) (he : enemyPieces < 2 ^ 64) :
    (generateMovesOutOfCheck pos [] allPawns allPieces myPieces enemyPieces pinned threatened
      kingIndex chance).length =
      countMovesOutOfCheck pos allPawns allPieces myPieces enemyPieces pinned threatened
        kingIndex chance := by
  have hE : ∀ x y : Nat, x &&& (y &&& enemyPieces) < 2 ^ 64 := fun x y =>
    Nat.and_lt_two_pow _ (Nat.and_lt_two_pow _ he)
  have hsafe : ∀ x a b : Nat, a < 2 ^ 64 → x &&& (a ||| sqsInBetween kingIndex b) < 2 ^ 64 :=
    fun x a b ha => Nat.and_lt_two_pow _ (Nat.or_lt_two_pow ha (squaresInBetween_lt _ _))
  have hatt : (0 : Nat) |||
      ((if chance = WHITE then
          northEastOne (pos.kings &&& myPieces) ||| northWestOne (pos.kings &&& myPieces)
        else southEastOne (pos.kings &&& myPieces) ||| southWestOne (pos.kings &&& myPieces))
        &&& (allPawns &&& enemyPieces)) |||
      (knightAttacks (pos.kings &&& myPieces) &&& (pos.knights &&& enemyPieces)) |||
      (bishopAttacks (pos.kings &&& myPieces) (bnot allPieces) &&&
        (pos.bishopQueens &&& enemyPieces)) |||
      (rookAttacks (pos.kings &&& myPieces) (bnot allPieces) &&&
        (pos.rookQueens &&& enemyPieces)) < 2 ^ 64 := by
    rw [Nat.zero_or]
    exact Nat.or_lt_two_pow (Nat.or_lt_two_pow (Nat.or_lt_two_pow (hE _ _) (hE _ _)) (hE _ _))
      (hE _ _)
  have hking : (forBits (kingAttacks (pos.kings &&& myPieces) &&& bnot (threatened ||| myPieces))
      (fun dst ms => addCompactMove ms kingIndex (bitScan dst) 0) []).length =
      0 + popCount (kingAttacks (pos.kings &&& myPieces) &&& bnot (threatened ||| myPieces)) := by
    rw [length_forBits_acm _ (and_bnot_lt _ _) _ (fun _ => 0)]; rfl
  unfold generateMovesOutOfCheck countMovesOutOfCheck
  dsimp only []
  by_cases hs : isSingular ((0 : Nat) |||
      ((if chance = WHITE then
          northEastOne (pos.kings &&& myPieces) ||| northWestOne (pos.kings &&& myPieces)
        else southEastOne (pos.kings &&& myPieces) ||| southWestOne (pos.kings &&& myPieces))
        &&& (allPawns &&& enemyPieces)) |||
      (knightAttacks (pos.kings &&& myPieces) &&& (pos.knights &&& enemyPieces)) |||
      (bishopAttacks (pos.kings &&& myPieces) (bnot allPieces) &&&
        (pos.bishopQueens &&& enemyPieces)) |||
      (rookAttacks (pos.kings &&& myPieces) (bnot allPieces) &&&
        (pos.rookQueens &&& enemyPieces))) = true
  · rw [if_pos hs, if_pos hs]
    apply length_nested_flag (fun _ => 0) _ (Nat.and_lt_two_pow _ (and_bnot_lt _ _))
      (fun rook => rookAttacks rook (bnot allPieces) &&& _) (fun b => hsafe _ _ _ hatt)
    apply length_nested_flag (fun _ => 0) _ (Nat.and_lt_two_pow _ (and_bnot_lt _ _))
      (fun bishop => bishopAttacks bishop (bnot allPieces) &&& _) (fun b => hsafe _ _ _ hatt)
    apply length_nested_flag (fun _ => 0) _ (Nat.and_lt_two_pow _ (and_bnot_lt _ _))
      (fun knight => knightAttacks knight &&& _) (fun b => hsafe _ _ _ hatt)
    apply forBits_length_sim _ (Nat.and_lt_two_pow _ (and_bnot_lt _ _))
    · intro i hi hb ms n hmn
      subst hmn
      exact check_pawn_body_aux _ _ _ _ _ _ _ _ ms
    · exact hking
  · rw [if_neg hs, if_neg hs]
    exact hking

theorem gm_bounds (pos : HexaBitBoardPosition) (chance : Bool)
    (hw : pos.whitePieces < 2 ^ 64) :
    gmMyPieces pos chance < 2 ^ 64 ∧ gmEnemyPieces pos chance < 2 ^ 64 ∧
      gmAllPawns pos < 2 ^ 64 := by
  refine ⟨?_, ?_, ?_⟩
  · unfold gmMyPieces; split_ifs
    · exact hw
    · exact and_bnot_lt _ _
  · unfold gmEnemyPieces; split_ifs
    · exact and_bnot_lt _ _
    · exact hw
  · unfold gmAllPawns; exact Nat.and_lt_two_pow _ (by decide)

/-- C2: for every position (the colour mask being a 64-bit word) and side to move,
`countMoves` returns the number of moves that `generateMoves` writes. -/
theorem countMoves_eq_generateMoves_length (sw : Switches) (pos : HexaBitBoardPosition)
    (chance : Bool) (hw : pos.whitePieces < 2 ^ 64) :
    countMoves pos chance = (generateMoves sw pos chance).length := by
  obtain ⟨hmy, hen, hap⟩ := gm_bounds pos chance hw
  have hmp : gmAllPawns pos &&& gmMyPieces pos chance < 2 ^ 64 := Nat.and_lt_two_pow _ hmy
  have hbq : pos.bishopQueens &&& gmMyPieces pos chance < 2 ^ 64 := Nat.and_lt_two_pow _ hmy
  have hrq : pos.rookQueens &&& gmMyPieces pos chance < 2 ^ 64 := Nat.and_lt_two_pow _ hmy
  rw [countMoves_blocks]
  unfold generateMoves
  dsimp only []
  by_cases hc : gmThreatened pos chance &&& (pos.kings &&& gmMyPieces pos chance) ≠ 0
  · rw [if_pos hc, if_pos hc]
    exact (length_generateMovesOutOfCheck pos _ _ _ _ _ _ _ chance hen).symm
  · rw [if_neg hc, if_neg hc, length_genCastleMoves, length_genPawnMoves,
      length_genPinnedPawnMoves _ _ _ _ _ _ hmp, length_genEnPassentMoves,
      length_genRookMoves, length_genPinnedRookMoves _ _ _ _ _ _ _ hrq,
      length_genBishopMoves, length_genPinnedBishopMoves _ _ _ _ _ _ _ hbq,
      length_genKnightMoves, length_genKingMoves, List.length_nil,
      cntPieces_eq _ _ _ _ _ _ hmy]
    rw [cntCastle_shift _ _ _ _ (cntPawns _ _ _ _ _ _),
      cntPawns_shift _ _ _ _ _ (cntPinnedPawns _ _ _ _ _ _ _),
      cntPinnedPawns_shift _ _ _ _ _ _ hmp (cntEnPassent _ _ _ _ _ _ _ _ _)]
    rw [cntCastle_shift _ _ _ _ (cntPawns _ _ _ _ _ _),
      cntPawns_shift _ _ _ _ _ (cntPinnedPawns _ _ _ _ _ _ _),
      cntPinnedPawns_shift _ _ _ _ _ _ hmp (cntEnPassent _ _ _ _ _ _ _ _ _),
      cntEnPassent_shift _ _ _ _ _ _ _ _ (_ + _)]
    omega

theorem countMoves_eq_generateMoves_length_witness :
    startingPosition.whitePieces < 2 ^ 64 ∧
    countMoves startingPosition WHITE =
      (generateMoves (Switches.mk false false) startingPosition WHITE).length :=
  ⟨by decide,
   countMoves_eq_generateMoves_length (Switches.mk false false) startingPosition WHITE
     (by decide)⟩

/-! ## Membership in the move loops, bit by bit -/

theorem foldl_mem_bits {α : Type} (Q : α → Prop) (body : Nat → List α → List α)
    (l : List Nat)
    (hbody : ∀ i, i ∈ l → ∀ ms m, m ∈ body (2 ^ i) ms → m ∈ ms ∨ Q m) :
    ∀ ms m, m ∈ l.foldl (fun s i => body (2 ^ i) s) ms → m ∈ ms ∨ Q m := by
  induction l with
  | nil => intro ms m h; exact Or.inl h
  | cons a t ih =>
    intro ms m h
    rw [List.foldl_cons] at h
    rcases ih (fun i hi => hbody i (List.mem_cons_of_mem _ hi)) _ _ h with h1 | h1
    · exact hbody a (List.mem_cons_self _ _) ms m h1
    · exact Or.inr h1

theorem forBits_mem_bits {α : Type} (Q : α → Prop) (body : Nat → List α → List α)
    (x : Nat) (hx : x < 2 ^ 64)
    (hbody : ∀ i, i < 64 → x.testBit i = true → ∀ ms m, m ∈ body (2 ^ i) ms → m ∈ ms ∨ Q m)
    (ms : List α) (m : α) (h : m ∈ forBits x body ms) : m ∈ ms ∨ Q m := by
  rw [forBits_eq_foldl body x ms hx] at h
  exact foldl_mem_bits Q body (bitIdx x)
    (fun i hi => hbody i (mem_bitIdx.mp hi).1 (mem_bitIdx.mp hi).2) ms m h

theorem mem_dst_loop (X s : Nat) (hX : X < 2 ^ 64) (f : Nat → Nat) (ms : List CMove)
    (m : CMove)
    (h : m ∈ forBits X (fun dst ms => addCompactMove ms s (bitScan dst) (f dst)) ms) :
    m ∈ ms ∨ (m.src = s ∧ m.dst < 64 ∧ X.testBit m.dst = true) := by
  refine forBits_mem_bits (fun m => m.src = s ∧ m.dst < 64 ∧ X.testBit m.dst = true) _ X hX ?_
    ms m h
  intro i hi hb ms m hm
  rw [mem_addCompactMove] at hm
  rcases hm with hm | hm
  · exact Or.inl hm
  · subst hm
    right
    simp only [bitScan_two_pow hi]
    exact ⟨trivial, hi, hb⟩

theorem mem_nested_loop (P : Nat) (hP : P < 2 ^ 64) (F : Nat → Nat)
    (hF : ∀ b, F b < 2 ^ 64) (f : Nat → Nat) (ms : List CMove) (m : CMove)
    (h : m ∈ forBits P (fun piece ms =>
      forBits (F piece) (fun dst ms =>
        addCompactMove ms (bitScan piece) (bitScan dst) (f dst)) ms) ms) :
    m ∈ ms ∨ (m.src < 64 ∧ P.testBit m.src = true ∧ m.dst < 64 ∧
      (F (2 ^ m.src)).testBit m.dst = true) := by
  refine forBits_mem_bits (fun m => m.src < 64 ∧ P.testBit m.src = true ∧ m.dst < 64 ∧
      (F (2 ^ m.src)).testBit m.dst = true) _ P hP ?_ ms m h
  intro i hi hb ms m hm
  rcases mem_dst_loop _ _ (hF _) f ms m hm with h1 | ⟨h1, h2, h3⟩
  · exact Or.inl h1
  · rw [bitScan_two_pow hi] at h1
    subst h1
    exact Or.inr ⟨hi, hb, h2, h3⟩

theorem mem_acpm_dst (ms : List CMove) (s d f : Nat) (m : CMove)
    (h : m ∈ addCompactPawnMoves ms s d f) :
    m ∈ ms ∨ (m.src = s ∧ m.dst = bitScan d) := by
  unfold addCompactPawnMoves at h
  simp only [] at h
  split at h
  · simp only [mem_addCompactMove] at h
    rcases h with (((h | h) | h) | h) | h
    · exact Or.inl h
    all_goals (subst h; exact Or.inr ⟨rfl, rfl⟩)
  · simp only [mem_addCompactMove] at h
    rcases h with h | h
    · exact Or.inl h
    · subst h; exact Or.inr ⟨rfl, rfl⟩

theorem testBit_bitScan {x : Nat} (h0 : x ≠ 0) (hx : x < 2 ^ 64) :
    bitScan x < 64 ∧ x.testBit (bitScan x) = true :=
  ⟨(getOne_spec h0 hx).2.1, (getOne_spec h0 hx).2.2.1⟩

/-- The single push of one pawn is one square. -/
theorem push_single (chance : Bool) (i : Nat) (X t u : Nat)
    (ht : ((if chance = WHITE then northOne (2 ^ i) else southOne (2 ^ i)) &&& X).testBit t
      = true)
    (hu : ((if chance = WHITE then northOne (2 ^ i) else southOne (2 ^ i)) &&& X).testBit u
      = true) (hi : i < 64) : t = u := by
  have hlt : 2 ^ i < 2 ^ 64 := Nat.pow_lt_pow_right (by decide) hi
  rw [Nat.testBit_and, Bool.and_eq_true] at ht hu
  by_cases hc : chance = WHITE
  · rw [if_pos hc, northOne_spec _ _ hlt] at ht hu
    obtain ⟨⟨s, -, hs, r⟩, -⟩ := ht
    obtain ⟨⟨s2, -, hs2, r2⟩, -⟩ := hu
    rw [testBit_two_pow_iff] at hs hs2
    subst hs; subst hs2
    exact onRay_step_fun _ _ _ _ _ r r2
  · rw [if_neg hc, southOne_spec _ _ hlt] at ht hu
    obtain ⟨⟨s, -, hs, r⟩, -⟩ := ht
    obtain ⟨⟨s2, -, hs2, r2⟩, -⟩ := hu
    rw [testBit_two_pow_iff] at hs hs2
    subst hs; subst hs2
    exact onRay_step_fun _ _ _ _ _ r r2

/-- A set with at most one square that meets `S` has its square in `S`. -/
theorem testBit_bitScan_of_and {d S : Nat} (hd : d < 2 ^ 64)
    (hone : ∀ t u, d.testBit t = true → d.testBit u = true → t = u) (h : d &&& S ≠ 0) :
    bitScan d < 64 ∧ S.testBit (bitScan d) = true := by
  obtain ⟨t, ht⟩ := Nat.ne_zero_implies_bit_true h
  rw [Nat.testBit_and, Bool.and_eq_true] at ht
  have h0 : d ≠ 0 := testBit_ne_zero ht.1
  obtain ⟨b1, b2⟩ := testBit_bitScan h0 hd
  rw [hone _ _ b2 ht.1]
  exact ⟨lt_of_testBit_true hd ht.1, ht.2⟩

theorem mem_check_pawn_aux (d1 d2 c e s safeSquares ept X : Nat) (hd1 : d1 < 2 ^ 64)
    (hone : ∀ t u, d1.testBit t = true → d1.testBit u = true → t = u)
    (hs : safeSquares < 2 ^ 64) (he : ept < 2 ^ 64) (ms : List CMove) (m : CMove)
    (h : m ∈
      (let ms :=
        if d1 ≠ 0 then
          if d1 &&& safeSquares ≠ 0 then addCompactPawnMoves ms s d1 0
          else
            if d2 &&& safeSquares &&& X ≠ 0 then
              addCompactMove ms s (bitScan (d2 &&& safeSquares &&& X)) CM_FLAG_DOUBLE_PAWN_PUSH
            else ms
        else ms
      let ms :=
        if c &&& safeSquares ≠ 0 then
          addCompactPawnMoves ms s (c &&& safeSquares) CM_FLAG_CAPTURE
        else ms
      if e &&& ept ≠ 0 then addCompactMove ms s (bitScan (e &&& ept)) CM_FLAG_EP_CAPTURE
      else ms)) :
    m ∈ ms ∨ (m.src = s ∧ m.dst < 64 ∧ (safeSquares.testBit m.dst = true ∨
      (m.flags = CM_FLAG_EP_CAPTURE ∧ ept.testBit m.dst = true))) := by
  dsimp only [] at h
  have step1 : ∀ ms1 : List CMove, m ∈ (if d1 ≠ 0 then
        if d1 &&& safeSquares ≠ 0 then addCompactPawnMoves ms1 s d1 0
        else
          if d2 &&& safeSquares &&& X ≠ 0 then
            addCompactMove ms1 s (bitScan (d2 &&& safeSquares &&& X)) CM_FLAG_DOUBLE_PAWN_PUSH
          else ms1
      else ms1) → m ∈ ms1 ∨ (m.src = s ∧ m.dst < 64 ∧ safeSquares.testBit m.dst = true) := by
    intro ms1 h
    split_ifs at h with c1 c2 c3
    · rcases mem_acpm_dst _ _ _ _ _ h with h | ⟨e1, e2⟩
      · exact Or.inl h
      · obtain ⟨b1, b2⟩ := testBit_bitScan_of_and hd1 hone c2
        rw [← e2] at b1 b2
        exact Or.inr ⟨e1, b1, b2⟩
    · rw [mem_addCompactMove] at h
      rcases h with h | h
      · exact Or.inl h
      · subst h
        obtain ⟨b1, b2⟩ := testBit_bitScan c3
          (lt_of_le_of_lt Nat.and_le_left (Nat.and_lt_two_pow _ hs))
        rw [Nat.testBit_and, Nat.testBit_and, Bool.and_eq_true, Bool.and_eq_true] at b2
        exact Or.inr ⟨rfl, b1, b2.1.2⟩
    · exact Or.inl h
    · exact Or.inl h
  have step2 : ∀ ms2 : List CMove, m ∈ (if c &&& safeSquares ≠ 0 then
        addCompactPawnMoves ms2 s (c &&& safeSquares) CM_FLAG_CAPTURE else ms2) →
      m ∈ ms2 ∨ (m.src = s ∧ m.dst < 64 ∧ safeSquares.testBit m.dst = true) := by
    intro ms2 hm
    split_ifs at hm with hc
    · rcases mem_acpm_dst _ _ _ _ _ hm with hm | ⟨e1, e2⟩
      · exact Or.inl hm
      · obtain ⟨b1, b2⟩ := testBit_bitScan hc (Nat.and_lt_two_pow _ hs)
        rw [Nat.testBit_and, Bool.and_eq_true] at b2
        rw [← e2] at b1 b2
        exact Or.inr ⟨e1, b1, b2.2⟩
    · exact Or.inl hm
  have step3 : ∀ ms3 : List CMove, m ∈ (if e &&& ept ≠ 0 then
        addCompactMove ms3 s (bitScan (e &&& ept)) CM_FLAG_EP_CAPTURE else ms3) →
      m ∈ ms3 ∨ (m.src = s ∧ m.dst < 64 ∧ m.flags = CM_FLAG_EP_CAPTURE ∧
        ept.testBit m.dst = true) := by
    intro ms3 hm
    split_ifs at hm with hc
    · rw [mem_addCompactMove] at hm
      rcases hm with hm | hm
      · exact Or.inl hm
      · subst hm
        obtain ⟨b1, b2⟩ := testBit_bitScan hc (Nat.and_lt_two_pow _ he)
        rw [Nat.testBit_and, Bool.and_eq_true] at b2
        exact Or.inr ⟨rfl, b1, rfl, b2.2⟩
    · exact Or.inl hm
  rcases step3 _ h with h | ⟨a1, a2, a3⟩
  · rcases step2 _ h with h | ⟨a1, a2, a3⟩
    · rcases step1 _ h with h | ⟨a1, a2, a3⟩
      · exact Or.inl h
      · exact Or.inr ⟨a1, a2, Or.inl a3⟩
    · exact Or.inr ⟨a1, a2, Or.inl a3⟩
  · exact Or.inr ⟨a1, a2, Or.inr a3⟩

theorem checkAttackers_lt (pos : HexaBitBoardPosition)
    (allPawns allPieces myPieces enemyPieces : Nat) (chance : Bool)
    (he : enemyPieces < 2 ^ 64) :
    checkAttackers pos allPawns allPieces myPieces enemyPieces chance < 2 ^ 64 := by
  have hE : ∀ x y : Nat, x &&& (y &&& enemyPieces) < 2 ^ 64 := fun x y =>
    Nat.and_lt_two_pow _ (Nat.and_lt_two_pow _ he)
  unfold checkAttackers
  dsimp only []
  rw [Nat.zero_or]
  exact Nat.or_lt_two_pow (Nat.or_lt_two_pow (Nat.or_lt_two_pow (hE _ _) (hE _ _)) (hE _ _))
    (hE _ _)

/-- The moves of the out-of-check routine: king moves to squares that are neither threatened
nor the mover's own, and, when the attackers are one square, moves of pieces that are not
pinned onto the safe squares or en-passant captures of the attacker. -/
theorem mem_generateMovesOutOfCheck (pos : HexaBitBoardPosition)
    (allPawns allPieces myPieces enemyPieces pinned threatened kingIndex : Nat)
    (chance : Bool) (he : enemyPieces < 2 ^ 64) (m : CMove)
    (h : m ∈ generateMovesOutOfCheck pos [] allPawns allPieces myPieces enemyPieces pinned
      threatened kingIndex chance) :
    (m.src = kingIndex ∧ m.dst < 64 ∧
      (kingAttacks (pos.kings &&& myPieces)).testBit m.dst = true ∧
      (bnot (threatened ||| myPieces)).testBit m.dst = true) ∨
    (isSingular (checkAttackers pos allPawns allPieces myPieces enemyPieces chance) = true ∧
      m.src < 64 ∧ (myPieces &&& bnot pinned).testBit m.src = true ∧
      (allPawns.testBit m.src = true ∨ pos.knights.testBit m.src = true ∨
        pos.bishopQueens.testBit m.src = true ∨ pos.rookQueens.testBit m.src = true) ∧
      m.dst < 64 ∧
      ((checkAttackers pos allPawns allPieces myPieces enemyPieces chance |||
          sqsInBetween kingIndex
            (bitScan (checkAttackers pos allPawns allPieces myPieces enemyPieces chance))).testBit
          m.dst = true ∨
        (m.flags = CM_FLAG_EP_CAPTURE ∧
          (enPassentTargetOf pos.enPassent chance).testBit m.dst = true ∧
          enPassentCapturedPieceOf (enPassentTargetOf pos.enPassent chance) chance =
            checkAttackers pos allPawns allPieces myPieces enemyPieces chance))) := by
  have hA := checkAttackers_lt pos allPawns allPieces myPieces enemyPieces chance he
  have hsafe : checkAttackers pos allPawns allPieces myPieces enemyPieces chance |||
      sqsInBetween kingIndex
        (bitScan (checkAttackers pos allPawns allPieces myPieces enemyPieces chance)) < 2 ^ 64 :=
    Nat.or_lt_two_pow hA (squaresInBetween_lt _ _)
  have hking : ∀ ms : List CMove, m ∈ forBits
      (kingAttacks (pos.kings &&& myPieces) &&& bnot (threatened ||| myPieces))
      (fun dst ms => addCompactMove ms kingIndex (bitScan dst) 0) [] →
      (m.src = kingIndex ∧ m.dst < 64 ∧
      (kingAttacks (pos.kings &&& myPieces)).testBit m.dst = true ∧
      (bnot (threatened ||| myPieces)).testBit m.dst = true) := by
    intro _ h
    rcases mem_dst_loop _ _ (and_bnot_lt _ _) (fun _ => 0) [] m h with h | ⟨a1, a2, a3⟩
    · exact absurd h (List.not_mem_nil _)
    · rw [Nat.testBit_and, Bool.and_eq_true] at a3
      exact ⟨a1, a2, a3.1, a3.2⟩
  have hept : (if enPassentCapturedPieceOf (enPassentTargetOf pos.enPassent chance) chance ≠
        checkAttackers pos allPawns allPieces myPieces enemyPieces chance then 0
      else enPassentTargetOf pos.enPassent chance) < 2 ^ 64 := by
    split_ifs
    · decide
    · unfold enPassentTargetOf
      split_ifs
      · unfold shl; exact Nat.mod_lt _ (by decide)
      · unfold shl; exact Nat.mod_lt _ (by decide)
      · decide
  unfold generateMovesOutOfCheck at h
  dsimp only [] at h
  by_cases hs2 : isSingular (checkAttackers pos allPawns allPieces myPieces enemyPieces chance)
      = true
  · have hs := hs2
    unfold checkAttackers at hs
    dsimp only [] at hs
    rw [if_pos hs] at h
    rcases mem_nested_loop _ (Nat.and_lt_two_pow _ (and_bnot_lt _ _))
      (fun rook => rookAttacks rook (bnot allPieces) &&&
        (checkAttackers pos allPawns allPieces myPieces enemyPieces chance |||
          sqsInBetween kingIndex
            (bitScan (checkAttackers pos allPawns allPieces myPieces enemyPieces chance))))
      (fun b => Nat.and_lt_two_pow _ hsafe) (fun _ => 0) _ m h with h | ⟨a1, a2, a3, a4⟩
    · rcases mem_nested_loop _ (Nat.and_lt_two_pow _ (and_bnot_lt _ _))
        (fun bishop => bishopAttacks bishop (bnot allPieces) &&&
          (checkAttackers pos allPawns allPieces myPieces enemyPieces chance |||
            sqsInBetween kingIndex
              (bitScan (checkAttackers pos allPawns allPieces myPieces enemyPieces chance))))
        (fun b => Nat.and_lt_two_pow _ hsafe) (fun _ => 0) _ m h with h | ⟨a1, a2, a3, a4⟩
      · rcases mem_nested_loop _ (Nat.and_lt_two_pow _ (and_bnot_lt _ _))
          (fun knight => knightAttacks knight &&&
            (checkAttackers pos allPawns allPieces myPieces enemyPieces chance |||
              sqsInBetween kingIndex
                (bitScan (checkAttackers pos allPawns allPieces myPieces enemyPieces chance))))
          (fun b => Nat.and_lt_two_pow _ hsafe) (fun _ => 0) _ m h with h | ⟨a1, a2, a3, a4⟩
        · have hp := forBits_mem_bits (fun m => m.src < 64 ∧
              (allPawns &&& (myPieces &&& bnot pinned)).testBit m.src = true ∧ m.dst < 64 ∧
              ((checkAttackers pos allPawns allPieces myPieces enemyPieces chance |||
                sqsInBetween kingIndex (bitScan
                  (checkAttackers pos allPawns allPieces myPieces enemyPieces chance))).testBit
                  m.dst = true ∨
                (m.flags = CM_FLAG_EP_CAPTURE ∧
                  (if enPassentCapturedPieceOf (enPassentTargetOf pos.enPassent chance) chance ≠
                      checkAttackers pos allPawns allPieces myPieces enemyPieces chance then 0
                    else enPassentTargetOf pos.enPassent chance).testBit m.dst = true)))
            _ _ (Nat.and_lt_two_pow _ (and_bnot_lt _ _))
            (by
              intro i hi hb ms m hm
              rcases mem_check_pawn_aux
                ((if chance = WHITE then northOne (2 ^ i) else southOne (2 ^ i)) &&&
                  bnot allPieces)
                _ _ _ _ _ _ _ (and_bnot_lt _ _)
                (fun t u ht hu => push_single chance i _ t u ht hu hi) hsafe hept ms m hm
                with h | ⟨b1, b2, b3⟩
              · exact Or.inl h
              · rw [bitScan_two_pow hi] at b1
                subst b1
                exact Or.inr ⟨hi, hb, b2, b3⟩) _ m h
          rcases hp with h | ⟨a1, a2, a3, a4⟩
          · exact Or.inl (hking [] h)
          · rw [Nat.testBit_and, Bool.and_eq_true] at a2
            refine Or.inr ⟨hs2, a1, a2.2, Or.inl a2.1, a3, ?_⟩
            rcases a4 with a4 | ⟨a4, a5⟩
            · exact Or.inl a4
            · right
              by_cases hc : enPassentCapturedPieceOf (enPassentTargetOf pos.enPassent chance)
                  chance = checkAttackers pos allPawns allPieces myPieces enemyPieces chance
              · rw [if_neg (not_not.mpr hc)] at a5
                exact ⟨a4, a5, hc⟩
              · rw [if_pos hc] at a5
                simp at a5
        · rw [Nat.testBit_and, Bool.and_eq_true] at a2 a4
          exact Or.inr ⟨hs2, a1, a2.2, Or.inr (Or.inl a2.1), a3, Or.inl a4.2⟩
      · rw [Nat.testBit_and, Bool.and_eq_true] at a2 a4
        exact Or.inr ⟨hs2, a1, a2.2, Or.inr (Or.inr (Or.inl a2.1)), a3, Or.inl a4.2⟩
    · rw [Nat.testBit_and, Bool.and_eq_true] at a2 a4
      exact Or.inr ⟨hs2, a1, a2.2, Or.inr (Or.inr (Or.inr a2.1)), a3, Or.inl a4.2⟩
  · unfold checkAttackers at hs2
    dsimp only [] at hs2
    rw [if_neg hs2] at h
    exact Or.inl (hking [] h)

theorem line_double_step :
    ((List.range 64).all fun i => (List.range 64).all fun k =>
      i == k ||
      ((!(squaresInLine i k).testBit (i + 8) || decide (64 ≤ i + 16) ||
          (squaresInLine i k).testBit (i + 16)) &&
        (!(decide (8 ≤ i) && (squaresInLine i k).testBit (i - 8)) || decide (i < 16) ||
          (squaresInLine i k).testBit (i - 16)))) = true := by
  decide!

theorem line_castle :
    ((List.range 64).all fun a => (List.range 64).all fun k =>
      (!(squaresInBetween a k).testBit 4 ||
        ((squaresInLine 4 k).testBit 6 && (squaresInLine 4 k).testBit 2)) &&
      (!(squaresInBetween a k).testBit 60 ||
        ((squaresInLine 60 k).testBit 62 && (squaresInLine 60 k).testBit 58))) = true := by
  decide!

theorem squaresInLine_eq_lineSpec (sq1 sq2 : Nat) (h1 : sq1 < 64) (h2 : sq2 < 64)
    (hne : sq1 ≠ sq2) : squaresInLine sq1 sq2 = lineSpec sq1 sq2 := by
  have h := List.all_eq_true.mp squaresInLine_all_pairs sq1 (List.mem_range.mpr h1)
  have h := List.all_eq_true.mp h sq2 (List.mem_range.mpr h2)
  simp only [Bool.or_eq_true, beq_iff_eq, Bool.and_eq_true, decide_eq_true_eq] at h
  rcases h with h | ⟨h, hk⟩
  · exact absurd h hne
  · have m := List.all_eq_true.mp lineMask_all sq1 (List.mem_range.mpr h1)
    have m := List.all_eq_true.mp m (lineKind sq1 sq2) (List.mem_range.mpr hk)
    simp only [beq_iff_eq] at m
    rw [h, m]; rfl

theorem shiftRight_lt (x n : Nat) (h : x < 2 ^ 64) : x >>> n < 2 ^ 64 :=
  lt_of_le_of_lt (by rw [Nat.shiftRight_eq_div_pow]; exact Nat.div_le_self _ _) h

theorem squaresInLine_lt (a b : Nat) : squaresInLine a b < 2 ^ 64 := by
  unfold squaresInLine
  dsimp only []
  split_ifs <;>
    first
    | (unfold shl; exact Nat.mod_lt _ (by decide))
    | exact shiftRight_lt _ _ (by decide)
    | decide

theorem pin_genKingMoves (sw : Switches) (myKing kingIndex threatened myPieces enemyPieces : Nat)
    (ms : List CMove) (m : CMove)
    (h : m ∈ genKingMoves sw myKing kingIndex threatened myPieces enemyPieces ms) :
    m ∈ ms ∨ m.src = kingIndex := by
  rcases mem_dst_loop _ _ (and_bnot_lt _ _) (fun dst => captureFlagOf sw dst enemyPieces) ms m h
    with h | h
  · exact Or.inl h
  · exact Or.inr h.1

theorem pin_unpinned_loop (sw : Switches) (X pinned enemyPieces : Nat) (F : Nat → Nat)
    (hF : ∀ b, F b < 2 ^ 64) (ms : List CMove) (m : CMove)
    (h : m ∈ forBits (X &&& bnot pinned) (fun piece ms =>
      forBits (F piece) (fun dst ms =>
        addCompactMove ms (bitScan piece) (bitScan dst) (captureFlagOf sw dst enemyPieces))
        ms) ms) :
    m ∈ ms ∨ pinned.testBit m.src = false := by
  rcases mem_nested_loop _ (and_bnot_lt _ _) F hF
    (fun dst => captureFlagOf sw dst enemyPieces) ms m h with h | ⟨-, a2, -, -⟩
  · exact Or.inl h
  · rw [Nat.testBit_and, testBit_bnot] at a2
    simp only [Bool.and_eq_true, decide_eq_true_eq, Bool.not_eq_true'] at a2
    exact Or.inr a2.2.2

theorem pin_pinned_loop (sw : Switches) (X pinned enemyPieces kingIndex : Nat) (G : Nat → Nat)
    (ms : List CMove) (m : CMove)
    (h : m ∈ forBits (X &&& pinned) (fun piece ms =>
      forBits (G piece &&& sqsInLine (bitScan piece) kingIndex) (fun dst ms =>
        addCompactMove ms (bitScan piece) (bitScan dst) (captureFlagOf sw dst enemyPieces))
        ms) ms) (hp : pinned < 2 ^ 64) :
    m ∈ ms ∨ (X.testBit m.src = true ∧ m.src < 64 ∧ m.dst < 64 ∧
      (squaresInLine m.src kingIndex).testBit m.dst = true) := by
  rcases mem_nested_loop _ (Nat.and_lt_two_pow _ hp)
    (fun piece => G piece &&& sqsInLine (bitScan piece) kingIndex)
    (fun b => Nat.and_lt_two_pow _ (squaresInLine_lt _ _))
    (fun dst => captureFlagOf sw dst enemyPieces) ms m h with h | ⟨a1, a2, a3, a4⟩
  · exact Or.inl h
  · rw [Nat.testBit_and, Bool.and_eq_true] at a2
    simp only [Nat.testBit_and, Bool.and_eq_true, bitScan_two_pow a1] at a4
    exact Or.inr ⟨a2.1, a1, a3, a4.2⟩

theorem mem_ite_acpm_src (c : Prop) [Decidable c] (ms : List CMove) (s d f : Nat)
    (m : CMove) (h : m ∈ (if c then addCompactPawnMoves ms s d f else ms)) :
    m ∈ ms ∨ m.src = s := by
  split_ifs at h
  · rcases mem_acpm_dst _ _ _ _ _ h with h | h
    · exact Or.inl h
    · exact Or.inr h.1
  · exact Or.inl h

theorem src_pawn_body_aux (d1 d2 w e s : Nat) (ms : List CMove) (m : CMove)
    (h : m ∈
      (let ms :=
        if d1 ≠ 0 then
          let ms := addCompactPawnMoves ms s d1 0
          if d2 ≠ 0 then addCompactPawnMoves ms s d2 CM_FLAG_DOUBLE_PAWN_PUSH
          else ms
        else ms
      let ms := if w ≠ 0 then addCompactPawnMoves ms s w CM_FLAG_CAPTURE else ms
      if e ≠ 0 then addCompactPawnMoves ms s e CM_FLAG_CAPTURE
      else ms)) :
    m ∈ ms ∨ m.src = s := by
  dsimp only [] at h
  rcases mem_ite_acpm_src _ _ _ _ _ _ h with h | h
  · rcases mem_ite_acpm_src _ _ _ _ _ _ h with h | h
    · by_cases c1 : d1 ≠ 0
      · rw [if_pos c1] at h
        rcases mem_ite_acpm_src _ _ _ _ _ _ h with h | h
        · rcases mem_acpm_dst _ _ _ _ _ h with h | h
          · exact Or.inl h
          · exact Or.inr h.1
        · exact Or.inr h
      · rw [if_neg c1] at h
        exact Or.inl h
    · exact Or.inr h
  · exact Or.inr h

theorem pin_genPawnMoves (myPawns allPieces enemyPieces pinned : Nat) (chance : Bool)
    (ms : List CMove) (m : CMove)
    (h : m ∈ genPawnMoves myPawns allPieces enemyPieces pinned chance ms) :
    m ∈ ms ∨ pinned.testBit m.src = false := by
  unfold genPawnMoves at h
  refine forBits_mem_bits (fun m => pinned.testBit m.src = false) _ _ (and_bnot_lt _ _) ?_ ms m h
  intro i hi hb ms m hm
  rcases src_pawn_body_aux _ _ _ _ _ ms m hm with h | h
  · exact Or.inl h
  · right
    rw [bitScan_two_pow hi] at h
    rw [Nat.testBit_and, testBit_bnot] at hb
    simp only [Bool.and_eq_true, decide_eq_true_eq, Bool.not_eq_true'] at hb
    show pinned.testBit m.src = false
    rw [h]; exact hb.2.2

theorem pinned_pawn_mem_aux (d1 d2 c enemyPieces s : Nat) (ms : List CMove) (m : CMove)
    (h : m ∈
      (let ms :=
        if d1 ≠ 0 then
          let ms := addCompactMove ms s (bitScan d1) 0
          if d2 ≠ 0 then addCompactMove ms s (bitScan d2) CM_FLAG_DOUBLE_PAWN_PUSH
          else ms
        else ms
      if c &&& enemyPieces ≠ 0 then addCompactPawnMoves ms s c CM_FLAG_CAPTURE
      else ms)) :
    m ∈ ms ∨ (m.src = s ∧ ((d1 ≠ 0 ∧ m.dst = bitScan d1) ∨
      (d1 ≠ 0 ∧ d2 ≠ 0 ∧ m.dst = bitScan d2) ∨
      (c &&& enemyPieces ≠ 0 ∧ m.dst = bitScan c))) := by
  dsimp only [] at h
  by_cases c3 : c &&& enemyPieces ≠ 0
  · rw [if_pos c3] at h
    rcases mem_acpm_dst _ _ _ _ _ h with h | h
    · by_cases c1 : d1 ≠ 0
      · rw [if_pos c1] at h
        by_cases c2 : d2 ≠ 0
        · rw [if_pos c2, mem_addCompactMove, mem_addCompactMove] at h
          rcases h with (h | h) | h
          · exact Or.inl h
          · subst h; exact Or.inr ⟨rfl, Or.inl ⟨c1, rfl⟩⟩
          · subst h; exact Or.inr ⟨rfl, Or.inr (Or.inl ⟨c1, c2, rfl⟩)⟩
        · rw [if_neg c2, mem_addCompactMove] at h
          rcases h with h | h
          · exact Or.inl h
          · subst h; exact Or.inr ⟨rfl, Or.inl ⟨c1, rfl⟩⟩
      · rw [if_neg c1] at h
        exact Or.inl h
    · exact Or.inr ⟨h.1, Or.inr (Or.inr ⟨c3, h.2⟩)⟩
  · rw [if_neg c3] at h
    by_cases c1 : d1 ≠ 0
    · rw [if_pos c1] at h
      by_cases c2 : d2 ≠ 0
      · rw [if_pos c2, mem_addCompactMove, mem_addCompactMove] at h
        rcases h with (h | h) | h
        · exact Or.inl h
        · subst h; exact Or.inr ⟨rfl, Or.inl ⟨c1, rfl⟩⟩
        · subst h; exact Or.inr ⟨rfl, Or.inr (Or.inl ⟨c1, c2, rfl⟩)⟩
      · rw [if_neg c2, mem_addCompactMove] at h
        rcases h with h | h
        · exact Or.inl h
        · subst h; exact Or.inr ⟨rfl, Or.inl ⟨c1, rfl⟩⟩
    · rw [if_neg c1] at h
      exact Or.inl h

/-- Two steps along a file stay on a line that holds the first step. -/
theorem line_double (i k s1 t2 : Nat) (dr : Int) (hdr : dr = 1 ∨ dr = -1) (hi : i < 64)
    (hk : k < 64) (hne : i ≠ k) (r1 : onRay 0 dr i 1 s1) (r2 : onRay 0 dr s1 1 t2)
    (hl : (squaresInLine i k).testBit s1 = true) :
    (squaresInLine i k).testBit t2 = true := by
  have h := List.all_eq_true.mp line_double_step i (List.mem_range.mpr hi)
  have h := List.all_eq_true.mp h k (List.mem_range.mpr hk)
  simp only [Bool.or_eq_true, beq_iff_eq, Bool.and_eq_true, decide_eq_true_eq,
    Bool.not_eq_true'] at h
  rcases h with h | ⟨h1, h2⟩
  · exact absurd h hne
  · unfold onRay at r1 r2
    rcases hdr with hd | hd <;> subst hd
    · have e1 : s1 = i + 8 := by omega
      have e2 : t2 = i + 16 := by omega
      subst e1; subst e2
      rcases h1 with (h1 | h1) | h1
      · rw [h1] at hl; exact absurd hl (by decide)
      · omega
      · exact h1
    · have e1 : s1 = i - 8 := by omega
      have e2 : t2 = i - 16 := by omega
      have e3 : 16 ≤ i := by omega
      subst e1; subst e2
      rcases h2 with (h2 | h2) | h2
      · rcases Bool.and_eq_false_iff.mp h2 with h2 | h2
        · simp only [decide_eq_false_iff_not] at h2; omega
        · rw [h2] at hl; exact absurd hl (by decide)
      · omega
      · exact h2

theorem pin_pinned_pawns_aux (σ σw σe : Nat → Nat) (dr : Int) (hdr : dr = 1 ∨ dr = -1)
    (hσ : ∀ x t, x < 2 ^ 64 →
      ((σ x).testBit t = true ↔ ∃ s, s < 64 ∧ x.testBit s = true ∧ onRay 0 dr s 1 t))
    (rk myPawns allPieces enemyPieces pinned kingIndex : Nat)
    (hk : kingIndex < 64) (hkp : pinned.testBit kingIndex = false) (hp : pinned < 2 ^ 64)
    (ms : List CMove) (m : CMove)
    (h : m ∈ forBits (myPawns &&& pinned) (fun pawn ms =>
      let pawnIndex := bitScan pawn
      let line := sqsInLine pawnIndex kingIndex
      let dst := σ pawn &&& line &&& bnot allPieces
      let ms :=
        if dst ≠ 0 then
          let ms := addCompactMove ms pawnIndex (bitScan dst) 0
          let dst := σ (dst &&& rk) &&& bnot allPieces
          if dst ≠ 0 then addCompactMove ms pawnIndex (bitScan dst) CM_FLAG_DOUBLE_PAWN_PUSH
          else ms
        else ms
      let dst := σw pawn &&& line
      let dst := dst ||| (σe pawn &&& line)
      if dst &&& enemyPieces ≠ 0 then addCompactPawnMoves ms pawnIndex dst CM_FLAG_CAPTURE
      else ms) ms) :
    m ∈ ms ∨ (m.src < 64 ∧ myPawns.testBit m.src = true ∧ m.dst < 64 ∧
      (squaresInLine m.src kingIndex).testBit m.dst = true) := by
  refine forBits_mem_bits (fun m => m.src < 64 ∧ myPawns.testBit m.src = true ∧ m.dst < 64 ∧
      (squaresInLine m.src kingIndex).testBit m.dst = true) _ _ (Nat.and_lt_two_pow _ hp) ?_
    ms m h
  intro i hi hb ms m hm
  rw [Nat.testBit_and, Bool.and_eq_true] at hb
  have hik : i ≠ kingIndex := by
    rintro rfl
    rw [hkp] at hb
    exact absurd hb.2 (by decide)
  have hlt : 2 ^ i < 2 ^ 64 := Nat.pow_lt_pow_right (by decide) hi
  have hL := squaresInLine_lt i kingIndex
  rcases pinned_pawn_mem_aux _ _ _ _ _ ms m hm with h | ⟨e1, e2⟩
  · exact Or.inl h
  · right
    rw [bitScan_two_pow hi] at e1 e2
    show m.src < 64 ∧ myPawns.testBit m.src = true ∧ m.dst < 64 ∧
      (squaresInLine m.src kingIndex).testBit m.dst = true
    rw [e1]
    refine ⟨hi, hb.1, ?_⟩
    have fin : (squaresInLine i kingIndex).testBit m.dst = true →
        m.dst < 64 ∧ (squaresInLine i kingIndex).testBit m.dst = true :=
      fun h => ⟨lt_of_testBit_true hL h, h⟩
    apply fin
    rcases e2 with ⟨c1, e⟩ | ⟨c1, c2, e⟩ | ⟨c3, e⟩
    · obtain ⟨-, b2⟩ := testBit_bitScan c1 (and_bnot_lt _ _)
      rw [← e] at b2
      simp only [Nat.testBit_and, Bool.and_eq_true] at b2
      exact b2.1.2
    · obtain ⟨-, b2⟩ := testBit_bitScan c2 (and_bnot_lt _ _)
      rw [← e] at b2
      rw [Nat.testBit_and, Bool.and_eq_true,
        hσ _ _ (lt_of_le_of_lt Nat.and_le_left (and_bnot_lt _ _))] at b2
      obtain ⟨⟨s1, -, hs1, r2⟩, -⟩ := b2
      simp only [Nat.testBit_and, Bool.and_eq_true] at hs1
      obtain ⟨⟨⟨hs1, hl⟩, -⟩, -⟩ := hs1
      rw [hσ _ _ hlt] at hs1
      obtain ⟨s0, -, hs0, r1⟩ := hs1
      rw [testBit_two_pow_iff] at hs0
      subst hs0
      exact line_double s0 kingIndex s1 m.dst dr hdr hi hk hik r1 r2 hl
    · have c0 : σw (2 ^ i) &&& sqsInLine i kingIndex ||| σe (2 ^ i) &&& sqsInLine i kingIndex
          ≠ 0 := by
        intro h0; rw [h0, Nat.zero_and] at c3; exact c3 rfl
      obtain ⟨-, b2⟩ := testBit_bitScan c0
        (Nat.or_lt_two_pow (Nat.and_lt_two_pow _ hL) (Nat.and_lt_two_pow _ hL))
      rw [← e] at b2
      simp only [Nat.testBit_or, Nat.testBit_and, Bool.or_eq_true, Bool.and_eq_true] at b2
      rcases b2 with b2 | b2 <;> exact b2.2

theorem pin_genPinnedPawnMoves (myPawns allPieces enemyPieces pinned kingIndex : Nat)
    (chance : Bool) (hk : kingIndex < 64) (hkp : pinned.testBit kingIndex = false)
    (hp : pinned < 2 ^ 64) (ms : List CMove) (m : CMove)
    (h : m ∈ genPinnedPawnMoves myPawns allPieces enemyPieces pinned kingIndex chance ms) :
    m ∈ ms ∨ (m.src < 64 ∧ myPawns.testBit m.src = true ∧ m.dst < 64 ∧
      (squaresInLine m.src kingIndex).testBit m.dst = true) := by
  unfold genPinnedPawnMoves at h
  cases chance
  · simp only [WHITE, if_true] at h
    exact pin_pinned_pawns_aux northOne northWestOne northEastOne 1 (Or.inl rfl)
      (fun x t hx => northOne_spec x t hx) _ myPawns allPieces enemyPieces pinned kingIndex
      hk hkp hp ms m h
  · simp only [WHITE, Bool.true_eq_false, if_false] at h
    exact pin_pinned_pawns_aux southOne southWestOne southEastOne (-1) (Or.inr rfl)
      (fun x t hx => southOne_spec x t hx) _ myPawns allPieces enemyPieces pinned kingIndex
      hk hkp hp ms m h

theorem enPassentTargetOf_single (e : Nat) (chance : Bool) :
    enPassentTargetOf e chance < 2 ^ 64 ∧
    ∀ t u, (enPassentTargetOf e chance).testBit t = true →
      (enPassentTargetOf e chance).testBit u = true → t = u := by
  unfold enPassentTargetOf
  split_ifs
  · refine ⟨by unfold shl; exact Nat.mod_lt _ (by decide), ?_⟩
    intro t u ht hu
    rw [testBit_shl, testBit_BIT] at ht hu
    simp only [Bool.and_eq_true, decide_eq_true_eq] at ht hu
    omega
  · refine ⟨by unfold shl; exact Nat.mod_lt _ (by decide), ?_⟩
    intro t u ht hu
    rw [testBit_shl, testBit_BIT] at ht hu
    simp only [Bool.and_eq_true, decide_eq_true_eq] at ht hu
    omega
  · refine ⟨by decide, ?_⟩
    intro t u ht
    simp at ht

theorem pin_genEnPassentMoves (e myPawns allPieces enemyRooks myKing pinned kingIndex : Nat)
    (chance : Bool) (ms : List CMove) (m : CMove)
    (h : m ∈ genEnPassentMoves (enPassentTargetOf e chance) myPawns allPieces enemyRooks myKing
      pinned kingIndex chance ms) :
    m ∈ ms ∨ (m.src < 64 ∧ myPawns.testBit m.src = true ∧
      (pinned.testBit m.src = true →
        m.dst < 64 ∧ (squaresInLine m.src kingIndex).testBit m.dst = true)) := by
  rw [mem_genEnPassentMoves] at h
  rcases h with h | ⟨-, i, hi, hcap, hcond, rfl⟩
  · exact Or.inl h
  · right
    unfold epCapturersOf at hcap
    rw [Nat.testBit_and, Bool.and_eq_true] at hcap
    refine ⟨hi, hcap.2, ?_⟩
    intro hp
    rw [if_pos ((two_pow_and_ne_zero i pinned).mpr hp)] at hcond
    exact testBit_bitScan_of_and (enPassentTargetOf_single e chance).1
      (enPassentTargetOf_single e chance).2 hcond

theorem pin_genCastleMoves (pos : HexaBitBoardPosition) (allPieces threatened : Nat)
    (chance : Bool) (ms : List CMove) (m : CMove)
    (h : m ∈ genCastleMoves pos allPieces threatened chance ms) :
    m ∈ ms ∨ (((m.src = 4 ∧ (m.dst = 6 ∨ m.dst = 2)) ∨ (m.src = 60 ∧ (m.dst = 62 ∨ m.dst = 58))) ∧
      m.src = kingHome chance ∧
      (m.flags = CM_FLAG_KING_CASTLE ∨ m.flags = CM_FLAG_QUEEN_CASTLE)) := by
  rw [mem_genCastleMoves] at h
  rcases h with h | ⟨-, rfl⟩ | ⟨-, rfl⟩
  · exact Or.inl h
  · right; cases chance <;> decide
  · right; cases chance <;> decide

theorem lineKind_fun (a p k : Nat) (K : Nat)
    (h1 : lineKind a k = K) (h2 : lineKind p k = K)
    (h3 : ∀ t, onLineOfKind K a t = onLineOfKind K p t) :
    lineSpec a k = lineSpec p k := by
  unfold lineSpec
  rw [h1, h2]
  exact congrArg squareSet (funext h3)

theorem lineSpec_of_between (d : Int × Int) (hd : d ∈ kingDirs) (a n k j p : Nat)
    (hr : onRay d.1 d.2 a n k) (hp : onRay d.1 d.2 a j p) (hj : 1 ≤ j) (hjn : j < n) :
    lineSpec a k = lineSpec p k ∧ p ≠ k := by
  simp only [kingDirs, List.mem_cons, List.mem_singleton, List.not_mem_nil, or_false] at hd
  unfold onRay at hr hp
  obtain ⟨ha, hk, r1, r2⟩ := hr
  obtain ⟨-, hp64, p1, p2⟩ := hp
  rcases hd with h | h | h | h | h | h | h | h <;> subst h <;>
    simp only [mul_zero, mul_one, mul_neg, add_zero] at r1 r2 p1 p2
  · refine ⟨lineKind_fun a p k 0 ?_ ?_ ?_, by omega⟩
    · unfold lineKind; rw [if_pos (by omega)]
    · unfold lineKind; rw [if_pos (by omega)]
    · intro t
      have e : a / 8 = p / 8 := by omega
      simp only [onLineOfKind, e]
  · refine ⟨lineKind_fun a p k 0 ?_ ?_ ?_, by omega⟩
    · unfold lineKind; rw [if_pos (by omega)]
    · unfold lineKind; rw [if_pos (by omega)]
    · intro t
      have e : a / 8 = p / 8 := by omega
      simp only [onLineOfKind, e]
  · refine ⟨lineKind_fun a p k 1 ?_ ?_ ?_, by omega⟩
    · unfold lineKind; rw [if_neg (by omega), if_pos (by omega)]
    · unfold lineKind; rw [if_neg (by omega), if_pos (by omega)]
    · intro t
      have e : a % 8 = p % 8 := by omega
      simp only [onLineOfKind, e]
  · refine ⟨lineKind_fun a p k 1 ?_ ?_ ?_, by omega⟩
    · unfold lineKind; rw [if_neg (by omega), if_pos (by omega)]
    · unfold lineKind; rw [if_neg (by omega), if_pos (by omega)]
    · intro t
      have e : a % 8 = p % 8 := by omega
      simp only [onLineOfKind, e]
  · refine ⟨lineKind_fun a p k 2 ?_ ?_ ?_, by omega⟩
    · unfold lineKind; rw [if_neg (by omega), if_neg (by omega), if_pos (by omega)]
    · unfold lineKind; rw [if_neg (by omega), if_neg (by omega), if_pos (by omega)]
    · intro t
      rw [Bool.eq_iff_iff]
      simp only [onLineOfKind, beq_iff_eq]
      omega
  · refine ⟨lineKind_fun a p k 3 ?_ ?_ ?_, by omega⟩
    · unfold lineKind
      rw [if_neg (by omega), if_neg (by omega), if_neg (by omega), if_pos (by omega)]
    · unfold lineKind
      rw [if_neg (by omega), if_neg (by omega), if_neg (by omega), if_pos (by omega)]
    · intro t
      rw [Bool.eq_iff_iff]
      simp only [onLineOfKind, beq_iff_eq]
      omega
  · refine ⟨lineKind_fun a p k 3 ?_ ?_ ?_, by omega⟩
    · unfold lineKind
      rw [if_neg (by omega), if_neg (by omega), if_neg (by omega), if_pos (by omega)]
    · unfold lineKind
      rw [if_neg (by omega), if_neg (by omega), if_neg (by omega), if_pos (by omega)]
    · intro t
      rw [Bool.eq_iff_iff]
      simp only [onLineOfKind, beq_iff_eq]
      omega
  · refine ⟨lineKind_fun a p k 2 ?_ ?_ ?_, by omega⟩
    · unfold lineKind; rw [if_neg (by omega), if_neg (by omega), if_pos (by omega)]
    · unfold lineKind; rw [if_neg (by omega), if_neg (by omega), if_pos (by omega)]
    · intro t
      rw [Bool.eq_iff_iff]
      simp only [onLineOfKind, beq_iff_eq]
      omega

theorem pinned_has_pinner (myKing myPieces enemyBishops enemyRooks allPieces kingIndex p : Nat)
    (hk : kingIndex < 64) (hB : enemyBishops < 2 ^ 64) (hR : enemyRooks < 2 ^ 64)
    (hp : (findPinnedPieces myKing myPieces enemyBishops enemyRooks allPieces
      kingIndex).testBit p = true) :
    p < 64 ∧ p ≠ kingIndex ∧
    ∃ a, a < 64 ∧ (enemyBishops ||| enemyRooks).testBit a = true ∧
      (betweenSpec a kingIndex).testBit p = true ∧
      (∀ q, (betweenSpec a kingIndex &&& allPieces).testBit q = true → q = p) ∧
      lineSpec a kingIndex = lineSpec p kingIndex := by
  obtain ⟨a, ha, hatt, hsing, hbit⟩ :=
    (findPinnedPieces_testBit _ _ _ _ _ _ _ hB hR).mp hp
  have hx : squaresInBetween a kingIndex &&& allPieces < 2 ^ 64 :=
    lt_of_le_of_lt Nat.and_le_left (squaresInBetween_lt a kingIndex)
  obtain ⟨-, huniq⟩ := (isSingular_testBit hx).mp ⟨hsing, hbit⟩
  have hbt : (squaresInBetween a kingIndex).testBit p = true := by
    rw [Nat.testBit_and, Bool.and_eq_true] at hbit; exact hbit.1
  have hp64 : p < 64 := lt_of_testBit_true (squaresInBetween_lt a kingIndex) hbt
  have hE : (enemyBishops ||| enemyRooks).testBit a = true := by
    simp only [Nat.testBit_or, Nat.testBit_and, Bool.or_eq_true, Bool.and_eq_true] at hatt ⊢
    tauto
  have hdir : ∃ d ∈ kingDirs, ∃ n, 1 ≤ n ∧ onRay d.1 d.2 a n kingIndex := by
    simp only [Nat.testBit_or, Nat.testBit_and, Bool.or_eq_true, Bool.and_eq_true] at hatt
    rcases hatt with ⟨h, -⟩ | ⟨h, -⟩
    · obtain ⟨d, hd, n, -, hn, hray⟩ := (sqBishopAttacks_spec _ _ hk).mp h
      exact ⟨d, bishopDirs_sub d hd, n, hn, hray⟩
    · obtain ⟨d, hd, n, -, hn, hray⟩ := (sqRookAttacks_spec _ _ hk).mp h
      exact ⟨d, rookDirs_sub d hd, n, hn, hray⟩
  obtain ⟨d, hd, n, hn, hray⟩ := hdir
  obtain ⟨j, hj1, hjn, hrp⟩ := (between_along d hd a kingIndex n p hray hn).mp hbt
  obtain ⟨hline, hne⟩ := lineSpec_of_between d hd a n kingIndex j p hray hrp hj1 hjn
  rw [squaresInBetween_eq_betweenSpec a kingIndex ha hk] at hbt huniq
  exact ⟨hp64, hne, a, ha, hE, hbt, huniq, hline⟩

theorem findPinnedPieces_lt (myKing myPieces enemyBishops enemyRooks allPieces kingIndex : Nat)
    (hB : enemyBishops < 2 ^ 64) (hR : enemyRooks < 2 ^ 64) :
    findPinnedPieces myKing myPieces enemyBishops enemyRooks allPieces kingIndex < 2 ^ 64 := by
  apply lt_of_testBit_false
  intro i hi
  by_contra hc
  have ht : (findPinnedPieces myKing myPieces enemyBishops enemyRooks allPieces
      kingIndex).testBit i = true := by simpa using hc
  obtain ⟨a, -, -, -, hbit⟩ := (findPinnedPieces_testBit _ _ _ _ _ _ _ hB hR).mp ht
  rw [Nat.testBit_and, Bool.and_eq_true] at hbit
  have := lt_of_testBit_true (squaresInBetween_lt a kingIndex) hbit.1
  omega

theorem castle_on_line (a k : Nat) (ha : a < 64) (hk : k < 64) :
    ((squaresInBetween a k).testBit 4 = true →
      (squaresInLine 4 k).testBit 6 = true ∧ (squaresInLine 4 k).testBit 2 = true) ∧
    ((squaresInBetween a k).testBit 60 = true →
      (squaresInLine 60 k).testBit 62 = true ∧ (squaresInLine 60 k).testBit 58 = true) := by
  have h := List.all_eq_true.mp line_castle a (List.mem_range.mpr ha)
  have h := List.all_eq_true.mp h k (List.mem_range.mpr hk)
  simp only [Bool.or_eq_true, Bool.and_eq_true, Bool.not_eq_true'] at h
  constructor
  · intro hb
    rcases h.1 with h1 | h1
    · rw [h1] at hb; exact absurd hb (by decide)
    · exact h1
  · intro hb
    rcases h.2 with h1 | h1
    · rw [h1] at hb; exact absurd hb (by decide)
    · exact h1

/-- C13: when the mover has one king, every move of `generateMoves` whose source square is in
the set returned by `findPinnedPieces` is emitted outside check-evasion mode and has its
destination on the line through the source square and the king's square; an enemy bishop,
rook or queen `a` has the source as the only piece strictly between itself and the king, and
that line is the line through `a` and the king. The source holds a pawn, bishop, rook or queen
of the mover, or the move is a castling move from the king's home square: the knight loop
emits no move from a pinned square. -/
theorem pinned_moves_stay_on_line (sw : Switches) (pos : HexaBitBoardPosition) (chance : Bool)
    (kSq : Nat) (hwp : pos.whitePieces < 2 ^ 64) (hk : kSq < 64)
    (hking : pos.kings &&& gmMyPieces pos chance = BIT kSq)
    (m : CMove) (hm : m ∈ generateMoves sw pos chance)
    (hp : (gmPinned pos chance).testBit m.src = true) :
    gmThreatened pos chance &&& (pos.kings &&& gmMyPieces pos chance) = 0 ∧
    m.src < 64 ∧ m.src ≠ kSq ∧ m.dst < 64 ∧ (lineSpec m.src kSq).testBit m.dst = true ∧
    (∃ a, a < 64 ∧
      ((pos.bishopQueens &&& gmEnemyPieces pos chance) |||
        (pos.rookQueens &&& gmEnemyPieces pos chance)).testBit a = true ∧
      (betweenSpec a kSq).testBit m.src = true ∧
      (∀ q, (betweenSpec a kSq &&& gmAllPieces pos).testBit q = true → q = m.src) ∧
      lineSpec a kSq = lineSpec m.src kSq) ∧
    ((gmMyPieces pos chance).testBit m.src = true ∧
        (gmAllPawns pos ||| pos.bishopQueens ||| pos.rookQueens).testBit m.src = true ∨
      m.src = kingHome chance ∧
        (m.flags = CM_FLAG_KING_CASTLE ∨ m.flags = CM_FLAG_QUEEN_CASTLE)) := by
  obtain ⟨hmy, hen, hpw⟩ := gm_bounds pos chance hwp
  have hB : pos.bishopQueens &&& gmEnemyPieces pos chance < 2 ^ 64 := Nat.and_lt_two_pow _ hen
  have hR : pos.rookQueens &&& gmEnemyPieces pos chance < 2 ^ 64 := Nat.and_lt_two_pow _ hen
  have hki : gmKingIndex pos chance = kSq := by
    unfold gmKingIndex; rw [hking, BIT_eq_two_pow hk, bitScan_two_pow hk]
  have hpl : gmPinned pos chance < 2 ^ 64 := findPinnedPieces_lt _ _ _ _ _ _ hB hR
  have hpin : ∀ p, (gmPinned pos chance).testBit p = true → p < 64 ∧ p ≠ kSq ∧
      ∃ a, a < 64 ∧
        ((pos.bishopQueens &&& gmEnemyPieces pos chance) |||
          (pos.rookQueens &&& gmEnemyPieces pos chance)).testBit a = true ∧
        (betweenSpec a kSq).testBit p = true ∧
        (∀ q, (betweenSpec a kSq &&& gmAllPieces pos).testBit q = true → q = p) ∧
        lineSpec a kSq = lineSpec p kSq := by
    intro p hp
    have := pinned_has_pinner _ _ _ _ _ (gmKingIndex pos chance) p (hki ▸ hk) hB hR hp
    rw [hki] at this
    exact this
  have hkp : (gmPinned pos chance).testBit (gmKingIndex pos chance) = false := by
    by_contra hc
    have ht : (gmPinned pos chance).testBit kSq = true := by rw [hki] at hc; simpa using hc
    exact (hpin kSq ht).2.1 rfl
  obtain ⟨hs64, hsne, a, ha, hE, hbt, huniq, hline⟩ := hpin m.src hp
  have hnot : (gmPinned pos chance).testBit m.src = false → False := by
    intro h; rw [h] at hp; exact absurd hp (by decide)
  have key : gmThreatened pos chance &&& (pos.kings &&& gmMyPieces pos chance) = 0 ∧
      (m.dst < 64 ∧ (squaresInLine m.src kSq).testBit m.dst = true) ∧
      ((gmMyPieces pos chance).testBit m.src = true ∧
          (gmAllPawns pos ||| pos.bishopQueens ||| pos.rookQueens).testBit m.src = true ∨
        m.src = kingHome chance ∧
          (m.flags = CM_FLAG_KING_CASTLE ∨ m.flags = CM_FLAG_QUEEN_CASTLE)) := by
    unfold generateMoves at hm
    dsimp only [] at hm
    by_cases hc : gmThreatened pos chance &&& (pos.kings &&& gmMyPieces pos chance) ≠ 0
    · rw [if_pos hc] at hm
      exfalso
      rcases mem_generateMovesOutOfCheck pos _ _ _ _ _ _ _ chance hen m hm with
        ⟨a1, -⟩ | ⟨-, -, a3, -⟩
      · exact hsne (a1.trans hki)
      · rw [Nat.testBit_and, testBit_bnot] at a3
        simp only [Bool.and_eq_true, decide_eq_true_eq, Bool.not_eq_true'] at a3
        exact hnot a3.2.2
    · rw [if_neg hc] at hm
      refine ⟨not_not.mp hc, ?_⟩
      rw [hki] at hm
      rw [hki] at hkp
      rcases pin_genCastleMoves _ _ _ _ _ m hm with hm | ⟨hc1, hc2, hc3⟩
      · rcases pin_genPawnMoves _ _ _ _ _ _ m hm with hm | h
        · rcases pin_genPinnedPawnMoves _ _ _ _ _ _ hk hkp hpl _ m hm with
            hm | ⟨-, b2, b3, b4⟩
          · rcases pin_genEnPassentMoves _ _ _ _ _ _ _ _ _ m hm with hm | ⟨-, b2, b3⟩
            · rcases pin_unpinned_loop sw _ _ _
                (fun rook => rookAttacks rook (bnot (gmAllPieces pos)) &&&
                  bnot (gmMyPieces pos chance))
                (fun b => and_bnot_lt _ _) _ m hm with hm | h
              · rcases pin_pinned_loop sw _ _ _ _
                  (fun rook => rookAttacks rook (bnot (gmAllPieces pos)) &&&
                    bnot (gmMyPieces pos chance)) _ m hm hpl with hm | ⟨b1, -, b3, b4⟩
                · rcases pin_unpinned_loop sw _ _ _
                    (fun bishop => bishopAttacks bishop (bnot (gmAllPieces pos)) &&&
                      bnot (gmMyPieces pos chance))
                    (fun b => and_bnot_lt _ _) _ m hm with hm | h
                  · rcases pin_pinned_loop sw _ _ _ _
                      (fun bishop => bishopAttacks bishop (bnot (gmAllPieces pos)) &&&
                        bnot (gmMyPieces pos chance)) _ m hm hpl with hm | ⟨b1, -, b3, b4⟩
                    · rcases pin_unpinned_loop sw _ _ _
                        (fun knight => knightAttacks knight &&& bnot (gmMyPieces pos chance))
                        (fun b => and_bnot_lt _ _) _ m hm with hm | h
                      · rcases pin_genKingMoves _ _ _ _ _ _ _ m hm with hm | h
                        · exact absurd hm (List.not_mem_nil _)
                        · exact absurd h hsne
                      · exact absurd h hnot
                    · rw [Nat.testBit_and, Bool.and_eq_true] at b1
                      refine ⟨⟨b3, b4⟩, Or.inl ⟨b1.2, ?_⟩⟩
                      simp only [Nat.testBit_or, Bool.or_eq_true]
                      exact Or.inl (Or.inr b1.1)
                  · exact absurd h hnot
                · rw [Nat.testBit_and, Bool.and_eq_true] at b1
                  refine ⟨⟨b3, b4⟩, Or.inl ⟨b1.2, ?_⟩⟩
                  simp only [Nat.testBit_or, Bool.or_eq_true]
                  exact Or.inr b1.1
              · exact absurd h hnot
            · rw [Nat.testBit_and, Bool.and_eq_true] at b2
              refine ⟨b3 hp, Or.inl ⟨b2.2, ?_⟩⟩
              simp only [Nat.testBit_or, Bool.or_eq_true]
              exact Or.inl (Or.inl b2.1)
          · rw [Nat.testBit_and, Bool.and_eq_true] at b2
            refine ⟨⟨b3, b4⟩, Or.inl ⟨b2.2, ?_⟩⟩
            simp only [Nat.testBit_or, Bool.or_eq_true]
            exact Or.inl (Or.inl b2.1)
        · exact absurd h hnot
      · refine ⟨?_, Or.inr ⟨hc2, hc3⟩⟩
        rw [← squaresInBetween_eq_betweenSpec a kSq ha hk] at hbt
        obtain ⟨g1, g2⟩ := castle_on_line a kSq ha hk
        rcases hc1 with ⟨e1, e2⟩ | ⟨e1, e2⟩
        · rw [e1] at hbt ⊢
          rcases e2 with e2 | e2 <;> rw [e2]
          · exact ⟨by decide, (g1 hbt).1⟩
          · exact ⟨by decide, (g1 hbt).2⟩
        · rw [e1] at hbt ⊢
          rcases e2 with e2 | e2 <;> rw [e2]
          · exact ⟨by decide, (g2 hbt).1⟩
          · exact ⟨by decide, (g2 hbt).2⟩
  obtain ⟨k0, ⟨k1, k2⟩, k3⟩ := key
  rw [squaresInLine_eq_lineSpec m.src kSq hs64 hk hsne] at k2
  exact ⟨k0, hs64, hsne, k1, k2, ⟨a, ha, hE, hbt, huniq, hline⟩, k3⟩

theorem pinned_moves_stay_on_line_witness :
    CMove.mk 12 20 0 ∈ generateMoves (Switches.mk false false) pinnedRookPosition WHITE ∧
    (gmPinned pinnedRookPosition WHITE).testBit 12 = true ∧
    (lineSpec 12 4).testBit 20 = true :=
  ⟨by decide!, by decide!,
   (pinned_moves_stay_on_line (Switches.mk false false) pinnedRookPosition WHITE 4 (by decide)
      (by decide) (by decide!) (CMove.mk 12 20 0) (by decide!) (by decide!)).2.2.2.2.1⟩

/-! ## C8: the squares makeMove changes -/

theorem movedPiece_cases (pos : HexaBitBoardPosition) (move : CMove) :
    movedPiece pos move = KING ∨ movedPiece pos move = KNIGHT ∨ movedPiece pos move = PAWN ∨
    movedPiece pos move = BISHOP ∨ movedPiece pos move = ROOK ∨ movedPiece pos move = QUEEN := by
  unfold movedPiece promotedPiece pieceOn
  simp only []
  split_ifs <;> simp

theorem mm_kings_testBit (sw : Switches) (pos : HexaBitBoardPosition) (move : CMove)
    (chance : Bool) (q : Nat) (hq : q < 64) :
    (makeMoveBoard sw pos move chance).kings.testBit q =
      ((pos.kings.testBit q && !decide (move.src = q) && !decide (move.dst = q)) ||
        (decide (movedPiece pos move = KING) && decide (move.dst = q))) := by
  unfold makeMoveBoard movedPiece
  simp only [CMove.getFrom, CMove.getTo, CMove.getFlags, mmDoublePush_kings, mmRights_kings,
    mmCastle_kings, mmEnPassent_kings, mmColor_kings, mmPut_kings, mmClear_kings]
  split_ifs with h <;>
    simp [h, Nat.testBit_and, Nat.testBit_or, testBit_bnot, testBit_BIT, hq]

theorem mm_knights_testBit (sw : Switches) (pos : HexaBitBoardPosition) (move : CMove)
    (chance : Bool) (q : Nat) (hq : q < 64) :
    (makeMoveBoard sw pos move chance).knights.testBit q =
      ((pos.knights.testBit q && !decide (move.src = q) && !decide (move.dst = q)) ||
        (decide (movedPiece pos move = KNIGHT) && decide (move.dst = q))) := by
  unfold makeMoveBoard movedPiece
  simp only [CMove.getFrom, CMove.getTo, CMove.getFlags, mmDoublePush_knights,
    mmRights_knights, mmCastle_knights, mmEnPassent_knights, mmColor_knights, mmPut_knights,
    mmClear_knights]
  split_ifs with h <;>
    simp [h, Nat.testBit_and, Nat.testBit_or, testBit_bnot, testBit_BIT, hq]

theorem mm_bishopQueens_testBit (sw : Switches) (pos : HexaBitBoardPosition) (move : CMove)
    (chance : Bool) (q : Nat) (hq : q < 64) :
    (makeMoveBoard sw pos move chance).bishopQueens.testBit q =
      ((pos.bishopQueens.testBit q && !decide (move.src = q) && !decide (move.dst = q)) ||
        (decide (movedPiece pos move = BISHOP ∨ movedPiece pos move = QUEEN) &&
          decide (move.dst = q))) := by
  unfold makeMoveBoard movedPiece
  simp only [CMove.getFrom, CMove.getTo, CMove.getFlags, mmDoublePush_bishopQueens,
    mmRights_bishopQueens, mmCastle_bishopQueens, mmEnPassent_bishopQueens,
    mmColor_bishopQueens, mmPut_bishopQueens, mmClear_bishopQueens]
  split_ifs with h <;>
    simp [h, Nat.testBit_and, Nat.testBit_or, testBit_bnot, testBit_BIT, hq]

theorem put_testBit (X src dst q : Nat) (c : Prop) [Decidable c] (hq : q < 64) :
    (if c then X &&& bnot (BIT src) &&& bnot (BIT dst) ||| BIT dst
      else X &&& bnot (BIT src) &&& bnot (BIT dst)).testBit q =
      ((X.testBit q && !decide (src = q) && !decide (dst = q)) ||
        (decide c && decide (dst = q))) := by
  split_ifs with h <;>
    simp [h, Nat.testBit_and, Nat.testBit_or, testBit_bnot, testBit_BIT, hq]

theorem put_pawn_testBit (X src dst q : Nat) (c : Prop) [Decidable c] (hq : q < 64)
    (hr : 8 ≤ q ∧ q < 56) :
    (if c then X &&& bnot (BIT src &&& RANKS2TO7) &&& bnot (BIT dst &&& RANKS2TO7) ||| BIT dst
      else X &&& bnot (BIT src &&& RANKS2TO7) &&& bnot (BIT dst &&& RANKS2TO7)).testBit q =
      ((X.testBit q && !decide (src = q) && !decide (dst = q)) ||
        (decide c && decide (dst = q))) := by
  split_ifs with h <;>
    simp [h, Nat.testBit_and, Nat.testBit_or, testBit_bnot, testBit_BIT, testBit_RANKS2TO7, hq,
      hr.1, hr.2]

theorem castle_testBit (X flags q : Nat) (chance : Bool) (hq : q < 64) :
    (if chance = WHITE then
        if flags = CM_FLAG_KING_CASTLE then (X ^^^ BIT H1) ||| BIT F1
        else if flags = CM_FLAG_QUEEN_CASTLE then (X ^^^ BIT A1) ||| BIT D1
        else X
      else
        if flags = CM_FLAG_KING_CASTLE then (X ^^^ BIT H8) ||| BIT F8
        else if flags = CM_FLAG_QUEEN_CASTLE then (X ^^^ BIT A8) ||| BIT D8
        else X).testBit q =
      (if flags = CM_FLAG_KING_CASTLE then
        (X.testBit q ^^ decide (rookHome chance 0 = q)) || decide (castleRookTo chance 0 = q)
      else if flags = CM_FLAG_QUEEN_CASTLE then
        (X.testBit q ^^ decide (rookHome chance 1 = q)) || decide (castleRookTo chance 1 = q)
      else X.testBit q) := by
  by_cases h1 : flags = CM_FLAG_KING_CASTLE
  · simp only [if_pos h1]
    cases chance <;>
      simp [Nat.testBit_or, Nat.testBit_xor, testBit_BIT, hq, rookHome, castleRookTo, WHITE]
  · simp only [if_neg h1]
    by_cases h2 : flags = CM_FLAG_QUEEN_CASTLE
    · simp only [if_pos h2]
      cases chance <;>
        simp [Nat.testBit_or, Nat.testBit_xor, testBit_BIT, hq, rookHome, castleRookTo, WHITE]
    · simp only [if_neg h2, ite_self]

theorem mm_rookQueens_testBit (sw : Switches) (pos : HexaBitBoardPosition) (move : CMove)
    (chance : Bool) (q : Nat) (hq : q < 64) :
    (makeMoveBoard sw pos move chance).rookQueens.testBit q =
      (if move.flags = CM_FLAG_KING_CASTLE then
        ((((pos.rookQueens.testBit q && !decide (move.src = q) && !decide (move.dst = q)) ||
          (decide (movedPiece pos move = ROOK ∨ movedPiece pos move = QUEEN) &&
            decide (move.dst = q))) ^^ decide (rookHome chance 0 = q)) ||
          decide (castleRookTo chance 0 = q))
      else if move.flags = CM_FLAG_QUEEN_CASTLE then
        ((((pos.rookQueens.testBit q && !decide (move.src = q) && !decide (move.dst = q)) ||
          (decide (movedPiece pos move = ROOK ∨ movedPiece pos move = QUEEN) &&
            decide (move.dst = q))) ^^ decide (rookHome chance 1 = q)) ||
          decide (castleRookTo chance 1 = q))
      else
        ((pos.rookQueens.testBit q && !decide (move.src = q) && !decide (move.dst = q)) ||
          (decide (movedPiece pos move = ROOK ∨ movedPiece pos move = QUEEN) &&
            decide (move.dst = q)))) := by
  unfold makeMoveBoard movedPiece
  simp only [CMove.getFrom, CMove.getTo, CMove.getFlags, mmDoublePush_rookQueens,
    mmRights_rookQueens, mmCastle_rookQueens, mmEnPassent_rookQueens,
    mmColor_rookQueens, mmPut_rookQueens, mmClear_rookQueens]
  rw [castle_testBit _ _ _ _ hq, put_testBit _ _ _ _ _ hq]

theorem mm_pawns_testBit (sw : Switches) (pos : HexaBitBoardPosition) (move : CMove)
    (chance : Bool) (q : Nat) (hq : q < 64) :
    ((makeMoveBoard sw pos move chance).pawns &&& RANKS2TO7).testBit q =
      (decide (8 ≤ q) && decide (q < 56) &&
        (((pos.pawns.testBit q && !decide (move.src = q) && !decide (move.dst = q)) ||
          (decide (movedPiece pos move = PAWN) && decide (move.dst = q))) &&
        !(decide (move.flags = CM_FLAG_EP_CAPTURE) &&
          (if chance = WHITE then southOne (BIT move.dst)
            else northOne (BIT move.dst)).testBit q))) := by
  unfold makeMoveBoard movedPiece
  simp only [CMove.getFrom, CMove.getTo, CMove.getFlags, mmDoublePush_pawns,
    mmRights_pawns, mmCastle_pawns, mmEnPassent_pawns,
    mmColor_pawns, mmPut_pawns, mmClear_pawns]
  by_cases hr : 8 ≤ q ∧ q < 56
  · have hr2 : (decide (8 ≤ q) && decide (q < 56)) = true := by simp [hr.1, hr.2]
    by_cases h1 : move.flags = CM_FLAG_EP_CAPTURE
    · simp only [if_pos h1]
      rw [Nat.testBit_and, testBit_RANKS2TO7, hr2, Bool.and_true, Nat.testBit_and,
        put_pawn_testBit _ _ _ _ _ hq hr, testBit_bnot, Nat.testBit_and, testBit_RANKS2TO7,
        hr2, Bool.and_true]
      simp [hq, h1]
    · simp only [if_neg h1]
      rw [Nat.testBit_and, testBit_RANKS2TO7, hr2, Bool.and_true,
        put_pawn_testBit _ _ _ _ _ hq hr]
      simp [h1]
  · have : (decide (8 ≤ q) && decide (q < 56)) = false := by
      simp only [Bool.and_eq_false_iff, decide_eq_false_iff_not]
      omega
    rw [Nat.testBit_and, testBit_RANKS2TO7, this, Bool.and_false, Bool.false_and]

theorem mm_white_testBit (sw : Switches) (pos : HexaBitBoardPosition) (move : CMove)
    (chance : Bool) (q : Nat) (hq : q < 64) :
    (makeMoveBoard sw pos move chance).whitePieces.testBit q =
      (if chance = WHITE then
        (if move.flags = CM_FLAG_KING_CASTLE then
          (((pos.whitePieces.testBit q ^^ decide (move.src = q)) || decide (move.dst = q)) ^^
            decide (rookHome chance 0 = q)) || decide (castleRookTo chance 0 = q)
        else if move.flags = CM_FLAG_QUEEN_CASTLE then
          (((pos.whitePieces.testBit q ^^ decide (move.src = q)) || decide (move.dst = q)) ^^
            decide (rookHome chance 1 = q)) || decide (castleRookTo chance 1 = q)
        else (pos.whitePieces.testBit q ^^ decide (move.src = q)) || decide (move.dst = q))
      else
        (pos.whitePieces.testBit q && !decide (move.dst = q) &&
          !(decide (move.flags = CM_FLAG_EP_CAPTURE) &&
            (northOne (BIT move.dst)).testBit q))) := by
  unfold makeMoveBoard
  simp only [CMove.getFrom, CMove.getTo, CMove.getFlags, mmDoublePush_whitePieces,
    mmRights_whitePieces, mmCastle_whitePieces, mmEnPassent_whitePieces,
    mmColor_whitePieces, mmPut_whitePieces, mmClear_whitePieces]
  cases chance
  · simp only [WHITE, if_true, BLACK, Bool.false_eq_true, and_false, if_false]
    by_cases h1 : move.flags = CM_FLAG_KING_CASTLE
    · simp only [if_pos h1]
      simp [Nat.testBit_or, Nat.testBit_xor, testBit_BIT, hq, rookHome, castleRookTo]
    · by_cases h2 : move.flags = CM_FLAG_QUEEN_CASTLE
      · simp only [if_neg h1, if_pos h2]
        simp [Nat.testBit_or, Nat.testBit_xor, testBit_BIT, hq, rookHome, castleRookTo]
      · simp only [if_neg h1, if_neg h2]
        simp [Nat.testBit_or, Nat.testBit_xor, testBit_BIT, hq]
  · simp only [WHITE, BLACK, Bool.true_eq_false, if_false, and_true]
    by_cases h1 : move.flags = CM_FLAG_EP_CAPTURE
    · simp [h1, Nat.testBit_and, testBit_bnot, testBit_BIT, hq]
    · simp [h1, Nat.testBit_and, testBit_bnot, testBit_BIT, hq]

theorem makeMoveBoard_squares (sw : Switches) (pos : HexaBitBoardPosition) (move : CMove)
    (chance : Bool) (hs : move.src < 64) (hd : move.dst < 64) (hne : move.src ≠ move.dst)
    (hkc : move.flags = CM_FLAG_KING_CASTLE →
      move.src = kingHome chance ∧ move.dst = castleKingTo chance 0)
    (hqc : move.flags = CM_FLAG_QUEEN_CASTLE →
      move.src = kingHome chance ∧ move.dst = castleKingTo chance 1)
    (hep : move.flags = CM_FLAG_EP_CAPTURE →
      if chance = WHITE then 40 ≤ move.dst ∧ move.dst < 48
      else 16 ≤ move.dst ∧ move.dst < 24)
    (hpawn : movedPiece pos move = PAWN → 8 ≤ move.dst ∧ move.dst < 56) :
    setsAt (makeMoveBoard sw pos move chance) move.src = [false, false, false, false, false] ∧
    setsAt (makeMoveBoard sw pos move chance) move.dst = setsOfPiece (movedPiece pos move) ∧
    (makeMoveBoard sw pos move chance).whitePieces.testBit move.dst = (chance == WHITE) ∧
    ∀ q, q < 64 → q ≠ move.src → q ≠ move.dst →
      (move.flags = CM_FLAG_EP_CAPTURE → q ≠ epCapturedSquare move chance) →
      (move.flags = CM_FLAG_KING_CASTLE → q ≠ rookHome chance 0 ∧ q ≠ castleRookTo chance 0) →
      (move.flags = CM_FLAG_QUEEN_CASTLE → q ≠ rookHome chance 1 ∧ q ≠ castleRookTo chance 1) →
      setsAt (makeMoveBoard sw pos move chance) q = setsAt pos q ∧
      (makeMoveBoard sw pos move chance).whitePieces.testBit q = pos.whitePieces.testBit q := by
  have hp := movedPiece_cases pos move
  have hdn : ¬ (move.dst = move.src) := fun h => hne h.symm
  have hcap : move.flags = CM_FLAG_EP_CAPTURE →
      (if chance = WHITE then southOne (BIT move.dst) else northOne (BIT move.dst)) =
        BIT (epCapturedSquare move chance) ∧ epCapturedSquare move chance < 64 ∧
      epCapturedSquare move chance ≠ move.dst := by
    intro h
    have h1 := hep h
    refine ⟨epCaptured_board move chance h1, ?_⟩
    unfold epCapturedSquare
    simp only [CMove.getTo]
    cases chance <;> simp at h1 ⊢ <;> omega
  have hcapB : move.flags = CM_FLAG_EP_CAPTURE → chance = BLACK →
      northOne (BIT move.dst) = BIT (epCapturedSquare move chance) := by
    intro h hb
    have := (hcap h).1
    rw [hb] at this ⊢
    simpa [WHITE, BLACK] using this
  have hrookK : move.flags = CM_FLAG_KING_CASTLE →
      rookHome chance 0 ≠ move.src ∧ castleRookTo chance 0 ≠ move.src ∧
      rookHome chance 0 ≠ move.dst ∧ castleRookTo chance 0 ≠ move.dst := by
    intro h
    obtain ⟨e1, e2⟩ := hkc h
    rw [e1, e2]
    cases chance <;> decide
  have hrookQ : move.flags = CM_FLAG_QUEEN_CASTLE →
      rookHome chance 1 ≠ move.src ∧ castleRookTo chance 1 ≠ move.src ∧
      rookHome chance 1 ≠ move.dst ∧ castleRookTo chance 1 ≠ move.dst := by
    intro h
    obtain ⟨e1, e2⟩ := hqc h
    rw [e1, e2]
    cases chance <;> decide
  refine ⟨?_, ?_, ?_, ?_⟩
  · simp only [setsAt, mm_kings_testBit _ _ _ _ _ hs, mm_knights_testBit _ _ _ _ _ hs,
      mm_pawns_testBit _ _ _ _ _ hs, mm_bishopQueens_testBit _ _ _ _ _ hs,
      mm_rookQueens_testBit _ _ _ _ _ hs]
    by_cases hK : move.flags = CM_FLAG_KING_CASTLE
    · obtain ⟨r1, r2, -, -⟩ := hrookK hK
      simp [hK, hdn, r1, r2]
    · by_cases hQ : move.flags = CM_FLAG_QUEEN_CASTLE
      · obtain ⟨r1, r2, -, -⟩ := hrookQ hQ
        simp [hQ, hdn, r1, r2, (by decide : CM_FLAG_QUEEN_CASTLE ≠ CM_FLAG_KING_CASTLE)]
      · simp [hK, hQ, hdn]
  · unfold setsAt setsOfPiece
    rw [mm_kings_testBit _ _ _ _ _ hd, mm_knights_testBit _ _ _ _ _ hd,
      mm_pawns_testBit _ _ _ _ _ hd, mm_bishopQueens_testBit _ _ _ _ _ hd,
      mm_rookQueens_testBit _ _ _ _ _ hd]
    have hpw : (decide (8 ≤ move.dst) && decide (move.dst < 56) &&
        (((pos.pawns.testBit move.dst && !decide (move.src = move.dst) &&
            !decide (move.dst = move.dst)) ||
          (decide (movedPiece pos move = PAWN) && decide (move.dst = move.dst))) &&
        !(decide (move.flags = CM_FLAG_EP_CAPTURE) &&
          (if chance = WHITE then southOne (BIT move.dst)
            else northOne (BIT move.dst)).testBit move.dst))) =
        decide (movedPiece pos move = PAWN) := by
      by_cases hP : movedPiece pos move = PAWN
      · obtain ⟨p1, p2⟩ := hpawn hP
        by_cases hE : move.flags = CM_FLAG_EP_CAPTURE
        · obtain ⟨c1, c2, c3⟩ := hcap hE
          rw [c1, testBit_BIT]
          simp [hP, p1, p2, c3]
        · simp [hP, p1, p2, hE]
      · simp [hP]
    rw [hpw]
    by_cases hK : move.flags = CM_FLAG_KING_CASTLE
    · obtain ⟨-, -, r1, r2⟩ := hrookK hK
      simp [hK, hne, r1, r2]
    · by_cases hQ : move.flags = CM_FLAG_QUEEN_CASTLE
      · obtain ⟨-, -, r1, r2⟩ := hrookQ hQ
        simp [hQ, hne, r1, r2, (by decide : CM_FLAG_QUEEN_CASTLE ≠ CM_FLAG_KING_CASTLE)]
      · simp [hK, hQ, hne]
  · rw [mm_white_testBit _ _ _ _ _ hd]
    cases chance
    · simp only [WHITE, if_true]
      by_cases hK : move.flags = CM_FLAG_KING_CASTLE
      · obtain ⟨-, -, r1, r2⟩ := hrookK hK
        simp [hK, r1, r2]
      · by_cases hQ : move.flags = CM_FLAG_QUEEN_CASTLE
        · obtain ⟨-, -, r1, r2⟩ := hrookQ hQ
          simp [hQ, r1, r2, (by decide : CM_FLAG_QUEEN_CASTLE ≠ CM_FLAG_KING_CASTLE)]
        · simp [hK, hQ]
    · simp [WHITE]
  · intro q hq hqs hqd hqe hqk hqq
    have hsq : ¬ (move.src = q) := fun h => hqs h.symm
    have hdq : ¬ (move.dst = q) := fun h => hqd h.symm
    have hcq : move.flags = CM_FLAG_EP_CAPTURE →
        (if chance = WHITE then southOne (BIT move.dst)
          else northOne (BIT move.dst)).testBit q = false := by
      intro hE
      obtain ⟨c1, c2, c3⟩ := hcap hE
      rw [c1, testBit_BIT]
      have := hqe hE
      simp [hq, Ne.symm this]
    constructor
    · unfold setsAt
      rw [mm_kings_testBit _ _ _ _ _ hq, mm_knights_testBit _ _ _ _ _ hq,
        mm_pawns_testBit _ _ _ _ _ hq, mm_bishopQueens_testBit _ _ _ _ _ hq,
        mm_rookQueens_testBit _ _ _ _ _ hq]
      have hpw : (decide (8 ≤ q) && decide (q < 56) &&
          (((pos.pawns.testBit q && !decide (move.src = q) && !decide (move.dst = q)) ||
            (decide (movedPiece pos move = PAWN) && decide (move.dst = q))) &&
          !(decide (move.flags = CM_FLAG_EP_CAPTURE) &&
            (if chance = WHITE then southOne (BIT move.dst)
              else northOne (BIT move.dst)).testBit q))) =
          (pos.pawns &&& RANKS2TO7).testBit q := by
        rw [Nat.testBit_and, testBit_RANKS2TO7]
        by_cases hE : move.flags = CM_FLAG_EP_CAPTURE
        · rw [hcq hE]
          simp [hsq, hdq, Bool.and_comm]
        · simp [hsq, hdq, hE, Bool.and_comm]
      rw [hpw]
      by_cases hK : move.flags = CM_FLAG_KING_CASTLE
      · obtain ⟨r1, r2⟩ := hqk hK
        simp [hK, hsq, hdq, Ne.symm r1, Ne.symm r2]
      · by_cases hQ : move.flags = CM_FLAG_QUEEN_CASTLE
        · obtain ⟨r1, r2⟩ := hqq hQ
          simp [hQ, hsq, hdq, Ne.symm r1, Ne.symm r2,
            (by decide : CM_FLAG_QUEEN_CASTLE ≠ CM_FLAG_KING_CASTLE)]
        · simp [hK, hQ, hsq, hdq]
    · rw [mm_white_testBit _ _ _ _ _ hq]
      cases chance
      · simp only [WHITE, if_true]
        by_cases hK : move.flags = CM_FLAG_KING_CASTLE
        · obtain ⟨r1, r2⟩ := hqk hK
          simp [hK, hsq, hdq, Ne.symm r1, Ne.symm r2]
        · by_cases hQ : move.flags = CM_FLAG_QUEEN_CASTLE
          · obtain ⟨r1, r2⟩ := hqq hQ
            simp [hQ, hsq, hdq, Ne.symm r1, Ne.symm r2,
              (by decide : CM_FLAG_QUEEN_CASTLE ≠ CM_FLAG_KING_CASTLE)]
          · simp [hK, hQ, hsq, hdq]
      · simp only [WHITE, Bool.true_eq_false, if_false]
        by_cases hE : move.flags = CM_FLAG_EP_CAPTURE
        · have := hcq hE
          simp only [WHITE, Bool.true_eq_false, if_false] at this
          simp [hdq, this]
        · simp [hdq, hE]

/-! ## The shape of the generated moves -/

theorem pinned_push_last_rank :
    ((List.range 64).all fun a => (List.range 64).all fun k => (List.range 8).all fun f =>
      (!((squaresInBetween a k).testBit (48 + f) && (squaresInLine (48 + f) k).testBit (56 + f)) ||
        (a == 56 + f || k == 56 + f)) &&
      (!((squaresInBetween a k).testBit (8 + f) && (squaresInLine (8 + f) k).testBit f) ||
        (a == f || k == f))) = true := by
  decide!

theorem testBit_RANK18 : ∀ t, t < 64 →
    (RANK1 ||| RANK8).testBit t = (decide (t < 8) || decide (56 ≤ t)) := by
  decide

theorem testBit_doubleRank : ∀ t, t < 64 →
    (shl RANK3 (false.toNat * 24)).testBit t = (decide (16 ≤ t) && decide (t < 24)) ∧
    (shl RANK3 (true.toNat * 24)).testBit t = (decide (40 ≤ t) && decide (t < 48)) := by
  decide

theorem attack_ne_knight (i t : Nat) (hi : i < 64) (h : (knightAttacks (2 ^ i)).testBit t = true) :
    t ≠ i := by
  rw [knightAttacks_spec _ _ (Nat.pow_lt_pow_right (by decide) hi)] at h
  obtain ⟨s, -, hs, d, hd, r⟩ := h
  rw [testBit_two_pow_iff] at hs
  subst hs
  simp only [knightDirs, List.mem_cons, List.mem_singleton, List.not_mem_nil, or_false] at hd
  unfold onRay at r
  rcases hd with h | h | h | h | h | h | h | h <;> subst h <;> simp only [] at r <;> omega

theorem attack_ne_slide (dirs : List (Int × Int)) (hsub : ∀ d ∈ dirs, d ∈ kingDirs)
    (i pro t : Nat) (h : slideAttackSpec dirs (2 ^ i) pro t) : t ≠ i := by
  obtain ⟨d, hd, s, -, k, -, hk, hs, r, -⟩ := h
  rw [testBit_two_pow_iff] at hs
  subst hs
  have hd2 := hsub d hd
  simp only [kingDirs, List.mem_cons, List.mem_singleton, List.not_mem_nil, or_false] at hd2
  unfold onRay at r
  rcases hd2 with h | h | h | h | h | h | h | h <;> subst h <;> simp only [] at r <;> omega

theorem captureFlagOf_cases (sw : Switches) (dst enemyPieces : Nat) :
    captureFlagOf sw dst enemyPieces = 0 ∨ captureFlagOf sw dst enemyPieces = CM_FLAG_CAPTURE := by
  unfold captureFlagOf
  split_ifs <;> simp

theorem shape_piece (pos : HexaBitBoardPosition) (chance : Bool) (m : CMove)
    (hs : m.src < 64) (hd : m.dst < 64) (hne : m.dst ≠ m.src)
    (hf : m.flags = 0 ∨ m.flags = CM_FLAG_CAPTURE)
    (ho : pos.kings.testBit m.src = true ∨ pos.knights.testBit m.src = true ∨
      pos.bishopQueens.testBit m.src = true ∨ pos.rookQueens.testBit m.src = true)
    (hmy : (gmMyPieces pos chance).testBit m.src = true) :
    moveShape pos chance m := by
  refine ⟨hs, hd, hne.symm, ?_, ?_, ?_, ?_, fun _ _ => hmy, ?_, ?_, ?_⟩
  · intro h; rcases hf with h0 | h0 <;> rw [h0] at h <;> exact absurd h (by decide)
  · intro h; rcases hf with h0 | h0 <;> rw [h0] at h <;> exact absurd h (by decide)
  · intro h; rcases hf with h0 | h0 <;> rw [h0] at h <;> exact absurd h (by decide)
  · tauto
  · intro h; rcases hf with h0 | h0 <;> rw [h0] at h <;> exact absurd h (by decide)
  · intro h; rcases hf with h0 | h0 <;> rw [h0] at h <;> exact absurd h (by decide)
  · intro h; rcases hf with h0 | h0 <;> rw [h0] at h <;> exact absurd h (by decide)

theorem shape_pawn (pos : HexaBitBoardPosition) (chance : Bool) (m : CMove)
    (hs : m.src < 64) (hd : m.dst < 64) (hne : m.dst ≠ m.src)
    (hf : m.flags = 0 ∨ m.flags = CM_FLAG_DOUBLE_PAWN_PUSH ∨ m.flags = CM_FLAG_CAPTURE ∨
      (8 ≤ m.flags ∧ m.flags < 16))
    (hr : (8 ≤ m.flags ∧ m.flags < 16) ∨ (8 ≤ m.dst ∧ m.dst < 56))
    (hmy : (gmMyPieces pos chance).testBit m.src = true)
    (hpw : (gmAllPawns pos).testBit m.src = true) :
    moveShape pos chance m := by
  refine ⟨hs, hd, hne.symm, ?_, ?_, ?_, ?_, fun _ _ => hmy, fun _ => hpw, ?_, ?_⟩
  · intro h
    rcases hf with h0 | h0 | h0 | h0 <;> rw [h] at h0 <;> exact absurd h0 (by decide)
  · intro h
    rcases hf with h0 | h0 | h0 | h0 <;> rw [h] at h0 <;> exact absurd h0 (by decide)
  · intro h
    rcases hf with h0 | h0 | h0 | h0 <;> rw [h] at h0 <;> exact absurd h0 (by decide)
  · rcases hr with h | h
    · exact Or.inr (Or.inr (Or.inr (Or.inr (Or.inr (Or.inl h)))))
    · exact Or.inr (Or.inr (Or.inr (Or.inr (Or.inr (Or.inr (Or.inr h))))))
  · intro h
    rcases hf with h0 | h0 | h0 | h0 <;> rw [h] at h0 <;> exact absurd h0 (by decide)
  · intro h
    rcases hf with h0 | h0 | h0 | h0 <;> rw [h] at h0 <;> exact absurd h0 (by decide)

theorem mem_dst_flags (X s : Nat) (hX : X < 2 ^ 64) (f : Nat → Nat) (ms : List CMove)
    (m : CMove)
    (h : m ∈ forBits X (fun dst ms => addCompactMove ms s (bitScan dst) (f dst)) ms) :
    m ∈ ms ∨ (m.src = s ∧ m.dst < 64 ∧ X.testBit m.dst = true ∧ ∃ b, m.flags = f b) := by
  refine forBits_mem_bits (fun m => m.src = s ∧ m.dst < 64 ∧ X.testBit m.dst = true ∧
    ∃ b, m.flags = f b) _ X hX ?_ ms m h
  intro i hi hb ms m hm
  rw [mem_addCompactMove] at hm
  rcases hm with hm | hm
  · exact Or.inl hm
  · subst hm
    right
    simp only [bitScan_two_pow hi]
    exact ⟨trivial, hi, hb, _, rfl⟩

theorem shape_nested (pos : HexaBitBoardPosition) (chance : Bool) (P : Nat) (hP : P < 2 ^ 64)
    (F : Nat → Nat) (hF : ∀ b, F b < 2 ^ 64) (f : Nat → Nat)
    (hf : ∀ d, f d = 0 ∨ f d = CM_FLAG_CAPTURE)
    (ho : ∀ i, P.testBit i = true → (gmMyPieces pos chance).testBit i = true ∧
      (pos.kings.testBit i = true ∨ pos.knights.testBit i = true ∨
        pos.bishopQueens.testBit i = true ∨ pos.rookQueens.testBit i = true))
    (hne : ∀ i t, i < 64 → P.testBit i = true → (F (2 ^ i)).testBit t = true → t ≠ i)
    (ms : List CMove) (m : CMove)
    (h : m ∈ forBits P (fun piece ms =>
      forBits (F piece) (fun dst ms =>
        addCompactMove ms (bitScan piece) (bitScan dst) (f dst)) ms) ms) :
    m ∈ ms ∨ moveShape pos chance m := by
  refine forBits_mem_bits (fun m => moveShape pos chance m) _ P hP ?_ ms m h
  intro i hi hb ms m hm
  rcases mem_dst_flags _ _ (hF _) f ms m hm with h1 | ⟨h1, h2, h3, b, h4⟩
  · exact Or.inl h1
  · rw [bitScan_two_pow hi] at h1
    right
    apply shape_piece pos chance m (h1 ▸ hi) h2
    · rw [h1]; exact hne i _ hi hb h3
    · rw [h4]; exact hf b
    · rw [h1]; exact (ho i hb).2
    · rw [h1]; exact (ho i hb).1

theorem kingAttacks_zero : kingAttacks 0 = 0 := by decide

theorem shape_genKingMoves (sw : Switches) (pos : HexaBitBoardPosition) (chance : Bool)
    (myPieces threatened enemyPieces : Nat) (f : Nat → Nat)
    (hf : ∀ d, f d = 0 ∨ f d = CM_FLAG_CAPTURE) (hmy : myPieces < 2 ^ 64)
    (hm1 : ∀ q, myPieces.testBit q = true → (gmMyPieces pos chance).testBit q = true)
    (ms : List CMove) (m : CMove)
    (h : m ∈ forBits (kingAttacks (pos.kings &&& myPieces) &&& bnot (threatened ||| myPieces))
      (fun dst ms => addCompactMove ms (bitScan (pos.kings &&& myPieces)) (bitScan dst) (f dst))
      ms) :
    m ∈ ms ∨ moveShape pos chance m := by
  rcases mem_dst_flags _ _ (and_bnot_lt _ _) f ms m h with h | ⟨h1, h2, h3, b, h4⟩
  · exact Or.inl h
  · right
    have hk0 : pos.kings &&& myPieces ≠ 0 := by
      intro h0
      rw [h0, kingAttacks_zero, Nat.zero_and] at h3
      simp at h3
    obtain ⟨k1, k2⟩ := testBit_bitScan hk0 (Nat.and_lt_two_pow _ hmy)
    rw [← h1, Nat.testBit_and, Bool.and_eq_true] at k2
    rw [← h1] at k1
    rw [Nat.testBit_and, testBit_bnot, Nat.testBit_or] at h3
    simp only [Bool.and_eq_true, decide_eq_true_eq, Bool.not_eq_true',
      Bool.or_eq_false_iff] at h3
    apply shape_piece pos chance m k1 h2
    · intro e
      rw [e, k2.2] at h3
      exact absurd h3.2.2.2 (by decide)
    · rw [h4]; exact hf b
    · exact Or.inl k2.1
    · exact hm1 _ k2.2

theorem shape_genCastleMoves (pos : HexaBitBoardPosition) (threatened : Nat)
    (chance : Bool) (ms : List CMove) (m : CMove)
    (h : m ∈ genCastleMoves pos (gmAllPieces pos) threatened chance ms) :
    m ∈ ms ∨ moveShape pos chance m := by
  rw [mem_genCastleMoves] at h
  have f1 : CM_FLAG_KING_CASTLE ≠ CM_FLAG_QUEEN_CASTLE := by decide
  rcases h with h | ⟨⟨hr, he, -⟩, rfl⟩ | ⟨⟨hr, he, -⟩, rfl⟩
  · exact Or.inl h
  · right
    refine ⟨by cases chance <;> decide, by cases chance <;> decide,
      by cases chance <;> decide, by cases chance <;> decide, by cases chance <;> decide,
      fun h => absurd h (by cases chance <;> decide),
      Or.inr (Or.inr (Or.inr (Or.inr (Or.inl rfl)))), fun h => absurd rfl h,
      fun h => absurd h (by cases chance <;> decide),
      fun _ => ⟨hr, he _ (by cases chance <;> decide)⟩, fun h => absurd h f1⟩
  · right
    refine ⟨by cases chance <;> decide, by cases chance <;> decide,
      by cases chance <;> decide, by cases chance <;> decide, by cases chance <;> decide,
      fun h => absurd h (by cases chance <;> decide),
      Or.inr (Or.inr (Or.inr (Or.inr (Or.inl rfl)))), fun _ h => absurd rfl h,
      fun h => absurd h (by cases chance <;> decide),
      fun h => absurd h.symm f1, fun _ => ⟨hr, he _ (by cases chance <;> decide)⟩⟩

theorem shape_acpm (pos : HexaBitBoardPosition) (chance : Bool) (ms : List CMove)
    (s d f : Nat) (m : CMove) (hs : s < 64) (hd0 : d ≠ 0) (hd : d < 2 ^ 64)
    (hne : ∀ t, d.testBit t = true → t ≠ s)
    (hf : f = 0 ∨ f = CM_FLAG_DOUBLE_PAWN_PUSH ∨ f = CM_FLAG_CAPTURE)
    (hsm : (gmMyPieces pos chance).testBit s = true) (hsp : (gmAllPawns pos).testBit s = true)
    (h : m ∈ addCompactPawnMoves ms s d f) : m ∈ ms ∨ moveShape pos chance m := by
  obtain ⟨b1, b2⟩ := testBit_bitScan hd0 hd
  have hflag : ∀ p, (p = CM_FLAG_KNIGHT_PROMOTION ∨ p = CM_FLAG_BISHOP_PROMOTION ∨
      p = CM_FLAG_QUEEN_PROMOTION ∨ p = CM_FLAG_ROOK_PROMOTION) →
      8 ≤ f ||| p ∧ f ||| p < 16 := by
    intro p hp
    rcases hf with h | h | h <;> subst h <;> rcases hp with h | h | h | h <;> subst h <;> decide
  unfold addCompactPawnMoves at h
  simp only [] at h
  split at h
  · simp only [mem_addCompactMove] at h
    rcases h with (((h | h) | h) | h) | h
    · exact Or.inl h
    · subst h
      have := hflag _ (Or.inl rfl)
      exact Or.inr (shape_pawn pos chance _ hs b1 (hne _ b2) (Or.inr (Or.inr (Or.inr this)))
        (Or.inl this) hsm hsp)
    · subst h
      have := hflag _ (Or.inr (Or.inl rfl))
      exact Or.inr (shape_pawn pos chance _ hs b1 (hne _ b2) (Or.inr (Or.inr (Or.inr this)))
        (Or.inl this) hsm hsp)
    · subst h
      have := hflag _ (Or.inr (Or.inr (Or.inl rfl)))
      exact Or.inr (shape_pawn pos chance _ hs b1 (hne _ b2) (Or.inr (Or.inr (Or.inr this)))
        (Or.inl this) hsm hsp)
    · subst h
      have := hflag _ (Or.inr (Or.inr (Or.inr rfl)))
      exact Or.inr (shape_pawn pos chance _ hs b1 (hne _ b2) (Or.inr (Or.inr (Or.inr this)))
        (Or.inl this) hsm hsp)
  · rename_i hz
    simp only [mem_addCompactMove] at h
    rcases h with h | h
    · exact Or.inl h
    · subst h
      have hz0 : d &&& (RANK1 ||| RANK8) = 0 := not_not.mp hz
      have hr := (and_eq_zero_iff_testBit _ _).mp hz0 (bitScan d)
      have hr2 : (RANK1 ||| RANK8).testBit (bitScan d) = false := by
        cases hc : (RANK1 ||| RANK8).testBit (bitScan d)
        · rfl
        · exact absurd ⟨b2, hc⟩ hr
      rw [testBit_RANK18 _ b1] at hr2
      simp only [Bool.or_eq_false_iff, decide_eq_false_iff_not] at hr2
      have hr3 : 8 ≤ bitScan d ∧ bitScan d < 56 := ⟨by omega, by omega⟩
      refine Or.inr (shape_pawn pos chance _ hs b1 (hne _ b2) ?_ (Or.inr hr3) hsm hsp)
      rcases hf with h | h | h
      · exact Or.inl h
      · exact Or.inr (Or.inl h)
      · exact Or.inr (Or.inr (Or.inl h))

theorem shape_ite_acpm (pos : HexaBitBoardPosition) (chance : Bool) (ms : List CMove)
    (s d f : Nat) (m : CMove) (c : Prop) [Decidable c] (hs : s < 64) (hd0 : c → d ≠ 0)
    (hd : d < 2 ^ 64) (hne : ∀ t, d.testBit t = true → t ≠ s)
    (hf : f = 0 ∨ f = CM_FLAG_DOUBLE_PAWN_PUSH ∨ f = CM_FLAG_CAPTURE)
    (hsm : (gmMyPieces pos chance).testBit s = true) (hsp : (gmAllPawns pos).testBit s = true)
    (h : m ∈ (if c then addCompactPawnMoves ms s d f else ms)) :
    m ∈ ms ∨ moveShape pos chance m := by
  by_cases hc : c
  · rw [if_pos hc] at h
    exact shape_acpm pos chance ms s d f m hs (hd0 hc) hd hne hf hsm hsp h
  · rw [if_neg hc] at h
    exact Or.inl h

theorem shape_ite_acm (pos : HexaBitBoardPosition) (chance : Bool) (ms : List CMove)
    (s t f : Nat) (m : CMove) (c : Prop) [Decidable c]
    (hshape : c → moveShape pos chance (CMove.mk s t f))
    (h : m ∈ (if c then addCompactMove ms s t f else ms)) :
    m ∈ ms ∨ moveShape pos chance m := by
  by_cases hc : c
  · rw [if_pos hc, mem_addCompactMove] at h
    rcases h with h | h
    · exact Or.inl h
    · subst h; exact Or.inr (hshape hc)
  · rw [if_neg hc] at h
    exact Or.inl h

theorem shape_pawn_body_aux (pos : HexaBitBoardPosition) (chance : Bool) (d1 d2 w e s : Nat)
    (hs : s < 64)
    (hsm : (gmMyPieces pos chance).testBit s = true) (hsp : (gmAllPawns pos).testBit s = true)
    (h1 : d1 < 2 ^ 64 ∧ ∀ t, d1.testBit t = true → t ≠ s)
    (h2 : d2 < 2 ^ 64 ∧ ∀ t, d2.testBit t = true → t ≠ s)
    (hw : w < 2 ^ 64 ∧ ∀ t, w.testBit t = true → t ≠ s)
    (he : e < 2 ^ 64 ∧ ∀ t, e.testBit t = true → t ≠ s)
    (ms : List CMove) (m : CMove)
    (h : m ∈
      (let ms :=
        if d1 ≠ 0 then
          let ms := addCompactPawnMoves ms s d1 0
          if d2 ≠ 0 then addCompactPawnMoves ms s d2 CM_FLAG_DOUBLE_PAWN_PUSH
          else ms
        else ms
      let ms := if w ≠ 0 then addCompactPawnMoves ms s w CM_FLAG_CAPTURE else ms
      if e ≠ 0 then addCompactPawnMoves ms s e CM_FLAG_CAPTURE
      else ms)) :
    m ∈ ms ∨ moveShape pos chance m := by
  dsimp only [] at h
  rcases shape_ite_acpm pos chance _ s e _ m _ hs id he.1 he.2 (Or.inr (Or.inr rfl)) hsm hsp h
    with h | h
  · rcases shape_ite_acpm pos chance _ s w _ m _ hs id hw.1 hw.2 (Or.inr (Or.inr rfl)) hsm hsp
      h with h | h
    · by_cases c1 : d1 ≠ 0
      · rw [if_pos c1] at h
        rcases shape_ite_acpm pos chance _ s d2 _ m _ hs id h2.1 h2.2 (Or.inr (Or.inl rfl))
          hsm hsp h with h | h
        · exact shape_acpm pos chance ms s d1 0 m hs c1 h1.1 h1.2 (Or.inl rfl) hsm hsp h
        · exact Or.inr h
      · rw [if_neg c1] at h
        exact Or.inl h
    · exact Or.inr h
  · exact Or.inr h

theorem shape_genPawnMoves (pos : HexaBitBoardPosition) (myPawns allPieces enemyPieces
    pinned : Nat) (chance : Bool) (he : enemyPieces < 2 ^ 64)
    (hall : ∀ q, myPawns.testBit q = true → allPieces.testBit q = true)
    (hdisj : ∀ q, myPawns.testBit q = true → enemyPieces.testBit q = false)
    (hown : ∀ q, myPawns.testBit q = true →
      (gmMyPieces pos chance).testBit q = true ∧ (gmAllPawns pos).testBit q = true)
    (ms : List CMove) (m : CMove)
    (h : m ∈ genPawnMoves myPawns allPieces enemyPieces pinned chance ms) :
    m ∈ ms ∨ moveShape pos chance m := by
  unfold genPawnMoves at h
  refine forBits_mem_bits (fun m => moveShape pos chance m) _ _ (and_bnot_lt _ _) ?_ ms m h
  intro i hi hb ms m hm
  rw [Nat.testBit_and, Bool.and_eq_true] at hb
  have hA : ∀ x t, (x &&& bnot allPieces).testBit t = true → t ≠ i := by
    intro x t ht e
    rw [Nat.testBit_and, testBit_bnot, e, hall i hb.1] at ht
    simp at ht
  have hE : ∀ x t, (x &&& enemyPieces).testBit t = true → t ≠ i := by
    intro x t ht e
    rw [Nat.testBit_and, e, hdisj i hb.1] at ht
    simp at ht
  have := shape_pawn_body_aux pos chance _ _ _ _ (bitScan (2 ^ i))
    (by rw [bitScan_two_pow hi]; exact hi)
    (by rw [bitScan_two_pow hi]; exact (hown i hb.1).1)
    (by rw [bitScan_two_pow hi]; exact (hown i hb.1).2)
    ⟨and_bnot_lt _ _, by rw [bitScan_two_pow hi]; exact hA _⟩
    ⟨and_bnot_lt _ _, by rw [bitScan_two_pow hi]; exact hA _⟩
    ⟨Nat.and_lt_two_pow _ he, by rw [bitScan_two_pow hi]; exact hE _⟩
    ⟨Nat.and_lt_two_pow _ he, by rw [bitScan_two_pow hi]; exact hE _⟩ ms m hm
  exact this

theorem double_rank (chance : Bool) (x t : Nat) (hx : x < 2 ^ 64)
    (h : (if chance = WHITE then northOne (x &&& shl RANK3 (chance.toNat * 24))
      else southOne (x &&& shl RANK3 (chance.toNat * 24))).testBit t = true) :
    8 ≤ t ∧ t < 56 := by
  cases chance
  · simp only [WHITE, if_true] at h
    rw [northOne_spec _ _ (lt_of_le_of_lt Nat.and_le_left hx)] at h
    obtain ⟨s, hs, hb, r⟩ := h
    rw [Nat.testBit_and, Bool.and_eq_true, (testBit_doubleRank s hs).1] at hb
    simp only [Bool.and_eq_true, decide_eq_true_eq] at hb
    unfold onRay at r
    omega
  · simp only [WHITE, Bool.true_eq_false, if_false] at h
    rw [southOne_spec _ _ (lt_of_le_of_lt Nat.and_le_left hx)] at h
    obtain ⟨s, hs, hb, r⟩ := h
    rw [Nat.testBit_and, Bool.and_eq_true, (testBit_doubleRank s hs).2] at hb
    simp only [Bool.and_eq_true, decide_eq_true_eq] at hb
    unfold onRay at r
    omega

theorem diag_ne_core (chance : Bool) (i t : Nat) (hi : i < 64)
    (h : (if chance = WHITE then northWestOne (2 ^ i) else southWestOne (2 ^ i)).testBit t = true ∨
      (if chance = WHITE then northEastOne (2 ^ i) else southEastOne (2 ^ i)).testBit t = true) :
    t ≠ i := by
  have hlt : 2 ^ i < 2 ^ 64 := Nat.pow_lt_pow_right (by decide) hi
  cases chance
  · simp only [WHITE, if_true] at h
    rw [northWestOne_spec _ _ hlt, northEastOne_spec _ _ hlt] at h
    rcases h with ⟨s, -, hs, r⟩ | ⟨s, -, hs, r⟩ <;>
      (rw [testBit_two_pow_iff] at hs; subst hs; unfold onRay at r; omega)
  · simp only [WHITE, Bool.true_eq_false, if_false] at h
    rw [southWestOne_spec _ _ hlt, southEastOne_spec _ _ hlt] at h
    rcases h with ⟨s, -, hs, r⟩ | ⟨s, -, hs, r⟩ <;>
      (rw [testBit_two_pow_iff] at hs; subst hs; unfold onRay at r; omega)

theorem shape_pinned_pawn_aux (pos : HexaBitBoardPosition) (chance : Bool)
    (d1 d2 c enemyPieces s : Nat) (hs : s < 64)
    (hsm : (gmMyPieces pos chance).testBit s = true) (hsp : (gmAllPawns pos).testBit s = true)
    (h1 : d1 ≠ 0 → moveShape pos chance (CMove.mk s (bitScan d1) 0))
    (h2 : d1 ≠ 0 → d2 ≠ 0 →
      moveShape pos chance (CMove.mk s (bitScan d2) CM_FLAG_DOUBLE_PAWN_PUSH))
    (hc : c < 2 ^ 64 ∧ ∀ t, c.testBit t = true → t ≠ s)
    (ms : List CMove) (m : CMove)
    (h : m ∈
      (let ms :=
        if d1 ≠ 0 then
          let ms := addCompactMove ms s (bitScan d1) 0
          if d2 ≠ 0 then addCompactMove ms s (bitScan d2) CM_FLAG_DOUBLE_PAWN_PUSH
          else ms
        else ms
      if c &&& enemyPieces ≠ 0 then addCompactPawnMoves ms s c CM_FLAG_CAPTURE
      else ms)) :
    m ∈ ms ∨ moveShape pos chance m := by
  dsimp only [] at h
  have hc0 : c &&& enemyPieces ≠ 0 → c ≠ 0 := by
    intro h0 h1; rw [h1, Nat.zero_and] at h0; exact h0 rfl
  rcases shape_ite_acpm pos chance _ s c _ m _ hs hc0 hc.1 hc.2 (Or.inr (Or.inr rfl)) hsm hsp
    h with h | h
  · by_cases c1 : d1 ≠ 0
    · rw [if_pos c1] at h
      rcases shape_ite_acm pos chance _ s _ _ m _ (h2 c1) h with h | h
      · rw [mem_addCompactMove] at h
        rcases h with h | h
        · exact Or.inl h
        · subst h; exact Or.inr (h1 c1)
      · exact Or.inr h
    · rw [if_neg c1] at h
      exact Or.inl h
  · exact Or.inr h

theorem shape_genPinnedPawnMoves (pos : HexaBitBoardPosition) (myPawns allPieces enemyPieces
    pinned kingIndex : Nat) (chance : Bool) (hp : pinned < 2 ^ 64)
    (hall : ∀ q, myPawns.testBit q = true → allPieces.testBit q = true)
    (hrank : ∀ i t, i < 64 → (myPawns &&& pinned).testBit i = true →
      ((if chance = WHITE then northOne (2 ^ i) else southOne (2 ^ i)) &&&
        sqsInLine i kingIndex &&& bnot allPieces).testBit t = true → 8 ≤ t ∧ t < 56)
    (hown : ∀ q, myPawns.testBit q = true →
      (gmMyPieces pos chance).testBit q = true ∧ (gmAllPawns pos).testBit q = true)
    (ms : List CMove) (m : CMove)
    (h : m ∈ genPinnedPawnMoves myPawns allPieces enemyPieces pinned kingIndex chance ms) :
    m ∈ ms ∨ moveShape pos chance m := by
  unfold genPinnedPawnMoves at h
  refine forBits_mem_bits (fun m => moveShape pos chance m) _ _ (Nat.and_lt_two_pow _ hp) ?_
    ms m h
  intro i hi hb ms m hm
  have hb2 := hb
  rw [Nat.testBit_and, Bool.and_eq_true] at hb2
  have hA : ∀ x t, (x &&& bnot allPieces).testBit t = true → t ≠ i := by
    intro x t ht e
    rw [Nat.testBit_and, testBit_bnot, e, hall i hb2.1] at ht
    simp at ht
  have hbs : bitScan (2 ^ i) = i := bitScan_two_pow hi
  refine shape_pinned_pawn_aux pos chance _ _ _ _ (bitScan (2 ^ i))
    (by rw [hbs]; exact hi) (by rw [hbs]; exact (hown i hb2.1).1)
    (by rw [hbs]; exact (hown i hb2.1).2) ?_ ?_ ?_ ms m hm
  · intro c1
    rw [hbs] at c1 ⊢
    obtain ⟨b1, b2⟩ := testBit_bitScan c1 (and_bnot_lt _ _)
    exact shape_pawn pos chance _ hi b1 (hA _ _ b2) (Or.inl rfl)
      (Or.inr (hrank i _ hi hb b2)) (hown i hb2.1).1 (hown i hb2.1).2
  · intro _ c2
    rw [hbs] at c2 ⊢
    obtain ⟨b1, b2⟩ := testBit_bitScan c2 (and_bnot_lt _ _)
    have b3 := b2
    rw [Nat.testBit_and, Bool.and_eq_true] at b3
    exact shape_pawn pos chance _ hi b1 (hA _ _ b2) (Or.inr (Or.inl rfl))
      (Or.inr (double_rank chance _ _ (and_bnot_lt _ _) b3.1)) (hown i hb2.1).1
      (hown i hb2.1).2
  · rw [hbs]
    refine ⟨Nat.or_lt_two_pow (Nat.and_lt_two_pow _ (squaresInLine_lt _ _))
      (Nat.and_lt_two_pow _ (squaresInLine_lt _ _)), ?_⟩
    intro t ht
    simp only [Nat.testBit_or, Nat.testBit_and, Bool.or_eq_true, Bool.and_eq_true] at ht
    apply diag_ne_core chance i t hi
    rcases ht with ht | ht
    · exact Or.inl ht.1
    · exact Or.inr ht.1

theorem southOne_lt (x : Nat) (hx : x < 2 ^ 64) : southOne x < 2 ^ 64 :=
  shiftRight_lt x 8 hx

theorem northOne_lt (x : Nat) : northOne x < 2 ^ 64 := by
  unfold northOne shl; exact Nat.mod_lt _ (by decide)

theorem shape_genEnPassentMoves (pos : HexaBitBoardPosition) (myPawns allPieces enemyRooks
    myKing pinned kingIndex : Nat) (chance : Bool)
    (hown : ∀ q, myPawns.testBit q = true →
      (gmMyPieces pos chance).testBit q = true ∧ (gmAllPawns pos).testBit q = true)
    (ms : List CMove) (m : CMove)
    (h : m ∈ genEnPassentMoves (enPassentTargetOf pos.enPassent chance) myPawns allPieces
      enemyRooks myKing pinned kingIndex chance ms) :
    m ∈ ms ∨ moveShape pos chance m := by
  rw [mem_genEnPassentMoves] at h
  rcases h with h | ⟨hT, i, hi, hcap, -, rfl⟩
  · exact Or.inl h
  · right
    obtain ⟨e1, e2⟩ := enPassentTargetOf_single pos.enPassent chance
    obtain ⟨b1, b2⟩ := testBit_bitScan hT e1
    have hne : bitScan (enPassentTargetOf pos.enPassent chance) ≠ i := by
      unfold epCapturersOf enPassentCapturedPieceOf at hcap
      rw [Nat.testBit_and, Bool.and_eq_true, Nat.testBit_or, Bool.or_eq_true] at hcap
      have hcl : (if chance = WHITE then southOne (enPassentTargetOf pos.enPassent chance)
          else northOne (enPassentTargetOf pos.enPassent chance)) < 2 ^ 64 := by
        split_ifs
        · exact southOne_lt _ e1
        · exact northOne_lt _
      rw [eastOne_spec _ _ hcl, westOne_spec _ _ hcl] at hcap
      have key : ∀ s, (if chance = WHITE then southOne (enPassentTargetOf pos.enPassent chance)
          else northOne (enPassentTargetOf pos.enPassent chance)).testBit s = true →
          s / 8 ≠ bitScan (enPassentTargetOf pos.enPassent chance) / 8 := by
        intro s hs
        cases chance
        · simp only [WHITE, if_true] at hs
          rw [southOne_spec _ _ e1] at hs
          obtain ⟨u, -, hu, r⟩ := hs
          rw [e2 _ _ b2 hu]
          unfold onRay at r
          omega
        · simp only [WHITE, Bool.true_eq_false, if_false] at hs
          rw [northOne_spec _ _ e1] at hs
          obtain ⟨u, -, hu, r⟩ := hs
          rw [e2 _ _ b2 hu]
          unfold onRay at r
          omega
      rcases hcap.1 with ⟨s, -, hs, r⟩ | ⟨s, -, hs, r⟩
      · have := key s hs
        unfold onRay at r
        intro e
        omega
      · have := key s hs
        unfold onRay at r
        intro e
        omega
    have f1 : CM_FLAG_EP_CAPTURE ≠ CM_FLAG_KING_CASTLE := by decide
    have f2 : CM_FLAG_EP_CAPTURE ≠ CM_FLAG_QUEEN_CASTLE := by decide
    have hmine : myPawns.testBit i = true := by
      unfold epCapturersOf at hcap
      rw [Nat.testBit_and, Bool.and_eq_true] at hcap
      exact hcap.2
    exact ⟨hi, b1, hne.symm, fun h => absurd h f1, fun h => absurd h f2,
      fun _ => b2, Or.inr (Or.inr (Or.inr (Or.inr (Or.inr (Or.inr (Or.inl rfl)))))),
      fun _ _ => (hown i hmine).1, fun _ => (hown i hmine).2,
      fun h => absurd h f1, fun h => absurd h f2⟩

theorem attack_ne_bishop (i pro t : Nat) (hi : i < 64)
    (h : (bishopAttacks (2 ^ i) pro).testBit t = true) : t ≠ i := by
  unfold bishopAttacks at h
  rw [bishopAttacks_slideSpec _ _ _ (Nat.pow_lt_pow_right (by decide) hi)] at h
  exact attack_ne_slide bishopDirs bishopDirs_sub i pro t h

theorem attack_ne_rook (i pro t : Nat) (hi : i < 64)
    (h : (rookAttacks (2 ^ i) pro).testBit t = true) : t ≠ i := by
  unfold rookAttacks at h
  rw [rookAttacks_slideSpec _ _ _ (Nat.pow_lt_pow_right (by decide) hi)] at h
  exact attack_ne_slide rookDirs rookDirs_sub i pro t h

theorem shape_check_pawn_aux (pos : HexaBitBoardPosition) (chance : Bool)
    (d1 D2 C E s safeSquares : Nat) (hs : s < 64)
    (hsm : (gmMyPieces pos chance).testBit s = true) (hsp : (gmAllPawns pos).testBit s = true)
    (h1 : d1 < 2 ^ 64 ∧ ∀ t, d1.testBit t = true → t ≠ s)
    (h2 : D2 ≠ 0 → moveShape pos chance (CMove.mk s (bitScan D2) CM_FLAG_DOUBLE_PAWN_PUSH))
    (hC : C < 2 ^ 64 ∧ ∀ t, C.testBit t = true → t ≠ s)
    (hE : E ≠ 0 → moveShape pos chance (CMove.mk s (bitScan E) CM_FLAG_EP_CAPTURE))
    (ms : List CMove) (m : CMove)
    (h : m ∈
      (let ms :=
        if d1 ≠ 0 then
          if d1 &&& safeSquares ≠ 0 then addCompactPawnMoves ms s d1 0
          else
            if D2 ≠ 0 then addCompactMove ms s (bitScan D2) CM_FLAG_DOUBLE_PAWN_PUSH
            else ms
        else ms
      let ms := if C ≠ 0 then addCompactPawnMoves ms s C CM_FLAG_CAPTURE else ms
      if E ≠ 0 then addCompactMove ms s (bitScan E) CM_FLAG_EP_CAPTURE
      else ms)) :
    m ∈ ms ∨ moveShape pos chance m := by
  dsimp only [] at h
  rcases shape_ite_acm pos chance _ s _ _ m _ hE h with h | h
  · rcases shape_ite_acpm pos chance _ s C _ m _ hs id hC.1 hC.2 (Or.inr (Or.inr rfl)) hsm hsp
      h with h | h
    · by_cases c1 : d1 ≠ 0
      · rw [if_pos c1] at h
        by_cases c2 : d1 &&& safeSquares ≠ 0
        · rw [if_pos c2] at h
          exact shape_acpm pos chance ms s d1 0 m hs c1 h1.1 h1.2 (Or.inl rfl) hsm hsp h
        · rw [if_neg c2] at h
          exact shape_ite_acm pos chance _ s _ _ m _ h2 h
      · rw [if_neg c1] at h
        exact Or.inl h
    · exact Or.inr h
  · exact Or.inr h

theorem shape_generateMovesOutOfCheck (pos : HexaBitBoardPosition)
    (allPawns allPieces myPieces enemyPieces pinned threatened : Nat)
    (chance : Bool) (he : enemyPieces < 2 ^ 64) (hmy : myPieces < 2 ^ 64)
    (hall : ∀ q, allPawns.testBit q = true → allPieces.testBit q = true)
    (hdisj : ∀ q, myPieces.testBit q = true → enemyPieces.testBit q = false)
    (hm1 : ∀ q, myPieces.testBit q = true → (gmMyPieces pos chance).testBit q = true)
    (hp1 : ∀ q, allPawns.testBit q = true → (gmAllPawns pos).testBit q = true)
    (m : CMove)
    (h : m ∈ generateMovesOutOfCheck pos [] allPawns allPieces myPieces enemyPieces pinned
      threatened (bitScan (pos.kings &&& myPieces)) chance) :
    moveShape pos chance m := by
  have hA := checkAttackers_lt pos allPawns allPieces myPieces enemyPieces chance he
  have hsafe : checkAttackers pos allPawns allPieces myPieces enemyPieces chance |||
      sqsInBetween (bitScan (pos.kings &&& myPieces))
        (bitScan (checkAttackers pos allPawns allPieces myPieces enemyPieces chance)) < 2 ^ 64 :=
    Nat.or_lt_two_pow hA (squaresInBetween_lt _ _)
  have hking : ∀ ms : List CMove, m ∈ forBits
      (kingAttacks (pos.kings &&& myPieces) &&& bnot (threatened ||| myPieces))
      (fun dst ms => addCompactMove ms (bitScan (pos.kings &&& myPieces)) (bitScan dst) 0) [] →
      moveShape pos chance m := by
    intro _ h
    rcases shape_genKingMoves (Switches.mk false false) pos chance myPieces threatened
      enemyPieces (fun _ => 0) (fun _ => Or.inl rfl) hmy hm1 [] m h with h | h
    · exact absurd h (List.not_mem_nil _)
    · exact h
  unfold generateMovesOutOfCheck at h
  dsimp only [] at h
  by_cases hs2 : isSingular (checkAttackers pos allPawns allPieces myPieces enemyPieces chance)
      = true
  · have hs := hs2
    unfold checkAttackers at hs
    dsimp only [] at hs
    rw [if_pos hs] at h
    have hsub : ∀ (X i : Nat), (X &&& (myPieces &&& bnot pinned)).testBit i = true →
        X.testBit i = true := by
      intro X i hi
      rw [Nat.testBit_and, Bool.and_eq_true] at hi
      exact hi.1
    have hsub2 : ∀ (X i : Nat), (X &&& (myPieces &&& bnot pinned)).testBit i = true →
        (gmMyPieces pos chance).testBit i = true := by
      intro X i hi
      simp only [Nat.testBit_and, Bool.and_eq_true] at hi
      exact hm1 i hi.2.1
    rcases shape_nested pos chance _ (Nat.and_lt_two_pow _ (and_bnot_lt _ _))
      (fun rook => rookAttacks rook (bnot allPieces) &&&
        (checkAttackers pos allPawns allPieces myPieces enemyPieces chance |||
          sqsInBetween (bitScan (pos.kings &&& myPieces))
            (bitScan (checkAttackers pos allPawns allPieces myPieces enemyPieces chance))))
      (fun b => Nat.and_lt_two_pow _ hsafe) (fun _ => 0) (fun _ => Or.inl rfl)
      (fun i hi => ⟨hsub2 _ i hi, Or.inr (Or.inr (Or.inr (hsub _ i hi)))⟩)
      (fun i t hi _ ht => attack_ne_rook i _ t hi
        (by rw [Nat.testBit_and, Bool.and_eq_true] at ht; exact ht.1)) _ m h with h | h
    · rcases shape_nested pos chance _ (Nat.and_lt_two_pow _ (and_bnot_lt _ _))
        (fun bishop => bishopAttacks bishop (bnot allPieces) &&&
          (checkAttackers pos allPawns allPieces myPieces enemyPieces chance |||
            sqsInBetween (bitScan (pos.kings &&& myPieces))
              (bitScan (checkAttackers pos allPawns allPieces myPieces enemyPieces chance))))
        (fun b => Nat.and_lt_two_pow _ hsafe) (fun _ => 0) (fun _ => Or.inl rfl)
        (fun i hi => ⟨hsub2 _ i hi, Or.inr (Or.inr (Or.inl (hsub _ i hi)))⟩)
        (fun i t hi _ ht => attack_ne_bishop i _ t hi
          (by rw [Nat.testBit_and, Bool.and_eq_true] at ht; exact ht.1)) _ m h with h | h
      · rcases shape_nested pos chance _ (Nat.and_lt_two_pow _ (and_bnot_lt _ _))
          (fun knight => knightAttacks knight &&&
            (checkAttackers pos allPawns allPieces myPieces enemyPieces chance |||
              sqsInBetween (bitScan (pos.kings &&& myPieces))
                (bitScan (checkAttackers pos allPawns allPieces myPieces enemyPieces chance))))
          (fun b => Nat.and_lt_two_pow _ hsafe) (fun _ => 0) (fun _ => Or.inl rfl)
          (fun i hi => ⟨hsub2 _ i hi, Or.inr (Or.inl (hsub _ i hi))⟩)
          (fun i t hi _ ht => attack_ne_knight i t hi
            (by rw [Nat.testBit_and, Bool.and_eq_true] at ht; exact ht.1)) _ m h with h | h
        · have hp := forBits_mem_bits (fun m => moveShape pos chance m)
            _ _ (Nat.and_lt_two_pow _ (and_bnot_lt _ _))
            (by
              intro i hi hb ms m hm
              have hbs : bitScan (2 ^ i) = i := bitScan_two_pow hi
              have hb2 := hb
              simp only [Nat.testBit_and, Bool.and_eq_true] at hb2
              have hA : ∀ x t, (x &&& bnot allPieces).testBit t = true → t ≠ i := by
                intro x t ht e
                rw [Nat.testBit_and, testBit_bnot, e, hall i hb2.1] at ht
                simp at ht
              have hD : ∀ t, ((if chance = WHITE then northWestOne (2 ^ i)
                    else southWestOne (2 ^ i)) |||
                  (if chance = WHITE then northEastOne (2 ^ i)
                    else southEastOne (2 ^ i))).testBit t = true → t ≠ i := by
                intro t ht
                rw [Nat.testBit_or, Bool.or_eq_true] at ht
                exact diag_ne_core chance i t hi ht
              have hsm : (gmMyPieces pos chance).testBit i = true := hm1 i hb2.2.1
              have hsp : (gmAllPawns pos).testBit i = true := hp1 i hb2.1
              refine shape_check_pawn_aux pos chance _ _ _ _ (bitScan (2 ^ i)) _
                (by rw [hbs]; exact hi) (by rw [hbs]; exact hsm) (by rw [hbs]; exact hsp)
                ⟨and_bnot_lt _ _, by rw [hbs]; exact hA _⟩ ?_
                ⟨Nat.and_lt_two_pow _ hsafe, ?_⟩ ?_ ms m hm
              · intro c2
                rw [hbs]
                obtain ⟨b1, b2⟩ := testBit_bitScan c2 (and_bnot_lt _ _)
                have b3 := b2
                simp only [Nat.testBit_and, Bool.and_eq_true] at b3
                exact shape_pawn pos chance _ hi b1 (hA _ _ b2) (Or.inr (Or.inl rfl))
                  (Or.inr (double_rank chance _ _ (and_bnot_lt _ _) b3.1.1)) hsm hsp
              · rw [hbs]
                intro t ht
                simp only [Nat.testBit_and, Bool.and_eq_true] at ht
                exact hD t ht.1.1
              · intro cE
                rw [hbs]
                have hlt : (if enPassentCapturedPieceOf (enPassentTargetOf pos.enPassent chance)
                    chance ≠ checkAttackers pos allPawns allPieces myPieces enemyPieces chance
                    then 0 else enPassentTargetOf pos.enPassent chance) < 2 ^ 64 := by
                  split_ifs
                  · decide
                  · exact (enPassentTargetOf_single _ _).1
                obtain ⟨b1, b2⟩ := testBit_bitScan cE (Nat.and_lt_two_pow _ hlt)
                rw [Nat.testBit_and, Bool.and_eq_true] at b2
                have b4 := b2.2
                change (if enPassentCapturedPieceOf (enPassentTargetOf pos.enPassent chance)
                    chance ≠ checkAttackers pos allPawns allPieces myPieces enemyPieces chance
                    then 0 else enPassentTargetOf pos.enPassent chance).testBit _ = true at b4
                by_cases hc : enPassentCapturedPieceOf (enPassentTargetOf pos.enPassent chance)
                    chance ≠ checkAttackers pos allPawns allPieces myPieces enemyPieces chance
                · rw [if_pos hc] at b4
                  simp at b4
                rw [if_neg hc] at b4
                have f1 : CM_FLAG_EP_CAPTURE ≠ CM_FLAG_KING_CASTLE := by decide
                have f2 : CM_FLAG_EP_CAPTURE ≠ CM_FLAG_QUEEN_CASTLE := by decide
                exact ⟨hi, b1, (hD _ b2.1).symm, fun h => absurd h f1, fun h => absurd h f2,
                  fun _ => b4, Or.inr (Or.inr (Or.inr (Or.inr (Or.inr (Or.inr (Or.inl rfl)))))),
                  fun _ _ => hsm, fun _ => hsp, fun h => absurd h f1, fun h => absurd h f2⟩)
            _ m h
          rcases hp with h | h
          · exact hking [] h
          · exact h
        · exact h
      · exact h
    · exact h
  · unfold checkAttackers at hs2
    dsimp only [] at hs2
    rw [if_neg hs2] at h
    exact hking [] h

theorem my_enemy_disjoint (pos : HexaBitBoardPosition) (chance : Bool) (q : Nat)
    (h : (gmMyPieces pos chance).testBit q = true) :
    (gmEnemyPieces pos chance).testBit q = false := by
  unfold gmMyPieces at h
  unfold gmEnemyPieces
  cases chance
  · simp only [WHITE, if_true] at h ⊢
    rw [Nat.testBit_and, testBit_bnot, h]
    simp
  · simp only [WHITE, Bool.true_eq_false, if_false] at h ⊢
    rw [Nat.testBit_and, testBit_bnot] at h
    simp only [Bool.and_eq_true, decide_eq_true_eq, Bool.not_eq_true'] at h
    exact h.2.2

theorem pinned_pawn_rank (pos : HexaBitBoardPosition) (chance : Bool) (kSq : Nat)
    (hwp : pos.whitePieces < 2 ^ 64) (hk : kSq < 64)
    (hking : pos.kings &&& gmMyPieces pos chance = BIT kSq) (i t : Nat) (hi : i < 64)
    (hb : (gmAllPawns pos &&& gmMyPieces pos chance &&& gmPinned pos chance).testBit i = true)
    (ht : ((if chance = WHITE then northOne (2 ^ i) else southOne (2 ^ i)) &&&
      sqsInLine i kSq &&& bnot (gmAllPieces pos)).testBit t = true) :
    8 ≤ t ∧ t < 56 := by
  obtain ⟨hmy, hen, hpw⟩ := gm_bounds pos chance hwp
  have hB : pos.bishopQueens &&& gmEnemyPieces pos chance < 2 ^ 64 := Nat.and_lt_two_pow _ hen
  have hR : pos.rookQueens &&& gmEnemyPieces pos chance < 2 ^ 64 := Nat.and_lt_two_pow _ hen
  have hki : gmKingIndex pos chance = kSq := by
    unfold gmKingIndex; rw [hking, BIT_eq_two_pow hk, bitScan_two_pow hk]
  simp only [Nat.testBit_and, Bool.and_eq_true] at hb ht
  obtain ⟨⟨hpawn, -⟩, hpin⟩ := hb
  obtain ⟨⟨hstep, hline⟩, hempty⟩ := ht
  unfold gmAllPawns at hpawn
  rw [Nat.testBit_and, testBit_RANKS2TO7] at hpawn
  simp only [Bool.and_eq_true, decide_eq_true_eq] at hpawn
  have hpp := pinned_has_pinner _ _ _ _ _ (gmKingIndex pos chance) i (hki ▸ hk) hB hR hpin
  rw [hki] at hpp
  obtain ⟨-, -, a, ha, hE, hbt, -, -⟩ := hpp
  rw [← squaresInBetween_eq_betweenSpec a kSq ha hk] at hbt
  have hallA : (gmAllPieces pos).testBit a = true := by
    unfold gmAllPieces
    simp only [Nat.testBit_or, Nat.testBit_and, Bool.or_eq_true, Bool.and_eq_true] at hE ⊢
    rcases hE with h | h
    · exact Or.inl (Or.inr h.1)
    · exact Or.inr h.1
  have hallK : (gmAllPieces pos).testBit kSq = true := by
    have h1 : (pos.kings &&& gmMyPieces pos chance).testBit kSq = true := by
      rw [hking, testBit_BIT]; simp [hk]
    rw [Nat.testBit_and, Bool.and_eq_true] at h1
    unfold gmAllPieces
    simp only [Nat.testBit_or, Bool.or_eq_true]
    exact Or.inl (Or.inl (Or.inl (Or.inl h1.1)))
  have hne : (gmAllPieces pos).testBit t = false := by
    rw [testBit_bnot] at hempty
    simp only [Bool.and_eq_true, decide_eq_true_eq, Bool.not_eq_true'] at hempty
    exact hempty.2
  have hlt : 2 ^ i < 2 ^ 64 := Nat.pow_lt_pow_right (by decide) hi
  have hfact := fun f (hf : f < 8) =>
    List.all_eq_true.mp (List.all_eq_true.mp (List.all_eq_true.mp pinned_push_last_rank a
      (List.mem_range.mpr ha)) kSq (List.mem_range.mpr hk)) f (List.mem_range.mpr hf)
  unfold sqsInLine at hline
  by_contra hcon
  cases chance
  · simp only [WHITE, if_true] at hstep
    rw [northOne_spec _ _ hlt] at hstep
    obtain ⟨s, -, hs, r⟩ := hstep
    rw [testBit_two_pow_iff] at hs
    subst hs
    unfold onRay at r
    have e1 : t = s + 8 := by omega
    have e2 : 48 ≤ s := by omega
    have h := hfact (s - 48) (by omega)
    rw [show 48 + (s - 48) = s by omega, show 56 + (s - 48) = t by omega] at h
    simp only [Bool.and_eq_true, Bool.or_eq_true, Bool.not_eq_true', beq_iff_eq,
      Bool.and_eq_false_iff] at h
    rcases h.1 with (h | h) | h | h
    · rw [hbt] at h; exact absurd h (by decide)
    · rw [hline] at h; exact absurd h (by decide)
    · rw [← h, hallA] at hne; exact absurd hne (by decide)
    · rw [← h, hallK] at hne; exact absurd hne (by decide)
  · simp only [WHITE, Bool.true_eq_false, if_false] at hstep
    rw [southOne_spec _ _ hlt] at hstep
    obtain ⟨s, -, hs, r⟩ := hstep
    rw [testBit_two_pow_iff] at hs
    subst hs
    unfold onRay at r
    have e1 : s = t + 8 := by omega
    have e2 : t < 8 := by omega
    have h := hfact t e2
    rw [show 8 + t = s by omega] at h
    simp only [Bool.and_eq_true, Bool.or_eq_true, Bool.not_eq_true', beq_iff_eq,
      Bool.and_eq_false_iff] at h
    rcases h.2 with (h | h) | h | h
    · rw [hbt] at h; exact absurd h (by decide)
    · rw [hline] at h; exact absurd h (by decide)
    · rw [← h, hallA] at hne; exact absurd hne (by decide)
    · rw [← h, hallK] at hne; exact absurd hne (by decide)

/-- Every move of `generateMoves` has the shape `moveShape`. -/
theorem generateMoves_shape (sw : Switches) (pos : HexaBitBoardPosition) (chance : Bool)
    (kSq : Nat) (hwp : pos.whitePieces < 2 ^ 64) (hk : kSq < 64)
    (hking : pos.kings &&& gmMyPieces pos chance = BIT kSq)
    (m : CMove) (hm : m ∈ generateMoves sw pos chance) : moveShape pos chance m := by
  obtain ⟨hmy, hen, hpw⟩ := gm_bounds pos chance hwp
  have hB : pos.bishopQueens &&& gmEnemyPieces pos chance < 2 ^ 64 := Nat.and_lt_two_pow _ hen
  have hR : pos.rookQueens &&& gmEnemyPieces pos chance < 2 ^ 64 := Nat.and_lt_two_pow _ hen
  have hki : gmKingIndex pos chance = kSq := by
    unfold gmKingIndex; rw [hking, BIT_eq_two_pow hk, bitScan_two_pow hk]
  have hpl : gmPinned pos chance < 2 ^ 64 := findPinnedPieces_lt _ _ _ _ _ _ hB hR
  have hall : ∀ q, (gmAllPawns pos).testBit q = true → (gmAllPieces pos).testBit q = true := by
    intro q h
    unfold gmAllPieces
    simp only [Nat.testBit_or, Bool.or_eq_true]
    exact Or.inl (Or.inl (Or.inl (Or.inr h)))
  have hall2 : ∀ q, (gmAllPawns pos &&& gmMyPieces pos chance).testBit q = true →
      (gmAllPieces pos).testBit q = true := by
    intro q h
    rw [Nat.testBit_and, Bool.and_eq_true] at h
    exact hall q h.1
  have hdisj2 : ∀ q, (gmAllPawns pos &&& gmMyPieces pos chance).testBit q = true →
      (gmEnemyPieces pos chance).testBit q = false := by
    intro q h
    rw [Nat.testBit_and, Bool.and_eq_true] at h
    exact my_enemy_disjoint pos chance q h.2
  have hsub : ∀ (X Y i : Nat), (X &&& gmMyPieces pos chance &&& Y).testBit i = true →
      X.testBit i = true := by
    intro X Y i hi
    simp only [Nat.testBit_and, Bool.and_eq_true] at hi
    exact hi.1.1
  have hsub2 : ∀ (X Y i : Nat), (X &&& gmMyPieces pos chance &&& Y).testBit i = true →
      (gmMyPieces pos chance).testBit i = true := by
    intro X Y i hi
    simp only [Nat.testBit_and, Bool.and_eq_true] at hi
    exact hi.1.2
  have hown : ∀ q, (gmAllPawns pos &&& gmMyPieces pos chance).testBit q = true →
      (gmMyPieces pos chance).testBit q = true ∧ (gmAllPawns pos).testBit q = true := by
    intro q h
    rw [Nat.testBit_and, Bool.and_eq_true] at h
    exact ⟨h.2, h.1⟩
  unfold generateMoves at hm
  dsimp only [] at hm
  by_cases hc : gmThreatened pos chance &&& (pos.kings &&& gmMyPieces pos chance) ≠ 0
  · rw [if_pos hc] at hm
    exact shape_generateMovesOutOfCheck pos _ _ _ _ _ _ chance hen hmy hall
      (my_enemy_disjoint pos chance) (fun _ h => h) (fun _ h => h) m hm
  · rw [if_neg hc] at hm
    rcases shape_genCastleMoves pos _ chance _ m hm with hm | h
    · rcases shape_genPawnMoves pos _ _ _ _ chance hen hall2 hdisj2 hown _ m hm with hm | h
      · rcases shape_genPinnedPawnMoves pos _ _ _ _ _ chance hpl hall2
          (fun i t hi hb ht => pinned_pawn_rank pos chance kSq hwp hk hking i t hi hb
            (by rw [hki] at ht; exact ht)) hown _ m hm with hm | h
        · rcases shape_genEnPassentMoves pos _ _ _ _ _ _ chance hown _ m hm with hm | h
          · rcases shape_nested pos chance _ (and_bnot_lt _ _)
              (fun rook => rookAttacks rook (bnot (gmAllPieces pos)) &&&
                bnot (gmMyPieces pos chance))
              (fun b => and_bnot_lt _ _)
              (fun dst => captureFlagOf sw dst (gmEnemyPieces pos chance))
              (fun d => captureFlagOf_cases sw d _)
              (fun i hi => ⟨hsub2 _ _ i hi, Or.inr (Or.inr (Or.inr (hsub _ _ i hi)))⟩)
              (fun i t hi _ ht => attack_ne_rook i _ t hi
                (by rw [Nat.testBit_and, Bool.and_eq_true] at ht; exact ht.1)) _ m hm
              with hm | h
            · rcases shape_nested pos chance _ (Nat.and_lt_two_pow _ hpl)
                (fun rook => rookAttacks rook (bnot (gmAllPieces pos)) &&&
                  bnot (gmMyPieces pos chance) &&&
                  sqsInLine (bitScan rook) (gmKingIndex pos chance))
                (fun b => Nat.and_lt_two_pow _ (squaresInLine_lt _ _))
                (fun dst => captureFlagOf sw dst (gmEnemyPieces pos chance))
                (fun d => captureFlagOf_cases sw d _)
                (fun i hi => ⟨hsub2 _ _ i hi, Or.inr (Or.inr (Or.inr (hsub _ _ i hi)))⟩)
                (fun i t hi _ ht => attack_ne_rook i _ t hi
                  (by simp only [Nat.testBit_and, Bool.and_eq_true] at ht; exact ht.1.1)) _ m hm
                with hm | h
              · rcases shape_nested pos chance _ (and_bnot_lt _ _)
                  (fun bishop => bishopAttacks bishop (bnot (gmAllPieces pos)) &&&
                    bnot (gmMyPieces pos chance))
                  (fun b => and_bnot_lt _ _)
                  (fun dst => captureFlagOf sw dst (gmEnemyPieces pos chance))
                  (fun d => captureFlagOf_cases sw d _)
                  (fun i hi => ⟨hsub2 _ _ i hi, Or.inr (Or.inr (Or.inl (hsub _ _ i hi)))⟩)
                  (fun i t hi _ ht => attack_ne_bishop i _ t hi
                    (by rw [Nat.testBit_and, Bool.and_eq_true] at ht; exact ht.1)) _ m hm
                  with hm | h
                · rcases shape_nested pos chance _ (Nat.and_lt_two_pow _ hpl)
                    (fun bishop => bishopAttacks bishop (bnot (gmAllPieces pos)) &&&
                      bnot (gmMyPieces pos chance) &&&
                      sqsInLine (bitScan bishop) (gmKingIndex pos chance))
                    (fun b => Nat.and_lt_two_pow _ (squaresInLine_lt _ _))
                    (fun dst => captureFlagOf sw dst (gmEnemyPieces pos chance))
                    (fun d => captureFlagOf_cases sw d _)
                    (fun i hi => ⟨hsub2 _ _ i hi, Or.inr (Or.inr (Or.inl (hsub _ _ i hi)))⟩)
                    (fun i t hi _ ht => attack_ne_bishop i _ t hi
                      (by simp only [Nat.testBit_and, Bool.and_eq_true] at ht; exact ht.1.1))
                    _ m hm with hm | h
                  · rcases shape_nested pos chance _ (and_bnot_lt _ _)
                      (fun knight => knightAttacks knight &&& bnot (gmMyPieces pos chance))
                      (fun b => and_bnot_lt _ _)
                      (fun dst => captureFlagOf sw dst (gmEnemyPieces pos chance))
                      (fun d => captureFlagOf_cases sw d _)
                      (fun i hi => ⟨hsub2 _ _ i hi, Or.inr (Or.inl (hsub _ _ i hi))⟩)
                      (fun i t hi _ ht => attack_ne_knight i t hi
                        (by rw [Nat.testBit_and, Bool.and_eq_true] at ht; exact ht.1)) _ m hm
                      with hm | h
                    · rcases shape_genKingMoves sw pos chance _ _ (gmEnemyPieces pos chance)
                        (fun dst => captureFlagOf sw dst (gmEnemyPieces pos chance))
                        (fun d => captureFlagOf_cases sw d _) hmy (fun _ h => h) _ m hm
                        with hm | h
                      · exact absurd hm (List.not_mem_nil _)
                      · exact h
                    · exact h
                  · exact h
                · exact h
              · exact h
            · exact h
          · exact h
        · exact h
      · exact h
    · exact h

theorem promotedPiece_ne_pawn (f piece : Nat) (h1 : 8 ≤ f) (h2 : f < 16) :
    promotedPiece f piece ≠ PAWN := by
  have : f = 8 ∨ f = 9 ∨ f = 10 ∨ f = 11 ∨ f = 12 ∨ f = 13 ∨ f = 14 ∨ f = 15 := by omega
  rcases this with e | e | e | e | e | e | e | e <;> subst e <;>
    simp [promotedPiece, CM_FLAG_KNIGHT_PROMOTION, CM_FLAG_KNIGHT_PROMO_CAP,
      CM_FLAG_BISHOP_PROMOTION, CM_FLAG_BISHOP_PROMO_CAP, CM_FLAG_ROOK_PROMOTION,
      CM_FLAG_ROOK_PROMO_CAP, CM_FLAG_QUEEN_PROMOTION, CM_FLAG_QUEEN_PROMO_CAP, KNIGHT, BISHOP,
      ROOK, QUEEN, PAWN]

theorem movedPiece_pawn (pos : HexaBitBoardPosition) (m : CMove) (hs : m.src < 64)
    (h : movedPiece pos m = PAWN) :
    ¬ (8 ≤ m.flags ∧ m.flags < 16) ∧ pos.kings.testBit m.src = false ∧
    pos.knights.testBit m.src = false ∧ (pos.pawns &&& RANKS2TO7).testBit m.src = true := by
  unfold movedPiece at h
  simp only [CMove.getFlags, CMove.getFrom] at h
  have hf : ¬ (8 ≤ m.flags ∧ m.flags < 16) := fun hc =>
    promotedPiece_ne_pawn _ _ hc.1 hc.2 h
  refine ⟨hf, ?_⟩
  unfold promotedPiece pieceOn at h
  simp only [and_BIT_ne_zero hs] at h
  split_ifs at h with c1 c2 c3 c4 c5 c6 c7 c8 c9
  all_goals first
    | exact absurd h (by decide)
    | exact ⟨by simpa using c5, by simpa using c6, c7⟩

theorem enPassentTarget_rank (e : Nat) (chance : Bool) (he : e ≤ 8) (t : Nat)
    (h : (enPassentTargetOf e chance).testBit t = true) :
    if chance = WHITE then 40 ≤ t ∧ t < 48 else 16 ≤ t ∧ t < 24 := by
  unfold enPassentTargetOf at h
  by_cases h0 : e ≠ 0
  · rw [if_pos h0] at h
    cases chance
    · simp only [BLACK, WHITE, Bool.false_eq_true, if_false, if_true] at h ⊢
      rw [testBit_shl, testBit_BIT] at h
      simp only [Bool.and_eq_true, decide_eq_true_eq] at h
      omega
    · simp only [BLACK, WHITE, if_true, Bool.true_eq_false, if_false] at h ⊢
      rw [testBit_shl, testBit_BIT] at h
      simp only [Bool.and_eq_true, decide_eq_true_eq] at h
      omega
  · rw [if_neg h0] at h
    simp at h

/-- C8: on a position whose mover has one king, whose en-passant field is a file number and
whose pawns are not in the bishop or rook sets, for every move `generateMoves` emits,
after `makeMove` the source square is in no piece set, the destination square is in exactly
the sets of the moved piece's type (the piece found on the source square, or the promoted
piece for a promotion flag; a queen is in `bishopQueens` and `rookQueens`) and is in
`whitePieces` iff the mover is white, and every other square of the board, apart from the
square of the pawn captured en passant and the two squares of the castling rook, keeps its
membership in kings, knights, pawns (ranks 2 to 7), `bishopQueens`, `rookQueens` and
`whitePieces`. -/
theorem makeMove_changes_only_move_squares (sw : Switches) (zob : ZobristRandoms)
    (pos : HexaBitBoardPosition) (hash : Nat) (chance updateHash : Bool) (kSq : Nat)
    (hwp : pos.whitePieces < 2 ^ 64) (hk : kSq < 64)
    (hking : pos.kings &&& gmMyPieces pos chance = BIT kSq)
    (hep : pos.enPassent ≤ 8)
    (hdisj : (pos.pawns &&& RANKS2TO7) &&& (pos.bishopQueens ||| pos.rookQueens) = 0)
    (m : CMove) (hm : m ∈ generateMoves sw pos chance) :
    setsAt (makeMove sw zob pos hash m chance updateHash).1 m.src =
      [false, false, false, false, false] ∧
    setsAt (makeMove sw zob pos hash m chance updateHash).1 m.dst =
      setsOfPiece (movedPiece pos m) ∧
    (makeMove sw zob pos hash m chance updateHash).1.whitePieces.testBit m.dst =
      (chance == WHITE) ∧
    ∀ q, q < 64 → q ≠ m.src → q ≠ m.dst →
      (m.flags = CM_FLAG_EP_CAPTURE → q ≠ epCapturedSquare m chance) →
      (m.flags = CM_FLAG_KING_CASTLE → q ≠ rookHome chance 0 ∧ q ≠ castleRookTo chance 0) →
      (m.flags = CM_FLAG_QUEEN_CASTLE → q ≠ rookHome chance 1 ∧ q ≠ castleRookTo chance 1) →
      setsAt (makeMove sw zob pos hash m chance updateHash).1 q = setsAt pos q ∧
      (makeMove sw zob pos hash m chance updateHash).1.whitePieces.testBit q =
        pos.whitePieces.testBit q := by
  obtain ⟨hs, hd, hne, hkc, hqc, hE, horig, -, -, -, -⟩ :=
    generateMoves_shape sw pos chance kSq hwp hk hking m hm
  have hep2 : m.flags = CM_FLAG_EP_CAPTURE →
      if chance = WHITE then 40 ≤ m.dst ∧ m.dst < 48 else 16 ≤ m.dst ∧ m.dst < 24 :=
    fun h => enPassentTarget_rank pos.enPassent chance hep m.dst (hE h)
  rw [makeMove_fst]
  refine makeMoveBoard_squares sw pos m chance hs hd hne hkc hqc hep2 ?_
  intro hP
  obtain ⟨p1, p2, p3, p4⟩ := movedPiece_pawn pos m hs hP
  have hz := (and_eq_zero_iff_testBit _ _).mp hdisj m.src
  rcases horig with h | h | h | h | h | h | h | h
  · rw [h] at p2; exact absurd p2 (by decide)
  · rw [h] at p3; exact absurd p3 (by decide)
  · exact absurd ⟨p4, by rw [Nat.testBit_or, h]; rfl⟩ hz
  · exact absurd ⟨p4, by rw [Nat.testBit_or, h, Bool.or_true]⟩ hz
  · rw [h, Nat.testBit_and, testBit_RANKS2TO7] at p4
    cases chance <;> simp [kingHome, E1, E8] at p4
  · exact absurd h p1
  · have := hep2 h
    cases chance
    · simp only [WHITE, if_true] at this; omega
    · simp only [WHITE, Bool.true_eq_false, if_false] at this; omega
  · exact h

theorem makeMove_changes_only_move_squares_witness :
    CMove.mk 12 28 CM_FLAG_DOUBLE_PAWN_PUSH ∈
      generateMoves (Switches.mk false false) startingPosition WHITE ∧
    setsAt (makeMove (Switches.mk false false) zeroZobrist startingPosition 0
      (CMove.mk 12 28 CM_FLAG_DOUBLE_PAWN_PUSH) WHITE false).1 12 =
      [false, false, false, false, false] :=
  ⟨by decide!,
   (makeMove_changes_only_move_squares (Switches.mk false false) zeroZobrist startingPosition 0
      WHITE false 4 (by decide) (by decide) (by decide!) (by decide) (by decide!)
      (CMove.mk 12 28 CM_FLAG_DOUBLE_PAWN_PUSH) (by decide!)).1⟩

/-! ## C7: makeMove and the invariants -/

/-- C7 (as stated, refuted): the position with the white king on e1, a black rook on e8 and
the black king on h8 satisfies the data-model invariants, has no castling right and no
en-passant field, and with black to move `generateMoves` emits the capture of the white king
by the rook; after `makeMove` no king bit lies in `whitePieces`, so the invariants fail. -/
theorem king_capture_breaks_invariants :
    validPosition kingCapturePosition ∧ castleConsistent kingCapturePosition BLACK ∧
    enPassentConsistent kingCapturePosition BLACK ∧
    CMove.mk 60 4 CM_FLAG_CAPTURE ∈
      generateMoves (Switches.mk false false) kingCapturePosition BLACK ∧
    (makeMove (Switches.mk false false) zeroZobrist kingCapturePosition 0
      (CMove.mk 60 4 CM_FLAG_CAPTURE) BLACK false).1.kings &&&
      (makeMove (Switches.mk false false) zeroZobrist kingCapturePosition 0
        (CMove.mk 60 4 CM_FLAG_CAPTURE) BLACK false).1.whitePieces = 0 ∧
    ¬ validPosition (makeMove (Switches.mk false false) zeroZobrist kingCapturePosition 0
      (CMove.mk 60 4 CM_FLAG_CAPTURE) BLACK false).1 := by
  decide!

theorem and_lt_left {x y : Nat} (h : x < 2 ^ 64) : x &&& y < 2 ^ 64 :=
  lt_of_le_of_lt Nat.and_le_left h

theorem makeMoveBoard_lt (sw : Switches) (pos : HexaBitBoardPosition) (move : CMove)
    (chance : Bool)
    (h : pos.whitePieces < 2 ^ 64 ∧ pos.pawns < 2 ^ 64 ∧ pos.knights < 2 ^ 64 ∧
      pos.bishopQueens < 2 ^ 64 ∧ pos.rookQueens < 2 ^ 64 ∧ pos.kings < 2 ^ 64) :
    (makeMoveBoard sw pos move chance).whitePieces < 2 ^ 64 ∧
    (makeMoveBoard sw pos move chance).pawns < 2 ^ 64 ∧
    (makeMoveBoard sw pos move chance).knights < 2 ^ 64 ∧
    (makeMoveBoard sw pos move chance).bishopQueens < 2 ^ 64 ∧
    (makeMoveBoard sw pos move chance).rookQueens < 2 ^ 64 ∧
    (makeMoveBoard sw pos move chance).kings < 2 ^ 64 := by
  obtain ⟨h1, h2, h3, h4, h5, h6⟩ := h
  unfold makeMoveBoard
  simp only [CMove.getFrom, CMove.getTo, CMove.getFlags,
    mmDoublePush_whitePieces, mmRights_whitePieces, mmCastle_whitePieces,
    mmEnPassent_whitePieces, mmColor_whitePieces, mmPut_whitePieces, mmClear_whitePieces,
    mmDoublePush_pawns, mmRights_pawns, mmCastle_pawns, mmEnPassent_pawns,
    mmColor_pawns, mmPut_pawns, mmClear_pawns,
    mmDoublePush_knights, mmRights_knights, mmCastle_knights, mmEnPassent_knights,
    mmColor_knights, mmPut_knights, mmClear_knights,
    mmDoublePush_bishopQueens, mmRights_bishopQueens, mmCastle_bishopQueens,
    mmEnPassent_bishopQueens, mmColor_bishopQueens, mmPut_bishopQueens, mmClear_bishopQueens,
    mmDoublePush_rookQueens, mmRights_rookQueens, mmCastle_rookQueens,
    mmEnPassent_rookQueens, mmColor_rookQueens, mmPut_rookQueens, mmClear_rookQueens,
    mmDoublePush_kings, mmRights_kings, mmCastle_kings, mmEnPassent_kings,
    mmColor_kings, mmPut_kings, mmClear_kings]
  refine ⟨?_, ?_, ?_, ?_, ?_, ?_⟩ <;> split_ifs <;>
    repeat (first
      | assumption
      | exact BIT_lt _
      | apply Nat.or_lt_two_pow
      | apply Nat.xor_lt_two_pow
      | apply and_lt_left)

theorem setsAt_eq (p : HexaBitBoardPosition) (q : Nat) (a b c d e : Bool) :
    setsAt p q = [a, b, c, d, e] ↔
      p.kings.testBit q = a ∧ p.knights.testBit q = b ∧
      (p.pawns &&& RANKS2TO7).testBit q = c ∧ p.bishopQueens.testBit q = d ∧
      p.rookQueens.testBit q = e := by
  unfold setsAt
  simp

theorem makeMoveBoard_special (sw : Switches) (pos : HexaBitBoardPosition) (move : CMove)
    (chance : Bool) (h : cleanMove pos chance move) :
    (makeMoveBoard sw pos move chance).whitePieces.testBit move.src = false ∧
    (move.flags = CM_FLAG_EP_CAPTURE →
      epCapturedSquare move chance < 64 ∧ epCapturedSquare move chance ≠ move.src ∧
      epCapturedSquare move chance ≠ move.dst ∧
      setsAt (makeMoveBoard sw pos move chance) (epCapturedSquare move chance) =
        [false, false, false, false, false] ∧
      (makeMoveBoard sw pos move chance).whitePieces.testBit (epCapturedSquare move chance) =
        false) ∧
    (move.flags = CM_FLAG_KING_CASTLE →
      setsAt (makeMoveBoard sw pos move chance) (rookHome chance 0) =
        [false, false, false, false, false] ∧
      (makeMoveBoard sw pos move chance).whitePieces.testBit (rookHome chance 0) = false ∧
      setsAt (makeMoveBoard sw pos move chance) (castleRookTo chance 0) =
        [false, false, false, false, true] ∧
      (makeMoveBoard sw pos move chance).whitePieces.testBit (castleRookTo chance 0) =
        (chance == WHITE)) ∧
    (move.flags = CM_FLAG_QUEEN_CASTLE →
      setsAt (makeMoveBoard sw pos move chance) (rookHome chance 1) =
        [false, false, false, false, false] ∧
      (makeMoveBoard sw pos move chance).whitePieces.testBit (rookHome chance 1) = false ∧
      setsAt (makeMoveBoard sw pos move chance) (castleRookTo chance 1) =
        [false, false, false, false, true] ∧
      (makeMoveBoard sw pos move chance).whitePieces.testBit (castleRookTo chance 1) =
        (chance == WHITE)) := by
  obtain ⟨hs, hd, hne, hws, hocc, hkd, hpw, hkg, hE, hK, hQ⟩ := h
  have hdn : ¬ (move.dst = move.src) := fun h => hne h.symm
  have fKQ : CM_FLAG_KING_CASTLE ≠ CM_FLAG_QUEEN_CASTLE := by decide
  have fEK : CM_FLAG_EP_CAPTURE ≠ CM_FLAG_KING_CASTLE := by decide
  have fEQ : CM_FLAG_EP_CAPTURE ≠ CM_FLAG_QUEEN_CASTLE := by decide
  refine ⟨?_, ?_, ?_, ?_⟩
  · rw [mm_white_testBit _ _ _ _ _ hs, hws]
    cases chance
    · by_cases c1 : move.flags = CM_FLAG_KING_CASTLE
      · obtain ⟨e1, e2, -⟩ := hK c1
        simp [c1, e1, e2, WHITE, kingHome, castleKingTo, rookHome, castleRookTo, E1, G1, H1, F1]
      · by_cases c2 : move.flags = CM_FLAG_QUEEN_CASTLE
        · obtain ⟨e1, e2, -⟩ := hQ c2
          simp [c1, c2, e1, e2, fKQ.symm, WHITE, kingHome, castleKingTo, rookHome, castleRookTo,
            E1, C1, A1, D1]
        · simp [c1, c2, WHITE, hdn]
    · simp [WHITE]
  · intro c
    obtain ⟨r, p, w⟩ := hE c
    have hcap := epCaptured_board move chance r
    simp only [CMove.getTo] at hcap
    have hlt : epCapturedSquare move chance < 64 := by
      unfold epCapturedSquare; simp only [CMove.getTo]
      cases chance <;> simp [WHITE] at r ⊢ <;> omega
    have hnd : epCapturedSquare move chance ≠ move.dst := by
      unfold epCapturedSquare; simp only [CMove.getTo]
      cases chance <;> simp [WHITE] at r ⊢ <;> omega
    have hns : epCapturedSquare move chance ≠ move.src := by
      intro e
      rw [e, hws] at w
      cases chance <;> simp at w
    refine ⟨hlt, hns, hnd, ?_, ?_⟩
    · rw [setsAt_eq] at p ⊢
      obtain ⟨p1, p2, p3, p4, p5⟩ := p
      rw [mm_kings_testBit _ _ _ _ _ hlt, mm_knights_testBit _ _ _ _ _ hlt,
        mm_pawns_testBit _ _ _ _ _ hlt, mm_bishopQueens_testBit _ _ _ _ _ hlt,
        mm_rookQueens_testBit _ _ _ _ _ hlt, hcap, testBit_BIT, p1, p2, p4, p5]
      simp [c, fEK, fEQ, hlt, hnd.symm]
    · rw [mm_white_testBit _ _ _ _ _ hlt, w]
      cases chance
      · simp [WHITE, c, fEK, fEQ, hnd.symm, hns.symm]
      · have := hcap
        simp only [WHITE, Bool.true_eq_false, if_false] at this
        rw [this, testBit_BIT]
        simp [WHITE, c, hlt]
  · intro c
    obtain ⟨e1, e2, p, w, p2, w2⟩ := hK c
    have hlt : rookHome chance 0 < 64 ∧ castleRookTo chance 0 < 64 := by
      cases chance <;> decide
    rw [setsAt_eq] at p p2
    refine ⟨?_, ?_, ?_, ?_⟩
    · rw [setsAt_eq, mm_kings_testBit _ _ _ _ _ hlt.1, mm_knights_testBit _ _ _ _ _ hlt.1,
        mm_pawns_testBit _ _ _ _ _ hlt.1, mm_bishopQueens_testBit _ _ _ _ _ hlt.1,
        mm_rookQueens_testBit _ _ _ _ _ hlt.1, p.1, p.2.1, p.2.2.2.1, p.2.2.2.2, e1, e2]
      cases chance <;>
        simp [c, fEK.symm, kingHome, castleKingTo, rookHome, castleRookTo, E1, G1, H1, F1, E8,
          G8, H8, F8]
    · rw [mm_white_testBit _ _ _ _ _ hlt.1, w, e1, e2]
      cases chance <;>
        simp [c, fEK.symm, WHITE, kingHome, castleKingTo, rookHome, castleRookTo, E1, G1, H1,
          F1, E8, G8, H8, F8]
    · rw [setsAt_eq, mm_kings_testBit _ _ _ _ _ hlt.2, mm_knights_testBit _ _ _ _ _ hlt.2,
        mm_pawns_testBit _ _ _ _ _ hlt.2, mm_bishopQueens_testBit _ _ _ _ _ hlt.2,
        mm_rookQueens_testBit _ _ _ _ _ hlt.2, p2.1, p2.2.1, p2.2.2.2.1, p2.2.2.2.2, e1, e2]
      cases chance <;>
        simp [c, fEK.symm, kingHome, castleKingTo, rookHome, castleRookTo, E1, G1, H1, F1, E8,
          G8, H8, F8]
    · rw [mm_white_testBit _ _ _ _ _ hlt.2, w2, e1, e2]
      cases chance <;>
        simp [c, fEK.symm, WHITE, kingHome, castleKingTo, rookHome, castleRookTo, E1, G1, H1,
          F1, E8, G8, H8, F8]
  · intro c
    obtain ⟨e1, e2, p, w, p2, w2⟩ := hQ c
    have hlt : rookHome chance 1 < 64 ∧ castleRookTo chance 1 < 64 := by
      cases chance <;> decide
    rw [setsAt_eq] at p p2
    refine ⟨?_, ?_, ?_, ?_⟩
    · rw [setsAt_eq, mm_kings_testBit _ _ _ _ _ hlt.1, mm_knights_testBit _ _ _ _ _ hlt.1,
        mm_pawns_testBit _ _ _ _ _ hlt.1, mm_bishopQueens_testBit _ _ _ _ _ hlt.1,
        mm_rookQueens_testBit _ _ _ _ _ hlt.1, p.1, p.2.1, p.2.2.2.1, p.2.2.2.2, e1, e2]
      cases chance <;>
        simp [c, fKQ.symm, fEQ.symm, kingHome, castleKingTo, rookHome, castleRookTo, E1, C1,
          A1, D1, E8, C8, A8, D8]
    · rw [mm_white_testBit _ _ _ _ _ hlt.1, w, e1, e2]
      cases chance <;>
        simp [c, fKQ.symm, fEQ.symm, WHITE, kingHome, castleKingTo, rookHome, castleRookTo, E1,
          C1, A1, D1, E8, C8, A8, D8]
    · rw [setsAt_eq, mm_kings_testBit _ _ _ _ _ hlt.2, mm_knights_testBit _ _ _ _ _ hlt.2,
        mm_pawns_testBit _ _ _ _ _ hlt.2, mm_bishopQueens_testBit _ _ _ _ _ hlt.2,
        mm_rookQueens_testBit _ _ _ _ _ hlt.2, p2.1, p2.2.1, p2.2.2.2.1, p2.2.2.2.2, e1, e2]
      cases chance <;>
        simp [c, fKQ.symm, fEQ.symm, kingHome, castleKingTo, rookHome, castleRookTo, E1, C1,
          A1, D1, E8, C8, A8, D8]
    · rw [mm_white_testBit _ _ _ _ _ hlt.2, w2, e1, e2]
      cases chance <;>
        simp [c, fKQ.symm, fEQ.symm, WHITE, kingHome, castleKingTo, rookHome, castleRookTo, E1,
          C1, A1, D1, E8, C8, A8, D8]

/-- The state of a square after `makeMoveBoard`: the source is emptied, the destination
holds the moved piece, the squares of a captured en-passant pawn and of a castling rook's
home are emptied, the castling rook's destination holds a rook of the mover, and every
other square is unchanged. -/
theorem makeMoveBoard_cases (sw : Switches) (pos : HexaBitBoardPosition) (move : CMove)
    (chance : Bool) (h : cleanMove pos chance move) (q : Nat) (hq : q < 64) :
    (q = move.src ∧
      setsAt (makeMoveBoard sw pos move chance) q = [false, false, false, false, false] ∧
      (makeMoveBoard sw pos move chance).whitePieces.testBit q = false) ∨
    (q = move.dst ∧
      setsAt (makeMoveBoard sw pos move chance) q = setsOfPiece (movedPiece pos move) ∧
      (makeMoveBoard sw pos move chance).whitePieces.testBit q = (chance == WHITE)) ∨
    (q ≠ move.src ∧ q ≠ move.dst ∧ pos.kings.testBit q = false ∧
      setsAt (makeMoveBoard sw pos move chance) q = [false, false, false, false, false] ∧
      (makeMoveBoard sw pos move chance).whitePieces.testBit q = false) ∨
    (q ≠ move.src ∧ q ≠ move.dst ∧ pos.kings.testBit q = false ∧
      setsAt (makeMoveBoard sw pos move chance) q = [false, false, false, false, true] ∧
      (makeMoveBoard sw pos move chance).whitePieces.testBit q = (chance == WHITE)) ∨
    (q ≠ move.src ∧ q ≠ move.dst ∧
      setsAt (makeMoveBoard sw pos move chance) q = setsAt pos q ∧
      (makeMoveBoard sw pos move chance).whitePieces.testBit q =
        pos.whitePieces.testBit q) := by
  obtain ⟨sp1, sp2, sp3, sp4⟩ := makeMoveBoard_special sw pos move chance h
  obtain ⟨hs, hd, hne, hws, hocc, hkd, hpw, hkg, hE, hK, hQ⟩ := h
  obtain ⟨sq1, sq2, sq3, sq4⟩ := makeMoveBoard_squares sw pos move chance hs hd hne
    (fun c => ⟨(hK c).1, (hK c).2.1⟩) (fun c => ⟨(hQ c).1, (hQ c).2.1⟩)
    (fun c => (hE c).1) hpw
  by_cases c1 : q = move.src
  · exact Or.inl ⟨c1, c1 ▸ sq1, c1 ▸ sp1⟩
  by_cases c2 : q = move.dst
  · exact Or.inr (Or.inl ⟨c2, c2 ▸ sq2, c2 ▸ sq3⟩)
  by_cases c3 : move.flags = CM_FLAG_EP_CAPTURE ∧ q = epCapturedSquare move chance
  · obtain ⟨-, -, -, a1, a2⟩ := sp2 c3.1
    have hp := (hE c3.1).2.1
    rw [setsAt_eq] at hp
    exact Or.inr (Or.inr (Or.inl ⟨c1, c2, c3.2 ▸ hp.1, c3.2 ▸ a1, c3.2 ▸ a2⟩))
  by_cases c4 : move.flags = CM_FLAG_KING_CASTLE ∧ q = rookHome chance 0
  · obtain ⟨a1, a2, -, -⟩ := sp3 c4.1
    have hp := (hK c4.1).2.2.1
    rw [setsAt_eq] at hp
    exact Or.inr (Or.inr (Or.inl ⟨c1, c2, c4.2 ▸ hp.1, c4.2 ▸ a1, c4.2 ▸ a2⟩))
  by_cases c5 : move.flags = CM_FLAG_KING_CASTLE ∧ q = castleRookTo chance 0
  · obtain ⟨-, -, a1, a2⟩ := sp3 c5.1
    have hp := (hK c5.1).2.2.2.2.1
    rw [setsAt_eq] at hp
    exact Or.inr (Or.inr (Or.inr (Or.inl ⟨c1, c2, c5.2 ▸ hp.1, c5.2 ▸ a1, c5.2 ▸ a2⟩)))
  by_cases c6 : move.flags = CM_FLAG_QUEEN_CASTLE ∧ q = rookHome chance 1
  · obtain ⟨a1, a2, -, -⟩ := sp4 c6.1
    have hp := (hQ c6.1).2.2.1
    rw [setsAt_eq] at hp
    exact Or.inr (Or.inr (Or.inl ⟨c1, c2, c6.2 ▸ hp.1, c6.2 ▸ a1, c6.2 ▸ a2⟩))
  by_cases c7 : move.flags = CM_FLAG_QUEEN_CASTLE ∧ q = castleRookTo chance 1
  · obtain ⟨-, -, a1, a2⟩ := sp4 c7.1
    have hp := (hQ c7.1).2.2.2.2.1
    rw [setsAt_eq] at hp
    exact Or.inr (Or.inr (Or.inr (Or.inl ⟨c1, c2, c7.2 ▸ hp.1, c7.2 ▸ a1, c7.2 ▸ a2⟩)))
  have := sq4 q hq c1 c2 (fun c e => c3 ⟨c, e⟩) (fun c => ⟨fun e => c4 ⟨c, e⟩, fun e => c5 ⟨c, e⟩⟩)
    (fun c => ⟨fun e => c6 ⟨c, e⟩, fun e => c7 ⟨c, e⟩⟩)
  exact Or.inr (Or.inr (Or.inr (Or.inr ⟨c1, c2, this.1, this.2⟩)))

theorem setsOfPiece_patterns (pos : HexaBitBoardPosition) (move : CMove) :
    setsOfPiece (movedPiece pos move) ∈ piecePatterns := by
  rcases movedPiece_cases pos move with h | h | h | h | h | h <;> rw [h] <;> decide

theorem testBit_allPieces (p : HexaBitBoardPosition) (q : Nat) :
    (gmAllPieces p).testBit q = true ↔
      setsAt p q ≠ [false, false, false, false, false] := by
  unfold gmAllPieces gmAllPawns setsAt
  simp only [Nat.testBit_or, Bool.or_eq_true, ne_eq, List.cons.injEq, and_true, not_and,
    Bool.not_eq_false]
  constructor
  · rintro ((((h | h) | h) | h) | h) <;> simp [h]
  · intro h
    by_contra hc
    simp only [not_or, Bool.not_eq_true] at hc
    have := h hc.1.1.1.1 hc.1.1.2 hc.1.1.1.2 hc.1.2
    rw [this] at hc
    exact absurd hc.2 (by decide)

theorem setsOfPiece_ne_nil (pos : HexaBitBoardPosition) (move : CMove) :
    setsOfPiece (movedPiece pos move) ≠ [false, false, false, false, false] := by
  rcases movedPiece_cases pos move with h | h | h | h | h | h <;> rw [h] <;> decide

theorem mm_pawns_raw (sw : Switches) (pos : HexaBitBoardPosition) (move : CMove)
    (chance : Bool) (q : Nat)
    (h : (makeMoveBoard sw pos move chance).pawns.testBit q = true) :
    pos.pawns.testBit q = true ∨ (movedPiece pos move = PAWN ∧ q = move.dst) := by
  unfold makeMoveBoard at h
  unfold movedPiece
  simp only [CMove.getFrom, CMove.getTo, CMove.getFlags, mmDoublePush_pawns,
    mmRights_pawns, mmCastle_pawns, mmEnPassent_pawns,
    mmColor_pawns, mmPut_pawns, mmClear_pawns] at h ⊢
  have key : ∀ c : Prop, [Decidable c] →
      (if c then pos.pawns &&& bnot (BIT move.src &&& RANKS2TO7) &&&
          bnot (BIT move.dst &&& RANKS2TO7) ||| BIT move.dst
        else pos.pawns &&& bnot (BIT move.src &&& RANKS2TO7) &&&
          bnot (BIT move.dst &&& RANKS2TO7)).testBit q = true →
      pos.pawns.testBit q = true ∨ (c ∧ q = move.dst) := by
    intro c _ hc
    by_cases h1 : c
    · rw [if_pos h1, Nat.testBit_or, Bool.or_eq_true, testBit_BIT] at hc
      rcases hc with hc | hc
      · simp only [Nat.testBit_and, Bool.and_eq_true] at hc
        exact Or.inl hc.1.1
      · simp only [Bool.and_eq_true, decide_eq_true_eq] at hc
        exact Or.inr ⟨h1, hc.2.symm⟩
    · rw [if_neg h1] at hc
      simp only [Nat.testBit_and, Bool.and_eq_true] at hc
      exact Or.inl hc.1.1
  by_cases h1 : move.flags = CM_FLAG_EP_CAPTURE
  · rw [if_pos h1, Nat.testBit_and, Bool.and_eq_true] at h
    exact key _ h.1
  · rw [if_neg h1] at h
    exact key _ h

theorem king_square_eq (K W : Nat) (hK : K < 2 ^ 64) (k : Nat)
    (h : ∀ q, q < 64 → (K.testBit q && W.testBit q) = decide (k = q)) :
    K &&& W = BIT k := by
  apply Nat.eq_of_testBit_eq
  intro i
  rw [Nat.testBit_and, testBit_BIT]
  by_cases hi : i < 64
  · rw [h i hi]; simp [hi]
  · rw [testBit_false_of_lt hK (by omega)]; simp [hi]

theorem king_square_pointwise (K W k : Nat) (h : K &&& W = BIT k) (q : Nat) (hq : q < 64) :
    (K.testBit q && W.testBit q) = decide (k = q) := by
  have := congrArg (fun z => Nat.testBit z q) h
  simpa [Nat.testBit_and, testBit_BIT, hq] using this

/-- The king of one colour after `makeMoveBoard`: with `w` the colour (`true` for the
colour whose squares are in `whitePieces`), the king is on the destination if the mover has
that colour and moves its king, and stays where it was otherwise. -/
theorem makeMoveBoard_king (sw : Switches) (pos : HexaBitBoardPosition) (move : CMove)
    (chance : Bool) (h : cleanMove pos chance move) (w : Bool) (k : Nat)
    (hk : ∀ q, q < 64 →
      (pos.kings.testBit q && (pos.whitePieces.testBit q == w)) = decide (k = q))
    (q : Nat) (hq : q < 64) :
    ((makeMoveBoard sw pos move chance).kings.testBit q &&
      ((makeMoveBoard sw pos move chance).whitePieces.testBit q == w)) =
      decide ((if (chance == WHITE) = w ∧ pos.kings.testBit move.src = true then move.dst
        else k) = q) := by
  have hc := makeMoveBoard_cases sw pos move chance h q hq
  obtain ⟨hs, hd, hne, hws, hocc, hkd, hpw, hkg, hE, hK, hQ⟩ := h
  have ks := hk move.src hs
  have kd := hk move.dst hd
  have kq := hk q hq
  rw [hws] at ks
  rw [hkd] at kd
  simp only [Bool.false_and] at kd
  have kd2 : k ≠ move.dst := by simpa using kd.symm
  rcases hc with ⟨e, a, b⟩ | ⟨e, a, b⟩ | ⟨e1, e2, e3, a, b⟩ | ⟨e1, e2, e3, a, b⟩ |
    ⟨e1, e2, a, b⟩
  · rw [setsAt_eq] at a
    rw [a.1, Bool.false_and]
    subst e
    by_cases c : (chance == WHITE) = w ∧ pos.kings.testBit move.src = true
    · rw [if_pos c]; simp [hne.symm]
    · rw [if_neg c]
      rw [not_and_or] at c
      rcases c with c | c
      · have : ((chance == WHITE) == w) = false := by simpa using c
        rw [this, Bool.and_false] at ks
        exact ks
      · rw [Bool.not_eq_true] at c
        rw [c, Bool.false_and] at ks
        exact ks
  · unfold setsOfPiece at a
    rw [setsAt_eq] at a
    rw [a.1, b]
    subst e
    by_cases c : (chance == WHITE) = w ∧ pos.kings.testBit move.src = true
    · rw [if_pos c]
      have := hkg.mpr c.2
      simp [this, c.1]
    · rw [if_neg c]
      rw [not_and_or] at c
      have : decide (k = move.dst) = false := by simpa using kd2
      rw [this]
      rcases c with c | c
      · have : ((chance == WHITE) == w) = false := by simpa using c
        rw [this, Bool.and_false]
      · have : ¬ movedPiece pos move = KING := fun hh => c (hkg.mp hh)
        simp [this]
  · rw [setsAt_eq] at a
    rw [a.1, Bool.false_and]
    rw [e3, Bool.false_and] at kq
    by_cases c : (chance == WHITE) = w ∧ pos.kings.testBit move.src = true
    · rw [if_pos c]; simp [Ne.symm e2]
    · rw [if_neg c]; exact kq
  · rw [setsAt_eq] at a
    rw [a.1, Bool.false_and]
    rw [e3, Bool.false_and] at kq
    by_cases c : (chance == WHITE) = w ∧ pos.kings.testBit move.src = true
    · rw [if_pos c]; simp [Ne.symm e2]
    · rw [if_neg c]; exact kq
  · unfold setsAt at a
    simp only [List.cons.injEq, and_true] at a
    rw [a.1, b, kq]
    by_cases c : (chance == WHITE) = w ∧ pos.kings.testBit move.src = true
    · rw [if_pos c]
      have : ((chance == WHITE) == w) = true := by simpa using c.1
      rw [c.2, this, Bool.true_and] at ks
      have hks : k = move.src := by simpa using ks.symm
      rw [hks]
      simp [Ne.symm e1, Ne.symm e2]
    · rw [if_neg c]

/-- The function `makeMoveBoard` keeps the data-model invariants on a clean move. -/
theorem makeMoveBoard_valid (sw : Switches) (pos : HexaBitBoardPosition) (move : CMove)
    (chance : Bool) (hv : validPosition pos) (h : cleanMove pos chance move) :
    validPosition (makeMoveBoard sw pos move chance) := by
  obtain ⟨hb, ⟨kw, hkw, ekw⟩, ⟨kb, hkb, ekb⟩, hone, hpr, hocc⟩ := hv
  have hb2 := makeMoveBoard_lt sw pos move chance hb
  have hcases := makeMoveBoard_cases sw pos move chance h
  have hkingW := makeMoveBoard_king sw pos move chance h true kw (by
    intro q hq
    have := king_square_pointwise _ _ _ ekw q hq
    simpa using this)
  have hkingB := makeMoveBoard_king sw pos move chance h false kb (by
    intro q hq
    have := king_square_pointwise _ _ _ ekb q hq
    rw [testBit_bnot] at this
    simpa [hq] using this)
  obtain ⟨hs, hd, hne, hws, hoc, hkd, hpw, hkg, hE, hK, hQ⟩ := h
  refine ⟨hb2,
    ⟨(if (chance == WHITE) = true ∧ pos.kings.testBit move.src = true then move.dst else kw),
      ?_, king_square_eq _ _ hb2.2.2.2.2.2 _ (fun q hq => ?_)⟩,
    ⟨(if (chance == WHITE) = false ∧ pos.kings.testBit move.src = true then move.dst else kb),
      ?_, king_square_eq _ _ hb2.2.2.2.2.2 _ (fun q hq => ?_)⟩, ?_, ?_, ?_⟩
  · split_ifs
    · exact hd
    · exact hkw
  · have := hkingW q hq
    simpa using this
  · split_ifs
    · exact hd
    · exact hkb
  · have := hkingB q hq
    rw [testBit_bnot]
    simpa [hq] using this
  · intro q hq
    rcases hcases q hq with ⟨e, a, b⟩ | ⟨e, a, b⟩ | ⟨e1, e2, e3, a, b⟩ | ⟨e1, e2, e3, a, b⟩ |
      ⟨e1, e2, a, b⟩
    · rw [a]; decide
    · rw [a]; exact setsOfPiece_patterns pos move
    · rw [a]; decide
    · rw [a]; decide
    · rw [a]; exact hone q hq
  · apply Nat.eq_of_testBit_eq
    intro i
    rw [Nat.testBit_and, testBit_RANKS2TO7]
    by_cases hp : (makeMoveBoard sw pos move chance).pawns.testBit i = true
    · rw [hp, Bool.true_and]
      rcases mm_pawns_raw sw pos move chance i hp with h1 | ⟨h1, h2⟩
      · have := congrArg (fun z => Nat.testBit z i) hpr
        simp only [Nat.testBit_and, testBit_RANKS2TO7, h1, Bool.true_and] at this
        exact this
      · obtain ⟨r1, r2⟩ := hpw h1
        rw [h2]
        simp [r1, r2]
    · rw [Bool.not_eq_true] at hp
      rw [hp, Bool.false_and]
  · apply Nat.eq_of_testBit_eq
    intro i
    rw [Nat.testBit_and]
    by_cases hw : (makeMoveBoard sw pos move chance).whitePieces.testBit i = true
    · rw [hw, Bool.true_and]
      have hi : i < 64 := by
        by_contra hc
        rw [testBit_false_of_lt hb2.1 (by omega)] at hw
        exact absurd hw (by decide)
      rw [testBit_allPieces]
      rcases hcases i hi with ⟨e, a, b⟩ | ⟨e, a, b⟩ | ⟨e1, e2, e3, a, b⟩ |
        ⟨e1, e2, e3, a, b⟩ | ⟨e1, e2, a, b⟩
      · rw [b] at hw; exact absurd hw (by decide)
      · rw [a]; exact setsOfPiece_ne_nil pos move
      · rw [b] at hw; exact absurd hw (by decide)
      · rw [a]; decide
      · rw [a, ← testBit_allPieces]
        rw [b] at hw
        have := congrArg (fun z => Nat.testBit z i) hocc
        simp only [Nat.testBit_and, hw, Bool.true_and] at this
        exact this
    · rw [Bool.not_eq_true] at hw
      rw [hw, Bool.false_and]

theorem my_white (pos : HexaBitBoardPosition) (chance : Bool)
    (hocc : pos.whitePieces &&& gmAllPieces pos = pos.whitePieces) (q : Nat)
    (h : (gmMyPieces pos chance).testBit q = true) :
    pos.whitePieces.testBit q = (chance == WHITE) ∧ (gmAllPieces pos).testBit q = true := by
  unfold gmMyPieces at h
  cases chance
  · simp only [WHITE, if_true] at h
    have := congrArg (fun z => Nat.testBit z q) hocc
    simp only [Nat.testBit_and, h, Bool.true_and] at this
    exact ⟨by rw [h]; rfl, this⟩
  · simp only [WHITE, Bool.true_eq_false, if_false] at h
    rw [Nat.testBit_and, testBit_bnot] at h
    simp only [Bool.and_eq_true, decide_eq_true_eq, Bool.not_eq_true'] at h
    exact ⟨by rw [h.2.2]; rfl, h.1⟩

theorem enemy_white (pos : HexaBitBoardPosition) (chance : Bool) (q : Nat)
    (h : (gmEnemyPieces pos chance).testBit q = true) :
    pos.whitePieces.testBit q = !(chance == WHITE) := by
  unfold gmEnemyPieces at h
  cases chance
  · simp only [WHITE, if_true] at h
    rw [Nat.testBit_and, testBit_bnot] at h
    simp only [Bool.and_eq_true, decide_eq_true_eq, Bool.not_eq_true'] at h
    rw [h.2.2]; rfl
  · simp only [WHITE, Bool.true_eq_false, if_false] at h
    rw [h]; rfl

theorem pattern_of_pawn (p : HexaBitBoardPosition) (q : Nat)
    (h : setsAt p q ∈ piecePatterns) (hp : (p.pawns &&& RANKS2TO7).testBit q = true) :
    setsAt p q = [false, false, true, false, false] := by
  unfold setsAt piecePatterns at h
  unfold setsAt
  simp only [List.mem_cons, List.cons.injEq, and_true, List.mem_singleton,
    List.not_mem_nil, or_false] at h ⊢
  rcases h with h | h | h | h | h | h | h
  · rw [h.2.2.1] at hp; exact absurd hp (by decide)
  · rw [h.2.2.1] at hp; exact absurd hp (by decide)
  · rw [h.2.2.1] at hp; exact absurd hp (by decide)
  · exact h
  · rw [h.2.2.1] at hp; exact absurd hp (by decide)
  · rw [h.2.2.1] at hp; exact absurd hp (by decide)
  · rw [h.2.2.1] at hp; exact absurd hp (by decide)

theorem pattern_of_rook (p : HexaBitBoardPosition) (q : Nat)
    (h : setsAt p q ∈ piecePatterns) (hr : p.rookQueens.testBit q = true)
    (hb : p.bishopQueens.testBit q = false) :
    setsAt p q = [false, false, false, false, true] := by
  unfold setsAt piecePatterns at h
  unfold setsAt
  simp only [List.mem_cons, List.cons.injEq, and_true, List.mem_singleton,
    List.not_mem_nil, or_false] at h ⊢
  rcases h with h | h | h | h | h | h | h
  · rw [h.2.2.2.2] at hr; exact absurd hr (by decide)
  · rw [h.2.2.2.2] at hr; exact absurd hr (by decide)
  · rw [h.2.2.2.2] at hr; exact absurd hr (by decide)
  · rw [h.2.2.2.2] at hr; exact absurd hr (by decide)
  · rw [h.2.2.2.2] at hr; exact absurd hr (by decide)
  · exact h
  · rw [h.2.2.2.1] at hb; exact absurd hb (by decide)

theorem pattern_king_false (p : HexaBitBoardPosition) (q : Nat)
    (h : setsAt p q ∈ piecePatterns)
    (hp : (p.pawns &&& RANKS2TO7).testBit q = true ∨ p.knights.testBit q = true ∨
      p.bishopQueens.testBit q = true ∨ p.rookQueens.testBit q = true) :
    p.kings.testBit q = false := by
  unfold setsAt piecePatterns at h
  simp only [List.mem_cons, List.cons.injEq, and_true, List.mem_singleton,
    List.not_mem_nil, or_false] at h
  rcases h with h | h | h | h | h | h | h
  · rcases hp with c | c | c | c
    · rw [h.2.2.1] at c; exact absurd c (by decide)
    · rw [h.2.1] at c; exact absurd c (by decide)
    · rw [h.2.2.2.1] at c; exact absurd c (by decide)
    · rw [h.2.2.2.2] at c; exact absurd c (by decide)
  · rcases hp with c | c | c | c
    · rw [h.2.2.1] at c; exact absurd c (by decide)
    · rw [h.2.1] at c; exact absurd c (by decide)
    · rw [h.2.2.2.1] at c; exact absurd c (by decide)
    · rw [h.2.2.2.2] at c; exact absurd c (by decide)
  all_goals exact h.1

theorem movedPiece_king_iff (pos : HexaBitBoardPosition) (m : CMove) (hs : m.src < 64)
    (hp : 8 ≤ m.flags → pos.kings.testBit m.src = false) :
    movedPiece pos m = KING ↔ pos.kings.testBit m.src = true := by
  unfold movedPiece promotedPiece pieceOn
  simp only [CMove.getFlags, CMove.getFrom, and_BIT_ne_zero hs]
  by_cases h8 : 8 ≤ m.flags
  · rw [hp h8]
    simp only [Bool.false_eq_true, if_false, iff_false]
    split_ifs <;> decide
  · have f1 : ∀ v, 8 ≤ v → ¬ m.flags = v := fun v hv e => h8 (e ▸ hv)
    simp only [f1 CM_FLAG_KNIGHT_PROMOTION (by decide), f1 CM_FLAG_KNIGHT_PROMO_CAP (by decide),
      f1 CM_FLAG_BISHOP_PROMOTION (by decide), f1 CM_FLAG_BISHOP_PROMO_CAP (by decide),
      f1 CM_FLAG_ROOK_PROMOTION (by decide), f1 CM_FLAG_ROOK_PROMO_CAP (by decide),
      f1 CM_FLAG_QUEEN_PROMOTION (by decide), f1 CM_FLAG_QUEEN_PROMO_CAP (by decide),
      or_self, if_false]
    by_cases hk : pos.kings.testBit m.src = true
    · simp [hk]
    · rw [if_neg hk]
      simp only [hk, iff_false]
      split_ifs <;> decide

theorem king_my_eq (pos : HexaBitBoardPosition) (chance : Bool) :
    pos.kings &&& gmMyPieces pos chance =
      pos.kings &&& (if chance = WHITE then pos.whitePieces else bnot pos.whitePieces) := by
  unfold gmMyPieces gmAllPieces
  cases chance
  · simp only [WHITE, if_true]
  · simp only [WHITE, Bool.true_eq_false, if_false]
    apply Nat.eq_of_testBit_eq
    intro i
    simp only [Nat.testBit_and, Nat.testBit_or]
    cases pos.kings.testBit i <;> simp

theorem shape_pawn_rank (pos : HexaBitBoardPosition) (chance : Bool) (m : CMove)
    (hep : pos.enPassent ≤ 8) (hone : ∀ q, q < 64 → setsAt pos q ∈ piecePatterns)
    (hsh : moveShape pos chance m) (hP : movedPiece pos m = PAWN) :
    8 ≤ m.dst ∧ m.dst < 56 := by
  obtain ⟨hs, hd, hne, hkc, hqc, hE, horig, -, -, -, -⟩ := hsh
  obtain ⟨p1, p2, p3, p4⟩ := movedPiece_pawn pos m hs hP
  have hpat := pattern_of_pawn pos m.src (hone m.src hs) p4
  rw [setsAt_eq] at hpat
  rcases horig with h | h | h | h | h | h | h | h
  · rw [h] at p2; exact absurd p2 (by decide)
  · rw [h] at p3; exact absurd p3 (by decide)
  · rw [hpat.2.2.2.1] at h; exact absurd h (by decide)
  · rw [hpat.2.2.2.2] at h; exact absurd h (by decide)
  · rw [h, Nat.testBit_and, testBit_RANKS2TO7] at p4
    cases chance <;> simp [kingHome, E1, E8] at p4
  · exact absurd h p1
  · have := enPassentTarget_rank pos.enPassent chance hep m.dst (hE h)
    cases chance
    · simp only [WHITE, if_true] at this; omega
    · simp only [WHITE, Bool.true_eq_false, if_false] at this; omega
  · exact h

/-- Every move `generateMoves` emits on a valid position with consistent castling rights and
en-passant field is a clean move, unless it lands on a king. -/
theorem generateMoves_clean (sw : Switches) (pos : HexaBitBoardPosition) (chance : Bool)
    (hv : validPosition pos) (hc : castleConsistent pos chance)
    (he : enPassentConsistent pos chance) (m : CMove)
    (hm : m ∈ generateMoves sw pos chance) (hkd : pos.kings.testBit m.dst = false) :
    cleanMove pos chance m := by
  obtain ⟨hb, ⟨kw, hkw, ekw⟩, ⟨kb, hkb, ekb⟩, hone, hpr, hocc⟩ := hv
  have hking : ∃ k, k < 64 ∧ pos.kings &&& gmMyPieces pos chance = BIT k := by
    rw [king_my_eq]
    cases chance
    · exact ⟨kw, hkw, by simpa [WHITE] using ekw⟩
    · exact ⟨kb, hkb, by simpa [WHITE] using ekb⟩
  obtain ⟨kSq, hkSq, ekSq⟩ := hking
  have hsh := generateMoves_shape sw pos chance kSq hb.1 hkSq ekSq m hm
  have hrank := shape_pawn_rank pos chance m he.1 hone hsh
  obtain ⟨hs, hd, hne, hkc, hqc, hE, horig, hmy, hprom, hKr, hQr⟩ := hsh
  have hcastle : ∀ side, side < 2 → castleRight pos chance side = true →
      (gmMyPieces pos chance).testBit (kingHome chance) = true ∧
      setsAt pos (rookHome chance side) = [false, false, false, false, true] ∧
      pos.whitePieces.testBit (rookHome chance side) = (chance == WHITE) := by
    intro side hside hr
    obtain ⟨c1, c2, c3⟩ := hc side hside hr
    rw [Nat.testBit_and, Bool.and_eq_true] at c1 c2
    have hlt : rookHome chance side < 64 := by
      have : side = 0 ∨ side = 1 := by omega
      rcases this with e | e <;> subst e <;> cases chance <;> decide
    exact ⟨c1.2, pattern_of_rook pos _ (hone _ hlt) c2.1 c3, (my_white pos chance hocc _ c2.2).1⟩
  have hempty : ∀ t, t < 64 → (gmAllPieces pos).testBit t = false →
      setsAt pos t = [false, false, false, false, false] ∧
      pos.whitePieces.testBit t = false := by
    intro t _ h
    constructor
    · by_contra hc2
      rw [(testBit_allPieces pos t).mpr hc2] at h
      exact absurd h (by decide)
    · have := congrArg (fun z => Nat.testBit z t) hocc
      simp only [Nat.testBit_and, h, Bool.and_false] at this
      exact this.symm
  have hmy2 : (gmMyPieces pos chance).testBit m.src = true := by
    by_cases c1 : m.flags = CM_FLAG_KING_CASTLE
    · rw [(hkc c1).1]
      exact (hcastle 0 (by decide) (hKr c1).1).1
    · by_cases c2 : m.flags = CM_FLAG_QUEEN_CASTLE
      · rw [(hqc c2).1]
        exact (hcastle 1 (by decide) (hQr c2).1).1
      · exact hmy c1 c2
  obtain ⟨w1, w2⟩ := my_white pos chance hocc m.src hmy2
  refine ⟨hs, hd, hne, w1, w2, hkd, hrank, ?_, ?_, ?_, ?_⟩
  · apply movedPiece_king_iff pos m hs
    intro h8
    exact pattern_king_false pos m.src (hone m.src hs) (Or.inl (hprom h8))
  · intro c
    have hr := enPassentTarget_rank pos.enPassent chance he.1 m.dst (hE c)
    have hcap := he.2 m.dst hd (hE c)
    have hcs : (if chance = WHITE then m.dst - 8 else m.dst + 8) = epCapturedSquare m chance := by
      unfold epCapturedSquare; rfl
    rw [hcs, Nat.testBit_and, Bool.and_eq_true] at hcap
    have hlt : epCapturedSquare m chance < 64 := by
      unfold epCapturedSquare; simp only [CMove.getTo]
      cases chance <;> simp [WHITE] at hr ⊢ <;> omega
    exact ⟨hr, pattern_of_pawn pos _ (hone _ hlt) hcap.1, enemy_white pos chance _ hcap.2⟩
  · intro c
    obtain ⟨-, g2, g3⟩ := hcastle 0 (by decide) (hKr c).1
    have hlt : castleRookTo chance 0 < 64 := by cases chance <;> decide
    obtain ⟨g4, g5⟩ := hempty _ hlt (hKr c).2
    exact ⟨(hkc c).1, (hkc c).2, g2, g3, g4, g5⟩
  · intro c
    obtain ⟨-, g2, g3⟩ := hcastle 1 (by decide) (hQr c).1
    have hlt : castleRookTo chance 1 < 64 := by cases chance <;> decide
    obtain ⟨g4, g5⟩ := hempty _ hlt (hQr c).2
    exact ⟨(hqc c).1, (hqc c).2, g2, g3, g4, g5⟩

/-- C7 (amended): on a position that satisfies the data-model invariants (64-bit sets, one
king bit per colour, every square in the sets of at most one piece type, pawns on ranks 2 to
7 only, `whitePieces` a subset of the occupied squares), whose castling rights of the mover
are held only with king and rook on their home squares and whose en-passant field names a
file with a pawn of the opponent behind the target square, every move `generateMoves`
emits that does not land on a king leads `makeMove` to a position that again satisfies the
data-model invariants. -/
theorem makeMove_preserves_invariants (sw : Switches) (zob : ZobristRandoms)
    (pos : HexaBitBoardPosition) (hash : Nat) (chance updateHash : Bool)
    (hv : validPosition pos) (hc : castleConsistent pos chance)
    (he : enPassentConsistent pos chance) (m : CMove)
    (hm : m ∈ generateMoves sw pos chance) (hkd : pos.kings.testBit m.dst = false) :
    validPosition (makeMove sw zob pos hash m chance updateHash).1 := by
  rw [makeMove_fst]
  exact makeMoveBoard_valid sw pos m chance hv
    (generateMoves_clean sw pos chance hv hc he m hm hkd)

theorem makeMove_preserves_invariants_witness :
    validPosition startingPosition ∧
    CMove.mk 6 21 0 ∈ generateMoves (Switches.mk false false) startingPosition WHITE ∧
    validPosition (makeMove (Switches.mk false false) zeroZobrist startingPosition 0
      (CMove.mk 6 21 0) WHITE false).1 :=
  ⟨by decide!, by decide!,
   makeMove_preserves_invariants (Switches.mk false false) zeroZobrist startingPosition 0
     WHITE false (by decide!) (by decide!) (by decide!) (CMove.mk 6 21 0) (by decide!)
     (by decide!)⟩

end PerftGpu
